import Mathlib

set_option linter.unusedVariables false

/-! Verification development for the classfile reader crate.

The definitions below are a shallow embedding of the reader side of the
crate: the byte cursor, the constant pool, the bootstrap-method resolver,
the code decoder and the event state machines.  Machine integers are
modelled as Nat (unsigned) or Int (signed) with explicit wrapping where the
source relies on it; byte slices are lists of Nat; fallible operations
return Except.  Floating point payloads are carried as their raw bit
patterns, since the reader only transports them.  The external
Modified-UTF-8 string container (an external collaborator of the crate) is
modelled byte-preservingly: a decoded string is its byte list. -/

namespace ClassFile

/-- Modelled from the spec: the JVM Modified-UTF-8 string type is provided
by an external crate; strings are carried as raw byte lists and decoding is
byte-preserving. -/
abbrev JStr := List Nat

/-- Model of the source Opcode enum; an opcode is its validated byte value
(the enum is field-less with explicit discriminants, so the validated byte
is a faithful encoding). -/
structure Opcode where
  code : Nat
deriving DecidableEq, Repr

/-- The set of byte values carrying an Opcode enum discriminant, from the
opcode table: 0..=18, 21..=25, 46..=58, 79..=171, 172..=195, 197..=199. -/
def Opcode.isValid (b : Nat) : Bool :=
  b ≤ 18 || (21 ≤ b && b ≤ 25) || (46 ≤ b && b ≤ 58) ||
    (79 ≤ b && b ≤ 171) || (172 ≤ b && b ≤ 195) || (197 ≤ b && b ≤ 199)

/-- Model of Opcode try_from (derived from the enum reprs). -/
def Opcode.tryFrom (b : Nat) : Option Opcode :=
  if Opcode.isValid b then some ⟨b⟩ else none

/-- Model of the ConstantPoolTag enum. -/
inductive ConstantPoolTag where
  | Utf8
  | Integer
  | Float
  | Long
  | Double
  | Class
  | String
  | FieldRef
  | MethodRef
  | InterfaceMethodRef
  | NameAndType
  | MethodHandle
  | MethodType
  | Dynamic
  | InvokeDynamic
  | Module
  | Package
deriving DecidableEq, Repr

/-- Model of the HandleKind enum. -/
inductive HandleKind where
  | GetField
  | GetStatic
  | PutField
  | PutStatic
  | InvokeVirtual
  | InvokeStatic
  | InvokeSpecial
  | NewInvokeSpecial
  | InvokeInterface
deriving DecidableEq, Repr

/-- Model of the ClassFileError enum. The external Utf8 error payload is
dropped (the external decoder is out of scope). -/
inductive ClassFileError where
  | BadAnnotationTag (tag : Nat)
  | BadCodeSize (n : Nat)
  | BadConstantPoolIndex (index : Nat) (len : Nat)
  | BadConstantPoolIndexNoEntry (index : Nat)
  | BadConstantPoolTag (tag : Nat)
  | BadConstantPoolType (expected actual : ConstantPoolTag)
  | BadConstantPoolTypeExpectedBootstrapMethodArgument (actual : ConstantPoolTag)
  | BadConstantPoolTypeExpectedFieldConstantValue (actual : ConstantPoolTag)
  | BadConstantPoolTypeExpectedLdcOperand (actual : ConstantPoolTag)
  | BadFrameType (t : Nat)
  | BadFrameValueTag (t : Nat)
  | BadHandleKind (k : Nat)
  | BadMagic
  | BadNewArrayType (t : Nat)
  | BadOpcode (op : Nat)
  | BadTypeAnnotationTarget (t : Nat)
  | BadWideOpcode (op : Opcode)
  | BootstrapMethodCircularDependency
  | BootstrapMethodOutOfBounds (index len : Nat)
  | CodeOffsetOutOfBounds (index len : Nat)
  | OutOfBounds (index len : Nat)
  | TableSwitchBoundsWrongOrder (low high : Int)
  | TooDeepAnnotationNesting
  | UnsupportedVersion (v : Nat)
  | Utf8
deriving DecidableEq, Repr

abbrev ClassFileResult (α : Type) := Except ClassFileError α

instance {ε α : Type _} [DecidableEq ε] [DecidableEq α] : DecidableEq (Except ε α) :=
  fun x y =>
    match x, y with
    | .error a, .error b =>
      if h : a = b then .isTrue (by rw [h])
      else .isFalse (by intro hc; injection hc; contradiction)
    | .ok a, .ok b =>
      if h : a = b then .isTrue (by rw [h])
      else .isFalse (by intro hc; injection hc; contradiction)
    | .error _, .ok _ => .isFalse (by intro hc; cases hc)
    | .ok _, .error _ => .isFalse (by intro hc; cases hc)

/-- Model of ConstantPoolTag::from_u8 (FromRepr plus the error wrapping). -/
def ConstantPoolTag.fromU8 (tag : Nat) : ClassFileResult ConstantPoolTag :=
  match tag with
  | 1 => .ok .Utf8
  | 3 => .ok .Integer
  | 4 => .ok .Float
  | 5 => .ok .Long
  | 6 => .ok .Double
  | 7 => .ok .Class
  | 8 => .ok .String
  | 9 => .ok .FieldRef
  | 10 => .ok .MethodRef
  | 11 => .ok .InterfaceMethodRef
  | 12 => .ok .NameAndType
  | 15 => .ok .MethodHandle
  | 16 => .ok .MethodType
  | 17 => .ok .Dynamic
  | 18 => .ok .InvokeDynamic
  | 19 => .ok .Module
  | 20 => .ok .Package
  | _ => .error (.BadConstantPoolTag tag)

/-- Model of HandleKind::from_u8. -/
def HandleKind.fromU8 (k : Nat) : ClassFileResult HandleKind :=
  match k with
  | 1 => .ok .GetField
  | 2 => .ok .GetStatic
  | 3 => .ok .PutField
  | 4 => .ok .PutStatic
  | 5 => .ok .InvokeVirtual
  | 6 => .ok .InvokeStatic
  | 7 => .ok .InvokeSpecial
  | 8 => .ok .NewInvokeSpecial
  | 9 => .ok .InvokeInterface
  | _ => .error (.BadHandleKind k)

/-- Two's-complement reinterpretation of a u8 value as i8. -/
def asI8 (n : Nat) : Int := if n < 2 ^ 7 then (n : Int) else (n : Int) - 2 ^ 8

/-- Two's-complement reinterpretation of a u16 value as i16. -/
def asI16 (n : Nat) : Int := if n < 2 ^ 15 then (n : Int) else (n : Int) - 2 ^ 16

/-- Two's-complement reinterpretation of a u32 value as i32. -/
def asI32 (n : Nat) : Int := if n < 2 ^ 31 then (n : Int) else (n : Int) - 2 ^ 32

/-- Two's-complement reinterpretation of a u64 value as i64. -/
def asI64 (n : Nat) : Int := if n < 2 ^ 63 then (n : Int) else (n : Int) - 2 ^ 64

/-- Model of ClassBuffer: a borrowed byte slice. -/
structure ClassBuffer where
  data : List Nat
deriving DecidableEq, Repr

namespace ClassBuffer

/-- Model of ClassBuffer::read_bytes: bounds-checked subslice. -/
def readBytes (b : ClassBuffer) (index len : Nat) : ClassFileResult (List Nat) :=
  if index + len ≤ b.data.length then .ok ((b.data.drop index).take len)
  else .error (.OutOfBounds (index + len - 1) b.data.length)

/-- Model of ClassBuffer::read_u8 (read_array of size 1). -/
def readU8 (b : ClassBuffer) (index : Nat) : ClassFileResult Nat := do
  let bs ← b.readBytes index 1
  pure (bs.getD 0 0)

/-- Model of ClassBuffer::read_u16 (big-endian). -/
def readU16 (b : ClassBuffer) (index : Nat) : ClassFileResult Nat := do
  let bs ← b.readBytes index 2
  pure (bs.getD 0 0 * 2 ^ 8 + bs.getD 1 0)

/-- Model of ClassBuffer::read_u32 (big-endian). -/
def readU32 (b : ClassBuffer) (index : Nat) : ClassFileResult Nat := do
  let bs ← b.readBytes index 4
  pure (((bs.getD 0 0 * 2 ^ 8 + bs.getD 1 0) * 2 ^ 8 + bs.getD 2 0) * 2 ^ 8 + bs.getD 3 0)

/-- Model of ClassBuffer::read_u64 (big-endian). -/
def readU64 (b : ClassBuffer) (index : Nat) : ClassFileResult Nat := do
  let bs ← b.readBytes index 8
  pure (List.foldl (fun acc x => acc * 2 ^ 8 + x) 0 bs)

/-- Model of ClassBuffer::read_i8. -/
def readI8 (b : ClassBuffer) (index : Nat) : ClassFileResult Int :=
  (b.readU8 index).map asI8

/-- Model of ClassBuffer::read_i16. -/
def readI16 (b : ClassBuffer) (index : Nat) : ClassFileResult Int :=
  (b.readU16 index).map asI16

/-- Model of ClassBuffer::read_i32. -/
def readI32 (b : ClassBuffer) (index : Nat) : ClassFileResult Int :=
  (b.readU32 index).map asI32

/-- Model of ClassBuffer::read_i64. -/
def readI64 (b : ClassBuffer) (index : Nat) : ClassFileResult Int :=
  (b.readU64 index).map asI64

/-- Model of ClassBuffer::read_f32; the float is carried as its bit pattern. -/
def readF32 (b : ClassBuffer) (index : Nat) : ClassFileResult Nat :=
  b.readU32 index

/-- Model of ClassBuffer::read_f64; the float is carried as its bit pattern. -/
def readF64 (b : ClassBuffer) (index : Nat) : ClassFileResult Nat :=
  b.readU64 index

end ClassBuffer

/-- Model of NameAndType. -/
structure NameAndType where
  name : JStr
  desc : JStr
deriving DecidableEq, Repr

/-- Model of MemberRef. -/
structure MemberRef where
  owner : JStr
  name : JStr
  desc : JStr
deriving DecidableEq, Repr

/-- Model of DynamicEntry. -/
structure DynamicEntry where
  bootstrapMethodAttrIndex : Nat
  name : JStr
  desc : JStr
deriving DecidableEq, Repr

/-- Model of Handle. -/
structure Handle where
  kind : HandleKind
  owner : JStr
  name : JStr
  desc : JStr
  isInterface : Bool
deriving DecidableEq, Repr

/-- Model of ConstantPoolEntry.  Float and Double carry raw bit patterns. -/
inductive ConstantPoolEntry where
  | Utf8 (s : JStr)
  | Integer (v : Int)
  | Float (bits : Nat)
  | Long (v : Int)
  | Double (bits : Nat)
  | Class (s : JStr)
  | String (s : JStr)
  | FieldRef (r : MemberRef)
  | MethodRef (r : MemberRef)
  | InterfaceMethodRef (r : MemberRef)
  | NameAndType (nt : ClassFile.NameAndType)
  | MethodHandle (h : Handle)
  | MethodType (s : JStr)
  | Dynamic (d : DynamicEntry)
  | InvokeDynamic (d : DynamicEntry)
  | Module (s : JStr)
  | Package (s : JStr)
deriving DecidableEq, Repr

/-- Model of ConstantPool: the buffer plus the 1-based index-to-offset table. -/
structure ConstantPool where
  buffer : ClassBuffer
  offset : List Nat
deriving DecidableEq, Repr

namespace ConstantPool

/-- The constant-pool build loop of ConstantPool::new: record the offset of
entry i, read its tag, advance by the tag width; Long and Double consume an
extra index slot.  The loop is embedded with a fuel argument for structural
recursion; i advances by at least one per step, so fuel equal to count is
never exhausted with i below count (new passes count). -/
def buildLoop (buffer : ClassBuffer) (count : Nat) (fuel : Nat) (i cur : Nat)
    (offs : List Nat) : ClassFileResult (List Nat × Nat) :=
  match fuel with
  | 0 => .ok (offs, cur)
  | fuel + 1 =>
    if i < count then do
      let offs := offs.set i cur
      let tag ← ConstantPoolTag.fromU8 (← buffer.readU8 cur)
      match tag with
      | .Class | .MethodType | .Module | .String | .Package =>
        buildLoop buffer count fuel (i + 1) (cur + 3) offs
      | .MethodHandle =>
        buildLoop buffer count fuel (i + 1) (cur + 4) offs
      | .Dynamic | .FieldRef | .Float | .Integer | .InterfaceMethodRef
      | .InvokeDynamic | .MethodRef | .NameAndType =>
        buildLoop buffer count fuel (i + 1) (cur + 5) offs
      | .Double | .Long =>
        buildLoop buffer count fuel (i + 2) (cur + 9) offs
      | .Utf8 => do
        let len ← buffer.readU16 (cur + 1)
        buildLoop buffer count fuel (i + 1) (cur + 3 + len) offs
    else .ok (offs, cur)

/-- Model of ConstantPool::new: read the count at offset 8, run the build
loop from index 1 at offset 10 over a zero-initialised table. -/
def new (buffer : ClassBuffer) : ClassFileResult (ConstantPool × Nat) := do
  let count ← buffer.readU16 8
  let (offs, cur) ← buildLoop buffer count count 1 10 (List.replicate count 0)
  pure ({ buffer := buffer, offset := offs }, cur)

/-- Model of ConstantPool::index_to_offset. -/
def indexToOffset (cp : ConstantPool) (index : Nat) : ClassFileResult Nat :=
  match cp.offset[index]? with
  | some 0 => .error (.BadConstantPoolIndexNoEntry index)
  | some off => .ok off
  | none => .error (.BadConstantPoolIndex index cp.offset.length)

/-- Model of ConstantPool::get_type. -/
def getType (cp : ConstantPool) (index : Nat) : ClassFileResult ConstantPoolTag := do
  let off ← cp.indexToOffset index
  ConstantPoolTag.fromU8 (← cp.buffer.readU8 off)

/-- Shared body of every typed getter generated by generate_getters: resolve
the slot, validate the tag, return the tag-byte offset. -/
def taggedOffset (cp : ConstantPool) (index : Nat) (expected : ConstantPoolTag) :
    ClassFileResult Nat := do
  let off ← cp.indexToOffset index
  let tag ← ConstantPoolTag.fromU8 (← cp.buffer.readU8 off)
  if tag ≠ expected then .error (.BadConstantPoolType expected tag)
  else pure off

/-- Read body for Utf8 entries (the Modified-UTF-8 decode is modelled as
byte-preserving). -/
def readUtf8At (cp : ConstantPool) (off : Nat) : ClassFileResult JStr := do
  let len ← cp.buffer.readU16 (off + 1)
  cp.buffer.readBytes (off + 3) len

/-- Model of ConstantPool::get_utf8. -/
def getUtf8 (cp : ConstantPool) (index : Nat) : ClassFileResult JStr := do
  let off ← cp.taggedOffset index .Utf8
  cp.readUtf8At off

/-- Model of ConstantPool::get_utf8_as_bytes (same byte view in the model). -/
def getUtf8AsBytes (cp : ConstantPool) (index : Nat) : ClassFileResult (List Nat) := do
  let off ← cp.indexToOffset index
  let tag ← ConstantPoolTag.fromU8 (← cp.buffer.readU8 off)
  if tag ≠ ConstantPoolTag.Utf8 then .error (.BadConstantPoolType .Utf8 tag)
  else do
    let len ← cp.buffer.readU16 (off + 1)
    cp.buffer.readBytes (off + 3) len

/-- Model of ConstantPool::get_optional_utf8. -/
def getOptionalUtf8 (cp : ConstantPool) (index : Nat) : ClassFileResult (Option JStr) :=
  if index = 0 then .ok none else (cp.getUtf8 index).map some

/-- Read body for Integer entries. -/
def readI32At (cp : ConstantPool) (off : Nat) : ClassFileResult Int :=
  cp.buffer.readI32 (off + 1)

/-- Model of ConstantPool::get_i32. -/
def getI32 (cp : ConstantPool) (index : Nat) : ClassFileResult Int := do
  let off ← cp.taggedOffset index .Integer
  cp.readI32At off

/-- Model of ConstantPool::get_f32 (bit pattern). -/
def getF32 (cp : ConstantPool) (index : Nat) : ClassFileResult Nat := do
  let off ← cp.taggedOffset index .Float
  cp.buffer.readF32 (off + 1)

/-- Model of ConstantPool::get_i64. -/
def getI64 (cp : ConstantPool) (index : Nat) : ClassFileResult Int := do
  let off ← cp.taggedOffset index .Long
  cp.buffer.readI64 (off + 1)

/-- Model of ConstantPool::get_f64 (bit pattern). -/
def getF64 (cp : ConstantPool) (index : Nat) : ClassFileResult Nat := do
  let off ← cp.taggedOffset index .Double
  cp.buffer.readF64 (off + 1)

/-- Read body for Class entries. -/
def readClassAt (cp : ConstantPool) (off : Nat) : ClassFileResult JStr := do
  cp.getUtf8 (← cp.buffer.readU16 (off + 1))

/-- Model of ConstantPool::get_class. -/
def getClass (cp : ConstantPool) (index : Nat) : ClassFileResult JStr := do
  let off ← cp.taggedOffset index .Class
  cp.readClassAt off

/-- Model of ConstantPool::get_optional_class. -/
def getOptionalClass (cp : ConstantPool) (index : Nat) : ClassFileResult (Option JStr) :=
  if index = 0 then .ok none else (cp.getClass index).map some

/-- Model of ConstantPool::get_string. -/
def getString (cp : ConstantPool) (index : Nat) : ClassFileResult JStr := do
  let off ← cp.taggedOffset index .String
  cp.getUtf8 (← cp.buffer.readU16 (off + 1))

/-- Read body for NameAndType entries. -/
def readNameAndTypeAt (cp : ConstantPool) (off : Nat) : ClassFileResult NameAndType := do
  let name ← cp.getUtf8 (← cp.buffer.readU16 (off + 1))
  let desc ← cp.getUtf8 (← cp.buffer.readU16 (off + 3))
  pure { name := name, desc := desc }

/-- Model of ConstantPool::get_name_and_type. -/
def getNameAndType (cp : ConstantPool) (index : Nat) : ClassFileResult NameAndType := do
  let off ← cp.taggedOffset index .NameAndType
  cp.readNameAndTypeAt off

/-- Model of ConstantPool::get_optional_name_and_type. -/
def getOptionalNameAndType (cp : ConstantPool) (index : Nat) :
    ClassFileResult (Option NameAndType) :=
  if index = 0 then .ok none else (cp.getNameAndType index).map some

/-- Read body shared by the three member-reference entry kinds. -/
def readMemberRefAt (cp : ConstantPool) (off : Nat) : ClassFileResult MemberRef := do
  let owner ← cp.getClass (← cp.buffer.readU16 (off + 1))
  let nat ← cp.getNameAndType (← cp.buffer.readU16 (off + 3))
  pure { owner := owner, name := nat.name, desc := nat.desc }

/-- Model of ConstantPool::get_field_ref. -/
def getFieldRef (cp : ConstantPool) (index : Nat) : ClassFileResult MemberRef := do
  let off ← cp.taggedOffset index .FieldRef
  cp.readMemberRefAt off

/-- Model of ConstantPool::get_method_ref. -/
def getMethodRef (cp : ConstantPool) (index : Nat) : ClassFileResult MemberRef := do
  let off ← cp.taggedOffset index .MethodRef
  cp.readMemberRefAt off

/-- Model of ConstantPool::get_interface_method_ref. -/
def getInterfaceMethodRef (cp : ConstantPool) (index : Nat) : ClassFileResult MemberRef := do
  let off ← cp.taggedOffset index .InterfaceMethodRef
  cp.readMemberRefAt off

/-- Model of ConstantPool::get_method_type. -/
def getMethodType (cp : ConstantPool) (index : Nat) : ClassFileResult JStr := do
  let off ← cp.taggedOffset index .MethodType
  cp.getUtf8 (← cp.buffer.readU16 (off + 1))

/-- Read body shared by Dynamic and InvokeDynamic entries. -/
def readDynamicAt (cp : ConstantPool) (off : Nat) : ClassFileResult DynamicEntry := do
  let bsmIndex ← cp.buffer.readU16 (off + 1)
  let nat ← cp.getNameAndType (← cp.buffer.readU16 (off + 3))
  pure { bootstrapMethodAttrIndex := bsmIndex, name := nat.name, desc := nat.desc }

/-- Model of ConstantPool::get_dynamic. -/
def getDynamic (cp : ConstantPool) (index : Nat) : ClassFileResult DynamicEntry := do
  let off ← cp.taggedOffset index .Dynamic
  cp.readDynamicAt off

/-- Model of ConstantPool::get_invoke_dynamic. -/
def getInvokeDynamic (cp : ConstantPool) (index : Nat) : ClassFileResult DynamicEntry := do
  let off ← cp.taggedOffset index .InvokeDynamic
  cp.readDynamicAt off

/-- Model of ConstantPool::get_module. -/
def getModule (cp : ConstantPool) (index : Nat) : ClassFileResult JStr := do
  let off ← cp.taggedOffset index .Module
  cp.getUtf8 (← cp.buffer.readU16 (off + 1))

/-- Model of ConstantPool::get_package. -/
def getPackage (cp : ConstantPool) (index : Nat) : ClassFileResult JStr := do
  let off ← cp.taggedOffset index .Package
  cp.getUtf8 (← cp.buffer.readU16 (off + 1))

/-- Read body for MethodHandle entries, including the InvokeStatic and
InvokeSpecial case that accepts both method-ref kinds. -/
def readMethodHandleAt (cp : ConstantPool) (off : Nat) : ClassFileResult Handle := do
  let kind ← HandleKind.fromU8 (← cp.buffer.readU8 (off + 1))
  let refIndex ← cp.buffer.readU16 (off + 2)
  let (memberRef, isItf) ←
    match kind with
    | .GetField | .GetStatic | .PutField | .PutStatic => do
      pure ((← cp.getFieldRef refIndex), false)
    | .InvokeVirtual | .NewInvokeSpecial => do
      pure ((← cp.getMethodRef refIndex), false)
    | .InvokeInterface => do
      pure ((← cp.getInterfaceMethodRef refIndex), true)
    | .InvokeStatic | .InvokeSpecial => do
      let refOff ← cp.indexToOffset refIndex
      let tag ← ConstantPoolTag.fromU8 (← cp.buffer.readU8 refOff)
      if tag ≠ ConstantPoolTag.MethodRef ∧ tag ≠ ConstantPoolTag.InterfaceMethodRef then
        .error (.BadConstantPoolType .MethodRef tag)
      else do
        let owner ← cp.getClass (← cp.buffer.readU16 (refOff + 1))
        let nat ← cp.getNameAndType (← cp.buffer.readU16 (refOff + 3))
        pure ({ owner := owner, name := nat.name, desc := nat.desc : MemberRef },
          decide (tag = ConstantPoolTag.InterfaceMethodRef))
  pure { kind := kind, owner := memberRef.owner, name := memberRef.name,
         desc := memberRef.desc, isInterface := isItf }

/-- Model of ConstantPool::get_method_handle. -/
def getMethodHandle (cp : ConstantPool) (index : Nat) : ClassFileResult Handle := do
  let off ← cp.taggedOffset index .MethodHandle
  cp.readMethodHandleAt off

/-- Model of ConstantPool::get: dispatch on the stored tag without a second
tag check, running each entry kind's read body. -/
def get (cp : ConstantPool) (index : Nat) : ClassFileResult ConstantPoolEntry := do
  let off ← cp.indexToOffset index
  let tag ← ConstantPoolTag.fromU8 (← cp.buffer.readU8 off)
  match tag with
  | .Utf8 => (cp.readUtf8At off).map .Utf8
  | .Integer => (cp.readI32At off).map .Integer
  | .Float => (cp.buffer.readF32 (off + 1)).map .Float
  | .Long => (cp.buffer.readI64 (off + 1)).map .Long
  | .Double => (cp.buffer.readF64 (off + 1)).map .Double
  | .Class => (cp.readClassAt off).map .Class
  | .String => (do cp.getUtf8 (← cp.buffer.readU16 (off + 1))).map .String
  | .FieldRef => (cp.readMemberRefAt off).map .FieldRef
  | .MethodRef => (cp.readMemberRefAt off).map .MethodRef
  | .InterfaceMethodRef => (cp.readMemberRefAt off).map .InterfaceMethodRef
  | .NameAndType => (cp.readNameAndTypeAt off).map .NameAndType
  | .MethodHandle => (cp.readMethodHandleAt off).map .MethodHandle
  | .MethodType => (do cp.getUtf8 (← cp.buffer.readU16 (off + 1))).map .MethodType
  | .Dynamic => (cp.readDynamicAt off).map .Dynamic
  | .InvokeDynamic => (cp.readDynamicAt off).map .InvokeDynamic
  | .Module => (do cp.getUtf8 (← cp.buffer.readU16 (off + 1))).map .Module
  | .Package => (do cp.getUtf8 (← cp.buffer.readU16 (off + 1))).map .Package

/-- Model of ConstantPool::get_optional. -/
def getOptional (cp : ConstantPool) (index : Nat) :
    ClassFileResult (Option ConstantPoolEntry) :=
  if index = 0 then .ok none else (cp.get index).map some

end ConstantPool

/-- State of the by-reference constant-pool iterator. -/
structure ConstantPoolIntoIter where
  pool : ConstantPool
  index : Nat
deriving Repr

/-- One observable step of an iterator that may panic: Rust's next either
panics, returns None, or returns Some item together with the successor
iterator state. -/
inductive CpIterStep where
  | panics
  | finished
  | yields (item : ClassFileResult ConstantPoolEntry) (next : ConstantPoolIntoIter)
deriving Repr

/-- Model of ConstantPoolIntoIter::next.  The source computes
(offset.len() - 1) as u16 with usize arithmetic; in release builds the
subtraction wraps (in debug builds it already panics when len is 0), and
every slice indexing panics when out of bounds, which the model makes
explicit via the panics outcome. -/
def cpIterNext (it : ConstantPoolIntoIter) : CpIterStep :=
  let len := it.pool.offset.length
  let cpMax := (len + (2 ^ 64 - 1)) % 2 ^ 64 % 2 ^ 16
  if it.index = cpMax then .finished
  else
    let index1 := it.index + 1
    match it.pool.offset[index1]? with
    | none => .panics
    | some o1 =>
      let index2 := if o1 = 0 ∧ index1 < cpMax then index1 + 1 else index1
      match it.pool.offset[index2]? with
      | none => .panics
      | some o2 =>
        if o2 = 0 then .finished
        else .yields (it.pool.get index2) { it with index := index2 }

/-! ## Bootstrap methods (BootstrapMethods::compute)

The resolver of BootstrapMethods::compute works on the parsed list of
unresolved bootstrap methods.  The recursive resolve function is embedded
with an explicit fuel argument bounding the recursion depth; the source
recursion depth is bounded by the number of bootstrap methods because each
active call holds a distinct index in the Resolving state, and compute runs
each top-level resolve with fuel count+1, which is proved sufficient. -/

/-- Unresolved bootstrap-method argument (the UnresolvedBsmArg enum local to
BootstrapMethods::compute). -/
inductive UnresolvedBsmArg where
  | Integer (v : Int)
  | Float (bits : Nat)
  | Long (v : Int)
  | Double (bits : Nat)
  | String (s : JStr)
  | Class (s : JStr)
  | Handle (h : ClassFile.Handle)
  | ConstantDynamic (d : DynamicEntry)
deriving DecidableEq, Repr

/-- Model of the UnresolvedBsm struct. -/
structure UnresolvedBsm where
  handle : Handle
  args : List UnresolvedBsmArg
deriving DecidableEq, Repr

/-- Model of the ResolvedState enum. -/
inductive ResolvedState where
  | Unresolved
  | Resolving
  | Resolved
deriving DecidableEq, Repr

mutual

/-- Model of BootstrapMethodArgument. -/
inductive BootstrapMethodArgument where
  | Integer (v : Int)
  | Float (bits : Nat)
  | Long (v : Int)
  | Double (bits : Nat)
  | String (s : JStr)
  | Class (s : JStr)
  | Handle (h : ClassFile.Handle)
  | ConstantDynamic (d : ClassFile.ConstantDynamic)
deriving Repr

/-- Model of ConstantDynamic. -/
inductive ConstantDynamic where
  | mk (name desc : JStr) (bootstrapMethod : ClassFile.Handle)
      (bootstrapMethodArguments : List BootstrapMethodArgument)
deriving Repr

end

/-- Model of the BootstrapMethod struct. -/
structure BootstrapMethod where
  handle : Handle
  args : List BootstrapMethodArgument
deriving Repr

/-- The dummy value compute pre-fills the resolved list with. -/
def dummyBootstrapMethod : BootstrapMethod :=
  { handle := { kind := .GetField, owner := [], name := [], desc := [], isInterface := false },
    args := [] }

/-- The dummy value used for the (unreachable) out-of-bounds read of the
unresolved list; the source indexes the slice directly, and every call site
keeps the index in bounds. -/
def dummyUnresolvedBsm : UnresolvedBsm :=
  { handle := { kind := .GetField, owner := [], name := [], desc := [], isInterface := false },
    args := [] }

mutual

/-- Model of the recursive resolve function of BootstrapMethods::compute,
with fuel bounding the recursion depth (none means out of fuel, which is
proved unreachable for the fuel compute passes).  Out-of-bounds state reads
default to Resolved; every call site keeps the index in bounds. -/
def resolveFuel (bsms : List UnresolvedBsm) (fuel : Nat) (states : List ResolvedState)
    (resolved : List BootstrapMethod) (i : Nat) :
    Option (ClassFileResult (List ResolvedState × List BootstrapMethod)) :=
  match fuel with
  | 0 => none
  | fuel + 1 =>
    match states.getD i .Resolved with
    | .Resolved => some (.ok (states, resolved))
    | .Resolving => some (.error .BootstrapMethodCircularDependency)
    | .Unresolved =>
      let states1 := states.set i .Resolving
      let bsm := bsms.getD i dummyUnresolvedBsm
      match resolveArgsFuel bsms fuel bsm.args states1 resolved with
      | none => none
      | some (.error e) => some (.error e)
      | some (.ok (rargs, states2, resolved2)) =>
        some (.ok (states2.set i .Resolved,
          resolved2.set i { handle := bsm.handle, args := rargs }))
termination_by (fuel, 0)

/-- The argument-resolution fold inside resolve: map each unresolved
argument, recursively resolving constant-dynamic references after an
out-of-bounds check. -/
def resolveArgsFuel (bsms : List UnresolvedBsm) (fuel : Nat) (args : List UnresolvedBsmArg)
    (states : List ResolvedState) (resolved : List BootstrapMethod) :
    Option (ClassFileResult
      (List BootstrapMethodArgument × List ResolvedState × List BootstrapMethod)) :=
  match args with
  | [] => some (.ok ([], states, resolved))
  | arg :: rest =>
    match arg with
    | .ConstantDynamic d =>
      if d.bootstrapMethodAttrIndex ≥ bsms.length then
        some (.error (.BootstrapMethodOutOfBounds d.bootstrapMethodAttrIndex bsms.length))
      else
        match resolveFuel bsms fuel states resolved d.bootstrapMethodAttrIndex with
        | none => none
        | some (.error e) => some (.error e)
        | some (.ok (states2, resolved2)) =>
          let r := resolved2.getD d.bootstrapMethodAttrIndex dummyBootstrapMethod
          match resolveArgsFuel bsms fuel rest states2 resolved2 with
          | none => none
          | some (.error e) => some (.error e)
          | some (.ok (rrest, states3, resolved3)) =>
            some (.ok (.ConstantDynamic (.mk d.name d.desc r.handle r.args) :: rrest,
              states3, resolved3))
    | _ =>
      let ra : BootstrapMethodArgument :=
        match arg with
        | .Integer v => .Integer v
        | .Float bits => .Float bits
        | .Long v => .Long v
        | .Double bits => .Double bits
        | .String s => .String s
        | .Class s => .Class s
        | .Handle h => .Handle h
        | .ConstantDynamic d => .Integer 0
      match resolveArgsFuel bsms fuel rest states resolved with
      | none => none
      | some (.error e) => some (.error e)
      | some (.ok (rrest, states2, resolved2)) =>
        some (.ok (ra :: rrest, states2, resolved2))
termination_by (fuel, args.length + 1)

end

/-- The top-level loop of compute: resolve every index in order.  Each
top-level resolve call receives fuel count+1, which bounds the source
recursion depth (each active call holds a distinct Resolving index).  The
loop itself is embedded with a fuel argument for structural recursion;
resolveAll passes count+1, which is exact. -/
def computeLoop (bsms : List UnresolvedBsm) (fuel : Nat) (i : Nat)
    (states : List ResolvedState) (resolved : List BootstrapMethod) :
    Option (ClassFileResult (List BootstrapMethod)) :=
  match fuel with
  | 0 => none
  | fuel + 1 =>
    if i < bsms.length then
      match resolveFuel bsms (bsms.length + 1) states resolved i with
      | none => none
      | some (.error e) => some (.error e)
      | some (.ok (states2, resolved2)) => computeLoop bsms fuel (i + 1) states2 resolved2
    else some (.ok resolved)

/-- The resolution phase of BootstrapMethods::compute, starting from all
entries Unresolved and the resolved list pre-filled with dummies. -/
def resolveAll (bsms : List UnresolvedBsm) : Option (ClassFileResult (List BootstrapMethod)) :=
  computeLoop bsms (bsms.length + 1) 0 (List.replicate bsms.length .Unresolved)
    (List.replicate bsms.length dummyBootstrapMethod)

/-- The bootstrap-method index referenced by an unresolved argument, if any
(only constant-dynamic arguments reference other bootstrap methods). -/
def argRef : UnresolvedBsmArg → Option Nat
  | .ConstantDynamic d => some d.bootstrapMethodAttrIndex
  | _ => none

/-- The reference relation of the bootstrap-method table: bsm i has a
constant-dynamic argument referencing bsm j. -/
def Refs (bsms : List UnresolvedBsm) (i j : Nat) : Prop :=
  ∃ b : UnresolvedBsm, bsms[i]? = some b ∧ ∃ a ∈ b.args, argRef a = some j

/-- The reference graph is acyclic: no index reaches itself through one or
more references. -/
def Acyclic (bsms : List UnresolvedBsm) : Prop :=
  ∀ i, ¬ Relation.TransGen (Refs bsms) i i

/-- Every constant-dynamic argument references an index below the table
size. -/
def RefsInBounds (bsms : List UnresolvedBsm) : Prop :=
  ∀ (i : Nat) (b : UnresolvedBsm), bsms[i]? = some b →
    ∀ a ∈ b.args, ∀ j, argRef a = some j → j < bsms.length

/-! ### Resolver invariants -/

/-- Two state lists mark exactly the same indices Resolving. -/
def SameResolving (s t : List ResolvedState) : Prop :=
  ∀ k : Nat, t[k]? = some ResolvedState.Resolving ↔ s[k]? = some ResolvedState.Resolving

/-- Indices marked Resolved stay Resolved. -/
def ResolvedMono (s t : List ResolvedState) : Prop :=
  ∀ k : Nat, s[k]? = some ResolvedState.Resolved → t[k]? = some ResolvedState.Resolved

theorem sameResolving_refl (s : List ResolvedState) : SameResolving s s :=
  fun _ => Iff.rfl

theorem sameResolving_trans {s t u : List ResolvedState} (h1 : SameResolving s t)
    (h2 : SameResolving t u) : SameResolving s u :=
  fun k => (h2 k).trans (h1 k)

theorem resolvedMono_trans {s t u : List ResolvedState} (h1 : ResolvedMono s t)
    (h2 : ResolvedMono t u) : ResolvedMono s u :=
  fun k hk => h2 k (h1 k hk)

/-- Reading state i with getD default Resolved and seeing Unresolved means
the index is in bounds and stored Unresolved. -/
theorem getD_unresolved {states : List ResolvedState} {i : Nat}
    (h : states.getD i .Resolved = .Unresolved) :
    i < states.length ∧ states[i]? = some ResolvedState.Unresolved := by
  rw [List.getD_eq_getElem?_getD] at h
  rcases hx : states[i]? with _ | v
  · rw [hx] at h
    simp at h
  · obtain ⟨hlt, -⟩ := List.getElem?_eq_some.mp hx
    rw [hx] at h
    simp at h
    subst h
    exact ⟨hlt, rfl⟩

/-- Reading state i with getD default Resolved and seeing Resolving means
the index is in bounds and stored Resolving. -/
theorem getD_resolving {states : List ResolvedState} {i : Nat}
    (h : states.getD i .Resolved = .Resolving) :
    states[i]? = some ResolvedState.Resolving := by
  rw [List.getD_eq_getElem?_getD] at h
  rcases hx : states[i]? with _ | v
  · rw [hx] at h
    simp at h
  · rw [hx] at h
    simp at h
    subst h
    rfl

/-- Preservation along a successful resolve call: lengths are kept, the set
of Resolving indices is unchanged, Resolved indices are monotone, and the
target index ends Resolved. -/
theorem resolveFuel_ok_spec :
    ∀ (fuel : Nat) (bsms : List UnresolvedBsm) (states : List ResolvedState)
      (resolved : List BootstrapMethod) (i : Nat) st2 res2,
      resolveFuel bsms fuel states resolved i = some (.ok (st2, res2)) →
      st2.length = states.length ∧ res2.length = resolved.length ∧
        SameResolving states st2 ∧ ResolvedMono states st2 ∧
        (i < states.length → st2[i]? = some .Resolved) := by
  intro fuel
  induction fuel with
  | zero => intro bsms states resolved i st2 res2 h; simp [resolveFuel] at h
  | succ fuel ih =>
    -- the args-level statement at this fuel, by induction over the args
    have argsSpec : ∀ (bsms : List UnresolvedBsm) (args : List UnresolvedBsmArg)
        (states : List ResolvedState) (resolved : List BootstrapMethod) rargs st2 res2,
        resolveArgsFuel bsms fuel args states resolved = some (.ok (rargs, st2, res2)) →
        st2.length = states.length ∧ res2.length = resolved.length ∧
          SameResolving states st2 ∧ ResolvedMono states st2 := by
      intro bsms args
      induction args with
      | nil =>
        intro states resolved rargs st2 res2 h
        simp [resolveArgsFuel] at h
        obtain ⟨-, h2, h3⟩ := h
        subst h2; subst h3
        exact ⟨rfl, rfl, sameResolving_refl _, fun _ h => h⟩
      | cons a rest iha =>
        intro states resolved rargs st2 res2 h
        rcases a with v | v | v | v | v | v | v | d
        case ConstantDynamic =>
          simp only [resolveArgsFuel] at h
          by_cases hge : d.bootstrapMethodAttrIndex ≥ bsms.length
          · simp [hge] at h
          · simp only [if_neg hge] at h
            rcases hres : resolveFuel bsms fuel states resolved d.bootstrapMethodAttrIndex with
              _ | r
            · rw [hres] at h; exact absurd h (by simp)
            · rw [hres] at h
              rcases r with e | ⟨states2, resolved2⟩
              · simp at h
              · simp only at h
                rcases hrest : resolveArgsFuel bsms fuel rest states2 resolved2 with _ | r2
                · rw [hrest] at h; exact absurd h (by simp)
                · rw [hrest] at h
                  rcases r2 with e | ⟨rrest, states3, resolved3⟩
                  · simp at h
                  · simp only [Option.some.injEq, Except.ok.injEq, Prod.mk.injEq] at h
                    obtain ⟨-, h2, h3⟩ := h
                    subst h2; subst h3
                    obtain ⟨l1, l2, s1, m1, -⟩ := ih bsms states resolved _ _ _ hres
                    obtain ⟨l3, l4, s2, m2⟩ := iha states2 resolved2 _ _ _ hrest
                    exact ⟨l3.trans l1, l4.trans l2, sameResolving_trans s1 s2,
                      resolvedMono_trans m1 m2⟩
        all_goals
          simp only [resolveArgsFuel] at h
          rcases hrest : resolveArgsFuel bsms fuel rest states resolved with _ | r2
          · rw [hrest] at h; exact absurd h (by simp)
          · rw [hrest] at h
            rcases r2 with e | ⟨rrest, states2, resolved2⟩
            · simp at h
            · simp only [Option.some.injEq, Except.ok.injEq, Prod.mk.injEq] at h
              obtain ⟨-, h2, h3⟩ := h
              subst h2; subst h3
              exact iha states resolved _ _ _ hrest
    intro bsms states resolved i st2 res2 h
    rw [resolveFuel] at h
    rcases hst : states.getD i .Resolved with _ | _ | _
    case Resolved =>
      rw [hst] at h
      simp only [Option.some.injEq, Except.ok.injEq, Prod.mk.injEq] at h
      obtain ⟨h1, h2⟩ := h
      subst h1; subst h2
      refine ⟨rfl, rfl, sameResolving_refl _, fun _ h => h, fun hi => ?_⟩
      rw [List.getD_eq_getElem?_getD, List.getElem?_eq_getElem hi] at hst
      simp at hst
      rw [List.getElem?_eq_getElem hi, hst]
    case Resolving => rw [hst] at h; simp at h
    case Unresolved =>
      rw [hst] at h
      simp only at h
      obtain ⟨hilt, hival⟩ := getD_unresolved hst
      rcases hargs : resolveArgsFuel bsms fuel (bsms.getD i dummyUnresolvedBsm).args
          (states.set i .Resolving) resolved with _ | r
      · rw [hargs] at h; exact absurd h (by simp)
      · rw [hargs] at h
        rcases r with e | ⟨rargs, states2, resolved2⟩
        · simp at h
        · simp only [Option.some.injEq, Except.ok.injEq, Prod.mk.injEq] at h
          obtain ⟨h1, h2⟩ := h
          subst h1; subst h2
          obtain ⟨l1, l2, s1, m1⟩ := argsSpec bsms _ _ _ _ _ _ hargs
          have hlen1 : (states.set i .Resolving).length = states.length :=
            List.length_set ..
          have hlt2 : i < states2.length := by omega
          refine ⟨by simp [l1, hlen1], by simp [l2], ?_, ?_, ?_⟩
          · intro k
            by_cases hk : k = i
            · subst hk
              rw [List.getElem?_set_self hlt2]
              rw [hival]
              simp
            · rw [List.getElem?_set_ne (by omega)]
              rw [(s1 k), List.getElem?_set_ne (by omega)]
          · intro k hk
            by_cases hki : k = i
            · subst hki
              rw [List.getElem?_set_self hlt2]
            · rw [List.getElem?_set_ne (by omega)]
              refine m1 k ?_
              rw [List.getElem?_set_ne (by omega)]
              exact hk
          · intro _
            rw [List.getElem?_set_self hlt2]

/-- The indices not currently marked Resolving; its cardinality bounds the
remaining resolve recursion depth, because every active call holds a
distinct index in the Resolving state. -/
def nonResolving (states : List ResolvedState) : Finset Nat :=
  (Finset.range states.length).filter
    (fun k => ¬ states[k]? = some ResolvedState.Resolving)

theorem mem_nonResolving {s : List ResolvedState} {k : Nat} :
    k ∈ nonResolving s ↔ k < s.length ∧ ¬ s[k]? = some ResolvedState.Resolving := by
  simp [nonResolving]

theorem nonResolving_congr {s t : List ResolvedState} (hlen : t.length = s.length)
    (hiff : SameResolving s t) : nonResolving t = nonResolving s := by
  unfold nonResolving
  rw [hlen]
  exact Finset.filter_congr (fun k _ => not_congr (hiff k))

theorem nonResolving_set_resolving {s : List ResolvedState} {i : Nat}
    (hi : i < s.length) :
    nonResolving (s.set i .Resolving) = (nonResolving s).erase i := by
  ext k
  by_cases hk : k = i
  · subst hk
    simp [nonResolving, List.length_set, List.getElem?_set_self hi, Finset.mem_erase]
  · simp [nonResolving, List.length_set, List.getElem?_set_ne (show i ≠ k from fun h => hk h.symm),
      Finset.mem_erase, hk]

/-- Totality of the embedded resolve: with fuel exceeding the number of
non-Resolving indices the resolver never runs out of fuel, on every input. -/
theorem resolveFuel_total :
    ∀ (fuel : Nat) (bsms : List UnresolvedBsm) (states : List ResolvedState)
      (resolved : List BootstrapMethod) (i : Nat),
      (nonResolving states).card < fuel →
      (resolveFuel bsms fuel states resolved i).isSome := by
  intro fuel
  induction fuel with
  | zero => intro bsms states resolved i h; omega
  | succ fuel ih =>
    have argsTotal : ∀ (bsms : List UnresolvedBsm) (args : List UnresolvedBsmArg)
        (states : List ResolvedState) (resolved : List BootstrapMethod),
        (nonResolving states).card < fuel →
        (resolveArgsFuel bsms fuel args states resolved).isSome := by
      intro bsms args
      induction args with
      | nil => intro states resolved hcard; simp [resolveArgsFuel]
      | cons a rest iha =>
        intro states resolved hcard
        rcases a with v | v | v | v | v | v | v | d
        case ConstantDynamic =>
          simp only [resolveArgsFuel]
          by_cases hge : d.bootstrapMethodAttrIndex ≥ bsms.length
          · simp [hge]
          · simp only [if_neg hge]
            rcases hres : resolveFuel bsms fuel states resolved d.bootstrapMethodAttrIndex with
              _ | r
            · have := ih bsms states resolved d.bootstrapMethodAttrIndex hcard
              rw [hres] at this
              simp at this
            · rcases r with e | ⟨states2, resolved2⟩
              · simp
              · simp only
                obtain ⟨l1, -, s1, -, -⟩ := resolveFuel_ok_spec fuel bsms states resolved _ _ _ hres
                have hcard2 : (nonResolving states2).card < fuel := by
                  rw [nonResolving_congr l1 s1]
                  exact hcard
                have := iha states2 resolved2 hcard2
                rcases hrest : resolveArgsFuel bsms fuel rest states2 resolved2 with _ | r2
                · rw [hrest] at this; simp at this
                · rcases r2 with e | ⟨rrest, states3, resolved3⟩ <;> simp
        all_goals
          simp only [resolveArgsFuel]
          have := iha states resolved hcard
          rcases hrest : resolveArgsFuel bsms fuel rest states resolved with _ | r2
          · rw [hrest] at this; simp at this
          · rcases r2 with e | ⟨rrest, states2, resolved2⟩ <;> simp
    intro bsms states resolved i hcard
    rw [resolveFuel]
    rcases hst : states.getD i .Resolved with _ | _ | _
    case Resolved => simp
    case Resolving => simp
    case Unresolved =>
      simp only
      obtain ⟨hilt, hival⟩ := getD_unresolved hst
      have hmem : i ∈ nonResolving states := by
        rw [mem_nonResolving]
        exact ⟨hilt, by rw [hival]; simp⟩
      have hcard1 : (nonResolving (states.set i .Resolving)).card < fuel := by
        rw [nonResolving_set_resolving hilt, Finset.card_erase_of_mem hmem]
        have hpos : 0 < (nonResolving states).card := Finset.card_pos.mpr ⟨i, hmem⟩
        omega
      have := argsTotal bsms (bsms.getD i dummyUnresolvedBsm).args
        (states.set i .Resolving) resolved hcard1
      rcases hargs : resolveArgsFuel bsms fuel (bsms.getD i dummyUnresolvedBsm).args
          (states.set i .Resolving) resolved with _ | r
      · rw [hargs] at this; simp at this
      · rcases r with e | ⟨rargs, states2, resolved2⟩ <;> simp

/-- A circular-dependency failure of resolve exhibits a cycle in the
reference graph: the Resolving indices form a chain of references ending at
the current target, so re-entering one closes a cycle. -/
theorem resolveFuel_circ :
    ∀ (fuel : Nat) (bsms : List UnresolvedBsm) (states : List ResolvedState)
      (resolved : List BootstrapMethod) (i : Nat),
      states.length = bsms.length →
      (∀ k : Nat, states[k]? = some ResolvedState.Resolving →
        Relation.TransGen (Refs bsms) k i) →
      resolveFuel bsms fuel states resolved i =
        some (.error .BootstrapMethodCircularDependency) →
      ∃ m, Relation.TransGen (Refs bsms) m m := by
  intro fuel
  induction fuel with
  | zero => intro bsms states resolved i hlen hinv h; simp [resolveFuel] at h
  | succ fuel ih =>
    have argsCirc : ∀ (bsms : List UnresolvedBsm) (args : List UnresolvedBsmArg)
        (states : List ResolvedState) (resolved : List BootstrapMethod) (i : Nat),
        states.length = bsms.length →
        i < bsms.length →
        (∀ a ∈ args, a ∈ (bsms.getD i dummyUnresolvedBsm).args) →
        (∀ k : Nat, states[k]? = some ResolvedState.Resolving →
          k = i ∨ Relation.TransGen (Refs bsms) k i) →
        resolveArgsFuel bsms fuel args states resolved =
          some (.error .BootstrapMethodCircularDependency) →
        ∃ m, Relation.TransGen (Refs bsms) m m := by
      intro bsms args
      induction args with
      | nil => intro states resolved i hlen hi hsub hinv h; simp [resolveArgsFuel] at h
      | cons a rest iha =>
        intro states resolved i hlen hi hsub hinv h
        have hrefs : ∀ j, argRef a = some j → Refs bsms i j := by
          intro j hj
          refine ⟨bsms.getD i dummyUnresolvedBsm, ?_, a, hsub a (by simp), hj⟩
          rw [List.getD_eq_getElem?_getD, List.getElem?_eq_getElem hi]
          rfl
        rcases a with v | v | v | v | v | v | v | d
        case ConstantDynamic =>
          simp only [resolveArgsFuel] at h
          by_cases hge : d.bootstrapMethodAttrIndex ≥ bsms.length
          · simp [hge] at h
          · simp only [if_neg hge] at h
            rcases hres : resolveFuel bsms fuel states resolved d.bootstrapMethodAttrIndex with
              _ | r
            · rw [hres] at h; exact absurd h (by simp)
            · rw [hres] at h
              rcases r with e | ⟨states2, resolved2⟩
              · simp at h
                subst h
                refine ih bsms states resolved d.bootstrapMethodAttrIndex hlen ?_ hres
                intro k hk
                rcases hinv k hk with rfl | htg
                · exact Relation.TransGen.single
                    (hrefs d.bootstrapMethodAttrIndex rfl)
                · exact htg.tail (hrefs d.bootstrapMethodAttrIndex rfl)
              · simp only at h
                rcases hrest : resolveArgsFuel bsms fuel rest states2 resolved2 with _ | r2
                · rw [hrest] at h; exact absurd h (by simp)
                · rw [hrest] at h
                  rcases r2 with e | ⟨rrest, states3, resolved3⟩
                  · simp at h
                    subst h
                    obtain ⟨l1, -, s1, -, -⟩ :=
                      resolveFuel_ok_spec fuel bsms states resolved _ _ _ hres
                    refine iha states2 resolved2 i (l1.trans hlen) hi
                      (fun a ha => hsub a (by simp [ha])) ?_ hrest
                    intro k hk
                    exact hinv k ((s1 k).mp hk)
                  · simp at h
        all_goals
          simp only [resolveArgsFuel] at h
          rcases hrest : resolveArgsFuel bsms fuel rest states resolved with _ | r2
          · rw [hrest] at h; exact absurd h (by simp)
          · rw [hrest] at h
            rcases r2 with e | ⟨rrest, states2, resolved2⟩
            · simp at h
              subst h
              exact iha states resolved i hlen hi (fun a ha => hsub a (by simp [ha])) hinv hrest
            · simp at h
    intro bsms states resolved i hlen hinv h
    rw [resolveFuel] at h
    rcases hst : states.getD i .Resolved with _ | _ | _
    case Resolved => rw [hst] at h; simp at h
    case Resolving =>
      exact ⟨i, hinv i (getD_resolving hst)⟩
    case Unresolved =>
      rw [hst] at h
      simp only at h
      obtain ⟨hilt, hival⟩ := getD_unresolved hst
      rcases hargs : resolveArgsFuel bsms fuel (bsms.getD i dummyUnresolvedBsm).args
          (states.set i .Resolving) resolved with _ | r
      · rw [hargs] at h; exact absurd h (by simp)
      · rw [hargs] at h
        rcases r with e | ⟨rargs, states2, resolved2⟩
        · simp at h
          subst h
          refine argsCirc bsms _ _ _ i (by simp [hlen]) (by omega) (fun a ha => ha) ?_ hargs
          intro k hk
          by_cases hki : k = i
          · exact Or.inl hki
          · rw [List.getElem?_set_ne (fun hexc => hki hexc.symm)] at hk
            exact Or.inr (hinv k hk)
        · simp at h

/-- Classification of resolve errors: a failure is either the circular
dependency error or an out-of-bounds error whose payload names the table
size and an actual out-of-range constant-dynamic reference. -/
theorem resolveFuel_err :
    ∀ (fuel : Nat) (bsms : List UnresolvedBsm) (states : List ResolvedState)
      (resolved : List BootstrapMethod) (i : Nat) (e : ClassFileError),
      i < bsms.length →
      resolveFuel bsms fuel states resolved i = some (.error e) →
      e = .BootstrapMethodCircularDependency ∨
        ∃ idx, e = .BootstrapMethodOutOfBounds idx bsms.length ∧ bsms.length ≤ idx ∧
          ∃ (i2 : Nat) (b : UnresolvedBsm), bsms[i2]? = some b ∧
            ∃ a ∈ b.args, argRef a = some idx := by
  intro fuel
  induction fuel with
  | zero => intro bsms states resolved i e hi h; simp [resolveFuel] at h
  | succ fuel ih =>
    have argsErr : ∀ (bsms : List UnresolvedBsm) (args : List UnresolvedBsmArg)
        (states : List ResolvedState) (resolved : List BootstrapMethod) (e : ClassFileError),
        (∀ a ∈ args, ∃ (i2 : Nat) (b : UnresolvedBsm), bsms[i2]? = some b ∧ a ∈ b.args) →
        resolveArgsFuel bsms fuel args states resolved = some (.error e) →
        e = .BootstrapMethodCircularDependency ∨
          ∃ idx, e = .BootstrapMethodOutOfBounds idx bsms.length ∧ bsms.length ≤ idx ∧
            ∃ (i2 : Nat) (b : UnresolvedBsm), bsms[i2]? = some b ∧
              ∃ a ∈ b.args, argRef a = some idx := by
      intro bsms args
      induction args with
      | nil => intro states resolved e hattr h; simp [resolveArgsFuel] at h
      | cons a rest iha =>
        intro states resolved e hattr h
        rcases a with v | v | v | v | v | v | v | d
        case ConstantDynamic =>
          simp only [resolveArgsFuel] at h
          by_cases hge : d.bootstrapMethodAttrIndex ≥ bsms.length
          · simp [hge] at h
            subst h
            refine Or.inr ⟨d.bootstrapMethodAttrIndex, rfl, hge, ?_⟩
            obtain ⟨i2, b, hb, hmem⟩ := hattr (.ConstantDynamic d) (by simp)
            exact ⟨i2, b, hb, .ConstantDynamic d, hmem, rfl⟩
          · simp only [if_neg hge] at h
            rcases hres : resolveFuel bsms fuel states resolved d.bootstrapMethodAttrIndex with
              _ | r
            · rw [hres] at h; exact absurd h (by simp)
            · rw [hres] at h
              rcases r with e2 | ⟨states2, resolved2⟩
              · simp at h
                subst h
                exact ih bsms states resolved d.bootstrapMethodAttrIndex e2 (by omega) hres
              · simp only at h
                rcases hrest : resolveArgsFuel bsms fuel rest states2 resolved2 with _ | r2
                · rw [hrest] at h; exact absurd h (by simp)
                · rw [hrest] at h
                  rcases r2 with e2 | ⟨rrest, states3, resolved3⟩
                  · simp at h
                    subst h
                    exact iha states2 resolved2 e2 (fun a ha => hattr a (by simp [ha])) hrest
                  · simp at h
        all_goals
          simp only [resolveArgsFuel] at h
          rcases hrest : resolveArgsFuel bsms fuel rest states resolved with _ | r2
          · rw [hrest] at h; exact absurd h (by simp)
          · rw [hrest] at h
            rcases r2 with e2 | ⟨rrest, states2, resolved2⟩
            · simp at h
              subst h
              exact iha states resolved e2 (fun a ha => hattr a (by simp [ha])) hrest
            · simp at h
    intro bsms states resolved i e hi h
    rw [resolveFuel] at h
    rcases hst : states.getD i .Resolved with _ | _ | _
    case Resolved => rw [hst] at h; simp at h
    case Resolving =>
      rw [hst] at h
      simp at h
      exact Or.inl h.symm
    case Unresolved =>
      rw [hst] at h
      simp only at h
      obtain ⟨hilt, hival⟩ := getD_unresolved hst
      rcases hargs : resolveArgsFuel bsms fuel (bsms.getD i dummyUnresolvedBsm).args
          (states.set i .Resolving) resolved with _ | r
      · rw [hargs] at h; exact absurd h (by simp)
      · rw [hargs] at h
        rcases r with e2 | ⟨rargs, states2, resolved2⟩
        · simp at h
          subst h
          refine argsErr bsms _ _ _ e2 ?_ hargs
          intro a ha
          refine ⟨i, bsms.getD i dummyUnresolvedBsm, ?_, ha⟩
          rw [List.getD_eq_getElem?_getD, List.getElem?_eq_getElem hi]
          rfl
        · simp at h

/-- The successor relation of the reference graph, oriented so that
accessibility of an index means all its reference descendants terminate. -/
def Succ (bsms : List UnresolvedBsm) (j i : Nat) : Prop := Refs bsms i j

/-- An index is good when it is accessible in the reference graph and all
its constant-dynamic references are in bounds. -/
def GoodIdx (bsms : List UnresolvedBsm) (i : Nat) : Prop :=
  Acc (Succ bsms) i ∧
    ∀ b : UnresolvedBsm, bsms[i]? = some b →
      ∀ a ∈ b.args, ∀ j : Nat, argRef a = some j → j < bsms.length

/-- Every Resolved index is good. -/
def ResolvedGood (bsms : List UnresolvedBsm) (states : List ResolvedState) : Prop :=
  ∀ k : Nat, states[k]? = some ResolvedState.Resolved → GoodIdx bsms k

/-- A successful resolve call only resolves good indices: the target is
accessible with in-bounds references, and the Resolved set stays good. -/
theorem resolveFuel_good :
    ∀ (fuel : Nat) (bsms : List UnresolvedBsm) (states : List ResolvedState)
      (resolved : List BootstrapMethod) (i : Nat) st2 res2,
      states.length = bsms.length →
      ResolvedGood bsms states →
      resolveFuel bsms fuel states resolved i = some (.ok (st2, res2)) →
      ResolvedGood bsms st2 ∧ (i < bsms.length → GoodIdx bsms i) := by
  intro fuel
  induction fuel with
  | zero => intro bsms states resolved i st2 res2 hlen hgood h; simp [resolveFuel] at h
  | succ fuel ih =>
    have argsGood : ∀ (bsms : List UnresolvedBsm) (args : List UnresolvedBsmArg)
        (states : List ResolvedState) (resolved : List BootstrapMethod) rargs st2 res2,
        states.length = bsms.length →
        ResolvedGood bsms states →
        resolveArgsFuel bsms fuel args states resolved = some (.ok (rargs, st2, res2)) →
        ResolvedGood bsms st2 ∧
          ∀ a ∈ args, ∀ j : Nat, argRef a = some j →
            j < bsms.length ∧ Acc (Succ bsms) j := by
      intro bsms args
      induction args with
      | nil =>
        intro states resolved rargs st2 res2 hlen hgood h
        simp [resolveArgsFuel] at h
        obtain ⟨-, h2, h3⟩ := h
        subst h2; subst h3
        exact ⟨hgood, by simp⟩
      | cons a rest iha =>
        intro states resolved rargs st2 res2 hlen hgood h
        rcases a with v | v | v | v | v | v | v | d
        case ConstantDynamic =>
          simp only [resolveArgsFuel] at h
          by_cases hge : d.bootstrapMethodAttrIndex ≥ bsms.length
          · simp [hge] at h
          · simp only [if_neg hge] at h
            rcases hres : resolveFuel bsms fuel states resolved d.bootstrapMethodAttrIndex with
              _ | r
            · rw [hres] at h; exact absurd h (by simp)
            · rw [hres] at h
              rcases r with e | ⟨states2, resolved2⟩
              · simp at h
              · simp only at h
                rcases hrest : resolveArgsFuel bsms fuel rest states2 resolved2 with _ | r2
                · rw [hrest] at h; exact absurd h (by simp)
                · rw [hrest] at h
                  rcases r2 with e | ⟨rrest, states3, resolved3⟩
                  · simp at h
                  · simp only [Option.some.injEq, Except.ok.injEq, Prod.mk.injEq] at h
                    obtain ⟨-, h2, h3⟩ := h
                    subst h2; subst h3
                    obtain ⟨l1, -, -, -, -⟩ :=
                      resolveFuel_ok_spec fuel bsms states resolved _ _ _ hres
                    obtain ⟨hgood2, hacc⟩ :=
                      ih bsms states resolved d.bootstrapMethodAttrIndex _ _ hlen hgood hres
                    obtain ⟨hgood3, hrestGood⟩ :=
                      iha states2 resolved2 _ _ _ (l1.trans hlen) hgood2 hrest
                    refine ⟨hgood3, ?_⟩
                    intro a ha j hj
                    rcases List.mem_cons.mp ha with rfl | hmem
                    · simp [argRef] at hj
                      subst hj
                      exact ⟨by omega, (hacc (by omega)).1⟩
                    · exact hrestGood a hmem j hj
        all_goals
          simp only [resolveArgsFuel] at h
          rcases hrest : resolveArgsFuel bsms fuel rest states resolved with _ | r2
          · rw [hrest] at h; exact absurd h (by simp)
          · rw [hrest] at h
            rcases r2 with e | ⟨rrest, states2, resolved2⟩
            · simp at h
            · simp only [Option.some.injEq, Except.ok.injEq, Prod.mk.injEq] at h
              obtain ⟨-, h2, h3⟩ := h
              subst h2; subst h3
              obtain ⟨hgood2, hrestGood⟩ := iha states resolved _ _ _ hlen hgood hrest
              refine ⟨hgood2, ?_⟩
              intro a ha j hj
              rcases List.mem_cons.mp ha with rfl | hmem
              · simp [argRef] at hj
              · exact hrestGood a hmem j hj
    intro bsms states resolved i st2 res2 hlen hgood h
    have horig := h
    rw [resolveFuel] at h
    rcases hst : states.getD i .Resolved with _ | _ | _
    case Resolved =>
      rw [hst] at h
      simp only [Option.some.injEq, Except.ok.injEq, Prod.mk.injEq] at h
      obtain ⟨h1, h2⟩ := h
      subst h1; subst h2
      refine ⟨hgood, fun hi => ?_⟩
      refine hgood i ?_
      rw [List.getD_eq_getElem?_getD, List.getElem?_eq_getElem (by omega)] at hst
      simp at hst
      rw [List.getElem?_eq_getElem (by omega), hst]
    case Resolving => rw [hst] at h; simp at h
    case Unresolved =>
      rw [hst] at h
      simp only at h
      obtain ⟨hilt, hival⟩ := getD_unresolved hst
      rcases hargs : resolveArgsFuel bsms fuel (bsms.getD i dummyUnresolvedBsm).args
          (states.set i .Resolving) resolved with _ | r
      · rw [hargs] at h; exact absurd h (by simp)
      · rw [hargs] at h
        rcases r with e | ⟨rargs, states2, resolved2⟩
        · simp at h
        · simp only [Option.some.injEq, Except.ok.injEq, Prod.mk.injEq] at h
          obtain ⟨h1, h2⟩ := h
          subst h1; subst h2
          have hgood1 : ResolvedGood bsms (states.set i .Resolving) := by
            intro k hk
            by_cases hki : k = i
            · subst hki
              rw [List.getElem?_set_self hilt] at hk
              simp at hk
            · rw [List.getElem?_set_ne (fun hexc => hki hexc.symm)] at hk
              exact hgood k hk
          obtain ⟨hgood2, hargsGood⟩ := argsGood bsms _ _ _ _ _ _
            (by simp [hlen]) hgood1 hargs
          obtain ⟨l1, -, -, -, -⟩ :=
            resolveFuel_ok_spec (fuel + 1) bsms states resolved i _ _ horig
          have hil2 : i < states2.length := by
            simp [List.length_set] at l1
            omega
          have hb : bsms[i]? = some (bsms.getD i dummyUnresolvedBsm) := by
            rw [List.getD_eq_getElem?_getD, List.getElem?_eq_getElem (by omega)]
            rfl
          have hgoodi : GoodIdx bsms i := by
            constructor
            · refine Acc.intro i ?_
              intro j hsucc
              obtain ⟨b, hb2, a, ha, href⟩ := hsucc
              rw [hb] at hb2
              injection hb2 with hb2
              subst hb2
              exact (hargsGood a ha j href).2
            · intro b hb2 a ha j hj
              rw [hb] at hb2
              injection hb2 with hb2
              subst hb2
              exact (hargsGood a ha j hj).1
          refine ⟨?_, fun _ => hgoodi⟩
          intro k hk
          by_cases hki : k = i
          · subst hki
            exact hgoodi
          · rw [List.getElem?_set_ne (fun hexc => hki hexc.symm)] at hk
            exact hgood2 k hk

theorem acc_not_rel_self {α : Sort _} {r : α → α → Prop} {a : α} (h : Acc r a) :
    ¬ r a a := by
  induction h with
  | intro b hb ihb => exact fun hr => ihb b hr hr

theorem acc_no_self_transGen {α : Sort _} {r : α → α → Prop} {a : α} (h : Acc r a) :
    ¬ Relation.TransGen r a a :=
  acc_not_rel_self h.transGen

theorem transGen_first_edge {α : Type _} {r : α → α → Prop} {a b : α}
    (h : Relation.TransGen r a b) : ∃ c, r a c := by
  induction h using Relation.TransGen.head_induction_on with
  | base h => exact ⟨_, h⟩
  | ih h1 h2 ih2 => exact ⟨_, h1⟩

theorem nonResolving_card_le (states : List ResolvedState) :
    (nonResolving states).card ≤ states.length := by
  calc (nonResolving states).card ≤ (Finset.range states.length).card :=
        Finset.card_filter_le _ _
    _ = states.length := Finset.card_range _

/-- The compute loop runs to completion: with enough loop fuel and a state
without Resolving marks, it always returns a result. -/
theorem computeLoop_total :
    ∀ (fuel : Nat) (bsms : List UnresolvedBsm) (i : Nat) (states : List ResolvedState)
      (resolved : List BootstrapMethod),
      states.length = bsms.length →
      (∀ k : Nat, ¬ states[k]? = some ResolvedState.Resolving) →
      i ≤ bsms.length → bsms.length + 1 ≤ i + fuel →
      (computeLoop bsms fuel i states resolved).isSome := by
  intro fuel
  induction fuel with
  | zero => intro bsms i states resolved hlen hnores hile hbound; omega
  | succ fuel ih =>
    intro bsms i states resolved hlen hnores hile hbound
    rw [computeLoop]
    by_cases hi : i < bsms.length
    · simp only [if_pos hi]
      have hcard : (nonResolving states).card < bsms.length + 1 := by
        have := nonResolving_card_le states
        omega
      have htot := resolveFuel_total (bsms.length + 1) bsms states resolved i hcard
      rcases hres : resolveFuel bsms (bsms.length + 1) states resolved i with _ | r
      · rw [hres] at htot; simp at htot
      · rcases r with e | ⟨states2, resolved2⟩
        · simp
        · simp only
          obtain ⟨l1, -, s1, -, -⟩ :=
            resolveFuel_ok_spec (bsms.length + 1) bsms states resolved i _ _ hres
          refine ih bsms (i + 1) states2 resolved2 (l1.trans hlen) ?_ (by omega) (by omega)
          intro k hk
          exact hnores k ((s1 k).mp hk)
    · simp [if_neg hi]

/-- A circular-dependency result of the compute loop exhibits a reference
cycle. -/
theorem computeLoop_circ :
    ∀ (fuel : Nat) (bsms : List UnresolvedBsm) (i : Nat) (states : List ResolvedState)
      (resolved : List BootstrapMethod),
      states.length = bsms.length →
      (∀ k : Nat, ¬ states[k]? = some ResolvedState.Resolving) →
      computeLoop bsms fuel i states resolved =
        some (.error .BootstrapMethodCircularDependency) →
      ∃ m, Relation.TransGen (Refs bsms) m m := by
  intro fuel
  induction fuel with
  | zero => intro bsms i states resolved hlen hnores h; simp [computeLoop] at h
  | succ fuel ih =>
    intro bsms i states resolved hlen hnores h
    rw [computeLoop] at h
    by_cases hi : i < bsms.length
    · simp only [if_pos hi] at h
      rcases hres : resolveFuel bsms (bsms.length + 1) states resolved i with _ | r
      · rw [hres] at h; exact absurd h (by simp)
      · rw [hres] at h
        rcases r with e | ⟨states2, resolved2⟩
        · simp at h
          subst h
          exact resolveFuel_circ (bsms.length + 1) bsms states resolved i hlen
            (fun k hk => absurd hk (hnores k)) hres
        · simp only at h
          obtain ⟨l1, -, s1, -, -⟩ :=
            resolveFuel_ok_spec (bsms.length + 1) bsms states resolved i _ _ hres
          exact ih bsms (i + 1) states2 resolved2 (l1.trans hlen)
            (fun k hk => hnores k ((s1 k).mp hk)) h
    · simp [if_neg hi] at h

/-- Error classification for the compute loop. -/
theorem computeLoop_err :
    ∀ (fuel : Nat) (bsms : List UnresolvedBsm) (i : Nat) (states : List ResolvedState)
      (resolved : List BootstrapMethod) (e : ClassFileError),
      computeLoop bsms fuel i states resolved = some (.error e) →
      e = .BootstrapMethodCircularDependency ∨
        ∃ idx, e = .BootstrapMethodOutOfBounds idx bsms.length ∧ bsms.length ≤ idx ∧
          ∃ (i2 : Nat) (b : UnresolvedBsm), bsms[i2]? = some b ∧
            ∃ a ∈ b.args, argRef a = some idx := by
  intro fuel
  induction fuel with
  | zero => intro bsms i states resolved e h; simp [computeLoop] at h
  | succ fuel ih =>
    intro bsms i states resolved e h
    rw [computeLoop] at h
    by_cases hi : i < bsms.length
    · simp only [if_pos hi] at h
      rcases hres : resolveFuel bsms (bsms.length + 1) states resolved i with _ | r
      · rw [hres] at h; exact absurd h (by simp)
      · rw [hres] at h
        rcases r with e2 | ⟨states2, resolved2⟩
        · simp at h
          subst h
          exact resolveFuel_err (bsms.length + 1) bsms states resolved i e2 hi hres
        · simp only at h
          exact ih bsms (i + 1) states2 resolved2 e h
    · simp [if_neg hi] at h

/-- A fully successful compute loop certifies every index good. -/
theorem computeLoop_good :
    ∀ (fuel : Nat) (bsms : List UnresolvedBsm) (i : Nat) (states : List ResolvedState)
      (resolved : List BootstrapMethod) (res : List BootstrapMethod),
      states.length = bsms.length →
      ResolvedGood bsms states →
      (∀ k : Nat, k < i → GoodIdx bsms k) →
      computeLoop bsms fuel i states resolved = some (.ok res) →
      ∀ k : Nat, k < bsms.length → GoodIdx bsms k := by
  intro fuel
  induction fuel with
  | zero => intro bsms i states resolved res hlen hgood hbelow h; simp [computeLoop] at h
  | succ fuel ih =>
    intro bsms i states resolved res hlen hgood hbelow h
    rw [computeLoop] at h
    by_cases hi : i < bsms.length
    · simp only [if_pos hi] at h
      rcases hres : resolveFuel bsms (bsms.length + 1) states resolved i with _ | r
      · rw [hres] at h; exact absurd h (by simp)
      · rw [hres] at h
        rcases r with e | ⟨states2, resolved2⟩
        · simp at h
        · simp only at h
          obtain ⟨l1, -, -, -, -⟩ :=
            resolveFuel_ok_spec (bsms.length + 1) bsms states resolved i _ _ hres
          obtain ⟨hgood2, hgi⟩ :=
            resolveFuel_good (bsms.length + 1) bsms states resolved i _ _ hlen hgood hres
          refine ih bsms (i + 1) states2 resolved2 res (l1.trans hlen) hgood2 ?_ h
          intro k hk
          rcases Nat.lt_succ_iff_lt_or_eq.mp hk with hk2 | rfl
          · exact hbelow k hk2
          · exact hgi hi
    · simp only [if_neg hi] at h
      intro k hk
      exact hbelow k (by omega)

theorem replicate_no_resolving (n : Nat) :
    ∀ k : Nat, ¬ (List.replicate n ResolvedState.Unresolved)[k]? =
      some ResolvedState.Resolving := by
  intro k
  rw [List.getElem?_replicate]
  split <;> simp

/-- Termination of the resolution phase on every input. -/
theorem resolveAll_isSome (bsms : List UnresolvedBsm) : (resolveAll bsms).isSome := by
  refine computeLoop_total (bsms.length + 1) bsms 0 _ _ (by simp) ?_ (by omega) (by omega)
  exact replicate_no_resolving bsms.length

/-- With in-bounds references and an acyclic graph, resolution succeeds. -/
theorem resolveAll_ok_of_acyclic (bsms : List UnresolvedBsm) (hin : RefsInBounds bsms)
    (hacyc : Acyclic bsms) : ∃ res, resolveAll bsms = some (.ok res) := by
  obtain ⟨r, hr⟩ := Option.isSome_iff_exists.mp (resolveAll_isSome bsms)
  rcases r with e | res
  · rcases computeLoop_err _ _ _ _ _ _ hr with rfl | ⟨idx, rfl, hge, i2, b, hb, a, ha, href⟩
    · obtain ⟨m, hm⟩ := computeLoop_circ _ _ _ _ _ (by simp)
        (replicate_no_resolving bsms.length) hr
      exact absurd hm (hacyc m)
    · have := hin i2 b hb a ha idx href
      omega
  · exact ⟨res, hr⟩

/-- With in-bounds references, any reference cycle makes resolution fail
with the circular-dependency error. -/
theorem resolveAll_circ_of_cycle (bsms : List UnresolvedBsm) (hin : RefsInBounds bsms)
    (m : Nat) (hcyc : Relation.TransGen (Refs bsms) m m) :
    resolveAll bsms = some (.error .BootstrapMethodCircularDependency) := by
  obtain ⟨r, hr⟩ := Option.isSome_iff_exists.mp (resolveAll_isSome bsms)
  rcases r with e | res
  · rcases computeLoop_err _ _ _ _ _ _ hr with rfl | ⟨idx, rfl, hge, i2, b, hb, a, ha, href⟩
    · exact hr
    · have := hin i2 b hb a ha idx href
      omega
  · exfalso
    have hmlt : m < bsms.length := by
      obtain ⟨c, b, hb, -⟩ := transGen_first_edge hcyc
      exact (List.getElem?_eq_some.mp hb).1
    have hgood := computeLoop_good _ _ _ _ _ _ (by simp)
      (fun k hk => by
        rw [List.getElem?_replicate] at hk
        split at hk <;> simp at hk)
      (fun k hk => by omega) hr m hmlt
    have hsucc : Relation.TransGen (Succ bsms) m m :=
      (Relation.transGen_swap (r := Refs bsms)).mpr hcyc
    exact acc_no_self_transGen hgood.1 hsucc

/-- With an acyclic graph, any out-of-bounds reference makes resolution fail
with an out-of-bounds error naming the table size and an actual
out-of-range reference. -/
theorem resolveAll_oob_of_acyclic (bsms : List UnresolvedBsm) (hacyc : Acyclic bsms)
    (i : Nat) (b : UnresolvedBsm) (a : UnresolvedBsmArg) (j : Nat)
    (hb : bsms[i]? = some b) (ha : a ∈ b.args) (href : argRef a = some j)
    (hge : bsms.length ≤ j) :
    ∃ idx, resolveAll bsms = some (.error (.BootstrapMethodOutOfBounds idx bsms.length)) ∧
      bsms.length ≤ idx ∧ ∃ (i2 : Nat) (b2 : UnresolvedBsm), bsms[i2]? = some b2 ∧
        ∃ a2 ∈ b2.args, argRef a2 = some idx := by
  obtain ⟨r, hr⟩ := Option.isSome_iff_exists.mp (resolveAll_isSome bsms)
  rcases r with e | res
  · rcases computeLoop_err _ _ _ _ _ _ hr with rfl | ⟨idx, rfl, hge2, i2, b2, hb2, a2, ha2, href2⟩
    · obtain ⟨m, hm⟩ := computeLoop_circ _ _ _ _ _ (by simp)
        (replicate_no_resolving bsms.length) hr
      exact absurd hm (hacyc m)
    · exact ⟨idx, hr, hge2, i2, b2, hb2, a2, ha2, href2⟩
  · exfalso
    have hilt : i < bsms.length := (List.getElem?_eq_some.mp hb).1
    have hgood := computeLoop_good _ _ _ _ _ _ (by simp)
      (fun k hk => by
        rw [List.getElem?_replicate] at hk
        split at hk <;> simp at hk)
      (fun k hk => by omega) hr i hilt
    have := hgood.2 b hb a ha j href
    omega

/-! ### Claim C3 -/

/-- A plain invoke-static handle used by the concrete bootstrap tables. -/
def c3Handle : Handle :=
  { kind := .InvokeStatic, owner := [], name := [], desc := [], isInterface := false }

/-- One bootstrap method whose first argument closes a self cycle and whose
second argument references the out-of-range index 5. -/
def c3MixedBsms : List UnresolvedBsm :=
  [{ handle := c3Handle,
     args := [.ConstantDynamic { bootstrapMethodAttrIndex := 0, name := [], desc := [] },
              .ConstantDynamic { bootstrapMethodAttrIndex := 5, name := [], desc := [] }] }]

/-- A one-entry table with no constant-dynamic references at all. -/
def c3AcyclicBsms : List UnresolvedBsm :=
  [{ handle := c3Handle, args := [.Integer 7] }]

/-- A one-entry table whose single argument references itself. -/
def c3CycleBsms : List UnresolvedBsm :=
  [{ handle := c3Handle,
     args := [.ConstantDynamic { bootstrapMethodAttrIndex := 0, name := [], desc := [] }] }]

/-- A one-entry table whose single argument references the out-of-range
index 5. -/
def c3OobBsms : List UnresolvedBsm :=
  [{ handle := c3Handle,
     args := [.ConstantDynamic { bootstrapMethodAttrIndex := 5, name := [], desc := [] }] }]

/-- C3 counterexample: on a table whose bootstrap method both closes a
reference cycle and references an out-of-bounds index, resolution reaches
the cycle first and fails with BootstrapMethodCircularDependency, not with
BootstrapMethodOutOfBounds as the claim's unqualified out-of-bounds clause
demands for every input containing such a reference. -/
theorem C3_counterexample :
    (c3MixedBsms.getD 0 dummyUnresolvedBsm).args.getD 1 (.Integer 0) =
      .ConstantDynamic { bootstrapMethodAttrIndex := 5, name := [], desc := [] } ∧
    c3MixedBsms.length ≤ 5 ∧
    resolveAll c3MixedBsms = some (.error .BootstrapMethodCircularDependency) ∧
    ¬ resolveAll c3MixedBsms = some (.error (.BootstrapMethodOutOfBounds 5 c3MixedBsms.length)) := by
  have hres : resolveAll c3MixedBsms = some (.error .BootstrapMethodCircularDependency) := by
    simp [resolveAll, c3MixedBsms, computeLoop, resolveFuel, resolveArgsFuel]
  refine ⟨of_decide_eq_true rfl, of_decide_eq_true rfl, hres, ?_⟩
  rw [hres]
  simp

/-- C3 (amended): bootstrap-method resolution terminates on every input;
with in-bounds references it succeeds on every acyclic input and fails with
BootstrapMethodCircularDependency on every input with a reference cycle;
and on every acyclic input containing an out-of-bounds constant-dynamic
reference it fails with BootstrapMethodOutOfBounds whose len is the table
size and whose index is an actual out-of-range reference. -/
theorem C3_bootstrap_resolution :
    (∀ bsms : List UnresolvedBsm, (resolveAll bsms).isSome) ∧
    (∀ bsms : List UnresolvedBsm, RefsInBounds bsms → Acyclic bsms →
      ∃ res, resolveAll bsms = some (.ok res)) ∧
    (∀ (bsms : List UnresolvedBsm) (m : Nat), RefsInBounds bsms →
      Relation.TransGen (Refs bsms) m m →
      resolveAll bsms = some (.error .BootstrapMethodCircularDependency)) ∧
    (∀ (bsms : List UnresolvedBsm) (i j : Nat) (b : UnresolvedBsm) (a : UnresolvedBsmArg),
      Acyclic bsms → bsms[i]? = some b → a ∈ b.args → argRef a = some j →
      bsms.length ≤ j →
      ∃ idx, resolveAll bsms = some (.error (.BootstrapMethodOutOfBounds idx bsms.length)) ∧
        bsms.length ≤ idx ∧ ∃ (i2 : Nat) (b2 : UnresolvedBsm), bsms[i2]? = some b2 ∧
          ∃ a2 ∈ b2.args, argRef a2 = some idx) := by
  refine ⟨resolveAll_isSome, resolveAll_ok_of_acyclic, ?_, ?_⟩
  · intro bsms m hin hcyc
    exact resolveAll_circ_of_cycle bsms hin m hcyc
  · intro bsms i j b a hacyc hb ha href hge
    exact resolveAll_oob_of_acyclic bsms hacyc i b a j hb ha href hge

/-- Witness for C3: the amended theorem applied to concrete one-entry
tables (no references, a self cycle, an out-of-range reference). -/
theorem C3_witness :
    (resolveAll c3CycleBsms).isSome ∧
    (∃ res, resolveAll c3AcyclicBsms = some (.ok res)) ∧
    resolveAll c3CycleBsms = some (.error .BootstrapMethodCircularDependency) ∧
    (∃ idx, resolveAll c3OobBsms = some (.error (.BootstrapMethodOutOfBounds idx 1)) ∧
      1 ≤ idx ∧ ∃ (i2 : Nat) (b2 : UnresolvedBsm), c3OobBsms[i2]? = some b2 ∧
        ∃ a2 ∈ b2.args, argRef a2 = some idx) := by
  have hnoedge : ∀ x y : Nat, ¬ Refs c3AcyclicBsms x y := by
    intro x y ⟨b, hb, a, ha, href⟩
    rcases x with _ | x
    · simp [c3AcyclicBsms] at hb
      subst hb
      simp at ha
      subst ha
      simp [argRef] at href
    · simp [c3AcyclicBsms] at hb
  have hacyc1 : Acyclic c3AcyclicBsms := by
    intro m hm
    obtain ⟨c, hc⟩ := transGen_first_edge hm
    exact hnoedge m c hc
  have hin1 : RefsInBounds c3AcyclicBsms := by
    intro i b hb a ha j hj
    rcases i with _ | i
    · simp [c3AcyclicBsms] at hb
      subst hb
      simp at ha
      subst ha
      simp [argRef] at hj
    · simp [c3AcyclicBsms] at hb
  have hin2 : RefsInBounds c3CycleBsms := by
    intro i b hb a ha j hj
    rcases i with _ | i
    · simp [c3CycleBsms] at hb
      subst hb
      simp at ha
      subst ha
      simp [argRef] at hj
      subst hj
      simp [c3CycleBsms]
    · simp [c3CycleBsms] at hb
  have hcyc2 : Relation.TransGen (Refs c3CycleBsms) 0 0 :=
    Relation.TransGen.single
      ⟨{ handle := c3Handle,
         args := [.ConstantDynamic { bootstrapMethodAttrIndex := 0, name := [], desc := [] }] },
       rfl,
       .ConstantDynamic { bootstrapMethodAttrIndex := 0, name := [], desc := [] },
       by simp, rfl⟩
  have hfrom3 : ∀ x y : Nat, Refs c3OobBsms x y → x = 0 ∧ y = 5 := by
    intro x y ⟨b, hb, a, ha, href⟩
    rcases x with _ | x
    · simp [c3OobBsms] at hb
      subst hb
      simp at ha
      subst ha
      simp [argRef] at href
      exact ⟨rfl, href.symm⟩
    · simp [c3OobBsms] at hb
  have hacyc3 : Acyclic c3OobBsms := by
    intro m hm
    cases hm with
    | single h => obtain ⟨h1, h2⟩ := hfrom3 m m h; omega
    | tail h1 h2 =>
      obtain ⟨h3, h4⟩ := hfrom3 _ m h2
      obtain ⟨c, hc⟩ := transGen_first_edge h1
      obtain ⟨h5, h6⟩ := hfrom3 m c hc
      omega
  refine ⟨C3_bootstrap_resolution.1 c3CycleBsms,
    C3_bootstrap_resolution.2.1 c3AcyclicBsms hin1 hacyc1,
    C3_bootstrap_resolution.2.2.1 c3CycleBsms 0 hin2 hcyc2, ?_⟩
  have h4 := C3_bootstrap_resolution.2.2.2 c3OobBsms 0 5
    { handle := c3Handle,
      args := [.ConstantDynamic { bootstrapMethodAttrIndex := 5, name := [], desc := [] }] }
    (.ConstantDynamic { bootstrapMethodAttrIndex := 5, name := [], desc := [] })
    hacyc3 (by simp [c3OobBsms]) (by simp) rfl (by simp [c3OobBsms])
  simpa [c3OobBsms] using h4

/-! ### Claim C4 -/

theorem fromU8_long_iff {v : Nat} {t : ConstantPoolTag}
    (h : ConstantPoolTag.fromU8 v = .ok t) : t = .Long ↔ v = 5 := by
  unfold ConstantPoolTag.fromU8 at h
  split at h <;>
    first
    | (injection h with h; subst h; simp)
    | (exact absurd h (by simp))

theorem fromU8_double_iff {v : Nat} {t : ConstantPoolTag}
    (h : ConstantPoolTag.fromU8 v = .ok t) : t = .Double ↔ v = 6 := by
  unfold ConstantPoolTag.fromU8 at h
  split at h <;>
    first
    | (injection h with h; subst h; simp)
    | (exact absurd h (by simp))

/-- Invariant of the constant-pool build loop: whenever a slot holds a
nonzero offset whose tag byte is Long (5) or Double (6), the following
slot within the pool is left at zero (a hole). -/
theorem buildLoop_spec :
    ∀ (fuel : Nat) (buffer : ClassBuffer) (count : Nat) (i cur : Nat) (offs : List Nat)
      (offs2 : List Nat) (cur2 : Nat),
      ConstantPool.buildLoop buffer count fuel i cur offs = .ok (offs2, cur2) →
      offs.length = count →
      count ≤ i + fuel →
      (∀ k off : Nat, i ≤ k → offs[k]? = some off → off = 0) →
      (∀ off : Nat, 1 ≤ i → offs[i - 1]? = some off → off ≠ 0 →
        ¬ (buffer.readU8 off = .ok 5 ∨ buffer.readU8 off = .ok 6)) →
      (∀ k off : Nat, offs[k]? = some off → off ≠ 0 →
        (buffer.readU8 off = .ok 5 ∨ buffer.readU8 off = .ok 6) →
        k + 1 < i → k + 1 < count → offs[k + 1]? = some 0) →
      offs2.length = count ∧
      (∀ k : Nat, k < i → offs2[k]? = offs[k]?) ∧
      (∀ k off : Nat, offs2[k]? = some off → off ≠ 0 →
        (buffer.readU8 off = .ok 5 ∨ buffer.readU8 off = .ok 6) →
        k + 1 < count → offs2[k + 1]? = some 0) := by
  intro fuel
  induction fuel with
  | zero =>
    intro buffer count i cur offs offs2 cur2 h hlen hbound hA hC hB
    simp [ConstantPool.buildLoop] at h
    obtain ⟨h1, -⟩ := h
    subst h1
    exact ⟨hlen, fun k _ => rfl, fun k off h1 h2 h3 h4 => hB k off h1 h2 h3 (by omega) h4⟩
  | succ fuel ih =>
    intro buffer count i cur offs offs2 cur2 h hlen hbound hA hC hB
    rw [ConstantPool.buildLoop] at h
    by_cases hi : i < count
    · simp only [if_pos hi] at h
      have hilen : i < offs.length := by omega
      rcases h8 : buffer.readU8 cur with e | v
      · rw [h8] at h; simp [bind, Except.bind] at h
      · rw [h8] at h
        simp only [bind, Except.bind] at h
        rcases ht : ConstantPoolTag.fromU8 v with e | tag
        · rw [ht] at h; simp at h
        · rw [ht] at h
          simp only at h
          -- shared facts about the state after writing slot i
          have hlen1 : (offs.set i cur).length = count := by
            rw [List.length_set]; exact hlen
          have hA1 : ∀ k off : Nat, i + 1 ≤ k → (offs.set i cur)[k]? = some off → off = 0 := by
            intro k off hk hoff
            rw [List.getElem?_set_ne (by omega)] at hoff
            exact hA k off (by omega) hoff
          have hgetset : (offs.set i cur)[i]? = some cur := List.getElem?_set_self hilen
          have hB1 : ∀ k off : Nat, (offs.set i cur)[k]? = some off → off ≠ 0 →
              (buffer.readU8 off = .ok 5 ∨ buffer.readU8 off = .ok 6) →
              k + 1 < i + 1 → k + 1 < count → (offs.set i cur)[k + 1]? = some 0 := by
            intro k off h1 h2 h3 h4 h5
            have hki : k < i := by omega
            rw [List.getElem?_set_ne (by omega)] at h1
            by_cases hk1 : k + 1 < i
            · rw [List.getElem?_set_ne (by omega)]
              exact hB k off h1 h2 h3 hk1 h5
            · -- k + 1 = i: the previous written slot is never Long or Double
              have hk1i : k + 1 = i := by omega
              exfalso
              refine hC off (by omega) ?_ h2 h3
              rw [show i - 1 = k by omega]
              exact h1
          -- the hole slot after a Long or Double entry stays zero
          have hhole : i + 1 < count → (offs.set i cur)[i + 1]? = some 0 := by
            intro hlt
            rw [List.getElem?_set_ne (by omega)]
            have : i + 1 < offs.length := by omega
            rcases hv : offs[i + 1]? with _ | v2
            · rw [List.getElem?_eq_none_iff] at hv; omega
            · rw [hA (i + 1) v2 (by omega) hv]
          -- continuation for the one-slot entry forms (tag byte not 5 or 6)
          have hnext1 : ∀ cur3 : Nat, v ≠ 5 → v ≠ 6 →
              ConstantPool.buildLoop buffer count fuel (i + 1) cur3 (offs.set i cur) =
                .ok (offs2, cur2) →
              offs2.length = count ∧
              (∀ k : Nat, k < i → offs2[k]? = offs[k]?) ∧
              (∀ k off : Nat, offs2[k]? = some off → off ≠ 0 →
                (buffer.readU8 off = .ok 5 ∨ buffer.readU8 off = .ok 6) →
                k + 1 < count → offs2[k + 1]? = some 0) := by
            intro cur3 hv5 hv6 hrec
            have hC1 : ∀ off : Nat, 1 ≤ i + 1 → (offs.set i cur)[i + 1 - 1]? = some off →
                off ≠ 0 → ¬ (buffer.readU8 off = .ok 5 ∨ buffer.readU8 off = .ok 6) := by
              intro off _ hoff hne hlong
              rw [show i + 1 - 1 = i from rfl, hgetset] at hoff
              injection hoff with hoff
              subst hoff
              rcases hlong with h5 | h6
              · rw [h8] at h5; injection h5 with h5; omega
              · rw [h8] at h6; injection h6 with h6; omega
            obtain ⟨l2, hu2, hb2⟩ := ih buffer count (i + 1) cur3 (offs.set i cur) offs2 cur2
              hrec hlen1 (by omega) hA1 hC1 hB1
            refine ⟨l2, ?_, hb2⟩
            intro k hk
            rw [hu2 k (by omega), List.getElem?_set_ne (by omega)]
          -- continuation for Long and Double (tag byte 5 or 6): skip a slot
          have hnext2 : ∀ cur3 : Nat, (v = 5 ∨ v = 6) →
              ConstantPool.buildLoop buffer count fuel (i + 2) cur3 (offs.set i cur) =
                .ok (offs2, cur2) →
              offs2.length = count ∧
              (∀ k : Nat, k < i → offs2[k]? = offs[k]?) ∧
              (∀ k off : Nat, offs2[k]? = some off → off ≠ 0 →
                (buffer.readU8 off = .ok 5 ∨ buffer.readU8 off = .ok 6) →
                k + 1 < count → offs2[k + 1]? = some 0) := by
            intro cur3 hv56 hrec
            have hA2 : ∀ k off : Nat, i + 2 ≤ k → (offs.set i cur)[k]? = some off → off = 0 :=
              fun k off hk hoff => hA1 k off (by omega) hoff
            have hC2 : ∀ off : Nat, 1 ≤ i + 2 → (offs.set i cur)[i + 2 - 1]? = some off →
                off ≠ 0 → ¬ (buffer.readU8 off = .ok 5 ∨ buffer.readU8 off = .ok 6) := by
              intro off _ hoff hne hlong
              rw [show i + 2 - 1 = i + 1 from rfl] at hoff
              rw [List.getElem?_set_ne (by omega)] at hoff
              exact hne (hA (i + 1) off (by omega) hoff)
            have hB2 : ∀ k off : Nat, (offs.set i cur)[k]? = some off → off ≠ 0 →
                (buffer.readU8 off = .ok 5 ∨ buffer.readU8 off = .ok 6) →
                k + 1 < i + 2 → k + 1 < count → (offs.set i cur)[k + 1]? = some 0 := by
              intro k off h1 h2 h3 h4 h5
              by_cases hk1 : k + 1 < i + 1
              · exact hB1 k off h1 h2 h3 hk1 h5
              · have hki : k = i := by omega
                subst hki
                exact hhole h5
            obtain ⟨l2, hu2, hb2⟩ := ih buffer count (i + 2) cur3 (offs.set i cur) offs2 cur2
              hrec hlen1 (by omega) hA2 hC2 hB2
            refine ⟨l2, ?_, hb2⟩
            intro k hk
            rw [hu2 k (by omega), List.getElem?_set_ne (by omega)]
          cases tag with
          | Class => exact hnext1 _ (fun hh => absurd ((fromU8_long_iff ht).mpr hh) (by simp)) (fun hh => absurd ((fromU8_double_iff ht).mpr hh) (by simp)) h
          | MethodType => exact hnext1 _ (fun hh => absurd ((fromU8_long_iff ht).mpr hh) (by simp)) (fun hh => absurd ((fromU8_double_iff ht).mpr hh) (by simp)) h
          | Module => exact hnext1 _ (fun hh => absurd ((fromU8_long_iff ht).mpr hh) (by simp)) (fun hh => absurd ((fromU8_double_iff ht).mpr hh) (by simp)) h
          | String => exact hnext1 _ (fun hh => absurd ((fromU8_long_iff ht).mpr hh) (by simp)) (fun hh => absurd ((fromU8_double_iff ht).mpr hh) (by simp)) h
          | Package => exact hnext1 _ (fun hh => absurd ((fromU8_long_iff ht).mpr hh) (by simp)) (fun hh => absurd ((fromU8_double_iff ht).mpr hh) (by simp)) h
          | MethodHandle => exact hnext1 _ (fun hh => absurd ((fromU8_long_iff ht).mpr hh) (by simp)) (fun hh => absurd ((fromU8_double_iff ht).mpr hh) (by simp)) h
          | Dynamic => exact hnext1 _ (fun hh => absurd ((fromU8_long_iff ht).mpr hh) (by simp)) (fun hh => absurd ((fromU8_double_iff ht).mpr hh) (by simp)) h
          | FieldRef => exact hnext1 _ (fun hh => absurd ((fromU8_long_iff ht).mpr hh) (by simp)) (fun hh => absurd ((fromU8_double_iff ht).mpr hh) (by simp)) h
          | Float => exact hnext1 _ (fun hh => absurd ((fromU8_long_iff ht).mpr hh) (by simp)) (fun hh => absurd ((fromU8_double_iff ht).mpr hh) (by simp)) h
          | Integer => exact hnext1 _ (fun hh => absurd ((fromU8_long_iff ht).mpr hh) (by simp)) (fun hh => absurd ((fromU8_double_iff ht).mpr hh) (by simp)) h
          | InterfaceMethodRef => exact hnext1 _ (fun hh => absurd ((fromU8_long_iff ht).mpr hh) (by simp)) (fun hh => absurd ((fromU8_double_iff ht).mpr hh) (by simp)) h
          | InvokeDynamic => exact hnext1 _ (fun hh => absurd ((fromU8_long_iff ht).mpr hh) (by simp)) (fun hh => absurd ((fromU8_double_iff ht).mpr hh) (by simp)) h
          | MethodRef => exact hnext1 _ (fun hh => absurd ((fromU8_long_iff ht).mpr hh) (by simp)) (fun hh => absurd ((fromU8_double_iff ht).mpr hh) (by simp)) h
          | NameAndType => exact hnext1 _ (fun hh => absurd ((fromU8_long_iff ht).mpr hh) (by simp)) (fun hh => absurd ((fromU8_double_iff ht).mpr hh) (by simp)) h
          | Double => exact hnext2 _ (Or.inr ((fromU8_double_iff ht).mp rfl)) h
          | Long => exact hnext2 _ (Or.inl ((fromU8_long_iff ht).mp rfl)) h
          | Utf8 =>
            rcases h16 : buffer.readU16 (cur + 1) with e | len
            · rw [h16] at h; simp at h
            · rw [h16] at h
              simp only at h
              exact hnext1 _ (fun hh => absurd ((fromU8_long_iff ht).mpr hh) (by simp)) (fun hh => absurd ((fromU8_double_iff ht).mpr hh) (by simp)) h
    · simp only [if_neg hi] at h
      simp at h
      obtain ⟨h1, -⟩ := h
      subst h1
      exact ⟨hlen, fun k _ => rfl, fun k off h1 h2 h3 h4 => hB k off h1 h2 h3 (by omega) h4⟩

theorem indexToOffset_some {cp : ConstantPool} {i off : Nat}
    (h : cp.indexToOffset i = .ok off) : cp.offset[i]? = some off ∧ off ≠ 0 := by
  unfold ConstantPool.indexToOffset at h
  split at h <;> simp_all

theorem indexToOffset_hole {cp : ConstantPool} {i : Nat} (h : cp.offset[i]? = some 0) :
    cp.indexToOffset i = .error (.BadConstantPoolIndexNoEntry i) := by
  unfold ConstantPool.indexToOffset
  rw [h]

theorem indexToOffset_oob {cp : ConstantPool} {i : Nat} (h : cp.offset.length ≤ i) :
    cp.indexToOffset i = .error (.BadConstantPoolIndex i cp.offset.length) := by
  unfold ConstantPool.indexToOffset
  rw [List.getElem?_eq_none (by omega)]

theorem getType_propagates {cp : ConstantPool} {i : Nat} {e : ClassFileError}
    (h : cp.indexToOffset i = .error e) : cp.getType i = .error e := by
  unfold ConstantPool.getType
  rw [h]
  rfl

theorem get_propagates {cp : ConstantPool} {i : Nat} {e : ClassFileError}
    (h : cp.indexToOffset i = .error e) : cp.get i = .error e := by
  unfold ConstantPool.get
  rw [h]
  rfl

theorem taggedOffset_propagates {cp : ConstantPool} {i : Nat} {e : ClassFileError}
    (expected : ConstantPoolTag) (h : cp.indexToOffset i = .error e) :
    cp.taggedOffset i expected = .error e := by
  unfold ConstantPool.taggedOffset
  rw [h]
  rfl

/-- C4 (amended): after a successful constant-pool build, for every Long or
Double entry at index i whose following slot i+1 still lies inside the
pool, slot i+1 is a hole and the accessors fail there with
BadConstantPoolIndexNoEntry; index 0 (of a nonempty table) likewise fails
with BadConstantPoolIndexNoEntry; and every index not less than the pool
count fails with BadConstantPoolIndex naming the index and the count. -/
theorem C4_pool_holes (buffer : ClassBuffer) (cp : ConstantPool) (rest : Nat)
    (hnew : ConstantPool.new buffer = .ok (cp, rest)) :
    (∀ count : Nat, buffer.readU16 8 = .ok count → cp.offset.length = count) ∧
    (∀ i : Nat, (cp.getType i = .ok .Long ∨ cp.getType i = .ok .Double) →
      i + 1 < cp.offset.length →
      cp.offset[i + 1]? = some 0 ∧
      cp.indexToOffset (i + 1) = .error (.BadConstantPoolIndexNoEntry (i + 1)) ∧
      cp.getType (i + 1) = .error (.BadConstantPoolIndexNoEntry (i + 1)) ∧
      cp.get (i + 1) = .error (.BadConstantPoolIndexNoEntry (i + 1)) ∧
      (∀ expected : ConstantPoolTag,
        cp.taggedOffset (i + 1) expected = .error (.BadConstantPoolIndexNoEntry (i + 1)))) ∧
    (0 < cp.offset.length →
      cp.getType 0 = .error (.BadConstantPoolIndexNoEntry 0) ∧
      cp.get 0 = .error (.BadConstantPoolIndexNoEntry 0)) ∧
    (∀ i : Nat, cp.offset.length ≤ i →
      cp.getType i = .error (.BadConstantPoolIndex i cp.offset.length) ∧
      cp.get i = .error (.BadConstantPoolIndex i cp.offset.length)) := by
  unfold ConstantPool.new at hnew
  rcases h16 : buffer.readU16 8 with e | count
  · rw [h16] at hnew; simp [bind, Except.bind] at hnew
  · rw [h16] at hnew
    simp only [bind, Except.bind] at hnew
    rcases hbl : ConstantPool.buildLoop buffer count count 1 10 (List.replicate count 0) with
      e | ⟨offs, cur⟩
    · rw [hbl] at hnew; simp at hnew
    · rw [hbl] at hnew
      simp only [pure, Except.pure, Except.ok.injEq, Prod.mk.injEq] at hnew
      obtain ⟨h1, h2⟩ := hnew
      subst h2
      obtain ⟨hl, hu, hb⟩ := buildLoop_spec count buffer count 1 10 (List.replicate count 0)
        offs cur hbl (by simp) (by omega)
        (fun k off hk hoff => by
          rw [List.getElem?_replicate] at hoff
          split at hoff
          · injection hoff with hoff; omega
          · cases hoff)
        (fun off h1 hoff hne => by
          rw [List.getElem?_replicate] at hoff
          split at hoff
          · injection hoff with hoff; omega
          · cases hoff)
        (fun k off h1 h2 h3 h4 => by omega)
      have hcp : cp.offset = offs := by rw [← h1]
      refine ⟨?_, ?_, ?_, ?_⟩
      · intro count2 h16b
        injection h16b with h16b
        rw [hcp, hl, h16b]
      · intro i hLD hlt
        have hv : ∃ off v : Nat, cp.offset[i]? = some off ∧ off ≠ 0 ∧
            buffer.readU8 off = .ok v ∧ (v = 5 ∨ v = 6) := by
          have hbuf : cp.buffer = buffer := by rw [← h1]
          rcases hLD with hL | hL <;>
          · unfold ConstantPool.getType at hL
            rcases hio : cp.indexToOffset i with e2 | off
            · rw [hio] at hL; simp [bind, Except.bind] at hL
            · rw [hio] at hL
              simp only [bind, Except.bind] at hL
              rcases h8 : cp.buffer.readU8 off with e2 | v
              · rw [h8] at hL; simp at hL
              · rw [h8] at hL
                simp only at hL
                obtain ⟨ho, hne⟩ := indexToOffset_some hio
                rw [hbuf] at h8
                first
                | exact ⟨off, v, ho, hne, h8, Or.inl ((fromU8_long_iff hL).mp rfl)⟩
                | exact ⟨off, v, ho, hne, h8, Or.inr ((fromU8_double_iff hL).mp rfl)⟩
        obtain ⟨off, v, ho, hne, h8, hv56⟩ := hv
        have hhole : cp.offset[i + 1]? = some 0 := by
          rw [hcp] at ho ⊢
          refine hb i off ho hne ?_ (by rw [hcp, hl] at hlt; omega)
          rcases hv56 with rfl | rfl
          · exact Or.inl h8
          · exact Or.inr h8
        have hio := indexToOffset_hole hhole
        exact ⟨hhole, hio, getType_propagates hio, get_propagates hio,
          fun expected => taggedOffset_propagates expected hio⟩
      · intro hpos
        have h0 : cp.offset[0]? = some 0 := by
          rw [hcp, hu 0 (by omega), List.getElem?_replicate]
          rw [hcp, hl] at hpos
          simp [hpos]
        have hio := indexToOffset_hole h0
        exact ⟨getType_propagates hio, get_propagates hio⟩
      · intro i hge
        have hio := indexToOffset_oob hge
        exact ⟨getType_propagates hio, get_propagates hio⟩

/-- The bytes of a pool declaring count 2 whose single entry (index 1) is a
Long occupying both remaining slots: magic and version zeroed, count 2 at
offset 8, tag 5 at offset 10 followed by eight payload bytes. -/
def c4Bytes : List Nat := [0, 0, 0, 0, 0, 0, 0, 0, 0, 2, 5, 0, 0, 0, 0, 0, 0, 0, 0]

/-- C4 counterexample: in a pool whose last entry (index 1 of count 2) is a
Long, the slot i+1 = 2 does not exist, and accessing index 2 fails with
BadConstantPoolIndex, not BadConstantPoolIndexNoEntry as the claim's hole
clause demands for every Long entry. -/
theorem C4_counterexample :
    ConstantPool.new ⟨c4Bytes⟩ = .ok (⟨⟨c4Bytes⟩, [0, 10]⟩, 19) ∧
    ConstantPool.getType ⟨⟨c4Bytes⟩, [0, 10]⟩ 1 = .ok .Long ∧
    ConstantPool.get ⟨⟨c4Bytes⟩, [0, 10]⟩ 2 = .error (.BadConstantPoolIndex 2 2) ∧
    ¬ ConstantPool.get ⟨⟨c4Bytes⟩, [0, 10]⟩ 2 =
      .error (.BadConstantPoolIndexNoEntry 2) := by
  refine ⟨?_, ?_, ?_, ?_⟩ <;> decide

/-- The bytes of a pool declaring count 3 whose entry at index 1 is a Long,
leaving slot 2 as an in-range hole. -/
def c4WitBytes : List Nat := [0, 0, 0, 0, 0, 0, 0, 0, 0, 3, 5, 0, 0, 0, 0, 0, 0, 0, 0]

/-- Witness for C4: the amended theorem applied to a concrete pool with a
Long at index 1 and count 3. -/
theorem C4_witness :
    ConstantPool.getType ⟨⟨c4WitBytes⟩, [0, 10, 0]⟩ 2 =
      .error (.BadConstantPoolIndexNoEntry 2) ∧
    ConstantPool.get ⟨⟨c4WitBytes⟩, [0, 10, 0]⟩ 0 =
      .error (.BadConstantPoolIndexNoEntry 0) ∧
    ConstantPool.get ⟨⟨c4WitBytes⟩, [0, 10, 0]⟩ 3 =
      .error (.BadConstantPoolIndex 3 3) := by
  obtain ⟨p1, p2, p3, p4⟩ := C4_pool_holes ⟨c4WitBytes⟩ ⟨⟨c4WitBytes⟩, [0, 10, 0]⟩ 19
    (by decide)
  obtain ⟨q1, q2, q3, q4, q5⟩ := p2 1 (Or.inl (by decide)) (by decide)
  exact ⟨q3, (p3 (by decide)).2, (p4 3 (by decide)).2⟩

/-! ### ClassReader construction and claim C9 -/

/-- Modelled from the spec: LATEST_MAJOR_VERSION lives in the crate's
constants module, which is not among the provided sources; the spec only
says majors above the latest supported are rejected.  The exact value is
irrelevant here; 69 is used. -/
def LATEST_MAJOR_VERSION : Nat := 69

/-- Model of the ClassReaderFlags bitset. -/
structure ClassReaderFlags where
  skipCode : Bool
  skipDebug : Bool
  skipFrames : Bool
  expandFrames : Bool
deriving DecidableEq, Repr

/-- The empty flag set. -/
def ClassReaderFlags.none : ClassReaderFlags :=
  { skipCode := false, skipDebug := false, skipFrames := false, expandFrames := false }

/-- Model of ClassReader (the attribute-reader registry is omitted: it only
affects custom-attribute payload decoding). -/
structure ClassReader where
  buffer : ClassBuffer
  constantPool : ConstantPool
  metadataStart : Nat
  readerFlags : ClassReaderFlags
deriving DecidableEq, Repr

/-- Model of ClassReader::new: check the magic, reject majors above the
latest supported, build the constant pool. -/
def ClassReader.new (data : List Nat) (readerFlags : ClassReaderFlags) :
    ClassFileResult ClassReader := do
  let buffer : ClassBuffer := { data := data }
  let magic ← buffer.readU32 0
  if magic ≠ 0xcafebabe then .error .BadMagic
  else do
    let major ← buffer.readU16 6
    if major > LATEST_MAJOR_VERSION then .error (.UnsupportedVersion major)
    else do
      let (constantPool, metadataStart) ← ConstantPool.new buffer
      pure { buffer := buffer, constantPool := constantPool,
             metadataStart := metadataStart, readerFlags := readerFlags }

/-- A structurally valid class file whose constant pool declares count 0:
magic, minor 0, major 0, constant_pool_count 0. -/
def c9Bytes : List Nat := [0xca, 0xfe, 0xba, 0xbe, 0, 0, 0, 0, 0, 0]

/-- C9: constructing a reader over a file with constant-pool count 0
succeeds, yet the very first step of the constant-pool iterator panics: the
source computes (offset.len() - 1) with wrapping usize arithmetic (already
a panic in debug builds) and then indexes offset[1] out of bounds.  This
contradicts the specified no-panic guarantee. -/
theorem C9_empty_pool_iter :
    ClassReader.new c9Bytes ClassReaderFlags.none =
      .ok { buffer := { data := c9Bytes },
            constantPool := { buffer := { data := c9Bytes }, offset := [] },
            metadataStart := 10, readerFlags := ClassReaderFlags.none } ∧
    cpIterNext { pool := { buffer := { data := c9Bytes }, offset := [] }, index := 0 } =
      .panics := by
  constructor
  · decide
  · rfl

/-- Inversion for a successful Except bind: the first action succeeded and
the continuation succeeded on its result. -/
theorem bind_ok {α β : Type} {x : ClassFileResult α} {f : α → ClassFileResult β} {b : β}
    (h : x >>= f = .ok b) : ∃ a, x = .ok a ∧ f a = .ok b := by
  cases x with
  | error e => simp [Bind.bind, Except.bind] at h
  | ok a => exact ⟨a, rfl, h⟩

/-- Bind of an ok value reduces to the continuation. -/
theorem ok_bind {α β : Type} (a : α) (f : α → ClassFileResult β) :
    ((Except.ok a : ClassFileResult α) >>= f) = f a := rfl

/-- Bind of an error short-circuits. -/
theorem err_bind {α β : Type} (e : ClassFileError) (f : α → ClassFileResult β) :
    ((Except.error e : ClassFileResult α) >>= f) = .error e := rfl

/-- Inversion for pure returning ok. -/
theorem pure_ok_inv {α : Type} {a b : α} (h : (pure a : ClassFileResult α) = .ok b) :
    a = b :=
  Except.ok.inj h

/-- A successful taggedOffset means the entry exists with exactly the
expected tag. -/
theorem taggedOffset_ok_getType {cp : ConstantPool} {i off : Nat}
    {expected : ConstantPoolTag} (h : cp.taggedOffset i expected = .ok off) :
    cp.getType i = .ok expected ∧ cp.indexToOffset i = .ok off := by
  unfold ConstantPool.taggedOffset at h
  obtain ⟨o2, hio, h⟩ := bind_ok h
  obtain ⟨v, h8, h⟩ := bind_ok h
  obtain ⟨tag, htag, h⟩ := bind_ok h
  by_cases he : tag = expected
  · subst he
    rw [if_neg (not_not_intro rfl)] at h
    have ho := pure_ok_inv h
    subst ho
    refine ⟨?_, hio⟩
    simp only [ConstantPool.getType, hio, ok_bind, h8]
    exact htag
  · rw [if_pos he] at h
    exact absurd h (by simp)

/-- A successful getType decomposes into the slot lookup, tag byte read and
tag decode. -/
theorem getType_ok_destruct {cp : ConstantPool} {i : Nat} {t : ConstantPoolTag}
    (h : cp.getType i = .ok t) :
    ∃ off v : Nat, cp.indexToOffset i = .ok off ∧ cp.buffer.readU8 off = .ok v ∧
      ConstantPoolTag.fromU8 v = .ok t := by
  unfold ConstantPool.getType at h
  obtain ⟨off, hio, h⟩ := bind_ok h
  obtain ⟨v, h8, h⟩ := bind_ok h
  exact ⟨off, v, hio, h8, h⟩

/-- A typed getter applied to an entry of a different tag reports
BadConstantPoolType with the expected and actual tags. -/
theorem taggedOffset_mismatch {cp : ConstantPool} {i : Nat} {t expected : ConstantPoolTag}
    (h : cp.getType i = .ok t) (hne : t ≠ expected) :
    cp.taggedOffset i expected = .error (.BadConstantPoolType expected t) := by
  obtain ⟨off, v, hio, h8, htag⟩ := getType_ok_destruct h
  simp only [ConstantPool.taggedOffset, hio, ok_bind, h8, htag]
  rw [if_pos hne]

/-- C8: get_method_handle resolves the referenced entry by handle kind.  On
success, GetField/GetStatic/PutField/PutStatic imply the referenced entry is
a FieldRef; InvokeVirtual/NewInvokeSpecial imply a MethodRef;
InvokeInterface implies an InterfaceMethodRef with is_interface true;
InvokeStatic/InvokeSpecial imply MethodRef or InterfaceMethodRef with
is_interface true exactly for InterfaceMethodRef.  Conversely, a referenced
entry of any other tag makes the read fail with BadConstantPoolType. -/
theorem C8_method_handle_dispatch :
    (∀ (cp : ConstantPool) (index : Nat) (hd : Handle),
      cp.getMethodHandle index = .ok hd →
      ∃ off refIndex : Nat,
        cp.getType index = .ok .MethodHandle ∧
        cp.indexToOffset index = .ok off ∧
        cp.buffer.readU16 (off + 2) = .ok refIndex ∧
        ((hd.kind = .GetField ∨ hd.kind = .GetStatic ∨ hd.kind = .PutField ∨
            hd.kind = .PutStatic) →
          cp.getType refIndex = .ok .FieldRef ∧ hd.isInterface = false) ∧
        ((hd.kind = .InvokeVirtual ∨ hd.kind = .NewInvokeSpecial) →
          cp.getType refIndex = .ok .MethodRef ∧ hd.isInterface = false) ∧
        (hd.kind = .InvokeInterface →
          cp.getType refIndex = .ok .InterfaceMethodRef ∧ hd.isInterface = true) ∧
        ((hd.kind = .InvokeStatic ∨ hd.kind = .InvokeSpecial) →
          (cp.getType refIndex = .ok .MethodRef ∨
            cp.getType refIndex = .ok .InterfaceMethodRef) ∧
          (hd.isInterface = true ↔ cp.getType refIndex = .ok .InterfaceMethodRef))) ∧
    (∀ (cp : ConstantPool) (off kb refIndex : Nat) (kind : HandleKind)
        (t : ConstantPoolTag),
      cp.buffer.readU8 (off + 1) = .ok kb →
      HandleKind.fromU8 kb = .ok kind →
      cp.buffer.readU16 (off + 2) = .ok refIndex →
      cp.getType refIndex = .ok t →
      (((kind = .GetField ∨ kind = .GetStatic ∨ kind = .PutField ∨ kind = .PutStatic) ∧
          t ≠ .FieldRef) →
        cp.readMethodHandleAt off = .error (.BadConstantPoolType .FieldRef t)) ∧
      (((kind = .InvokeVirtual ∨ kind = .NewInvokeSpecial) ∧ t ≠ .MethodRef) →
        cp.readMethodHandleAt off = .error (.BadConstantPoolType .MethodRef t)) ∧
      ((kind = .InvokeInterface ∧ t ≠ .InterfaceMethodRef) →
        cp.readMethodHandleAt off = .error (.BadConstantPoolType .InterfaceMethodRef t)) ∧
      (((kind = .InvokeStatic ∨ kind = .InvokeSpecial) ∧ t ≠ .MethodRef ∧
          t ≠ .InterfaceMethodRef) →
        cp.readMethodHandleAt off = .error (.BadConstantPoolType .MethodRef t))) := by
  constructor
  · intro cp index hd h
    unfold ConstantPool.getMethodHandle at h
    obtain ⟨off, hto, h⟩ := bind_ok h
    obtain ⟨htype, hio⟩ := taggedOffset_ok_getType hto
    unfold ConstantPool.readMethodHandleAt at h
    obtain ⟨kb, hr8, h⟩ := bind_ok h
    obtain ⟨kind, hkd, h⟩ := bind_ok h
    obtain ⟨refIndex, hr16, h⟩ := bind_ok h
    refine ⟨off, refIndex, htype, hio, hr16, ?_⟩
    cases kind with
    | GetField =>
      obtain ⟨r, hr, h⟩ := bind_ok h
      obtain ⟨y, hy, h⟩ := bind_ok h
      have hye := pure_ok_inv hy
      subst hye
      have hde := pure_ok_inv h
      subst hde
      refine ⟨fun _ => ⟨?_, rfl⟩, ?_, ?_, ?_⟩
      · unfold ConstantPool.getFieldRef at hr
        obtain ⟨o2, hto2, _⟩ := bind_ok hr
        exact (taggedOffset_ok_getType hto2).1
      · intro hk; rcases hk with hk | hk <;> simp at hk
      · intro hk; simp at hk
      · intro hk; rcases hk with hk | hk <;> simp at hk
    | GetStatic =>
      obtain ⟨r, hr, h⟩ := bind_ok h
      obtain ⟨y, hy, h⟩ := bind_ok h
      have hye := pure_ok_inv hy
      subst hye
      have hde := pure_ok_inv h
      subst hde
      refine ⟨fun _ => ⟨?_, rfl⟩, ?_, ?_, ?_⟩
      · unfold ConstantPool.getFieldRef at hr
        obtain ⟨o2, hto2, _⟩ := bind_ok hr
        exact (taggedOffset_ok_getType hto2).1
      · intro hk; rcases hk with hk | hk <;> simp at hk
      · intro hk; simp at hk
      · intro hk; rcases hk with hk | hk <;> simp at hk
    | PutField =>
      obtain ⟨r, hr, h⟩ := bind_ok h
      obtain ⟨y, hy, h⟩ := bind_ok h
      have hye := pure_ok_inv hy
      subst hye
      have hde := pure_ok_inv h
      subst hde
      refine ⟨fun _ => ⟨?_, rfl⟩, ?_, ?_, ?_⟩
      · unfold ConstantPool.getFieldRef at hr
        obtain ⟨o2, hto2, _⟩ := bind_ok hr
        exact (taggedOffset_ok_getType hto2).1
      · intro hk; rcases hk with hk | hk <;> simp at hk
      · intro hk; simp at hk
      · intro hk; rcases hk with hk | hk <;> simp at hk
    | PutStatic =>
      obtain ⟨r, hr, h⟩ := bind_ok h
      obtain ⟨y, hy, h⟩ := bind_ok h
      have hye := pure_ok_inv hy
      subst hye
      have hde := pure_ok_inv h
      subst hde
      refine ⟨fun _ => ⟨?_, rfl⟩, ?_, ?_, ?_⟩
      · unfold ConstantPool.getFieldRef at hr
        obtain ⟨o2, hto2, _⟩ := bind_ok hr
        exact (taggedOffset_ok_getType hto2).1
      · intro hk; rcases hk with hk | hk <;> simp at hk
      · intro hk; simp at hk
      · intro hk; rcases hk with hk | hk <;> simp at hk
    | InvokeVirtual =>
      obtain ⟨r, hr, h⟩ := bind_ok h
      obtain ⟨y, hy, h⟩ := bind_ok h
      have hye := pure_ok_inv hy
      subst hye
      have hde := pure_ok_inv h
      subst hde
      refine ⟨?_, fun _ => ⟨?_, rfl⟩, ?_, ?_⟩
      · intro hk; rcases hk with hk | hk | hk | hk <;> simp at hk
      · unfold ConstantPool.getMethodRef at hr
        obtain ⟨o2, hto2, _⟩ := bind_ok hr
        exact (taggedOffset_ok_getType hto2).1
      · intro hk; simp at hk
      · intro hk; rcases hk with hk | hk <;> simp at hk
    | NewInvokeSpecial =>
      obtain ⟨r, hr, h⟩ := bind_ok h
      obtain ⟨y, hy, h⟩ := bind_ok h
      have hye := pure_ok_inv hy
      subst hye
      have hde := pure_ok_inv h
      subst hde
      refine ⟨?_, fun _ => ⟨?_, rfl⟩, ?_, ?_⟩
      · intro hk; rcases hk with hk | hk | hk | hk <;> simp at hk
      · unfold ConstantPool.getMethodRef at hr
        obtain ⟨o2, hto2, _⟩ := bind_ok hr
        exact (taggedOffset_ok_getType hto2).1
      · intro hk; simp at hk
      · intro hk; rcases hk with hk | hk <;> simp at hk
    | InvokeInterface =>
      obtain ⟨r, hr, h⟩ := bind_ok h
      obtain ⟨y, hy, h⟩ := bind_ok h
      have hye := pure_ok_inv hy
      subst hye
      have hde := pure_ok_inv h
      subst hde
      refine ⟨?_, ?_, fun _ => ⟨?_, rfl⟩, ?_⟩
      · intro hk; rcases hk with hk | hk | hk | hk <;> simp at hk
      · intro hk; rcases hk with hk | hk <;> simp at hk
      · unfold ConstantPool.getInterfaceMethodRef at hr
        obtain ⟨o2, hto2, _⟩ := bind_ok hr
        exact (taggedOffset_ok_getType hto2).1
      · intro hk; rcases hk with hk | hk <;> simp at hk
    | InvokeStatic =>
      obtain ⟨refOff, hioR, h⟩ := bind_ok h
      obtain ⟨tb, hr8R, h⟩ := bind_ok h
      obtain ⟨tag, htg, h⟩ := bind_ok h
      have hgt : cp.getType refIndex = .ok tag := by
        simp only [ConstantPool.getType, hioR, ok_bind, hr8R]
        exact htg
      split at h
      · rw [err_bind] at h
        exact absurd h (by simp)
      · rename_i hcond
        obtain ⟨u1, _, h⟩ := bind_ok h
        obtain ⟨owner, _, h⟩ := bind_ok h
        obtain ⟨u2, _, h⟩ := bind_ok h
        obtain ⟨na, _, h⟩ := bind_ok h
        obtain ⟨y, hy, h⟩ := bind_ok h
        have hye := pure_ok_inv hy
        subst hye
        have hde := pure_ok_inv h
        subst hde
        have htor : tag = ConstantPoolTag.MethodRef ∨
            tag = ConstantPoolTag.InterfaceMethodRef := by
          by_cases h1 : tag = ConstantPoolTag.MethodRef
          · exact Or.inl h1
          · by_cases h2 : tag = ConstantPoolTag.InterfaceMethodRef
            · exact Or.inr h2
            · exact absurd ⟨h1, h2⟩ hcond
        refine ⟨?_, ?_, ?_, fun _ => ⟨?_, ?_⟩⟩
        · intro hk; rcases hk with hk | hk | hk | hk <;> simp at hk
        · intro hk; rcases hk with hk | hk <;> simp at hk
        · intro hk; simp at hk
        · rcases htor with h1 | h1
          · subst h1; exact Or.inl hgt
          · subst h1; exact Or.inr hgt
        · constructor
          · intro hdec
            have hb : decide (tag = ConstantPoolTag.InterfaceMethodRef) = true := hdec
            have he := of_decide_eq_true hb
            subst he
            exact hgt
          · intro hti
            rw [hgt] at hti
            injection hti with he
            subst he
            simp
    | InvokeSpecial =>
      obtain ⟨refOff, hioR, h⟩ := bind_ok h
      obtain ⟨tb, hr8R, h⟩ := bind_ok h
      obtain ⟨tag, htg, h⟩ := bind_ok h
      have hgt : cp.getType refIndex = .ok tag := by
        simp only [ConstantPool.getType, hioR, ok_bind, hr8R]
        exact htg
      split at h
      · rw [err_bind] at h
        exact absurd h (by simp)
      · rename_i hcond
        obtain ⟨u1, _, h⟩ := bind_ok h
        obtain ⟨owner, _, h⟩ := bind_ok h
        obtain ⟨u2, _, h⟩ := bind_ok h
        obtain ⟨na, _, h⟩ := bind_ok h
        obtain ⟨y, hy, h⟩ := bind_ok h
        have hye := pure_ok_inv hy
        subst hye
        have hde := pure_ok_inv h
        subst hde
        have htor : tag = ConstantPoolTag.MethodRef ∨
            tag = ConstantPoolTag.InterfaceMethodRef := by
          by_cases h1 : tag = ConstantPoolTag.MethodRef
          · exact Or.inl h1
          · by_cases h2 : tag = ConstantPoolTag.InterfaceMethodRef
            · exact Or.inr h2
            · exact absurd ⟨h1, h2⟩ hcond
        refine ⟨?_, ?_, ?_, fun _ => ⟨?_, ?_⟩⟩
        · intro hk; rcases hk with hk | hk | hk | hk <;> simp at hk
        · intro hk; rcases hk with hk | hk <;> simp at hk
        · intro hk; simp at hk
        · rcases htor with h1 | h1
          · subst h1; exact Or.inl hgt
          · subst h1; exact Or.inr hgt
        · constructor
          · intro hdec
            have hb : decide (tag = ConstantPoolTag.InterfaceMethodRef) = true := hdec
            have he := of_decide_eq_true hb
            subst he
            exact hgt
          · intro hti
            rw [hgt] at hti
            injection hti with he
            subst he
            simp
  · intro cp off kb refIndex kind t hr8 hkd hr16 hgt
    refine ⟨?_, ?_, ?_, ?_⟩
    · rintro ⟨hk, hne⟩
      have hf : cp.getFieldRef refIndex = .error (.BadConstantPoolType .FieldRef t) := by
        simp only [ConstantPool.getFieldRef, taggedOffset_mismatch hgt hne, err_bind]
      rcases hk with hk | hk | hk | hk <;> subst hk <;>
        simp only [ConstantPool.readMethodHandleAt, hr8, ok_bind, hkd, hr16, hf, err_bind]
    · rintro ⟨hk, hne⟩
      have hf : cp.getMethodRef refIndex = .error (.BadConstantPoolType .MethodRef t) := by
        simp only [ConstantPool.getMethodRef, taggedOffset_mismatch hgt hne, err_bind]
      rcases hk with hk | hk <;> subst hk <;>
        simp only [ConstantPool.readMethodHandleAt, hr8, ok_bind, hkd, hr16, hf, err_bind]
    · rintro ⟨hk, hne⟩
      have hf : cp.getInterfaceMethodRef refIndex =
          .error (.BadConstantPoolType .InterfaceMethodRef t) := by
        simp only [ConstantPool.getInterfaceMethodRef, taggedOffset_mismatch hgt hne,
          err_bind]
      subst hk
      simp only [ConstantPool.readMethodHandleAt, hr8, ok_bind, hkd, hr16, hf, err_bind]
    · rintro ⟨hk, hne1, hne2⟩
      obtain ⟨refOff, v, hio, h8, htag⟩ := getType_ok_destruct hgt
      rcases hk with hk | hk <;> subst hk <;>
        (simp only [ConstantPool.readMethodHandleAt, hr8, ok_bind, hkd, hr16, hio, h8,
          htag]
         rw [if_pos ⟨hne1, hne2⟩, err_bind])

/-- Concrete pool bytes for exercising method-handle dispatch: a dummy byte,
then entries MethodHandle(InvokeInterface, 2), InterfaceMethodRef(3, 4),
Class(5), NameAndType(5, 5), Utf8 "A", MethodHandle(GetField, 2),
MethodHandle(InvokeStatic, 2). -/
def c8Data : List Nat :=
  [0, 15, 9, 0, 2, 11, 0, 3, 0, 4, 7, 0, 5, 12, 0, 5, 0, 5, 1, 0, 1, 65,
   15, 1, 0, 2, 15, 6, 0, 2]

/-- The pool over c8Data with its slot-offset table. -/
def c8Pool : ConstantPool :=
  { buffer := { data := c8Data }, offset := [0, 1, 5, 10, 13, 18, 22, 26] }

/-- The handle read from entry 1 of c8Pool. -/
def c8Handle : Handle :=
  { kind := .InvokeInterface, owner := [65], name := [65], desc := [65],
    isInterface := true }

/-- The handle read from entry 7 of c8Pool. -/
def c8HandleS : Handle :=
  { kind := .InvokeStatic, owner := [65], name := [65], desc := [65],
    isInterface := true }

/-- Witness for C8: in c8Pool an InvokeInterface handle resolves an
InterfaceMethodRef with is_interface true, an InvokeStatic handle accepts
the InterfaceMethodRef and records is_interface true, and a GetField handle
aimed at the InterfaceMethodRef entry fails with BadConstantPoolType. -/
theorem C8_witness :
    (c8Pool.getType 2 = .ok .InterfaceMethodRef ∧ c8Handle.isInterface = true) ∧
    ((c8Pool.getType 2 = .ok .MethodRef ∨ c8Pool.getType 2 = .ok .InterfaceMethodRef) ∧
      (c8HandleS.isInterface = true ↔ c8Pool.getType 2 = .ok .InterfaceMethodRef)) ∧
    c8Pool.readMethodHandleAt 22 =
      .error (.BadConstantPoolType .FieldRef .InterfaceMethodRef) := by
  refine ⟨?_, ?_, ?_⟩
  · obtain ⟨off, refIndex, _, hio, hr16, _, _, hitf, _⟩ :=
      C8_method_handle_dispatch.1 c8Pool 1 c8Handle (by decide)
    have hoff : off = 1 := by
      have h1 : c8Pool.indexToOffset 1 = .ok 1 := by decide
      rw [h1] at hio
      injection hio with h2
      exact h2.symm
    subst hoff
    have hri : refIndex = 2 := by
      have h1 : c8Pool.buffer.readU16 3 = .ok 2 := by decide
      rw [h1] at hr16
      injection hr16 with h2
      exact h2.symm
    subst hri
    exact hitf (by decide)
  · obtain ⟨off, refIndex, _, hio, hr16, _, _, _, hst⟩ :=
      C8_method_handle_dispatch.1 c8Pool 7 c8HandleS (by decide)
    have hoff : off = 26 := by
      have h1 : c8Pool.indexToOffset 7 = .ok 26 := by decide
      rw [h1] at hio
      injection hio with h2
      exact h2.symm
    subst hoff
    have hri : refIndex = 2 := by
      have h1 : c8Pool.buffer.readU16 28 = .ok 2 := by decide
      rw [h1] at hr16
      injection hr16 with h2
      exact h2.symm
    subst hri
    exact hst (Or.inl (by decide))
  · exact (C8_method_handle_dispatch.2 c8Pool 22 1 2 .GetField .InterfaceMethodRef
      (by decide) (by decide) (by decide) (by decide)).1 ⟨Or.inl rfl, by decide⟩

/-! ### Annotation model (tree/annotation.rs, type_annotation.rs) -/

/-- Modelled from the spec: the recursion-depth cap on nested annotation
values (constants.rs is not in the repository's files; no theorem depends
on the exact value). -/
def MAX_ANNOTATION_NESTING : Nat := 128

/-- Model of TypePath: the raw path bytes (always an even count at every
call site, so the from_bytes length panic is unreachable). -/
abbrev TypePath := List Nat

/-- Model of the TypeReference enum. -/
inductive TypeReference where
  | ClassTypeParameter (paramIndex : Nat)
  | MethodTypeParameter (paramIndex : Nat)
  | ClassExtends (interfaceIndex : Option Nat)
  | ClassTypeParameterBound (paramIndex boundIndex : Nat)
  | MethodTypeParameterBound (paramIndex boundIndex : Nat)
  | Field
  | MethodReturn
  | MethodReceiver
  | MethodFormalParameter (paramIndex : Nat)
  | Throws (exceptionIndex : Nat)
  | LocalVariable
  | ResourceVariable
  | ExceptionParameter
  | Instanceof
  | New
  | ConstructorReference
  | MethodReference
  | Cast (argIndex : Nat)
  | ConstructorInvocationTypeArgument (argIndex : Nat)
  | MethodInvocationTypeArgument (argIndex : Nat)
  | ConstructorReferenceTypeArgument (argIndex : Nat)
  | MethodReferenceTypeArgument (argIndex : Nat)
deriving DecidableEq, Repr

/-- Model of the TypeReferenceTargetType enum. -/
inductive TypeReferenceTargetType where
  | ClassTypeParameter
  | MethodTypeParameter
  | ClassExtends
  | ClassTypeParameterBound
  | MethodTypeParameterBound
  | Field
  | MethodReturn
  | MethodReceiver
  | MethodFormalParameter
  | Throws
  | LocalVariable
  | ResourceVariable
  | ExceptionParameter
  | Instanceof
  | New
  | ConstructorReference
  | MethodReference
  | Cast
  | ConstructorInvocationTypeArgument
  | MethodInvocationTypeArgument
  | ConstructorReferenceTypeArgument
  | MethodReferenceTypeArgument
deriving DecidableEq, Repr

/-- Model of TypeReferenceTargetType try_from (derived from the reprs). -/
def TypeReferenceTargetType.fromU8 (b : Nat) : Option TypeReferenceTargetType :=
  match b with
  | 0x00 => some .ClassTypeParameter
  | 0x01 => some .MethodTypeParameter
  | 0x10 => some .ClassExtends
  | 0x11 => some .ClassTypeParameterBound
  | 0x12 => some .MethodTypeParameterBound
  | 0x13 => some .Field
  | 0x14 => some .MethodReturn
  | 0x15 => some .MethodReceiver
  | 0x16 => some .MethodFormalParameter
  | 0x17 => some .Throws
  | 0x40 => some .LocalVariable
  | 0x41 => some .ResourceVariable
  | 0x42 => some .ExceptionParameter
  | 0x43 => some .Instanceof
  | 0x44 => some .New
  | 0x45 => some .ConstructorReference
  | 0x46 => some .MethodReference
  | 0x47 => some .Cast
  | 0x48 => some .ConstructorInvocationTypeArgument
  | 0x49 => some .MethodInvocationTypeArgument
  | 0x4A => some .ConstructorReferenceTypeArgument
  | 0x4B => some .MethodReferenceTypeArgument
  | _ => none

mutual

/-- Model of AnnotationValue; Double and Float carry raw bit patterns, the
Int constructor is written IntV and String is written Str to avoid clashing
with Lean core names. -/
inductive AnnotationValue where
  | Byte (v : Int)
  | Char (v : Nat)
  | Double (bits : Nat)
  | Float (bits : Nat)
  | IntV (v : Int)
  | Long (v : Int)
  | Short (v : Int)
  | Boolean (v : Bool)
  | Str (s : JStr)
  | Enum (desc name : JStr)
  | Class (s : JStr)
  | Ann (a : AnnotationNode)
  | Array (vs : List AnnotationValue)
deriving Repr

/-- Model of AnnotationNode. -/
inductive AnnotationNode where
  | mk (desc : JStr) (values : List (JStr × AnnotationValue))
deriving Repr

end

/-- The descriptor of an annotation node. -/
def AnnotationNode.desc : AnnotationNode → JStr
  | .mk d _ => d

/-- The element values of an annotation node. -/
def AnnotationNode.values : AnnotationNode → List (JStr × AnnotationValue)
  | .mk _ vs => vs

/-- Model of TypeAnnotationNode. -/
structure TypeAnnotationNode where
  typeRef : TypeReference
  typePath : TypePath
  desc : JStr
  values : List (JStr × AnnotationValue)
deriving Repr

/-- Model of TypeAnnotationLocalVariableRange. -/
structure TypeAnnotationLocalVariableRange where
  startPc : Nat
  length : Nat
  index : Nat
deriving DecidableEq, Repr

/-- Model of TypeAnnotationCodeLocation. -/
inductive TypeAnnotationCodeLocation where
  | None
  | LocalVariable (ranges : List TypeAnnotationLocalVariableRange)
  | Insn (pc : Nat)
  | TryCatchBlock (index : Nat)
deriving DecidableEq, Repr

/-- Model of AnnotationEvent; the annotation payload field is written ann. -/
structure AnnotationEvent (A : Type) where
  visible : Bool
  ann : A
deriving Repr

/-- Truncation of an i32 value to i8 (the `as i8` casts). -/
def i32AsI8 (v : Int) : Int := asI8 ((v % 256).toNat)

/-- Truncation of an i32 value to i16 (the `as i16` casts). -/
def i32AsI16 (v : Int) : Int := asI16 ((v % 65536).toNat)

/-- Truncation of an i32 value to u16 (the `as u16` casts). -/
def i32AsU16 (v : Int) : Nat := (v % 65536).toNat

mutual

/-- Model of read_annotation.  The depth argument is replaced by the
remaining nesting allowance gas = MAX_ANNOTATION_NESTING + 1 - depth, so
the source's guard depth > MAX_ANNOTATION_NESTING becomes gas = 0 and the
recursion into depth + 1 becomes gas - 1.  Each function returns the result
together with the offset cursor (advanced as far as the source's &mut usize
would be, errors included). -/
def readAnnotationNode (reader : ClassReader) (gas : Nat) (offset : Nat) :
    ClassFileResult AnnotationNode × Nat :=
  if gas = 0 then (.error .TooDeepAnnotationNesting, offset)
  else
    match reader.buffer.readU16 offset with
    | .error e => (.error e, offset)
    | .ok descIndex =>
      match reader.constantPool.getUtf8 descIndex with
      | .error e => (.error e, offset)
      | .ok desc =>
        match readAnnotationValues reader gas (offset + 2) with
        | (.error e, off2) => (.error e, off2)
        | (.ok values, off2) => (.ok (.mk desc values), off2)
termination_by (gas, 3, 0)

/-- Model of read_annotation_values. -/
def readAnnotationValues (reader : ClassReader) (gas : Nat) (offset : Nat) :
    ClassFileResult (List (JStr × AnnotationValue)) × Nat :=
  match reader.buffer.readU16 offset with
  | .error e => (.error e, offset)
  | .ok numValues => readAnnotationValuesLoop reader gas numValues (offset + 2)
termination_by (gas, 2, 0)

/-- The element loop of read_annotation_values. -/
def readAnnotationValuesLoop (reader : ClassReader) (gas : Nat) (k : Nat) (offset : Nat) :
    ClassFileResult (List (JStr × AnnotationValue)) × Nat :=
  match k with
  | 0 => (.ok [], offset)
  | k + 1 =>
    match reader.buffer.readU16 offset with
    | .error e => (.error e, offset)
    | .ok nameIndex =>
      match reader.constantPool.getUtf8 nameIndex with
      | .error e => (.error e, offset)
      | .ok name =>
        match readAnnotationValue reader gas (offset + 2) with
        | (.error e, off2) => (.error e, off2)
        | (.ok v, off2) =>
          match readAnnotationValuesLoop reader gas k off2 with
          | (.error e, off3) => (.error e, off3)
          | (.ok rest, off3) => (.ok ((name, v) :: rest), off3)
termination_by (gas, 1, k)

/-- Model of read_annotation_array. -/
def readAnnotationArray (reader : ClassReader) (gas : Nat) (offset : Nat) :
    ClassFileResult (List AnnotationValue) × Nat :=
  if gas = 0 then (.error .TooDeepAnnotationNesting, offset)
  else
    match reader.buffer.readU16 offset with
    | .error e => (.error e, offset)
    | .ok numValues => readAnnotationArrayLoop reader gas numValues (offset + 2)
termination_by (gas, 2, 0)

/-- The element loop of read_annotation_array. -/
def readAnnotationArrayLoop (reader : ClassReader) (gas : Nat) (k : Nat) (offset : Nat) :
    ClassFileResult (List AnnotationValue) × Nat :=
  match k with
  | 0 => (.ok [], offset)
  | k + 1 =>
    match readAnnotationValue reader gas offset with
    | (.error e, off2) => (.error e, off2)
    | (.ok v, off2) =>
      match readAnnotationArrayLoop reader gas k off2 with
      | (.error e, off3) => (.error e, off3)
      | (.ok rest, off3) => (.ok (v :: rest), off3)
termination_by (gas, 1, k)

/-- Model of read_annotation_value: a tag byte then a tag-directed payload;
the nested annotation and array forms recurse one level deeper. -/
def readAnnotationValue (reader : ClassReader) (gas : Nat) (offset : Nat) :
    ClassFileResult AnnotationValue × Nat :=
  match reader.buffer.readU8 offset with
  | .error e => (.error e, offset)
  | .ok tag =>
    if tag = 66 then   -- B
      match reader.buffer.readU16 (offset + 1) with
      | .error e => (.error e, offset + 1)
      | .ok idx =>
        match reader.constantPool.getI32 idx with
        | .error e => (.error e, offset + 1)
        | .ok v => (.ok (.Byte (i32AsI8 v)), offset + 3)
    else if tag = 67 then   -- C
      match reader.buffer.readU16 (offset + 1) with
      | .error e => (.error e, offset + 1)
      | .ok idx =>
        match reader.constantPool.getI32 idx with
        | .error e => (.error e, offset + 1)
        | .ok v => (.ok (.Char (i32AsU16 v)), offset + 3)
    else if tag = 68 then   -- D
      match reader.buffer.readU16 (offset + 1) with
      | .error e => (.error e, offset + 1)
      | .ok idx =>
        match reader.constantPool.getF64 idx with
        | .error e => (.error e, offset + 1)
        | .ok bits => (.ok (.Double bits), offset + 3)
    else if tag = 70 then   -- F
      match reader.buffer.readU16 (offset + 1) with
      | .error e => (.error e, offset + 1)
      | .ok idx =>
        match reader.constantPool.getF32 idx with
        | .error e => (.error e, offset + 1)
        | .ok bits => (.ok (.Float bits), offset + 3)
    else if tag = 73 then   -- I
      match reader.buffer.readU16 (offset + 1) with
      | .error e => (.error e, offset + 1)
      | .ok idx =>
        match reader.constantPool.getI32 idx with
        | .error e => (.error e, offset + 1)
        | .ok v => (.ok (.IntV v), offset + 3)
    else if tag = 74 then   -- J
      match reader.buffer.readU16 (offset + 1) with
      | .error e => (.error e, offset + 1)
      | .ok idx =>
        match reader.constantPool.getI64 idx with
        | .error e => (.error e, offset + 1)
        | .ok v => (.ok (.Long v), offset + 3)
    else if tag = 83 then   -- S
      match reader.buffer.readU16 (offset + 1) with
      | .error e => (.error e, offset + 1)
      | .ok idx =>
        match reader.constantPool.getI32 idx with
        | .error e => (.error e, offset + 1)
        | .ok v => (.ok (.Short (i32AsI16 v)), offset + 3)
    else if tag = 90 then   -- Z
      match reader.buffer.readU16 (offset + 1) with
      | .error e => (.error e, offset + 1)
      | .ok idx =>
        match reader.constantPool.getI32 idx with
        | .error e => (.error e, offset + 1)
        | .ok v => (.ok (.Boolean (v ≠ 0)), offset + 3)
    else if tag = 115 then   -- s
      match reader.buffer.readU16 (offset + 1) with
      | .error e => (.error e, offset + 1)
      | .ok idx =>
        match reader.constantPool.getUtf8 idx with
        | .error e => (.error e, offset + 1)
        | .ok s => (.ok (.Str s), offset + 3)
    else if tag = 101 then   -- e
      match reader.buffer.readU16 (offset + 1) with
      | .error e => (.error e, offset + 1)
      | .ok idx =>
        match reader.constantPool.getUtf8 idx with
        | .error e => (.error e, offset + 1)
        | .ok desc =>
          match reader.buffer.readU16 (offset + 3) with
          | .error e => (.error e, offset + 3)
          | .ok idx2 =>
            match reader.constantPool.getUtf8 idx2 with
            | .error e => (.error e, offset + 3)
            | .ok name => (.ok (.Enum desc name), offset + 5)
    else if tag = 99 then   -- c
      match reader.buffer.readU16 (offset + 1) with
      | .error e => (.error e, offset + 1)
      | .ok idx =>
        match reader.constantPool.getUtf8 idx with
        | .error e => (.error e, offset + 1)
        | .ok s => (.ok (.Class s), offset + 3)
    else if tag = 64 then   -- @
      match gas with
      | 0 => (.error .TooDeepAnnotationNesting, offset + 1)
      | g + 1 =>
        match readAnnotationNode reader g (offset + 1) with
        | (.error e, off2) => (.error e, off2)
        | (.ok a, off2) => (.ok (.Ann a), off2)
    else if tag = 91 then   -- [
      match gas with
      | 0 => (.error .TooDeepAnnotationNesting, offset + 1)
      | g + 1 =>
        match readAnnotationArray reader g (offset + 1) with
        | (.error e, off2) => (.error e, off2)
        | (.ok vs, off2) => (.ok (.Array vs), off2)
    else (.error (.BadAnnotationTag tag), offset + 1)
termination_by (gas, 0, 0)

end

/-- The entry loop of TypeAnnotationCodeLocation::read_local_variable. -/
def readLocalVarRangesLoop (reader : ClassReader) (k : Nat) (offset : Nat) :
    ClassFileResult (List TypeAnnotationLocalVariableRange) × Nat :=
  match k with
  | 0 => (.ok [], offset)
  | k + 1 =>
    match reader.buffer.readU16 offset with
    | .error e => (.error e, offset)
    | .ok startPc =>
      match reader.buffer.readU16 (offset + 2) with
      | .error e => (.error e, offset + 2)
      | .ok len =>
        match reader.buffer.readU16 (offset + 4) with
        | .error e => (.error e, offset + 4)
        | .ok idx =>
          match readLocalVarRangesLoop reader k (offset + 6) with
          | (.error e, o) => (.error e, o)
          | (.ok rest, o) =>
            (.ok ({ startPc := startPc, length := len, index := idx } :: rest), o)

/-- Model of TypeAnnotationCodeLocation::read_local_variable. -/
def readLocalVarRanges (reader : ClassReader) (offset : Nat) :
    ClassFileResult (List TypeAnnotationLocalVariableRange) × Nat :=
  match reader.buffer.readU16 offset with
  | .error e => (.error e, offset)
  | .ok n => readLocalVarRangesLoop reader n (offset + 2)

/-- The target-specific part of read_type_annotation: the fields following
the target-type byte, the resulting TypeReference and the code location. -/
def readTypeRefTarget (reader : ClassReader) (tt : TypeReferenceTargetType) (offset : Nat) :
    ClassFileResult (TypeReference × TypeAnnotationCodeLocation) × Nat :=
  match tt with
  | .ClassTypeParameter =>
    match reader.buffer.readU8 offset with
    | .error e => (.error e, offset)
    | .ok p => (.ok (.ClassTypeParameter p, .None), offset + 1)
  | .MethodTypeParameter =>
    match reader.buffer.readU8 offset with
    | .error e => (.error e, offset)
    | .ok p => (.ok (.MethodTypeParameter p, .None), offset + 1)
  | .ClassExtends =>
    match reader.buffer.readU16 offset with
    | .error e => (.error e, offset)
    | .ok s =>
      (.ok (.ClassExtends (if s = 65535 then none else some s), .None), offset + 2)
  | .ClassTypeParameterBound =>
    match reader.buffer.readU8 offset with
    | .error e => (.error e, offset)
    | .ok p =>
      match reader.buffer.readU8 (offset + 1) with
      | .error e => (.error e, offset + 1)
      | .ok b => (.ok (.ClassTypeParameterBound p b, .None), offset + 2)
  | .MethodTypeParameterBound =>
    match reader.buffer.readU8 offset with
    | .error e => (.error e, offset)
    | .ok p =>
      match reader.buffer.readU8 (offset + 1) with
      | .error e => (.error e, offset + 1)
      | .ok b => (.ok (.MethodTypeParameterBound p b, .None), offset + 2)
  | .Field => (.ok (.Field, .None), offset)
  | .MethodReturn => (.ok (.MethodReturn, .None), offset)
  | .MethodReceiver => (.ok (.MethodReceiver, .None), offset)
  | .MethodFormalParameter =>
    match reader.buffer.readU8 offset with
    | .error e => (.error e, offset)
    | .ok p => (.ok (.MethodFormalParameter p, .None), offset + 1)
  | .Throws =>
    match reader.buffer.readU16 offset with
    | .error e => (.error e, offset)
    | .ok x => (.ok (.Throws x, .None), offset + 2)
  | .LocalVariable =>
    match readLocalVarRanges reader offset with
    | (.error e, o) => (.error e, o)
    | (.ok ranges, o) => (.ok (.LocalVariable, .LocalVariable ranges), o)
  | .ResourceVariable =>
    match readLocalVarRanges reader offset with
    | (.error e, o) => (.error e, o)
    | (.ok ranges, o) => (.ok (.ResourceVariable, .LocalVariable ranges), o)
  | .ExceptionParameter =>
    match reader.buffer.readU16 offset with
    | .error e => (.error e, offset)
    | .ok idx => (.ok (.ExceptionParameter, .TryCatchBlock idx), offset + 2)
  | .Instanceof =>
    match reader.buffer.readU16 offset with
    | .error e => (.error e, offset)
    | .ok pc => (.ok (.Instanceof, .Insn pc), offset + 2)
  | .New =>
    match reader.buffer.readU16 offset with
    | .error e => (.error e, offset)
    | .ok pc => (.ok (.New, .Insn pc), offset + 2)
  | .ConstructorReference =>
    match reader.buffer.readU16 offset with
    | .error e => (.error e, offset)
    | .ok pc => (.ok (.ConstructorReference, .Insn pc), offset + 2)
  | .MethodReference =>
    match reader.buffer.readU16 offset with
    | .error e => (.error e, offset)
    | .ok pc => (.ok (.MethodReference, .Insn pc), offset + 2)
  | .Cast =>
    match reader.buffer.readU16 offset with
    | .error e => (.error e, offset)
    | .ok pc =>
      match reader.buffer.readU8 (offset + 2) with
      | .error e => (.error e, offset + 2)
      | .ok a => (.ok (.Cast a, .Insn pc), offset + 3)
  | .ConstructorInvocationTypeArgument =>
    match reader.buffer.readU16 offset with
    | .error e => (.error e, offset)
    | .ok pc =>
      match reader.buffer.readU8 (offset + 2) with
      | .error e => (.error e, offset + 2)
      | .ok a => (.ok (.ConstructorInvocationTypeArgument a, .Insn pc), offset + 3)
  | .MethodInvocationTypeArgument =>
    match reader.buffer.readU16 offset with
    | .error e => (.error e, offset)
    | .ok pc =>
      match reader.buffer.readU8 (offset + 2) with
      | .error e => (.error e, offset + 2)
      | .ok a => (.ok (.MethodInvocationTypeArgument a, .Insn pc), offset + 3)
  | .ConstructorReferenceTypeArgument =>
    match reader.buffer.readU16 offset with
    | .error e => (.error e, offset)
    | .ok pc =>
      match reader.buffer.readU8 (offset + 2) with
      | .error e => (.error e, offset + 2)
      | .ok a => (.ok (.ConstructorReferenceTypeArgument a, .Insn pc), offset + 3)
  | .MethodReferenceTypeArgument =>
    match reader.buffer.readU16 offset with
    | .error e => (.error e, offset)
    | .ok pc =>
      match reader.buffer.readU8 (offset + 2) with
      | .error e => (.error e, offset + 2)
      | .ok a => (.ok (.MethodReferenceTypeArgument a, .Insn pc), offset + 3)

/-- Model of read_type_annotation: target-type byte, target fields, type
path, descriptor, then a regular annotation body at depth 0. -/
def readTypeAnnotationNode (reader : ClassReader) (offset : Nat) :
    ClassFileResult (TypeAnnotationNode × TypeAnnotationCodeLocation) × Nat :=
  match reader.buffer.readU8 offset with
  | .error e => (.error e, offset)
  | .ok b =>
    match TypeReferenceTargetType.fromU8 b with
    | none => (.error (.BadTypeAnnotationTarget b), offset + 1)
    | some tt =>
      match readTypeRefTarget reader tt (offset + 1) with
      | (.error e, o) => (.error e, o)
      | (.ok (typeRef, codeLoc), o) =>
        match reader.buffer.readU8 o with
        | .error e => (.error e, o)
        | .ok pathLen =>
          match reader.buffer.readBytes (o + 1) (pathLen * 2) with
          | .error e => (.error e, o + 1)
          | .ok typePath =>
            match reader.buffer.readU16 (o + 1 + pathLen * 2) with
            | .error e => (.error e, o + 1 + pathLen * 2)
            | .ok descIdx =>
              match reader.constantPool.getUtf8 descIdx with
              | .error e => (.error e, o + 1 + pathLen * 2)
              | .ok desc =>
                match readAnnotationValues reader (MAX_ANNOTATION_NESTING + 1)
                    (o + 3 + pathLen * 2) with
                | (.error e, o2) => (.error e, o2)
                | (.ok values, o2) =>
                  (.ok ({ typeRef := typeRef, typePath := typePath, desc := desc,
                          values := values }, codeLoc), o2)

/-! ### The combined visible/invisible annotation iterators -/

/-- Model of AnnotationReaderIterator. -/
structure AnnotationReaderIterator where
  reader : ClassReader
  count : Nat
  visibleRemaining : Nat
  visibleOffset : Nat
  invisibleRemaining : Nat
  invisibleOffset : Nat
deriving Repr

/-- Model of AnnotationReaderIterator::new. -/
def AnnotationReaderIterator.new (reader : ClassReader)
    (visibleCount visibleOffset invisibleCount invisibleOffset : Nat) :
    AnnotationReaderIterator :=
  { reader := reader, count := visibleCount + invisibleCount,
    visibleRemaining := visibleCount, visibleOffset := visibleOffset,
    invisibleRemaining := invisibleCount, invisibleOffset := invisibleOffset }

/-- Model of AnnotationReaderIterator::event. -/
def annIterEvent (reader : ClassReader) (visible : Bool) (offset : Nat) :
    ClassFileResult (AnnotationEvent AnnotationNode) × Nat :=
  match readAnnotationNode reader (MAX_ANNOTATION_NESTING + 1) offset with
  | (.error e, o) => (.error e, o)
  | (.ok a, o) => (.ok { visible := visible, ann := a }, o)

/-- Model of AnnotationReaderIterator::next: drain the visible attribute
first, then the invisible one, threading each offset cursor. -/
def annIterNext (it : AnnotationReaderIterator) :
    Option (ClassFileResult (AnnotationEvent AnnotationNode)) × AnnotationReaderIterator :=
  if it.visibleRemaining ≠ 0 then
    let (r, o) := annIterEvent it.reader true it.visibleOffset
    (some r, { it with visibleRemaining := it.visibleRemaining - 1, visibleOffset := o })
  else if it.invisibleRemaining ≠ 0 then
    let (r, o) := annIterEvent it.reader false it.invisibleOffset
    (some r,
      { it with invisibleRemaining := it.invisibleRemaining - 1, invisibleOffset := o })
  else (none, it)

/-- Model of TypeAnnotationReaderIterator. -/
structure TypeAnnotationReaderIterator where
  reader : ClassReader
  count : Nat
  visibleRemaining : Nat
  visibleOffset : Nat
  invisibleRemaining : Nat
  invisibleOffset : Nat
deriving Repr

/-- Model of TypeAnnotationReaderIterator::new. -/
def TypeAnnotationReaderIterator.new (reader : ClassReader)
    (visibleCount visibleOffset invisibleCount invisibleOffset : Nat) :
    TypeAnnotationReaderIterator :=
  { reader := reader, count := visibleCount + invisibleCount,
    visibleRemaining := visibleCount, visibleOffset := visibleOffset,
    invisibleRemaining := invisibleCount, invisibleOffset := invisibleOffset }

/-- Model of TypeAnnotationReaderIterator::event (the code location is
discarded here). -/
def typeAnnIterEvent (reader : ClassReader) (visible : Bool) (offset : Nat) :
    ClassFileResult (AnnotationEvent TypeAnnotationNode) × Nat :=
  match readTypeAnnotationNode reader offset with
  | (.error e, o) => (.error e, o)
  | (.ok (a, _), o) => (.ok { visible := visible, ann := a }, o)

/-- Model of TypeAnnotationReaderIterator::next. -/
def typeAnnIterNext (it : TypeAnnotationReaderIterator) :
    Option (ClassFileResult (AnnotationEvent TypeAnnotationNode)) ×
      TypeAnnotationReaderIterator :=
  if it.visibleRemaining ≠ 0 then
    let (r, o) := typeAnnIterEvent it.reader true it.visibleOffset
    (some r, { it with visibleRemaining := it.visibleRemaining - 1, visibleOffset := o })
  else if it.invisibleRemaining ≠ 0 then
    let (r, o) := typeAnnIterEvent it.reader false it.invisibleOffset
    (some r,
      { it with invisibleRemaining := it.invisibleRemaining - 1, invisibleOffset := o })
  else (none, it)

/-- Unfolding of the annotation iterator: the list of items yielded by
repeated next calls, bounded by fuel. -/
def annIterRun (fuel : Nat) (it : AnnotationReaderIterator) :
    List (ClassFileResult (AnnotationEvent AnnotationNode)) :=
  match fuel with
  | 0 => []
  | f + 1 =>
    match annIterNext it with
    | (none, _) => []
    | (some r, it2) => r :: annIterRun f it2

/-- The reference sequence: n successive annotation events read from one
attribute, threading the offset cursor. -/
def annChain (reader : ClassReader) (visible : Bool) (n : Nat) (offset : Nat) :
    List (ClassFileResult (AnnotationEvent AnnotationNode)) :=
  match n with
  | 0 => []
  | n + 1 =>
    let (r, o) := annIterEvent reader visible offset
    r :: annChain reader visible n o

/-- Unfolding of the type-annotation iterator. -/
def typeAnnIterRun (fuel : Nat) (it : TypeAnnotationReaderIterator) :
    List (ClassFileResult (AnnotationEvent TypeAnnotationNode)) :=
  match fuel with
  | 0 => []
  | f + 1 =>
    match typeAnnIterNext it with
    | (none, _) => []
    | (some r, it2) => r :: typeAnnIterRun f it2

/-- The reference sequence of n successive type-annotation events from one
attribute. -/
def typeAnnChain (reader : ClassReader) (visible : Bool) (n : Nat) (offset : Nat) :
    List (ClassFileResult (AnnotationEvent TypeAnnotationNode)) :=
  match n with
  | 0 => []
  | n + 1 =>
    let (r, o) := typeAnnIterEvent reader visible offset
    r :: typeAnnChain reader visible n o

theorem annChain_length (reader : ClassReader) (visible : Bool) :
    ∀ (n offset : Nat), (annChain reader visible n offset).length = n := by
  intro n
  induction n with
  | zero => intro offset; rfl
  | succ n ih =>
    intro offset
    rcases h : annIterEvent reader visible offset with ⟨r, o⟩
    simp [annChain, h, ih]

theorem typeAnnChain_length (reader : ClassReader) (visible : Bool) :
    ∀ (n offset : Nat), (typeAnnChain reader visible n offset).length = n := by
  intro n
  induction n with
  | zero => intro offset; rfl
  | succ n ih =>
    intro offset
    rcases h : typeAnnIterEvent reader visible offset with ⟨r, o⟩
    simp [typeAnnChain, h, ih]

theorem annChain_visible (reader : ClassReader) (visible : Bool) :
    ∀ (n offset : Nat), ∀ r ∈ annChain reader visible n offset,
      ∀ ev, r = .ok ev → ev.visible = visible := by
  intro n
  induction n with
  | zero => intro offset r hr; simp [annChain] at hr
  | succ n ih =>
    intro offset r hr ev hev
    rcases h : annIterEvent reader visible offset with ⟨r2, o⟩
    rw [annChain] at hr
    rw [h] at hr
    simp only [List.mem_cons] at hr
    rcases hr with hr | hr
    · subst hr
      subst hev
      unfold annIterEvent at h
      rcases hn : readAnnotationNode reader (MAX_ANNOTATION_NESTING + 1) offset with ⟨res, o2⟩
      rw [hn] at h
      cases res with
      | error e => simp at h
      | ok a =>
        simp only [Prod.mk.injEq, Except.ok.injEq] at h
        rw [← h.1]
    · exact ih o r hr ev hev

theorem typeAnnChain_visible (reader : ClassReader) (visible : Bool) :
    ∀ (n offset : Nat), ∀ r ∈ typeAnnChain reader visible n offset,
      ∀ ev, r = .ok ev → ev.visible = visible := by
  intro n
  induction n with
  | zero => intro offset r hr; simp [typeAnnChain] at hr
  | succ n ih =>
    intro offset r hr ev hev
    rcases h : typeAnnIterEvent reader visible offset with ⟨r2, o⟩
    rw [typeAnnChain] at hr
    rw [h] at hr
    simp only [List.mem_cons] at hr
    rcases hr with hr | hr
    · subst hr
      subst hev
      unfold typeAnnIterEvent at h
      rcases hn : readTypeAnnotationNode reader offset with ⟨res, o2⟩
      rw [hn] at h
      cases res with
      | error e => simp at h
      | ok a =>
        rcases a with ⟨node, loc⟩
        simp only [Prod.mk.injEq, Except.ok.injEq] at h
        rw [← h.1]
    · exact ih o r hr ev hev

theorem annIterRun_invisible (reader : ClassReader) :
    ∀ (i fuel c vo io : Nat), i ≤ fuel →
      annIterRun fuel ⟨reader, c, 0, vo, i, io⟩ = annChain reader false i io := by
  intro i
  induction i with
  | zero =>
    intro fuel c vo io _
    cases fuel with
    | zero => rfl
    | succ f => simp [annIterRun, annIterNext, annChain]
  | succ i ih =>
    intro fuel c vo io hle
    cases fuel with
    | zero => omega
    | succ f =>
      rcases h : annIterEvent reader false io with ⟨r, o⟩
      simp only [annIterRun, annIterNext]
      rw [annChain]
      simp only [h]
      simp [ih f c vo o (by omega), h]

theorem annIterRun_spec (reader : ClassReader) :
    ∀ (v fuel c vo i io : Nat), v + i ≤ fuel →
      annIterRun fuel ⟨reader, c, v, vo, i, io⟩ =
        annChain reader true v vo ++ annChain reader false i io := by
  intro v
  induction v with
  | zero =>
    intro fuel c vo i io hle
    rw [annIterRun_invisible reader i fuel c vo io (by omega)]
    simp [annChain]
  | succ v ih =>
    intro fuel c vo i io hle
    cases fuel with
    | zero => omega
    | succ f =>
      rcases h : annIterEvent reader true vo with ⟨r, o⟩
      simp only [annIterRun, annIterNext]
      rw [annChain]
      simp only [h]
      simp [ih f c o i io (by omega), h]

theorem typeAnnIterRun_invisible (reader : ClassReader) :
    ∀ (i fuel c vo io : Nat), i ≤ fuel →
      typeAnnIterRun fuel ⟨reader, c, 0, vo, i, io⟩ = typeAnnChain reader false i io := by
  intro i
  induction i with
  | zero =>
    intro fuel c vo io _
    cases fuel with
    | zero => rfl
    | succ f => simp [typeAnnIterRun, typeAnnIterNext, typeAnnChain]
  | succ i ih =>
    intro fuel c vo io hle
    cases fuel with
    | zero => omega
    | succ f =>
      rcases h : typeAnnIterEvent reader false io with ⟨r, o⟩
      simp only [typeAnnIterRun, typeAnnIterNext]
      rw [typeAnnChain]
      simp only [h]
      simp [ih f c vo o (by omega), h]

theorem typeAnnIterRun_spec (reader : ClassReader) :
    ∀ (v fuel c vo i io : Nat), v + i ≤ fuel →
      typeAnnIterRun fuel ⟨reader, c, v, vo, i, io⟩ =
        typeAnnChain reader true v vo ++ typeAnnChain reader false i io := by
  intro v
  induction v with
  | zero =>
    intro fuel c vo i io hle
    rw [typeAnnIterRun_invisible reader i fuel c vo io (by omega)]
    simp [typeAnnChain]
  | succ v ih =>
    intro fuel c vo i io hle
    cases fuel with
    | zero => omega
    | succ f =>
      rcases h : typeAnnIterEvent reader true vo with ⟨r, o⟩
      simp only [typeAnnIterRun, typeAnnIterNext]
      rw [typeAnnChain]
      simp only [h]
      simp [ih f c o i io (by omega), h]

/-- C10: both combined annotation iterators yield the visible attribute's
entries (parsed successively from its offset, each tagged visible) strictly
before the invisible attribute's entries (each tagged invisible), and the
run yields exactly visible_count + invisible_count items. -/
theorem C10_annotation_iterators :
    ∀ (reader : ClassReader) (v vo i io fuel c : Nat), v + i ≤ fuel →
      (annIterRun fuel ⟨reader, c, v, vo, i, io⟩ =
          annChain reader true v vo ++ annChain reader false i io ∧
        (annIterRun fuel ⟨reader, c, v, vo, i, io⟩).length = v + i ∧
        (∀ r ∈ annChain reader true v vo, ∀ ev, r = .ok ev → ev.visible = true) ∧
        (∀ r ∈ annChain reader false i io, ∀ ev, r = .ok ev → ev.visible = false)) ∧
      (typeAnnIterRun fuel ⟨reader, c, v, vo, i, io⟩ =
          typeAnnChain reader true v vo ++ typeAnnChain reader false i io ∧
        (typeAnnIterRun fuel ⟨reader, c, v, vo, i, io⟩).length = v + i ∧
        (∀ r ∈ typeAnnChain reader true v vo, ∀ ev, r = .ok ev → ev.visible = true) ∧
        (∀ r ∈ typeAnnChain reader false i io, ∀ ev, r = .ok ev → ev.visible = false)) := by
  intro reader v vo i io fuel c hle
  refine ⟨⟨annIterRun_spec reader v fuel c vo i io hle, ?_, ?_, ?_⟩,
    ⟨typeAnnIterRun_spec reader v fuel c vo i io hle, ?_, ?_, ?_⟩⟩
  · rw [annIterRun_spec reader v fuel c vo i io hle]
    simp [annChain_length]
  · exact annChain_visible reader true v vo
  · exact annChain_visible reader false i io
  · rw [typeAnnIterRun_spec reader v fuel c vo i io hle]
    simp [typeAnnChain_length]
  · exact typeAnnChain_visible reader true v vo
  · exact typeAnnChain_visible reader false i io

/-- Bytes holding a one-entry constant pool (Utf8 "A" at slot 1, offset 1)
followed by two annotation bodies (desc index 1, zero element values) at
offsets 5 and 9. -/
def c10Data : List Nat := [0, 1, 0, 1, 65, 0, 1, 0, 0, 0, 1, 0, 0]

/-- A reader over c10Data. -/
def c10Reader : ClassReader :=
  { buffer := { data := c10Data },
    constantPool := { buffer := { data := c10Data }, offset := [0, 1] },
    metadataStart := 0, readerFlags := ClassReaderFlags.none }

/-- Witness for C10: with one visible annotation at offset 5 and one
invisible at offset 9 the run is the visible chain then the invisible one,
two items long, and the chains parse to the concrete events. -/
theorem C10_witness :
    annIterRun 2 ⟨c10Reader, 2, 1, 5, 1, 9⟩ =
      annChain c10Reader true 1 5 ++ annChain c10Reader false 1 9 ∧
    (annIterRun 2 ⟨c10Reader, 2, 1, 5, 1, 9⟩).length = 1 + 1 ∧
    annChain c10Reader true 1 5 =
      [.ok { visible := true, ann := .mk [65] [] }] ∧
    annChain c10Reader false 1 9 =
      [.ok { visible := false, ann := .mk [65] [] }] := by
  have h := (C10_annotation_iterators c10Reader 1 5 1 9 2 2 (by decide)).1
  refine ⟨h.1, h.2.1, ?_, ?_⟩
  · simp [annChain, annIterEvent, readAnnotationNode, readAnnotationValues,
      readAnnotationValuesLoop, c10Reader, c10Data, ClassBuffer.readU16,
      ClassBuffer.readU8, ConstantPool.getUtf8, ConstantPool.taggedOffset,
      ConstantPool.indexToOffset, ConstantPool.readUtf8At, ConstantPoolTag.fromU8,
      ClassBuffer.readBytes, MAX_ANNOTATION_NESTING, bind, Except.bind, pure,
      Except.pure]
  · simp [annChain, annIterEvent, readAnnotationNode, readAnnotationValues,
      readAnnotationValuesLoop, c10Reader, c10Data, ClassBuffer.readU16,
      ClassBuffer.readU8, ConstantPool.getUtf8, ConstantPool.taggedOffset,
      ConstantPool.indexToOffset, ConstantPool.readUtf8At, ConstantPoolTag.fromU8,
      ClassBuffer.readBytes, MAX_ANNOTATION_NESTING, bind, Except.bind, pure,
      Except.pure]

/-! ### Labels, frames and the method event model -/

/-- Model of Label (a u32 id). -/
structure Label where
  id : Nat
deriving DecidableEq, Repr

/-- The label creator used by the class reader (the counter-based default
creator: an atomic u32 starting at 0); modelled as the counter value. -/
abbrev LabelCreator := Nat

/-- Model of create_label: return Label(next_id) and advance the counter. -/
def createLabel (c : LabelCreator) : Label × LabelCreator := (⟨c⟩, c + 1)

/-- Model of FrameValue. -/
inductive FrameValue where
  | Top
  | Integer
  | Float
  | Long
  | Double
  | Null
  | UninitializedThis
  | Class (s : JStr)
  | Uninitialized (l : Label)
deriving DecidableEq, Repr

/-- Model of Frame. -/
inductive Frame where
  | Full (locals stack : List FrameValue)
  | Append (locals : List FrameValue)
  | Chop (numLocals : Nat)
  | Same
  | Same1 (stackValue : FrameValue)
  | New (locals stack : List FrameValue)
deriving DecidableEq, Repr

/-- Model of LdcConstant; Float and Double carry raw bit patterns. -/
inductive LdcConstant where
  | Integer (v : Int)
  | Float (bits : Nat)
  | Long (v : Int)
  | Double (bits : Nat)
  | String (s : JStr)
  | Class (s : JStr)
  | MethodType (s : JStr)
  | Handle (h : ClassFile.Handle)
  | ConstantDynamic (d : ClassFile.ConstantDynamic)
deriving Repr

/-- Model of the NewArrayType enum. -/
inductive NewArrayType where
  | Boolean
  | Char
  | Float
  | Double
  | Byte
  | Short
  | Int
  | Long
deriving DecidableEq, Repr

/-- Model of NewArrayType try_from (reprs 4..=11). -/
def NewArrayType.fromU8 (b : Nat) : Option NewArrayType :=
  match b with
  | 4 => some .Boolean
  | 5 => some .Char
  | 6 => some .Float
  | 7 => some .Double
  | 8 => some .Byte
  | 9 => some .Short
  | 10 => some .Int
  | 11 => some .Long
  | _ => none

/-- Model of MethodParameterEvent (the access bitset is its raw u16). -/
structure MethodParameterEvent where
  name : Option JStr
  access : Nat
deriving Repr

/-- Model of MethodParameterReaderIterator (a simple count/offset reader). -/
structure MethodParameterReaderIterator where
  reader : ClassReader
  remaining : Nat
  offset : Nat
deriving Repr

/-- Model of MethodAnnotableParameterCountEvent. -/
structure MethodAnnotableParameterCountEvent where
  count : Nat
  visible : Bool
deriving DecidableEq, Repr

/-- Model of MethodParameterAnnotationsReaderIterator. -/
structure MethodParameterAnnotationsReaderIterator where
  reader : ClassReader
  visibleOffset : Nat
  invisibleOffset : Nat
  paramCount : Nat
  paramIndex : Nat
  annotationsRemaining : Nat
  state : Nat
deriving Repr

/-- Model of CustomAttributeReaderIterator. -/
structure CustomAttributeReaderIterator where
  reader : ClassReader
  index : Nat
  offsets : List Nat
deriving Repr

/-- Model of MethodMaxsEvent. -/
structure MethodMaxsEvent where
  maxLocals : Nat
  maxStack : Nat
deriving DecidableEq, Repr

/-- Model of MethodLocalVariableEvent; the end field is written endL (end
is a Lean keyword). -/
structure MethodLocalVariableEvent where
  start : Label
  endL : Label
  name : JStr
  desc : JStr
  signature : Option JStr
  index : Nat
deriving DecidableEq, Repr

/-- Model of MethodTryCatchBlockEvent. -/
structure MethodTryCatchBlockEvent where
  start : Label
  endL : Label
  handler : Label
  ty : Option JStr
deriving DecidableEq, Repr

/-- Model of MethodLocalVariableAnnotationEvent; the annotation field is
written ann. -/
structure MethodLocalVariableAnnotationEvent where
  ranges : List (Label × Label × Nat)
  visible : Bool
  ann : TypeAnnotationNode
deriving Repr

/-- Model of MethodTryCatchBlockAnnotationEvent; the annotation field is
written ann. -/
structure MethodTryCatchBlockAnnotationEvent where
  tryCatchBlockIndex : Nat
  ann : TypeAnnotationNode
deriving Repr

/-- Model of MethodEvent (provider-typed payloads carry the concrete
iterator state or taken vector the source hands out). -/
inductive MethodEvent where
  | Deprecated
  | Parameters (p : MethodParameterReaderIterator)
  | AnnotationDefault (v : AnnotationValue)
  | Annotations (it : AnnotationReaderIterator)
  | TypeAnnotations (it : TypeAnnotationReaderIterator)
  | AnnotableParameterCount (e : MethodAnnotableParameterCountEvent)
  | ParameterAnnotations (it : MethodParameterAnnotationsReaderIterator)
  | Attributes (it : CustomAttributeReaderIterator)
  | Code (labelCreator : LabelCreator)
  | Frame (f : ClassFile.Frame)
  | Insn (op : Opcode)
  | BIPushInsn (v : Int)
  | SIPushInsn (v : Int)
  | NewArrayInsn (t : NewArrayType)
  | VarInsn (op : Opcode) (varIndex : Nat)
  | TypeInsn (op : Opcode) (ty : JStr)
  | FieldInsn (op : Opcode) (owner name desc : JStr)
  | MethodInsn (op : Opcode) (owner name desc : JStr) (isInterface : Bool)
  | InvokeDynamicInsn (name desc : JStr) (bootstrapMethodHandle : ClassFile.Handle)
      (bootstrapMethodArguments : List BootstrapMethodArgument)
  | JumpInsn (op : Opcode) (label : Label)
  | Label (l : ClassFile.Label)
  | LdcInsn (c : LdcConstant)
  | IIncInsn (varIndex : Nat) (increment : Int)
  | TableSwitchInsn (low high : Int) (dflt : ClassFile.Label) (labels : List ClassFile.Label)
  | LookupSwitchInsn (dflt : ClassFile.Label) (values : List (Int × ClassFile.Label))
  | MultiANewArrayInsn (desc : JStr) (dimensions : Nat)
  | InsnAnnotations (anns : List (AnnotationEvent TypeAnnotationNode))
  | LineNumber (line : Nat) (start : ClassFile.Label)
  | LocalVariables (lvt : List MethodLocalVariableEvent)
  | LocalVariableAnnotations (xs : List MethodLocalVariableAnnotationEvent)
  | TryCatchBlocks (xs : List MethodTryCatchBlockEvent)
  | TryCatchBlockAnnotations (xs : List MethodTryCatchBlockAnnotationEvent)
  | CodeAttributes (it : CustomAttributeReaderIterator)
  | Maxs (e : MethodMaxsEvent)
deriving Repr

/-- Model of InstructionMetadata; the annotations field is written anns. -/
structure InstructionMetadata where
  insnEvent : Option MethodEvent
  label : Option Label
  lineNumber : Option Nat
  frame : Option Frame
  anns : List (AnnotationEvent TypeAnnotationNode)
deriving Repr

/-- The Default value of InstructionMetadata. -/
def InstructionMetadata.empty : InstructionMetadata :=
  { insnEvent := none, label := none, lineNumber := none, frame := none, anns := [] }

/-- Model of InstructionMetadata::get_or_create_label over the counter
creator: reuse the stored label or create and store a fresh one. -/
def getOrCreateLabel (m : InstructionMetadata) (c : LabelCreator) :
    Label × InstructionMetadata × LabelCreator :=
  match m.label with
  | some l => (l, m, c)
  | none => (⟨c⟩, { m with label := some ⟨c⟩ }, c + 1)

/-- Model of CodeSliceExtensions::get_code on the code byte slice. -/
def getCode (xs : List Nat) (i : Nat) : ClassFileResult Nat :=
  match xs[i]? with
  | some v => .ok v
  | none => .error (.CodeOffsetOutOfBounds i xs.length)

/-- get_code_mut on the metadata table followed by get_or_create_label. -/
def metaGetOrCreateLabel (meta : List InstructionMetadata) (i : Nat) (c : LabelCreator) :
    ClassFileResult (Label × List InstructionMetadata × LabelCreator) :=
  match meta[i]? with
  | none => .error (.CodeOffsetOutOfBounds i meta.length)
  | some m =>
    let (l, m2, c2) := getOrCreateLabel m c
    .ok (l, meta.set i m2, c2)

/-- get_code_mut on the metadata table followed by storing a frame. -/
def metaSetFrame (meta : List InstructionMetadata) (i : Nat) (f : Frame) :
    ClassFileResult (List InstructionMetadata) :=
  match meta[i]? with
  | none => .error (.CodeOffsetOutOfBounds i meta.length)
  | some m => .ok (meta.set i { m with frame := some f })

/-- Model of CodeData::read_frame_value: one verification-type-info entry. -/
def readFrameValue (reader : ClassReader) (offset : Nat)
    (meta : List InstructionMetadata) (c : LabelCreator) :
    ClassFileResult (FrameValue × Nat × List InstructionMetadata × LabelCreator) := do
  let tag ← reader.buffer.readU8 offset
  if tag = 0 then pure (.Top, offset + 1, meta, c)
  else if tag = 1 then pure (.Integer, offset + 1, meta, c)
  else if tag = 2 then pure (.Float, offset + 1, meta, c)
  else if tag = 3 then pure (.Double, offset + 1, meta, c)
  else if tag = 4 then pure (.Long, offset + 1, meta, c)
  else if tag = 5 then pure (.Null, offset + 1, meta, c)
  else if tag = 6 then pure (.UninitializedThis, offset + 1, meta, c)
  else if tag = 7 then do
    let ty ← reader.constantPool.getClass (← reader.buffer.readU16 (offset + 1))
    pure (.Class ty, offset + 3, meta, c)
  else if tag = 8 then do
    let cpIndex ← reader.buffer.readU16 (offset + 1)
    let (l, meta2, c2) ← metaGetOrCreateLabel meta cpIndex c
    pure (.Uninitialized l, offset + 3, meta2, c2)
  else .error (.BadFrameValueTag tag)

/-- The k-entry loop of the Append and Full frame forms. -/
def readFrameValuesLoop (reader : ClassReader) (k : Nat) (offset : Nat)
    (meta : List InstructionMetadata) (c : LabelCreator) :
    ClassFileResult (List FrameValue × Nat × List InstructionMetadata × LabelCreator) :=
  match k with
  | 0 => .ok ([], offset, meta, c)
  | k + 1 => do
    let (v, off2, meta2, c2) ← readFrameValue reader offset meta c
    let (vs, off3, meta3, c3) ← readFrameValuesLoop reader k off2 meta2 c2
    pure (v :: vs, off3, meta3, c3)

/-- The code offset a frame is anchored at: its delta when it is the first
frame, otherwise the previous anchor plus the delta plus one. -/
def anchorStep (lco : Option Nat) (d : Nat) : Nat :=
  match lco with
  | none => d
  | some l => l + d + 1

/-- The frame-type dispatch of one iteration of CodeData::read_frames: the
delta, the decoded frame, the offset after it, and the metadata table and
label counter threaded through the frame values. -/
def readFrameOne (reader : ClassReader) (ft off1 : Nat)
    (meta : List InstructionMetadata) (c : LabelCreator) :
    ClassFileResult (Nat × Frame × Nat × List InstructionMetadata × LabelCreator) :=
  if ft ≤ 63 then
    pure (ft, Frame.Same, off1, meta, c)
  else if ft ≤ 127 then do
    let (sv, o, m, cr) ← readFrameValue reader off1 meta c
    pure (ft - 64, Frame.Same1 sv, o, m, cr)
  else if ft = 247 then do
    let d ← reader.buffer.readU16 off1
    let (sv, o, m, cr) ← readFrameValue reader (off1 + 2) meta c
    pure (d, Frame.Same1 sv, o, m, cr)
  else if 248 ≤ ft ∧ ft ≤ 250 then do
    let d ← reader.buffer.readU16 off1
    pure (d, Frame.Chop (251 - ft), off1 + 2, meta, c)
  else if ft = 251 then do
    let d ← reader.buffer.readU16 off1
    pure (d, Frame.Same, off1 + 2, meta, c)
  else if 252 ≤ ft ∧ ft ≤ 254 then do
    let d ← reader.buffer.readU16 off1
    let (locals, o, m, cr) ← readFrameValuesLoop reader (ft - 251) (off1 + 2) meta c
    pure (d, Frame.Append locals, o, m, cr)
  else if ft = 255 then do
    let d ← reader.buffer.readU16 off1
    let localCount ← reader.buffer.readU16 (off1 + 2)
    let (locals, o, m, cr) ← readFrameValuesLoop reader localCount (off1 + 4) meta c
    let stackCount ← reader.buffer.readU16 o
    let (stack, o2, m2, cr2) ← readFrameValuesLoop reader stackCount (o + 2) m cr
    pure (d, Frame.Full locals stack, o2, m2, cr2)
  else .error (.BadFrameType ft)

/-- The per-frame loop of CodeData::read_frames: decode one frame of the
compressed table (or a forced type-255 frame for the legacy StackMap form),
anchor it at the delta-chained code offset and store it. -/
def readFramesLoop (reader : ClassReader) (compressed : Bool) (count : Nat)
    (offset : Nat) (meta : List InstructionMetadata) (c : LabelCreator)
    (lastCodeOffset : Option Nat) :
    ClassFileResult (Nat × List InstructionMetadata × LabelCreator) :=
  match count with
  | 0 => .ok (offset, meta, c)
  | count + 1 => do
    let (ft, off1) ←
      if compressed then do
        let t ← reader.buffer.readU8 offset
        pure (t, offset + 1)
      else pure ((255 : Nat), offset)
    let (offsetDelta, frame, off2, meta2, c2) ← readFrameOne reader ft off1 meta c
    let codeOffset := anchorStep lastCodeOffset offsetDelta
    let meta3 ← metaSetFrame meta2 codeOffset frame
    readFramesLoop reader compressed count off2 meta3 c2 (some codeOffset)

/-- Model of CodeData::read_frames. -/
def readFrames (reader : ClassReader) (offset : Nat) (compressed : Bool)
    (meta : List InstructionMetadata) (c : LabelCreator) :
    ClassFileResult (Nat × List InstructionMetadata × LabelCreator) := do
  let frameCount ← reader.buffer.readU16 offset
  readFramesLoop reader compressed frameCount (offset + 2) meta c none

/-- The anchor chain of a stack-map table: the first frame sits at its
delta, every later frame at the previous anchor plus its delta plus one. -/
def frameAnchors (lco : Option Nat) : List Nat → List Nat
  | [] => []
  | d :: ds => anchorStep lco d :: frameAnchors (some (anchorStep lco d)) ds

theorem frameAnchors_gt : ∀ (ds : List Nat) (l : Nat),
    ∀ a ∈ frameAnchors (some l) ds, l < a := by
  intro ds
  induction ds with
  | nil => intro l a ha; simp [frameAnchors] at ha
  | cons d ds ih =>
    intro l a ha
    rw [frameAnchors] at ha
    simp only [List.mem_cons] at ha
    rcases ha with ha | ha
    · subst ha; simp [anchorStep]; omega
    · have := ih (anchorStep (some l) d) a ha
      simp [anchorStep] at this
      omega

/-- Lengths and per-slot frame fields coincide between two metadata
tables. -/
def FramesPreserved (meta meta2 : List InstructionMetadata) : Prop :=
  meta2.length = meta.length ∧
  ∀ j : Nat, (meta2[j]?).map InstructionMetadata.frame =
    (meta[j]?).map InstructionMetadata.frame

theorem framesPreserved_refl (meta : List InstructionMetadata) :
    FramesPreserved meta meta :=
  ⟨rfl, fun _ => rfl⟩

theorem framesPreserved_trans {a b c : List InstructionMetadata}
    (h1 : FramesPreserved a b) (h2 : FramesPreserved b c) : FramesPreserved a c :=
  ⟨h2.1.trans h1.1, fun j => (h2.2 j).trans (h1.2 j)⟩

theorem metaSetFrame_ok {meta : List InstructionMetadata} {i : Nat} {f : Frame}
    {meta2 : List InstructionMetadata} (h : metaSetFrame meta i f = .ok meta2) :
    i < meta.length ∧ meta2.length = meta.length ∧
    (∃ m, meta2[i]? = some m ∧ m.frame = some f) ∧
    ∀ j, j ≠ i → meta2[j]? = meta[j]? := by
  unfold metaSetFrame at h
  rcases hm : meta[i]? with _ | m
  · rw [hm] at h; simp at h
  · rw [hm] at h
    simp only [Except.ok.injEq] at h
    subst h
    have hlt : i < meta.length := (List.getElem?_eq_some.mp hm).1
    refine ⟨hlt, by simp, ⟨{ m with frame := some f }, ?_, rfl⟩, ?_⟩
    · rw [List.getElem?_set_self (by simpa using hlt)]
    · intro j hj
      exact List.getElem?_set_ne (fun he => hj he.symm)

theorem metaGetOrCreateLabel_frames {meta : List InstructionMetadata} {i : Nat}
    {c : LabelCreator} {l : Label} {meta2 : List InstructionMetadata} {c2 : LabelCreator}
    (h : metaGetOrCreateLabel meta i c = .ok (l, meta2, c2)) :
    FramesPreserved meta meta2 := by
  unfold metaGetOrCreateLabel at h
  rcases hm : meta[i]? with _ | m
  · rw [hm] at h; simp at h
  · rw [hm] at h
    simp only [] at h
    rcases hg : getOrCreateLabel m c with ⟨l0, m2, c2A⟩
    rw [hg] at h
    simp only [Except.ok.injEq, Prod.mk.injEq] at h
    obtain ⟨_, hmeta, _⟩ := h
    subst hmeta
    have hframe : m2.frame = m.frame := by
      unfold getOrCreateLabel at hg
      rcases hml : m.label with _ | l1 <;> rw [hml] at hg <;>
        simp only [Prod.mk.injEq] at hg
      · obtain ⟨_, hm2, _⟩ := hg
        subst hm2
        rfl
      · obtain ⟨_, hm2, _⟩ := hg
        subst hm2
        rfl
    refine ⟨by simp, fun j => ?_⟩
    by_cases hji : j = i
    · subst hji
      rw [List.getElem?_set_self (by simpa using (List.getElem?_eq_some.mp hm).1), hm]
      simp [hframe]
    · rw [List.getElem?_set_ne (fun he => hji he.symm)]

theorem readFrameValue_frames {reader : ClassReader} {offset : Nat}
    {meta : List InstructionMetadata} {c : LabelCreator} {v : FrameValue} {o : Nat}
    {meta2 : List InstructionMetadata} {c2 : LabelCreator}
    (h : readFrameValue reader offset meta c = .ok (v, o, meta2, c2)) :
    FramesPreserved meta meta2 := by
  unfold readFrameValue at h
  obtain ⟨tag, htag, h⟩ := bind_ok h
  repeat' split at h
  all_goals
    first
    | exact Except.noConfusion h
    | (have he := pure_ok_inv h
       simp only [Prod.mk.injEq] at he
       obtain ⟨_, _, hm, _⟩ := he
       subst hm
       exact framesPreserved_refl meta)
    | (obtain ⟨u, _, h⟩ := bind_ok h
       obtain ⟨ty, _, h⟩ := bind_ok h
       have he := pure_ok_inv h
       simp only [Prod.mk.injEq] at he
       obtain ⟨_, _, hm, _⟩ := he
       subst hm
       exact framesPreserved_refl meta)
    | (obtain ⟨u, _, h⟩ := bind_ok h
       obtain ⟨trip, hg, h⟩ := bind_ok h
       rcases trip with ⟨l2, metaB, cB⟩
       have he := pure_ok_inv h
       simp only [Prod.mk.injEq] at he
       obtain ⟨_, _, hm, _⟩ := he
       subst hm
       exact metaGetOrCreateLabel_frames hg)

theorem readFrameValuesLoop_frames {reader : ClassReader} :
    ∀ (k offset : Nat) (meta : List InstructionMetadata) (c : LabelCreator)
      (vs : List FrameValue) (o : Nat) (meta2 : List InstructionMetadata)
      (c2 : LabelCreator),
      readFrameValuesLoop reader k offset meta c = .ok (vs, o, meta2, c2) →
      FramesPreserved meta meta2 := by
  intro k
  induction k with
  | zero =>
    intro offset meta c vs o meta2 c2 h
    rw [readFrameValuesLoop] at h
    simp only [Except.ok.injEq, Prod.mk.injEq] at h
    obtain ⟨_, _, hm, _⟩ := h
    subst hm
    exact framesPreserved_refl meta
  | succ k ih =>
    intro offset meta c vs o meta2 c2 h
    rw [readFrameValuesLoop] at h
    obtain ⟨q1, h1, h⟩ := bind_ok h
    rcases q1 with ⟨v1, o1, metaA, cA⟩
    obtain ⟨q2, h2, h⟩ := bind_ok h
    rcases q2 with ⟨vsB, oB, metaB, cB⟩
    have he := pure_ok_inv h
    simp only [Prod.mk.injEq] at he
    obtain ⟨_, _, hm, _⟩ := he
    subst hm
    exact framesPreserved_trans (readFrameValue_frames h1) (ih o1 metaA cA vsB oB metaB cB h2)
/-- The anchoring statement of the frame loop at a given count: on success
the frames are stored exactly along the delta-anchor chain, every other
slot's frame field is untouched, and with compressed = false every stored
frame is a Full frame. -/
def FramesLoopSpec (count : Nat) : Prop :=
  ∀ (reader : ClassReader) (compressed : Bool) (offset : Nat)
    (meta : List InstructionMetadata) (c : LabelCreator) (lco : Option Nat)
    (offOut : Nat) (metaOut : List InstructionMetadata) (cOut : LabelCreator),
    readFramesLoop reader compressed count offset meta c lco =
      .ok (offOut, metaOut, cOut) →
    metaOut.length = meta.length ∧
    ∃ deltas : List Nat, deltas.length = count ∧
      (∀ a ∈ frameAnchors lco deltas, a < meta.length ∧
        ∃ m f, metaOut[a]? = some m ∧ m.frame = some f ∧
          (compressed = false → ∃ ls ss, f = .Full ls ss)) ∧
      (∀ j : Nat, j ∉ frameAnchors lco deltas →
        (metaOut[j]?).map InstructionMetadata.frame =
          (meta[j]?).map InstructionMetadata.frame)

/-- One decoded frame followed by a successful rest of the loop assembles
the anchoring statement for one more frame. -/
theorem framesLoop_step {count : Nat} (ih : FramesLoopSpec count)
    {reader : ClassReader} {compressed : Bool}
    {meta metaB metaC : List InstructionMetadata} {cB cOut : LabelCreator}
    {lco : Option Nat} {d : Nat} {fr : Frame} {off2 offOut : Nat}
    {metaOut : List InstructionMetadata}
    (hPresB : FramesPreserved meta metaB)
    (hfull : compressed = false → ∃ ls ss, fr = Frame.Full ls ss)
    (hset : metaSetFrame metaB (anchorStep lco d) fr = .ok metaC)
    (h : readFramesLoop reader compressed count off2 metaC cB
        (some (anchorStep lco d)) = .ok (offOut, metaOut, cOut)) :
    metaOut.length = meta.length ∧
    ∃ deltas : List Nat, deltas.length = count + 1 ∧
      (∀ a ∈ frameAnchors lco deltas, a < meta.length ∧
        ∃ m f, metaOut[a]? = some m ∧ m.frame = some f ∧
          (compressed = false → ∃ ls ss, f = .Full ls ss)) ∧
      (∀ j : Nat, j ∉ frameAnchors lco deltas →
        (metaOut[j]?).map InstructionMetadata.frame =
          (meta[j]?).map InstructionMetadata.frame) := by
  obtain ⟨hcoLt, hlenC, ⟨mC, hmC, hmCfr⟩, hCother⟩ := metaSetFrame_ok hset
  obtain ⟨hlenOut, ds, hdsLen, hAnchors, hOther⟩ :=
    ih reader compressed off2 metaC cB (some (anchorStep lco d)) offOut metaOut cOut h
  refine ⟨?_, ?_⟩
  · rw [hlenOut, hlenC]
    exact hPresB.1
  · refine ⟨d :: ds, by simp [hdsLen], ?_, ?_⟩
    · intro a ha
      rw [frameAnchors] at ha
      simp only [List.mem_cons] at ha
      rcases ha with ha | ha
      · subst ha
        have hnot : anchorStep lco d ∉ frameAnchors (some (anchorStep lco d)) ds := by
          intro hmem
          have := frameAnchors_gt ds (anchorStep lco d) _ hmem
          omega
        have hmap := hOther (anchorStep lco d) hnot
        rw [hmC] at hmap
        simp only [Option.map] at hmap
        refine ⟨by rw [← hPresB.1]; exact hcoLt, ?_⟩
        obtain ⟨mO, hout, hfr⟩ := Option.map_eq_some'.mp hmap
        refine ⟨mO, fr, hout, ?_, hfull⟩
        rw [hfr, hmCfr]
      · obtain ⟨haLt, m2, f2, hm2, hf2, hfull2⟩ := hAnchors a ha
        exact ⟨by rw [← hPresB.1, ← hlenC]; exact haLt, m2, f2, hm2, hf2, hfull2⟩
    · intro j hj
      rw [frameAnchors] at hj
      simp only [List.mem_cons, not_or] at hj
      obtain ⟨hj1, hj2⟩ := hj
      have e1 := hOther j hj2
      have e2 : metaC[j]? = metaB[j]? := hCother j hj1
      rw [e1, e2]
      exact hPresB.2 j

set_option maxRecDepth 4096 in
/-- Decoding one frame preserves every slot's frame field, and a forced
type 255 decodes to a Full frame. -/
theorem readFrameOne_spec {reader : ClassReader} {ft off1 : Nat}
    {meta : List InstructionMetadata} {c : LabelCreator} {d : Nat} {fr : Frame}
    {off2 : Nat} {metaB : List InstructionMetadata} {cB : LabelCreator}
    (h : readFrameOne reader ft off1 meta c = .ok (d, fr, off2, metaB, cB)) :
    FramesPreserved meta metaB ∧ (ft = 255 → ∃ ls ss, fr = Frame.Full ls ss) := by
  unfold readFrameOne at h
  repeat' split at h
  all_goals
    first
    | exact Except.noConfusion h
    | (have he := pure_ok_inv h
       simp only [Prod.mk.injEq] at he
       obtain ⟨h1, h2, h3, h4, h5⟩ := he
       subst h2
       subst h4
       refine ⟨framesPreserved_refl meta, fun h255 => ?_⟩
       omega)
    | (obtain ⟨q, hq, h⟩ := bind_ok h
       rcases q with ⟨sv, oQ, metaQ, cQ⟩
       have he := pure_ok_inv h
       simp only [Prod.mk.injEq] at he
       obtain ⟨h1, h2, h3, h4, h5⟩ := he
       subst h2
       subst h4
       refine ⟨readFrameValue_frames hq, fun h255 => ?_⟩
       omega)
    | (obtain ⟨dd, hdd, h⟩ := bind_ok h
       have he := pure_ok_inv h
       simp only [Prod.mk.injEq] at he
       obtain ⟨h1, h2, h3, h4, h5⟩ := he
       subst h2
       subst h4
       refine ⟨framesPreserved_refl meta, fun h255 => ?_⟩
       omega)
    | (obtain ⟨dd, hdd, h⟩ := bind_ok h
       obtain ⟨q, hq, h⟩ := bind_ok h
       rcases q with ⟨sv, oQ, metaQ, cQ⟩
       have he := pure_ok_inv h
       simp only [Prod.mk.injEq] at he
       obtain ⟨h1, h2, h3, h4, h5⟩ := he
       subst h2
       subst h4
       refine ⟨readFrameValue_frames hq, fun h255 => ?_⟩
       omega)
    | (obtain ⟨dd, hdd, h⟩ := bind_ok h
       obtain ⟨q, hq, h⟩ := bind_ok h
       rcases q with ⟨vs, oQ, metaQ, cQ⟩
       have he := pure_ok_inv h
       simp only [Prod.mk.injEq] at he
       obtain ⟨h1, h2, h3, h4, h5⟩ := he
       subst h2
       subst h4
       refine ⟨readFrameValuesLoop_frames _ _ _ _ _ _ _ _ hq, fun h255 => ?_⟩
       omega)
    | (obtain ⟨dd, hdd, h⟩ := bind_ok h
       obtain ⟨lc, hlc, h⟩ := bind_ok h
       obtain ⟨q, hq, h⟩ := bind_ok h
       rcases q with ⟨ls, oQ, metaQ, cQ⟩
       obtain ⟨sc, hsc, h⟩ := bind_ok h
       obtain ⟨q2, hq2, h⟩ := bind_ok h
       rcases q2 with ⟨ss, oR, metaR, cR⟩
       have he := pure_ok_inv h
       simp only [Prod.mk.injEq] at he
       obtain ⟨h1, h2, h3, h4, h5⟩ := he
       subst h2
       subst h4
       exact ⟨framesPreserved_trans (readFrameValuesLoop_frames _ _ _ _ _ _ _ _ hq)
         (readFrameValuesLoop_frames _ _ _ _ _ _ _ _ hq2), fun _ => ⟨ls, ss, rfl⟩⟩)

/-- Anchoring invariant of the frame loop, for every frame count. -/
theorem readFramesLoop_anchors : ∀ count : Nat, FramesLoopSpec count := by
  intro count
  induction count with
  | zero =>
    intro reader compressed offset meta c lco offOut metaOut cOut h
    rw [readFramesLoop] at h
    simp only [Except.ok.injEq, Prod.mk.injEq] at h
    obtain ⟨_, hm, _⟩ := h
    subst hm
    refine ⟨rfl, [], rfl, ?_, fun j _ => rfl⟩
    intro a ha
    simp [frameAnchors] at ha
  | succ count ih =>
    intro reader compressed offset meta c lco offOut metaOut cOut h
    rw [readFramesLoop] at h
    split at h
    · rename_i hcmp
      have hfalse : compressed = false → False := by
        intro hc; rw [hc] at hcmp; exact absurd hcmp (by simp)
      obtain ⟨ft, hft, h⟩ := bind_ok h
      obtain ⟨y, hy, h⟩ := bind_ok h
      have hye := pure_ok_inv hy
      subst hye
      obtain ⟨p2, hp2, h⟩ := bind_ok h
      rcases p2 with ⟨d, fr, off2, metaB, cB⟩
      obtain ⟨metaC, hset, h⟩ := bind_ok h
      obtain ⟨hPresB, _⟩ := readFrameOne_spec hp2
      exact framesLoop_step ih hPresB (fun hc => (hfalse hc).elim) hset h
    · rename_i hcmp
      obtain ⟨y, hy, h⟩ := bind_ok h
      have hye := pure_ok_inv hy
      subst hye
      obtain ⟨p2, hp2, h⟩ := bind_ok h
      rcases p2 with ⟨d, fr, off2, metaB, cB⟩
      obtain ⟨metaC, hset, h⟩ := bind_ok h
      obtain ⟨hPresB, hFull⟩ := readFrameOne_spec hp2
      exact framesLoop_step ih hPresB (fun _ => hFull rfl) hset h

/-- C2: read_frames anchors the first frame at its offset_delta and every
later frame at the previous anchor plus its delta plus one (the stored
frame table follows the frameAnchors chain, all other slots untouched); a
compressed frame-type byte in 128..=246 fails with BadFrameType; the
legacy uncompressed form (StackMap) decodes every frame as the full
(type 255) form; and a short-form byte t <= 63 is one Same frame with
delta t. -/
theorem C2_stack_map_frames :
    (∀ (reader : ClassReader) (offset : Nat) (compressed : Bool)
        (meta : List InstructionMetadata) (c : LabelCreator) (offOut : Nat)
        (metaOut : List InstructionMetadata) (cOut : LabelCreator),
      readFrames reader offset compressed meta c = .ok (offOut, metaOut, cOut) →
      ∃ count : Nat, reader.buffer.readU16 offset = .ok count ∧
        metaOut.length = meta.length ∧
        ∃ deltas : List Nat, deltas.length = count ∧
          (∀ a ∈ frameAnchors none deltas, a < meta.length ∧
            ∃ m f, metaOut[a]? = some m ∧ m.frame = some f ∧
              (compressed = false → ∃ ls ss, f = .Full ls ss)) ∧
          (∀ j : Nat, j ∉ frameAnchors none deltas →
            (metaOut[j]?).map InstructionMetadata.frame =
              (meta[j]?).map InstructionMetadata.frame)) ∧
    (∀ (reader : ClassReader) (count offset : Nat) (meta : List InstructionMetadata)
        (c : LabelCreator) (lco : Option Nat) (t : Nat),
      128 ≤ t → t ≤ 246 → reader.buffer.readU8 offset = .ok t →
      readFramesLoop reader true (count + 1) offset meta c lco =
        .error (.BadFrameType t)) ∧
    (∀ (reader : ClassReader) (n offset : Nat) (meta : List InstructionMetadata)
        (c : LabelCreator) (lco : Option Nat) (t : Nat),
      t ≤ 63 → reader.buffer.readU8 offset = .ok t →
      readFramesLoop reader true (n + 1) offset meta c lco =
        match metaSetFrame meta (anchorStep lco t) .Same with
        | .error e => .error e
        | .ok meta2 => readFramesLoop reader true n (offset + 1) meta2 c
            (some (anchorStep lco t))) := by
  refine ⟨?_, ?_, ?_⟩
  · intro reader offset compressed meta c offOut metaOut cOut h
    unfold readFrames at h
    obtain ⟨count, hc, h⟩ := bind_ok h
    exact ⟨count, hc,
      readFramesLoop_anchors count reader compressed (offset + 2) meta c none
        offOut metaOut cOut h⟩
  · intro reader count offset meta c lco t h128 h246 h8
    have h1 : readFrameOne reader t (offset + 1) meta c = .error (.BadFrameType t) := by
      unfold readFrameOne
      rw [if_neg (by omega), if_neg (by omega), if_neg (by omega), if_neg (by omega),
        if_neg (by omega), if_neg (by omega), if_neg (by omega)]
    simp only [readFramesLoop, reduceIte, h8, ok_bind, pure, Except.pure, h1, err_bind]
  · intro reader n offset meta c lco t ht h8
    have h1 : readFrameOne reader t (offset + 1) meta c =
        .ok (t, .Same, offset + 1, meta, c) := by
      simp only [readFrameOne, if_pos ht, pure, Except.pure]
    simp only [readFramesLoop, reduceIte, h8, ok_bind, pure, Except.pure, h1]
    rcases hm : metaSetFrame meta (anchorStep lco t) Frame.Same with e | meta3 <;> rfl

/-- Bytes of a compressed two-frame stack-map table: count 2, then type
bytes 0 and 5. -/
def c2Data : List Nat := [0, 2, 0, 5]

/-- A reader over c2Data. -/
def c2Reader : ClassReader :=
  { buffer := { data := c2Data },
    constantPool := { buffer := { data := c2Data }, offset := [] },
    metadataStart := 0, readerFlags := ClassReaderFlags.none }

/-- A reader whose first byte is the invalid frame type 130. -/
def c2BadReader : ClassReader :=
  { buffer := { data := [130] },
    constantPool := { buffer := { data := [130] }, offset := [] },
    metadataStart := 0, readerFlags := ClassReaderFlags.none }

/-- An eight-slot metadata table. -/
def c2Meta : List InstructionMetadata := List.replicate 8 InstructionMetadata.empty

/-- c2Meta after decoding c2Data: Same frames at anchors 0 and 0 + 5 + 1. -/
def c2MetaOut : List InstructionMetadata :=
  ((List.replicate 8 InstructionMetadata.empty).set 0
    { InstructionMetadata.empty with frame := some .Same }).set 6
    { InstructionMetadata.empty with frame := some .Same }

/-- Witness for C2 at concrete tables: the two-frame decode keeps the
table length, frame type 130 fails with BadFrameType, and a short-form
byte 5 after an anchor at 0 steps to the anchor 6. -/
theorem C2_witness :
    c2MetaOut.length = c2Meta.length ∧
    readFramesLoop c2BadReader true 1 0 c2Meta 0 none =
      .error (.BadFrameType 130) ∧
    readFramesLoop c2Reader true 1 3 c2Meta 0 (some 0) =
      (match metaSetFrame c2Meta (anchorStep (some 0) 5) .Same with
       | .error e => .error e
       | .ok meta2 => readFramesLoop c2Reader true 0 4 meta2 0
           (some (anchorStep (some 0) 5))) := by
  refine ⟨?_, ?_, ?_⟩
  · obtain ⟨count, _, hlen, _⟩ :=
      C2_stack_map_frames.1 c2Reader 0 true c2Meta 0 4 c2MetaOut 0 rfl
    exact hlen
  · exact C2_stack_map_frames.2.1 c2BadReader 0 0 c2Meta 0 none 130
      (by decide) (by decide) (by decide)
  · exact C2_stack_map_frames.2.2 c2Reader 0 3 c2Meta 0 (some 0) 5
      (by decide) (by decide)

/-! ### The bytecode decoder (CodeData::read_code) -/

/-- Model of BootstrapMethods::get over the computed table (get_all's
result): index into it or fail with BootstrapMethodOutOfBounds. -/
def bsmGet (bsms : ClassFileResult (List BootstrapMethod)) (i : Nat) :
    ClassFileResult BootstrapMethod := do
  let all ← bsms
  match all[i]? with
  | some b => pure b
  | none => .error (.BootstrapMethodOutOfBounds i all.length)

/-- Model of ClassMethodsIterator::get_ldc_constant. -/
def getLdcConstant (reader : ClassReader) (index : Nat)
    (bsms : ClassFileResult (List BootstrapMethod)) : ClassFileResult LdcConstant := do
  match ← reader.constantPool.get index with
  | .Integer i => pure (.Integer i)
  | .Float f => pure (.Float f)
  | .Long l => pure (.Long l)
  | .Double d => pure (.Double d)
  | .String s => pure (.String s)
  | .Class c => pure (.Class c)
  | .MethodType mt => pure (.MethodType mt)
  | .MethodHandle h => pure (.Handle h)
  | .Dynamic d => do
    let bm ← bsmGet bsms d.bootstrapMethodAttrIndex
    pure (.ConstantDynamic (.mk d.name d.desc bm.handle bm.args))
  | _ => .error (.BadConstantPoolTypeExpectedLdcOperand
      (← reader.constantPool.getType index))

/-- Big-endian u16 from two code bytes. -/
def codeU16 (code : List Nat) (i : Nat) : ClassFileResult Nat := do
  let a ← getCode code i
  let b ← getCode code (i + 1)
  pure (a * 256 + b)

/-- Big-endian i16 from two code bytes. -/
def codeI16 (code : List Nat) (i : Nat) : ClassFileResult Int := do
  let v ← codeU16 code i
  pure (asI16 v)

/-- Big-endian u32 from four code bytes. -/
def codeU32 (code : List Nat) (i : Nat) : ClassFileResult Nat := do
  let a ← getCode code i
  let b ← getCode code (i + 1)
  let c ← getCode code (i + 2)
  let d ← getCode code (i + 3)
  pure (((a * 256 + b) * 256 + c) * 256 + d)

/-- Big-endian i32 from four code bytes. -/
def codeI32 (code : List Nat) (i : Nat) : ClassFileResult Int := do
  let v ← codeU32 code i
  pure (asI32 v)

/-- usize::wrapping_add_signed over a sign-extended branch offset. -/
def wrapAddSigned (i : Nat) (b : Int) : Nat := (((i : Int) + b) % (2 ^ 64 : Int)).toNat

/-- i32 wrapping_sub reinterpreted as u32 (the table-switch label count). -/
def wrapSubU32 (hi lo : Int) : Nat := ((hi - lo) % (2 ^ 32 : Int)).toNat

/-- Rust's next_multiple_of(4) (the switch-padding alignment). -/
def nextMultipleOf4 (n : Nat) : Nat := ((n + 3) / 4) * 4

/-- The opcode bytes decoded as a bare Insn event (the no-operand arm of
the decoder's match). -/
def isSimpleInsn (b : Nat) : Bool :=
  b ≤ 15 || (46 ≤ b && b ≤ 53) || (79 ≤ b && b ≤ 131) || (133 ≤ b && b ≤ 152) ||
    (172 ≤ b && b ≤ 177) || b = 190 || b = 191 || b = 194 || b = 195

/-- The label list of a table switch: count entries from the padded offset
j, each branch relative to the instruction base. -/
def tableSwitchLoop (code : List Nat) (k idx j insnBase : Nat)
    (meta : List InstructionMetadata) (c : LabelCreator) :
    ClassFileResult (List Label × List InstructionMetadata × LabelCreator) :=
  match k with
  | 0 => .ok ([], meta, c)
  | k + 1 => do
    let branch ← codeI32 code (j + 12 + 4 * idx)
    let (l, meta2, c2) ← metaGetOrCreateLabel meta (wrapAddSigned insnBase branch) c
    let (ls, meta3, c3) ← tableSwitchLoop code k (idx + 1) j insnBase meta2 c2
    pure (l :: ls, meta3, c3)

/-- The (value, label) pairs of a lookup switch. -/
def lookupSwitchLoop (code : List Nat) (k idx j insnBase : Nat)
    (meta : List InstructionMetadata) (c : LabelCreator) :
    ClassFileResult (List (Int × Label) × List InstructionMetadata × LabelCreator) :=
  match k with
  | 0 => .ok ([], meta, c)
  | k + 1 => do
    let value ← codeI32 code (j + 8 + 8 * idx)
    let branch ← codeI32 code (j + 12 + 8 * idx)
    let (l, meta2, c2) ← metaGetOrCreateLabel meta (wrapAddSigned insnBase branch) c
    let (rest, meta3, c3) ← lookupSwitchLoop code k (idx + 1) j insnBase meta2 c2
    pure ((value, l) :: rest, meta3, c3)

/-- One instruction of read_code: the event, the offset after the
instruction, and the metadata table and label counter (labels get created
for branch targets).  i is the instruction base and opcode its byte. -/
def readInsn (reader : ClassReader) (code : List Nat)
    (bsms : ClassFileResult (List BootstrapMethod)) (i : Nat)
    (meta : List InstructionMetadata) (c : LabelCreator) (opcode : Nat) :
    ClassFileResult (MethodEvent × Nat × List InstructionMetadata × LabelCreator) :=
  if opcode = 19 ∨ opcode = 20 then do   -- ldc_w | ldc2_w
    let cstIndex ← codeU16 code (i + 1)
    let cst ← getLdcConstant reader cstIndex bsms
    pure (.LdcInsn cst, i + 3, meta, c)
  else if 26 ≤ opcode ∧ opcode ≤ 29 then   -- iload_0..3
    pure (.VarInsn ⟨21⟩ (opcode - 26), i + 1, meta, c)
  else if 30 ≤ opcode ∧ opcode ≤ 33 then   -- lload_0..3
    pure (.VarInsn ⟨22⟩ (opcode - 30), i + 1, meta, c)
  else if 34 ≤ opcode ∧ opcode ≤ 37 then   -- fload_0..3
    pure (.VarInsn ⟨23⟩ (opcode - 34), i + 1, meta, c)
  else if 38 ≤ opcode ∧ opcode ≤ 41 then   -- dload_0..3
    pure (.VarInsn ⟨24⟩ (opcode - 38), i + 1, meta, c)
  else if 42 ≤ opcode ∧ opcode ≤ 45 then   -- aload_0..3
    pure (.VarInsn ⟨25⟩ (opcode - 42), i + 1, meta, c)
  else if 59 ≤ opcode ∧ opcode ≤ 62 then   -- istore_0..3
    pure (.VarInsn ⟨54⟩ (opcode - 59), i + 1, meta, c)
  else if 63 ≤ opcode ∧ opcode ≤ 66 then   -- lstore_0..3
    pure (.VarInsn ⟨55⟩ (opcode - 63), i + 1, meta, c)
  else if 67 ≤ opcode ∧ opcode ≤ 70 then   -- fstore_0..3
    pure (.VarInsn ⟨56⟩ (opcode - 67), i + 1, meta, c)
  else if 71 ≤ opcode ∧ opcode ≤ 74 then   -- dstore_0..3
    pure (.VarInsn ⟨57⟩ (opcode - 71), i + 1, meta, c)
  else if 75 ≤ opcode ∧ opcode ≤ 78 then   -- astore_0..3
    pure (.VarInsn ⟨58⟩ (opcode - 75), i + 1, meta, c)
  else if opcode = 196 then do   -- wide
    let nb ← getCode code (i + 1)
    match Opcode.tryFrom nb with
    | none => .error (.BadOpcode nb)
    | some nop =>
      if nop.code = 21 ∨ nop.code = 23 ∨ nop.code = 25 ∨ nop.code = 22 ∨
          nop.code = 24 ∨ nop.code = 54 ∨ nop.code = 56 ∨ nop.code = 58 ∨
          nop.code = 55 ∨ nop.code = 57 ∨ nop.code = 169 then do
        let varIndex ← codeU16 code (i + 2)
        pure (.VarInsn nop varIndex, i + 4, meta, c)
      else if nop.code = 132 then do
        let varIndex ← codeU16 code (i + 2)
        let increment ← codeI16 code (i + 4)
        pure (.IIncInsn varIndex increment, i + 6, meta, c)
      else .error (.BadWideOpcode nop)
  else if opcode = 200 ∨ opcode = 201 then do   -- goto_w | jsr_w
    let branch ← codeI32 code (i + 1)
    let (l, meta2, c2) ← metaGetOrCreateLabel meta (wrapAddSigned i branch) c
    pure (.JumpInsn (if opcode = 200 then ⟨167⟩ else ⟨168⟩) l, i + 5, meta2, c2)
  else
    match Opcode.tryFrom opcode with
    | none => .error (.BadOpcode opcode)
    | some op =>
      if isSimpleInsn opcode then pure (.Insn op, i + 1, meta, c)
      else if opcode = 16 then do   -- bipush
        let v ← getCode code (i + 1)
        pure (.BIPushInsn (asI8 v), i + 2, meta, c)
      else if opcode = 17 then do   -- sipush
        let v ← codeI16 code (i + 1)
        pure (.SIPushInsn v, i + 3, meta, c)
      else if opcode = 18 then do   -- ldc
        let cstIndex ← getCode code (i + 1)
        let cst ← getLdcConstant reader cstIndex bsms
        pure (.LdcInsn cst, i + 2, meta, c)
      else if (21 ≤ opcode ∧ opcode ≤ 25) ∨ (54 ≤ opcode ∧ opcode ≤ 58) ∨
          opcode = 169 then do   -- loads, stores, ret
        let varIndex ← getCode code (i + 1)
        pure (.VarInsn op varIndex, i + 2, meta, c)
      else if opcode = 132 then do   -- iinc
        let varIndex ← getCode code (i + 1)
        let inc ← getCode code (i + 2)
        pure (.IIncInsn varIndex (asI8 inc), i + 3, meta, c)
      else if (153 ≤ opcode ∧ opcode ≤ 168) ∨ opcode = 198 ∨ opcode = 199 then do
        let branch ← codeI16 code (i + 1)
        let (l, meta2, c2) ← metaGetOrCreateLabel meta (wrapAddSigned i branch) c
        pure (.JumpInsn op l, i + 3, meta2, c2)
      else if opcode = 170 then do   -- tableswitch
        let j := nextMultipleOf4 (i + 1)
        let dfltBranch ← codeI32 code j
        let (dflt, meta2, c2) ← metaGetOrCreateLabel meta (wrapAddSigned i dfltBranch) c
        let low ← codeI32 code (j + 4)
        let high ← codeI32 code (j + 8)
        if low > high then .error (.TableSwitchBoundsWrongOrder low high)
        else do
          let labelCountM1 := wrapSubU32 high low
          let (labels, meta3, c3) ←
            tableSwitchLoop code (labelCountM1 + 1) 0 j i meta2 c2
          pure (.TableSwitchInsn low high dflt labels,
            j + 16 + 4 * labelCountM1, meta3, c3)
      else if opcode = 171 then do   -- lookupswitch
        let j := nextMultipleOf4 (i + 1)
        let dfltBranch ← codeI32 code j
        let (dflt, meta2, c2) ← metaGetOrCreateLabel meta (wrapAddSigned i dfltBranch) c
        let npairs ← codeU32 code (j + 4)
        let (values, meta3, c3) ← lookupSwitchLoop code npairs 0 j i meta2 c2
        pure (.LookupSwitchInsn dflt values, j + 4 + 8 * npairs, meta3, c3)
      else if 178 ≤ opcode ∧ opcode ≤ 181 then do   -- get/put field/static
        let cpIndex ← codeU16 code (i + 1)
        let field ← reader.constantPool.getFieldRef cpIndex
        pure (.FieldInsn op field.owner field.name field.desc, i + 3, meta, c)
      else if 182 ≤ opcode ∧ opcode ≤ 185 then do   -- invokes
        let cpIndex ← codeU16 code (i + 1)
        let tag ← reader.constantPool.getType cpIndex
        let method ←
          if tag = ConstantPoolTag.InterfaceMethodRef then
            reader.constantPool.getInterfaceMethodRef cpIndex
          else reader.constantPool.getMethodRef cpIndex
        pure (.MethodInsn op method.owner method.name method.desc
            (decide (tag = ConstantPoolTag.InterfaceMethodRef)),
          i + (if opcode = 185 then 5 else 3), meta, c)
      else if opcode = 186 then do   -- invokedynamic
        let cpIndex ← codeU16 code (i + 1)
        let dyn ← reader.constantPool.getInvokeDynamic cpIndex
        let bm ← bsmGet bsms dyn.bootstrapMethodAttrIndex
        pure (.InvokeDynamicInsn dyn.name dyn.desc bm.handle bm.args, i + 5, meta, c)
      else if opcode = 187 ∨ opcode = 189 ∨ opcode = 192 ∨ opcode = 193 then do
        let cpIndex ← codeU16 code (i + 1)
        let ty ← reader.constantPool.getClass cpIndex
        pure (.TypeInsn op ty, i + 3, meta, c)
      else if opcode = 188 then do   -- newarray
        let atype ← getCode code (i + 1)
        match NewArrayType.fromU8 atype with
        | none => .error (.BadNewArrayType atype)
        | some t => pure (.NewArrayInsn t, i + 2, meta, c)
      else if opcode = 197 then do   -- multianewarray
        let cpIndex ← codeU16 code (i + 1)
        let desc ← reader.constantPool.getClass cpIndex
        let dims ← getCode code (i + 3)
        pure (.MultiANewArrayInsn desc dims, i + 4, meta, c)
      else .error (.BadOpcode opcode)   -- unreachable: every enum opcode is covered

/-- Store the decoded event at the instruction base (in the source an
infallible slice index: the table always has code length + 1 entries). -/
def setInsnEvent (meta : List InstructionMetadata) (i : Nat) (e : MethodEvent) :
    List InstructionMetadata :=
  match meta[i]? with
  | some m => meta.set i { m with insnEvent := some e }
  | none => meta

/-- The while loop of read_code; each iteration strictly advances i, so
fuel = code length + 1 never runs out. -/
def readCodeLoop (reader : ClassReader) (code : List Nat)
    (bsms : ClassFileResult (List BootstrapMethod)) (fuel : Nat) (i : Nat)
    (meta : List InstructionMetadata) (c : LabelCreator) :
    ClassFileResult (List InstructionMetadata × LabelCreator) :=
  match fuel with
  | 0 => .ok (meta, c)
  | fuel + 1 =>
    if h : i < code.length then do
      let op := code.get ⟨i, h⟩
      let (insn, i2, meta2, c2) ← readInsn reader code bsms i meta c op
      readCodeLoop reader code bsms fuel i2 (setInsnEvent meta2 i insn) c2
    else .ok (meta, c)

/-- Model of CodeData::read_code. -/
def readCode (reader : ClassReader) (code : List Nat)
    (bsms : ClassFileResult (List BootstrapMethod))
    (meta : List InstructionMetadata) (c : LabelCreator) :
    ClassFileResult (List InstructionMetadata × LabelCreator) :=
  readCodeLoop reader code bsms (code.length + 1) 0 meta c

/-! ### CodeData::read (the code-attribute pipeline) -/

/-- Model of CodeData; the annotation vectors are written tca and lva. -/
structure CodeData where
  maxStack : Nat
  maxLocals : Nat
  labelCreator : LabelCreator
  insnMetadata : List InstructionMetadata
  tryCatchBlocks : List MethodTryCatchBlockEvent
  tca : List MethodTryCatchBlockAnnotationEvent
  lvt : List MethodLocalVariableEvent
  lva : List MethodLocalVariableAnnotationEvent
  customAttributeOffsets : List Nat
deriving Repr

/-- The label ranges of one local-variable type annotation. -/
def lvaRangesLoop (ranges : List TypeAnnotationLocalVariableRange)
    (meta : List InstructionMetadata) (c : LabelCreator) :
    ClassFileResult (List (Label × Label × Nat) × List InstructionMetadata × LabelCreator) :=
  match ranges with
  | [] => .ok ([], meta, c)
  | r :: rest => do
    let (s, meta2, c2) ← metaGetOrCreateLabel meta r.startPc c
    let (e, meta3, c3) ← metaGetOrCreateLabel meta2 (r.startPc + r.length) c2
    let (ps, meta4, c4) ← lvaRangesLoop rest meta3 c3
    pure ((s, e, r.index) :: ps, meta4, c4)

/-- The annotation loop of read_code_annotations: dispatch each decoded
type annotation to its instruction slot, local-variable list or try-catch
list. -/
def readCodeAnnLoop (reader : ClassReader) (k : Nat) (annOffset : Nat) (visible : Bool)
    (lva : List MethodLocalVariableAnnotationEvent)
    (tca : List MethodTryCatchBlockAnnotationEvent)
    (meta : List InstructionMetadata) (c : LabelCreator) :
    ClassFileResult (List MethodLocalVariableAnnotationEvent ×
      List MethodTryCatchBlockAnnotationEvent × List InstructionMetadata × LabelCreator) :=
  match k with
  | 0 => .ok (lva, tca, meta, c)
  | k + 1 =>
    match readTypeAnnotationNode reader annOffset with
    | (.error e, _) => .error e
    | (.ok (a, codeLoc), off2) =>
      match codeLoc with
      | .None => readCodeAnnLoop reader k off2 visible lva tca meta c
      | .Insn pc =>
        match meta[pc]? with
        | none => .error (.CodeOffsetOutOfBounds pc meta.length)
        | some m =>
          readCodeAnnLoop reader k off2 visible lva tca
            (meta.set pc { m with anns := m.anns ++ [{ visible := visible, ann := a }] }) c
      | .LocalVariable ranges => do
        let (ps, meta2, c2) ← lvaRangesLoop ranges meta c
        readCodeAnnLoop reader k off2 visible
          (lva ++ [{ ranges := ps, visible := visible, ann := a }]) tca meta2 c2
      | .TryCatchBlock idx =>
        readCodeAnnLoop reader k off2 visible lva
          (tca ++ [{ tryCatchBlockIndex := idx, ann := a }]) meta c

/-- Model of CodeData::read_code_annotations. -/
def readCodeAnns (reader : ClassReader) (offset : Nat) (visible : Bool)
    (lva : List MethodLocalVariableAnnotationEvent)
    (tca : List MethodTryCatchBlockAnnotationEvent)
    (meta : List InstructionMetadata) (c : LabelCreator) :
    ClassFileResult (List MethodLocalVariableAnnotationEvent ×
      List MethodTryCatchBlockAnnotationEvent × List InstructionMetadata × LabelCreator) := do
  let annCount ← reader.buffer.readU16 offset
  readCodeAnnLoop reader annCount (offset + 2) visible lva tca meta c

/-- The try/catch-block loop of CodeData::read. -/
def tryCatchLoop (reader : ClassReader) (k : Nat) (offset : Nat)
    (blocks : List MethodTryCatchBlockEvent) (meta : List InstructionMetadata)
    (c : LabelCreator) :
    ClassFileResult (List MethodTryCatchBlockEvent × Nat × List InstructionMetadata ×
      LabelCreator) :=
  match k with
  | 0 => .ok (blocks, offset, meta, c)
  | k + 1 => do
    let startPc ← reader.buffer.readU16 offset
    let endPc ← reader.buffer.readU16 (offset + 2)
    let handlerPc ← reader.buffer.readU16 (offset + 4)
    let tyIdx ← reader.buffer.readU16 (offset + 6)
    let ty ← reader.constantPool.getOptionalClass tyIdx
    let (s, meta2, c2) ← metaGetOrCreateLabel meta startPc c
    let (e, meta3, c3) ← metaGetOrCreateLabel meta2 endPc c2
    let (hd, meta4, c4) ← metaGetOrCreateLabel meta3 handlerPc c3
    tryCatchLoop reader k (offset + 8)
      (blocks ++ [{ start := s, endL := e, handler := hd, ty := ty }]) meta4 c4

/-- One LineNumberTable entry: create the label and set the line number on
the same metadata slot. -/
def metaLabelAndLine (meta : List InstructionMetadata) (pc line : Nat) (c : LabelCreator) :
    ClassFileResult (List InstructionMetadata × LabelCreator) :=
  match meta[pc]? with
  | none => .error (.CodeOffsetOutOfBounds pc meta.length)
  | some m =>
    let (_, m2, c2) := getOrCreateLabel m c
    .ok (meta.set pc { m2 with lineNumber := some line }, c2)

/-- The LineNumberTable entry loop. -/
def lntLoop (reader : ClassReader) (k idx offset : Nat)
    (meta : List InstructionMetadata) (c : LabelCreator) :
    ClassFileResult (List InstructionMetadata × LabelCreator) :=
  match k with
  | 0 => .ok (meta, c)
  | k + 1 => do
    let startPc ← reader.buffer.readU16 (offset + 2 + 4 * idx)
    let line ← reader.buffer.readU16 (offset + 4 + 4 * idx)
    let (meta2, c2) ← metaLabelAndLine meta startPc line c
    lntLoop reader k (idx + 1) offset meta2 c2

/-- The LocalVariableTable entry loop. -/
def lvtLoop (reader : ClassReader) (k idx offset : Nat)
    (lvt : List MethodLocalVariableEvent) (meta : List InstructionMetadata)
    (c : LabelCreator) :
    ClassFileResult (List MethodLocalVariableEvent × List InstructionMetadata ×
      LabelCreator) :=
  match k with
  | 0 => .ok (lvt, meta, c)
  | k + 1 => do
    let startPc ← reader.buffer.readU16 (offset + 2 + 10 * idx)
    let len ← reader.buffer.readU16 (offset + 4 + 10 * idx)
    let name ← reader.constantPool.getUtf8 (← reader.buffer.readU16 (offset + 6 + 10 * idx))
    let desc ← reader.constantPool.getUtf8 (← reader.buffer.readU16 (offset + 8 + 10 * idx))
    let index ← reader.buffer.readU16 (offset + 10 + 10 * idx)
    let (s, meta2, c2) ← metaGetOrCreateLabel meta startPc c
    let (e, meta3, c3) ← metaGetOrCreateLabel meta2 (startPc + len) c2
    lvtLoop reader k (idx + 1) offset
      (lvt ++ [{ start := s, endL := e, name := name, desc := desc,
                 signature := none, index := index }]) meta3 c3

/-- Attach a signature to the first local-variable entry matching the
start label and index (the LocalVariableTypeTable fixup). -/
def lvttFix (lvt : List MethodLocalVariableEvent) (start : Label) (index : Nat)
    (sig : JStr) : List MethodLocalVariableEvent :=
  match lvt with
  | [] => []
  | e :: rest =>
    if e.start = start ∧ e.index = index then { e with signature := some sig } :: rest
    else e :: lvttFix rest start index sig

/-- The entry loop of one LocalVariableTypeTable. -/
def lvttInnerLoop (reader : ClassReader) (k idx lvttOffset : Nat)
    (lvt : List MethodLocalVariableEvent) (meta : List InstructionMetadata) :
    ClassFileResult (List MethodLocalVariableEvent) :=
  match k with
  | 0 => .ok lvt
  | k + 1 => do
    let startPc ← reader.buffer.readU16 (lvttOffset + 2 + 10 * idx)
    let signature ←
      reader.constantPool.getUtf8 (← reader.buffer.readU16 (lvttOffset + 8 + 10 * idx))
    let index ← reader.buffer.readU16 (lvttOffset + 10 + 10 * idx)
    match meta[startPc]? with
    | none => .error (.CodeOffsetOutOfBounds startPc meta.length)
    | some m =>
      let lvt2 :=
        match m.label with
        | some start => lvttFix lvt start index signature
        | none => lvt
      lvttInnerLoop reader k (idx + 1) lvttOffset lvt2 meta

/-- The loop over the recorded LocalVariableTypeTable offsets. -/
def lvttOuterLoop (reader : ClassReader) (offs : List Nat)
    (lvt : List MethodLocalVariableEvent) (meta : List InstructionMetadata) :
    ClassFileResult (List MethodLocalVariableEvent) :=
  match offs with
  | [] => .ok lvt
  | o :: rest => do
    let count ← reader.buffer.readU16 o
    let lvt2 ← lvttInnerLoop reader count 0 o lvt meta
    lvttOuterLoop reader rest lvt2 meta

/-- The attribute names the code-attribute scan dispatches on, as bytes. -/
def attrLineNumberTable : List Nat :=
  [76, 105, 110, 101, 78, 117, 109, 98, 101, 114, 84, 97, 98, 108, 101]

/-- LocalVariableTable as bytes. -/
def attrLocalVariableTable : List Nat :=
  [76, 111, 99, 97, 108, 86, 97, 114, 105, 97, 98, 108, 101, 84, 97, 98, 108, 101]

/-- LocalVariableTypeTable as bytes. -/
def attrLocalVariableTypeTable : List Nat :=
  [76, 111, 99, 97, 108, 86, 97, 114, 105, 97, 98, 108, 101, 84, 121, 112, 101,
   84, 97, 98, 108, 101]

/-- StackMap as bytes. -/
def attrStackMap : List Nat := [83, 116, 97, 99, 107, 77, 97, 112]

/-- StackMapTable as bytes. -/
def attrStackMapTable : List Nat :=
  [83, 116, 97, 99, 107, 77, 97, 112, 84, 97, 98, 108, 101]

/-- RuntimeInvisibleTypeAnnotations as bytes. -/
def attrRuntimeInvisibleTypeAnns : List Nat :=
  [82, 117, 110, 116, 105, 109, 101, 73, 110, 118, 105, 115, 105, 98, 108, 101,
   84, 121, 112, 101, 65, 110, 110, 111, 116, 97, 116, 105, 111, 110, 115]

/-- RuntimeVisibleTypeAnnotations as bytes. -/
def attrRuntimeVisibleTypeAnns : List Nat :=
  [82, 117, 110, 116, 105, 109, 101, 86, 105, 115, 105, 98, 108, 101, 84, 121,
   112, 101, 65, 110, 110, 111, 116, 97, 116, 105, 111, 110, 115]

/-- The mutable locals of CodeData::read's attribute scan. -/
structure CodeAttrState where
  offset : Nat
  lva : List MethodLocalVariableAnnotationEvent
  lvt : List MethodLocalVariableEvent
  lvttOffsets : List Nat
  stackMapCompressed : Bool
  stackMapTableOffset : Nat
  tca : List MethodTryCatchBlockAnnotationEvent
  customAttributeOffsets : List Nat
  meta : List InstructionMetadata
  c : LabelCreator
deriving Repr

/-- The attribute loop of CodeData::read: dispatch by name, honoring the
SkipDebug flag on the two debug tables. -/
def codeAttrLoop (reader : ClassReader) (k : Nat) (st : CodeAttrState) :
    ClassFileResult CodeAttrState :=
  match k with
  | 0 => .ok st
  | k + 1 => do
    let nameIdx ← reader.buffer.readU16 st.offset
    let name ← reader.constantPool.getUtf8AsBytes nameIdx
    let attrLen ← reader.buffer.readU32 (st.offset + 2)
    let off := st.offset + 6
    let nextOffset := st.offset + 6 + attrLen
    if name = attrLineNumberTable then
      if reader.readerFlags.skipDebug then
        codeAttrLoop reader k { st with offset := nextOffset }
      else do
        let lineCount ← reader.buffer.readU16 off
        let (meta2, c2) ← lntLoop reader lineCount 0 off st.meta st.c
        codeAttrLoop reader k { st with offset := nextOffset, meta := meta2, c := c2 }
    else if name = attrLocalVariableTable then
      if reader.readerFlags.skipDebug then
        codeAttrLoop reader k { st with offset := nextOffset }
      else do
        let lvCount ← reader.buffer.readU16 off
        let (lvt2, meta2, c2) ← lvtLoop reader lvCount 0 off st.lvt st.meta st.c
        codeAttrLoop reader k
          { st with offset := nextOffset, lvt := lvt2, meta := meta2, c := c2 }
    else if name = attrLocalVariableTypeTable then
      codeAttrLoop reader k
        { st with offset := nextOffset, lvttOffsets := st.lvttOffsets ++ [off] }
    else if name = attrStackMap then
      codeAttrLoop reader k
        { st with offset := nextOffset, stackMapTableOffset := off,
                  stackMapCompressed := false }
    else if name = attrStackMapTable then
      codeAttrLoop reader k { st with offset := nextOffset, stackMapTableOffset := off }
    else if name = attrRuntimeInvisibleTypeAnns then do
      let (lva2, tca2, meta2, c2) ←
        readCodeAnns reader off false st.lva st.tca st.meta st.c
      codeAttrLoop reader k
        { st with offset := nextOffset, lva := lva2, tca := tca2,
                  meta := meta2, c := c2 }
    else if name = attrRuntimeVisibleTypeAnns then do
      let (lva2, tca2, meta2, c2) ←
        readCodeAnns reader off true st.lva st.tca st.meta st.c
      codeAttrLoop reader k
        { st with offset := nextOffset, lva := lva2, tca := tca2,
                  meta := meta2, c := c2 }
    else
      codeAttrLoop reader k
        { st with offset := nextOffset,
                  customAttributeOffsets := st.customAttributeOffsets ++ [off - 6] }

/-- Model of CodeData::read: maxs, a fresh label creator starting at 0, the
code-size gate, the bytecode decode, the exception table, the attribute
scan, the LocalVariableTypeTable fixup (unless SkipDebug), and the frame
decode (unless SkipFrames or no stack-map attribute). -/
def CodeData.read (reader : ClassReader) (offset0 : Nat)
    (bsms : ClassFileResult (List BootstrapMethod)) : ClassFileResult CodeData := do
  let maxStack ← reader.buffer.readU16 offset0
  let maxLocals ← reader.buffer.readU16 (offset0 + 2)
  let codeLength ← reader.buffer.readU32 (offset0 + 4)
  if codeLength = 0 ∨ codeLength > 65535 then .error (.BadCodeSize codeLength)
  else do
    let code ← reader.buffer.readBytes (offset0 + 8) codeLength
    let offset1 := offset0 + 8 + codeLength
    let meta0 := List.replicate (codeLength + 1) InstructionMetadata.empty
    let (meta1, c1) ← readCode reader code bsms meta0 0
    let tcCount ← reader.buffer.readU16 offset1
    let (tcBlocks, offset2, meta2, c2) ← tryCatchLoop reader tcCount (offset1 + 2) [] meta1 c1
    let attrCount ← reader.buffer.readU16 offset2
    let st ← codeAttrLoop reader attrCount
      { offset := offset2 + 2, lva := [], lvt := [], lvttOffsets := [],
        stackMapCompressed := true, stackMapTableOffset := 0, tca := [],
        customAttributeOffsets := [], meta := meta2, c := c2 }
    let lvtFixed ←
      if reader.readerFlags.skipDebug then pure st.lvt
      else lvttOuterLoop reader st.lvttOffsets st.lvt st.meta
    let (metaF, cF) ←
      if ¬ reader.readerFlags.skipFrames ∧ st.stackMapTableOffset ≠ 0 then do
        let (_, metaF, cF) ←
          readFrames reader st.stackMapTableOffset st.stackMapCompressed st.meta st.c
        pure (metaF, cF)
      else pure (st.meta, st.c)
    pure { maxStack := maxStack, maxLocals := maxLocals, labelCreator := cF,
           insnMetadata := metaF, tryCatchBlocks := tcBlocks, tca := st.tca,
           lvt := lvtFixed, lva := st.lva,
           customAttributeOffsets := st.customAttributeOffsets }

/-! ### Metadata-mutation closure: every mutation of the code pipeline -/

/-- A relation closed under every metadata mutation the code pipeline
performs: label get-or-create, instruction-event store, annotation push,
line-number store (only reached when SkipDebug is off) and frame store
(only reached when SkipFrames is off). -/
structure MetaRel (reader : ClassReader)
    (R : List InstructionMetadata → List InstructionMetadata → Prop) : Prop where
  refl : ∀ m, R m m
  trans : ∀ {a b c}, R a b → R b c → R a c
  label : ∀ {meta : List InstructionMetadata} {i : Nat} {c : LabelCreator}
    {l : Label} {meta2 : List InstructionMetadata} {c2 : LabelCreator},
    metaGetOrCreateLabel meta i c = .ok (l, meta2, c2) → R meta meta2
  anns : ∀ (meta : List InstructionMetadata) (pc : Nat) (m : InstructionMetadata)
    (x : AnnotationEvent TypeAnnotationNode), meta[pc]? = some m →
    R meta (meta.set pc { m with anns := m.anns ++ [x] })
  line : reader.readerFlags.skipDebug = false →
    ∀ {meta : List InstructionMetadata} {pc lineV : Nat} {c : LabelCreator}
      {meta2 : List InstructionMetadata} {c2 : LabelCreator},
      metaLabelAndLine meta pc lineV c = .ok (meta2, c2) → R meta meta2
  frame : reader.readerFlags.skipFrames = false →
    ∀ {meta : List InstructionMetadata} {i : Nat} {f : Frame}
      {meta2 : List InstructionMetadata},
      metaSetFrame meta i f = .ok meta2 → R meta meta2

theorem tableSwitchLoop_rel {reader : ClassReader}
    {R : List InstructionMetadata → List InstructionMetadata → Prop}
    (hR : MetaRel reader R) (code : List Nat) :
    ∀ (k idx j insnBase : Nat) (meta : List InstructionMetadata) (c : LabelCreator)
      (ls : List Label) (meta2 : List InstructionMetadata) (c2 : LabelCreator),
      tableSwitchLoop code k idx j insnBase meta c = .ok (ls, meta2, c2) →
      R meta meta2 := by
  intro k
  induction k with
  | zero =>
    intro idx j insnBase meta c ls meta2 c2 h
    rw [tableSwitchLoop] at h
    simp only [Except.ok.injEq, Prod.mk.injEq] at h
    obtain ⟨_, hm, _⟩ := h
    subst hm
    exact hR.refl meta
  | succ k ih =>
    intro idx j insnBase meta c ls meta2 c2 h
    rw [tableSwitchLoop] at h
    obtain ⟨b1, _, h⟩ := bind_ok h
    obtain ⟨q, hq, h⟩ := bind_ok h
    rcases q with ⟨l, metaQ, cQ⟩
    obtain ⟨q2, hq2, h⟩ := bind_ok h
    rcases q2 with ⟨lsR, metaR, cR⟩
    have he := pure_ok_inv h
    simp only [Prod.mk.injEq] at he
    obtain ⟨_, hm, _⟩ := he
    subst hm
    exact hR.trans (hR.label hq) (ih _ _ _ _ _ _ _ _ hq2)

theorem lookupSwitchLoop_rel {reader : ClassReader}
    {R : List InstructionMetadata → List InstructionMetadata → Prop}
    (hR : MetaRel reader R) (code : List Nat) :
    ∀ (k idx j insnBase : Nat) (meta : List InstructionMetadata) (c : LabelCreator)
      (vs : List (Int × Label)) (meta2 : List InstructionMetadata) (c2 : LabelCreator),
      lookupSwitchLoop code k idx j insnBase meta c = .ok (vs, meta2, c2) →
      R meta meta2 := by
  intro k
  induction k with
  | zero =>
    intro idx j insnBase meta c vs meta2 c2 h
    rw [lookupSwitchLoop] at h
    simp only [Except.ok.injEq, Prod.mk.injEq] at h
    obtain ⟨_, hm, _⟩ := h
    subst hm
    exact hR.refl meta
  | succ k ih =>
    intro idx j insnBase meta c vs meta2 c2 h
    rw [lookupSwitchLoop] at h
    obtain ⟨v1, _, h⟩ := bind_ok h
    obtain ⟨b1, _, h⟩ := bind_ok h
    obtain ⟨q, hq, h⟩ := bind_ok h
    rcases q with ⟨l, metaQ, cQ⟩
    obtain ⟨q2, hq2, h⟩ := bind_ok h
    rcases q2 with ⟨vsR, metaR, cR⟩
    have he := pure_ok_inv h
    simp only [Prod.mk.injEq] at he
    obtain ⟨_, hm, _⟩ := he
    subst hm
    exact hR.trans (hR.label hq) (ih _ _ _ _ _ _ _ _ hq2)

theorem lvaRangesLoop_rel {reader : ClassReader}
    {R : List InstructionMetadata → List InstructionMetadata → Prop}
    (hR : MetaRel reader R) :
    ∀ (ranges : List TypeAnnotationLocalVariableRange)
      (meta : List InstructionMetadata) (c : LabelCreator)
      (ps : List (Label × Label × Nat)) (meta2 : List InstructionMetadata)
      (c2 : LabelCreator),
      lvaRangesLoop ranges meta c = .ok (ps, meta2, c2) → R meta meta2 := by
  intro ranges
  induction ranges with
  | nil =>
    intro meta c ps meta2 c2 h
    rw [lvaRangesLoop] at h
    simp only [Except.ok.injEq, Prod.mk.injEq] at h
    obtain ⟨_, hm, _⟩ := h
    subst hm
    exact hR.refl meta
  | cons r rest ih =>
    intro meta c ps meta2 c2 h
    rw [lvaRangesLoop] at h
    obtain ⟨q, hq, h⟩ := bind_ok h
    rcases q with ⟨s, metaQ, cQ⟩
    obtain ⟨q2, hq2, h⟩ := bind_ok h
    rcases q2 with ⟨e, metaR, cR⟩
    obtain ⟨q3, hq3, h⟩ := bind_ok h
    rcases q3 with ⟨psS, metaS, cS⟩
    have he := pure_ok_inv h
    simp only [Prod.mk.injEq] at he
    obtain ⟨_, hm, _⟩ := he
    subst hm
    exact hR.trans (hR.label hq) (hR.trans (hR.label hq2) (ih _ _ _ _ _ hq3))

theorem readCodeAnnLoop_rel {reader : ClassReader}
    {R : List InstructionMetadata → List InstructionMetadata → Prop}
    (hR : MetaRel reader R) :
    ∀ (k annOffset : Nat) (visible : Bool)
      (lva : List MethodLocalVariableAnnotationEvent)
      (tca : List MethodTryCatchBlockAnnotationEvent)
      (meta : List InstructionMetadata) (c : LabelCreator)
      (lva2 : List MethodLocalVariableAnnotationEvent)
      (tca2 : List MethodTryCatchBlockAnnotationEvent)
      (meta2 : List InstructionMetadata) (c2 : LabelCreator),
      readCodeAnnLoop reader k annOffset visible lva tca meta c =
        .ok (lva2, tca2, meta2, c2) →
      R meta meta2 := by
  intro k
  induction k with
  | zero =>
    intro annOffset visible lva tca meta c lva2 tca2 meta2 c2 h
    rw [readCodeAnnLoop] at h
    simp only [Except.ok.injEq, Prod.mk.injEq] at h
    obtain ⟨_, _, hm, _⟩ := h
    subst hm
    exact hR.refl meta
  | succ k ih =>
    intro annOffset visible lva tca meta c lva2 tca2 meta2 c2 h
    rw [readCodeAnnLoop] at h
    rcases hta : readTypeAnnotationNode reader annOffset with ⟨res, off2⟩
    rw [hta] at h
    cases res with
    | error e => exact Except.noConfusion h
    | ok p =>
      rcases p with ⟨a, codeLoc⟩
      cases codeLoc with
      | None => exact ih _ _ _ _ _ _ _ _ _ _ h
      | Insn pc =>
        simp only [] at h
        rcases hm : meta[pc]? with _ | m
        · rw [hm] at h; exact Except.noConfusion h
        · rw [hm] at h
          exact hR.trans (hR.anns meta pc m _ hm) (ih _ _ _ _ _ _ _ _ _ _ h)
      | LocalVariable ranges =>
        obtain ⟨q, hq, h⟩ := bind_ok h
        rcases q with ⟨ps, metaQ, cQ⟩
        exact hR.trans (lvaRangesLoop_rel hR _ _ _ _ _ _ hq) (ih _ _ _ _ _ _ _ _ _ _ h)
      | TryCatchBlock idx => exact ih _ _ _ _ _ _ _ _ _ _ h

theorem readCodeAnns_rel {reader : ClassReader}
    {R : List InstructionMetadata → List InstructionMetadata → Prop}
    (hR : MetaRel reader R) {offset : Nat} {visible : Bool}
    {lva : List MethodLocalVariableAnnotationEvent}
    {tca : List MethodTryCatchBlockAnnotationEvent}
    {meta : List InstructionMetadata} {c : LabelCreator}
    {lva2 : List MethodLocalVariableAnnotationEvent}
    {tca2 : List MethodTryCatchBlockAnnotationEvent}
    {meta2 : List InstructionMetadata} {c2 : LabelCreator}
    (h : readCodeAnns reader offset visible lva tca meta c =
      .ok (lva2, tca2, meta2, c2)) : R meta meta2 := by
  unfold readCodeAnns at h
  obtain ⟨n, _, h⟩ := bind_ok h
  exact readCodeAnnLoop_rel hR _ _ _ _ _ _ _ _ _ _ _ h

theorem tryCatchLoop_rel {reader : ClassReader}
    {R : List InstructionMetadata → List InstructionMetadata → Prop}
    (hR : MetaRel reader R) :
    ∀ (k offset : Nat) (blocks : List MethodTryCatchBlockEvent)
      (meta : List InstructionMetadata) (c : LabelCreator)
      (blocks2 : List MethodTryCatchBlockEvent) (offset2 : Nat)
      (meta2 : List InstructionMetadata) (c2 : LabelCreator),
      tryCatchLoop reader k offset blocks meta c = .ok (blocks2, offset2, meta2, c2) →
      R meta meta2 := by
  intro k
  induction k with
  | zero =>
    intro offset blocks meta c blocks2 offset2 meta2 c2 h
    rw [tryCatchLoop] at h
    simp only [Except.ok.injEq, Prod.mk.injEq] at h
    obtain ⟨_, _, hm, _⟩ := h
    subst hm
    exact hR.refl meta
  | succ k ih =>
    intro offset blocks meta c blocks2 offset2 meta2 c2 h
    rw [tryCatchLoop] at h
    obtain ⟨v1, _, h⟩ := bind_ok h
    obtain ⟨v2, _, h⟩ := bind_ok h
    obtain ⟨v3, _, h⟩ := bind_ok h
    obtain ⟨v4, _, h⟩ := bind_ok h
    obtain ⟨ty, _, h⟩ := bind_ok h
    obtain ⟨q1, hq1, h⟩ := bind_ok h
    rcases q1 with ⟨s, metaQ, cQ⟩
    obtain ⟨q2, hq2, h⟩ := bind_ok h
    rcases q2 with ⟨e, metaR, cR⟩
    obtain ⟨q3, hq3, h⟩ := bind_ok h
    rcases q3 with ⟨hd, metaS, cS⟩
    exact hR.trans (hR.label hq1) (hR.trans (hR.label hq2)
      (hR.trans (hR.label hq3) (ih _ _ _ _ _ _ _ _ h)))

theorem lntLoop_rel {reader : ClassReader}
    {R : List InstructionMetadata → List InstructionMetadata → Prop}
    (hR : MetaRel reader R) (hsd : reader.readerFlags.skipDebug = false) :
    ∀ (k idx offset : Nat) (meta : List InstructionMetadata) (c : LabelCreator)
      (meta2 : List InstructionMetadata) (c2 : LabelCreator),
      lntLoop reader k idx offset meta c = .ok (meta2, c2) → R meta meta2 := by
  intro k
  induction k with
  | zero =>
    intro idx offset meta c meta2 c2 h
    rw [lntLoop] at h
    simp only [Except.ok.injEq, Prod.mk.injEq] at h
    obtain ⟨hm, _⟩ := h
    subst hm
    exact hR.refl meta
  | succ k ih =>
    intro idx offset meta c meta2 c2 h
    rw [lntLoop] at h
    obtain ⟨v1, _, h⟩ := bind_ok h
    obtain ⟨v2, _, h⟩ := bind_ok h
    obtain ⟨q, hq, h⟩ := bind_ok h
    rcases q with ⟨metaQ, cQ⟩
    exact hR.trans (hR.line hsd hq) (ih _ _ _ _ _ _ h)

theorem lvtLoop_rel {reader : ClassReader}
    {R : List InstructionMetadata → List InstructionMetadata → Prop}
    (hR : MetaRel reader R) :
    ∀ (k idx offset : Nat) (lvt : List MethodLocalVariableEvent)
      (meta : List InstructionMetadata) (c : LabelCreator)
      (lvt2 : List MethodLocalVariableEvent) (meta2 : List InstructionMetadata)
      (c2 : LabelCreator),
      lvtLoop reader k idx offset lvt meta c = .ok (lvt2, meta2, c2) → R meta meta2 := by
  intro k
  induction k with
  | zero =>
    intro idx offset lvt meta c lvt2 meta2 c2 h
    rw [lvtLoop] at h
    simp only [Except.ok.injEq, Prod.mk.injEq] at h
    obtain ⟨_, hm, _⟩ := h
    subst hm
    exact hR.refl meta
  | succ k ih =>
    intro idx offset lvt meta c lvt2 meta2 c2 h
    rw [lvtLoop] at h
    obtain ⟨v1, _, h⟩ := bind_ok h
    obtain ⟨v2, _, h⟩ := bind_ok h
    obtain ⟨v3, _, h⟩ := bind_ok h
    obtain ⟨name, _, h⟩ := bind_ok h
    obtain ⟨v4, _, h⟩ := bind_ok h
    obtain ⟨desc, _, h⟩ := bind_ok h
    obtain ⟨v5, _, h⟩ := bind_ok h
    obtain ⟨q1, hq1, h⟩ := bind_ok h
    rcases q1 with ⟨s, metaQ, cQ⟩
    obtain ⟨q2, hq2, h⟩ := bind_ok h
    rcases q2 with ⟨e, metaR, cR⟩
    exact hR.trans (hR.label hq1) (hR.trans (hR.label hq2) (ih _ _ _ _ _ _ _ _ h))

theorem readFrameValue_rel {reader : ClassReader}
    {R : List InstructionMetadata → List InstructionMetadata → Prop}
    (hR : MetaRel reader R) {offset : Nat} {meta : List InstructionMetadata}
    {c : LabelCreator} {v : FrameValue} {o : Nat} {meta2 : List InstructionMetadata}
    {c2 : LabelCreator}
    (h : readFrameValue reader offset meta c = .ok (v, o, meta2, c2)) : R meta meta2 := by
  unfold readFrameValue at h
  obtain ⟨tag, htag, h⟩ := bind_ok h
  repeat' split at h
  all_goals
    first
    | exact Except.noConfusion h
    | (have he := pure_ok_inv h
       simp only [Prod.mk.injEq] at he
       obtain ⟨_, _, hm, _⟩ := he
       subst hm
       exact hR.refl meta)
    | (obtain ⟨u, _, h⟩ := bind_ok h
       obtain ⟨ty, _, h⟩ := bind_ok h
       have he := pure_ok_inv h
       simp only [Prod.mk.injEq] at he
       obtain ⟨_, _, hm, _⟩ := he
       subst hm
       exact hR.refl meta)
    | (obtain ⟨u, _, h⟩ := bind_ok h
       obtain ⟨trip, hg, h⟩ := bind_ok h
       rcases trip with ⟨l2, metaB, cB⟩
       have he := pure_ok_inv h
       simp only [Prod.mk.injEq] at he
       obtain ⟨_, _, hm, _⟩ := he
       subst hm
       exact hR.label hg)

theorem readFrameValuesLoop_rel {reader : ClassReader}
    {R : List InstructionMetadata → List InstructionMetadata → Prop}
    (hR : MetaRel reader R) :
    ∀ (k offset : Nat) (meta : List InstructionMetadata) (c : LabelCreator)
      (vs : List FrameValue) (o : Nat) (meta2 : List InstructionMetadata)
      (c2 : LabelCreator),
      readFrameValuesLoop reader k offset meta c = .ok (vs, o, meta2, c2) →
      R meta meta2 := by
  intro k
  induction k with
  | zero =>
    intro offset meta c vs o meta2 c2 h
    rw [readFrameValuesLoop] at h
    simp only [Except.ok.injEq, Prod.mk.injEq] at h
    obtain ⟨_, _, hm, _⟩ := h
    subst hm
    exact hR.refl meta
  | succ k ih =>
    intro offset meta c vs o meta2 c2 h
    rw [readFrameValuesLoop] at h
    obtain ⟨q1, h1, h⟩ := bind_ok h
    rcases q1 with ⟨v1, o1, metaA, cA⟩
    obtain ⟨q2, h2, h⟩ := bind_ok h
    rcases q2 with ⟨vsB, oB, metaB, cB⟩
    have he := pure_ok_inv h
    simp only [Prod.mk.injEq] at he
    obtain ⟨_, _, hm, _⟩ := he
    subst hm
    exact hR.trans (readFrameValue_rel hR h1) (ih _ _ _ _ _ _ _ h2)

set_option maxRecDepth 4096 in
theorem readFrameOne_rel {reader : ClassReader}
    {R : List InstructionMetadata → List InstructionMetadata → Prop}
    (hR : MetaRel reader R) {ft off1 : Nat} {meta : List InstructionMetadata}
    {c : LabelCreator} {d : Nat} {fr : Frame} {off2 : Nat}
    {metaB : List InstructionMetadata} {cB : LabelCreator}
    (h : readFrameOne reader ft off1 meta c = .ok (d, fr, off2, metaB, cB)) :
    R meta metaB := by
  unfold readFrameOne at h
  repeat' split at h
  all_goals
    first
    | exact Except.noConfusion h
    | (have he := pure_ok_inv h
       simp only [Prod.mk.injEq] at he
       obtain ⟨_, _, _, hm, _⟩ := he
       subst hm
       exact hR.refl meta)
    | (obtain ⟨q, hq, h⟩ := bind_ok h
       rcases q with ⟨sv, oQ, metaQ, cQ⟩
       have he := pure_ok_inv h
       simp only [Prod.mk.injEq] at he
       obtain ⟨_, _, _, hm, _⟩ := he
       subst hm
       exact readFrameValue_rel hR hq)
    | (obtain ⟨dd, hdd, h⟩ := bind_ok h
       have he := pure_ok_inv h
       simp only [Prod.mk.injEq] at he
       obtain ⟨_, _, _, hm, _⟩ := he
       subst hm
       exact hR.refl meta)
    | (obtain ⟨dd, hdd, h⟩ := bind_ok h
       obtain ⟨q, hq, h⟩ := bind_ok h
       rcases q with ⟨sv, oQ, metaQ, cQ⟩
       have he := pure_ok_inv h
       simp only [Prod.mk.injEq] at he
       obtain ⟨_, _, _, hm, _⟩ := he
       subst hm
       exact readFrameValue_rel hR hq)
    | (obtain ⟨dd, hdd, h⟩ := bind_ok h
       obtain ⟨q, hq, h⟩ := bind_ok h
       rcases q with ⟨vs, oQ, metaQ, cQ⟩
       have he := pure_ok_inv h
       simp only [Prod.mk.injEq] at he
       obtain ⟨_, _, _, hm, _⟩ := he
       subst hm
       exact readFrameValuesLoop_rel hR _ _ _ _ _ _ _ _ hq)
    | (obtain ⟨dd, hdd, h⟩ := bind_ok h
       obtain ⟨lc, hlc, h⟩ := bind_ok h
       obtain ⟨q, hq, h⟩ := bind_ok h
       rcases q with ⟨ls, oQ, metaQ, cQ⟩
       obtain ⟨sc, hsc, h⟩ := bind_ok h
       obtain ⟨q2, hq2, h⟩ := bind_ok h
       rcases q2 with ⟨ss, oR, metaR, cR⟩
       have he := pure_ok_inv h
       simp only [Prod.mk.injEq] at he
       obtain ⟨_, _, _, hm, _⟩ := he
       subst hm
       exact hR.trans (readFrameValuesLoop_rel hR _ _ _ _ _ _ _ _ hq)
         (readFrameValuesLoop_rel hR _ _ _ _ _ _ _ _ hq2))

theorem readFramesLoop_rel {reader : ClassReader}
    {R : List InstructionMetadata → List InstructionMetadata → Prop}
    (hR : MetaRel reader R)
    (hfr : ∀ {meta : List InstructionMetadata} {i : Nat} {f : Frame}
      {meta2 : List InstructionMetadata},
      metaSetFrame meta i f = .ok meta2 → R meta meta2) :
    ∀ (count : Nat) (compressed : Bool) (offset : Nat)
      (meta : List InstructionMetadata) (c : LabelCreator) (lco : Option Nat)
      (offOut : Nat) (metaOut : List InstructionMetadata) (cOut : LabelCreator),
      readFramesLoop reader compressed count offset meta c lco =
        .ok (offOut, metaOut, cOut) →
      R meta metaOut := by
  intro count
  induction count with
  | zero =>
    intro compressed offset meta c lco offOut metaOut cOut h
    rw [readFramesLoop] at h
    simp only [Except.ok.injEq, Prod.mk.injEq] at h
    obtain ⟨_, hm, _⟩ := h
    subst hm
    exact hR.refl meta
  | succ count ih =>
    intro compressed offset meta c lco offOut metaOut cOut h
    rw [readFramesLoop] at h
    split at h
    · obtain ⟨ft, hft, h⟩ := bind_ok h
      obtain ⟨y, hy, h⟩ := bind_ok h
      have hye := pure_ok_inv hy
      subst hye
      obtain ⟨p2, hp2, h⟩ := bind_ok h
      rcases p2 with ⟨d, fr, off2, metaB, cB⟩
      obtain ⟨metaC, hset, h⟩ := bind_ok h
      exact hR.trans (readFrameOne_rel hR hp2)
        (hR.trans (hfr hset) (ih _ _ _ _ _ _ _ _ h))
    · obtain ⟨y, hy, h⟩ := bind_ok h
      have hye := pure_ok_inv hy
      subst hye
      obtain ⟨p2, hp2, h⟩ := bind_ok h
      rcases p2 with ⟨d, fr, off2, metaB, cB⟩
      obtain ⟨metaC, hset, h⟩ := bind_ok h
      exact hR.trans (readFrameOne_rel hR hp2)
        (hR.trans (hfr hset) (ih _ _ _ _ _ _ _ _ h))

theorem readInsn_rel {reader : ClassReader}
    {R : List InstructionMetadata → List InstructionMetadata → Prop}
    (hR : MetaRel reader R) {code : List Nat}
    {bsms : ClassFileResult (List BootstrapMethod)} {i : Nat}
    {meta : List InstructionMetadata} {c : LabelCreator} {opcode : Nat}
    {e : MethodEvent} {i2 : Nat} {meta2 : List InstructionMetadata}
    {c2 : LabelCreator}
    (h : readInsn reader code bsms i meta c opcode = .ok (e, i2, meta2, c2)) :
    R meta meta2 := by
  unfold readInsn at h
  by_cases hc1 : opcode = 19 ∨ opcode = 20
  · rw [if_pos hc1] at h
    obtain ⟨a1, _, h⟩ := bind_ok h
    obtain ⟨a2, _, h⟩ := bind_ok h
    have he := pure_ok_inv h
    simp only [Prod.mk.injEq] at he
    obtain ⟨_, _, hm, _⟩ := he
    subst hm
    exact hR.refl meta
  rw [if_neg hc1] at h
  by_cases hc2 : 26 ≤ opcode ∧ opcode ≤ 29
  · rw [if_pos hc2] at h
    have he := pure_ok_inv h
    simp only [Prod.mk.injEq] at he
    obtain ⟨_, _, hm, _⟩ := he
    subst hm
    exact hR.refl meta
  rw [if_neg hc2] at h
  by_cases hc3 : 30 ≤ opcode ∧ opcode ≤ 33
  · rw [if_pos hc3] at h
    have he := pure_ok_inv h
    simp only [Prod.mk.injEq] at he
    obtain ⟨_, _, hm, _⟩ := he
    subst hm
    exact hR.refl meta
  rw [if_neg hc3] at h
  by_cases hc4 : 34 ≤ opcode ∧ opcode ≤ 37
  · rw [if_pos hc4] at h
    have he := pure_ok_inv h
    simp only [Prod.mk.injEq] at he
    obtain ⟨_, _, hm, _⟩ := he
    subst hm
    exact hR.refl meta
  rw [if_neg hc4] at h
  by_cases hc5 : 38 ≤ opcode ∧ opcode ≤ 41
  · rw [if_pos hc5] at h
    have he := pure_ok_inv h
    simp only [Prod.mk.injEq] at he
    obtain ⟨_, _, hm, _⟩ := he
    subst hm
    exact hR.refl meta
  rw [if_neg hc5] at h
  by_cases hc6 : 42 ≤ opcode ∧ opcode ≤ 45
  · rw [if_pos hc6] at h
    have he := pure_ok_inv h
    simp only [Prod.mk.injEq] at he
    obtain ⟨_, _, hm, _⟩ := he
    subst hm
    exact hR.refl meta
  rw [if_neg hc6] at h
  by_cases hc7 : 59 ≤ opcode ∧ opcode ≤ 62
  · rw [if_pos hc7] at h
    have he := pure_ok_inv h
    simp only [Prod.mk.injEq] at he
    obtain ⟨_, _, hm, _⟩ := he
    subst hm
    exact hR.refl meta
  rw [if_neg hc7] at h
  by_cases hc8 : 63 ≤ opcode ∧ opcode ≤ 66
  · rw [if_pos hc8] at h
    have he := pure_ok_inv h
    simp only [Prod.mk.injEq] at he
    obtain ⟨_, _, hm, _⟩ := he
    subst hm
    exact hR.refl meta
  rw [if_neg hc8] at h
  by_cases hc9 : 67 ≤ opcode ∧ opcode ≤ 70
  · rw [if_pos hc9] at h
    have he := pure_ok_inv h
    simp only [Prod.mk.injEq] at he
    obtain ⟨_, _, hm, _⟩ := he
    subst hm
    exact hR.refl meta
  rw [if_neg hc9] at h
  by_cases hc10 : 71 ≤ opcode ∧ opcode ≤ 74
  · rw [if_pos hc10] at h
    have he := pure_ok_inv h
    simp only [Prod.mk.injEq] at he
    obtain ⟨_, _, hm, _⟩ := he
    subst hm
    exact hR.refl meta
  rw [if_neg hc10] at h
  by_cases hc11 : 75 ≤ opcode ∧ opcode ≤ 78
  · rw [if_pos hc11] at h
    have he := pure_ok_inv h
    simp only [Prod.mk.injEq] at he
    obtain ⟨_, _, hm, _⟩ := he
    subst hm
    exact hR.refl meta
  rw [if_neg hc11] at h
  by_cases hc12 : opcode = 196
  · rw [if_pos hc12] at h
    obtain ⟨nb, _, h⟩ := bind_ok h
    cases htf : Opcode.tryFrom nb with
    | none =>
      rw [htf] at h
      exact Except.noConfusion h
    | some nop =>
      rw [htf] at h
      simp only [] at h
      by_cases hw1 : nop.code = 21 ∨ nop.code = 23 ∨ nop.code = 25 ∨ nop.code = 22 ∨
          nop.code = 24 ∨ nop.code = 54 ∨ nop.code = 56 ∨ nop.code = 58 ∨
          nop.code = 55 ∨ nop.code = 57 ∨ nop.code = 169
      · rw [if_pos hw1] at h
        obtain ⟨a1, _, h⟩ := bind_ok h
        have he := pure_ok_inv h
        simp only [Prod.mk.injEq] at he
        obtain ⟨_, _, hm, _⟩ := he
        subst hm
        exact hR.refl meta
      rw [if_neg hw1] at h
      by_cases hw2 : nop.code = 132
      · rw [if_pos hw2] at h
        obtain ⟨a1, _, h⟩ := bind_ok h
        obtain ⟨a2, _, h⟩ := bind_ok h
        have he := pure_ok_inv h
        simp only [Prod.mk.injEq] at he
        obtain ⟨_, _, hm, _⟩ := he
        subst hm
        exact hR.refl meta
      rw [if_neg hw2] at h
      exact Except.noConfusion h
  rw [if_neg hc12] at h
  by_cases hc13 : opcode = 200 ∨ opcode = 201
  · rw [if_pos hc13] at h
    obtain ⟨a1, _, h⟩ := bind_ok h
    obtain ⟨q, hq, h⟩ := bind_ok h
    rcases q with ⟨l, metaQ, cQ⟩
    have he := pure_ok_inv h
    simp only [Prod.mk.injEq] at he
    obtain ⟨_, _, hm, _⟩ := he
    subst hm
    exact hR.label hq
  rw [if_neg hc13] at h
  cases hop : Opcode.tryFrom opcode with
  | none =>
    rw [hop] at h
    exact Except.noConfusion h
  | some op =>
    rw [hop] at h
    simp only [] at h
    by_cases hd1 : isSimpleInsn opcode = true
    · rw [if_pos hd1] at h
      have he := pure_ok_inv h
      simp only [Prod.mk.injEq] at he
      obtain ⟨_, _, hm, _⟩ := he
      subst hm
      exact hR.refl meta
    rw [if_neg hd1] at h
    by_cases hd2 : opcode = 16
    · rw [if_pos hd2] at h
      obtain ⟨a1, _, h⟩ := bind_ok h
      have he := pure_ok_inv h
      simp only [Prod.mk.injEq] at he
      obtain ⟨_, _, hm, _⟩ := he
      subst hm
      exact hR.refl meta
    rw [if_neg hd2] at h
    by_cases hd3 : opcode = 17
    · rw [if_pos hd3] at h
      obtain ⟨a1, _, h⟩ := bind_ok h
      have he := pure_ok_inv h
      simp only [Prod.mk.injEq] at he
      obtain ⟨_, _, hm, _⟩ := he
      subst hm
      exact hR.refl meta
    rw [if_neg hd3] at h
    by_cases hd4 : opcode = 18
    · rw [if_pos hd4] at h
      obtain ⟨a1, _, h⟩ := bind_ok h
      obtain ⟨a2, _, h⟩ := bind_ok h
      have he := pure_ok_inv h
      simp only [Prod.mk.injEq] at he
      obtain ⟨_, _, hm, _⟩ := he
      subst hm
      exact hR.refl meta
    rw [if_neg hd4] at h
    by_cases hd5 : (21 ≤ opcode ∧ opcode ≤ 25) ∨ (54 ≤ opcode ∧ opcode ≤ 58) ∨
        opcode = 169
    · rw [if_pos hd5] at h
      obtain ⟨a1, _, h⟩ := bind_ok h
      have he := pure_ok_inv h
      simp only [Prod.mk.injEq] at he
      obtain ⟨_, _, hm, _⟩ := he
      subst hm
      exact hR.refl meta
    rw [if_neg hd5] at h
    by_cases hd6 : opcode = 132
    · rw [if_pos hd6] at h
      obtain ⟨a1, _, h⟩ := bind_ok h
      obtain ⟨a2, _, h⟩ := bind_ok h
      have he := pure_ok_inv h
      simp only [Prod.mk.injEq] at he
      obtain ⟨_, _, hm, _⟩ := he
      subst hm
      exact hR.refl meta
    rw [if_neg hd6] at h
    by_cases hd7 : (153 ≤ opcode ∧ opcode ≤ 168) ∨ opcode = 198 ∨ opcode = 199
    · rw [if_pos hd7] at h
      obtain ⟨a1, _, h⟩ := bind_ok h
      obtain ⟨q, hq, h⟩ := bind_ok h
      rcases q with ⟨l, metaQ, cQ⟩
      have he := pure_ok_inv h
      simp only [Prod.mk.injEq] at he
      obtain ⟨_, _, hm, _⟩ := he
      subst hm
      exact hR.label hq
    rw [if_neg hd7] at h
    by_cases hd8 : opcode = 170
    · rw [if_pos hd8] at h
      obtain ⟨dfltBranch, _, h⟩ := bind_ok h
      obtain ⟨q, hq, h⟩ := bind_ok h
      rcases q with ⟨dflt, metaQ, cQ⟩
      obtain ⟨low, _, h⟩ := bind_ok h
      obtain ⟨high, _, h⟩ := bind_ok h
      simp only [] at h
      by_cases hlh : low > high
      · rw [if_pos hlh] at h
        exact Except.noConfusion h
      rw [if_neg hlh] at h
      obtain ⟨q2, hq2, h⟩ := bind_ok h
      rcases q2 with ⟨ls, metaR, cR⟩
      have he := pure_ok_inv h
      simp only [Prod.mk.injEq] at he
      obtain ⟨_, _, hm, _⟩ := he
      subst hm
      exact hR.trans (hR.label hq)
        (tableSwitchLoop_rel hR code _ _ _ _ _ _ _ _ _ hq2)
    rw [if_neg hd8] at h
    by_cases hd9 : opcode = 171
    · rw [if_pos hd9] at h
      obtain ⟨dfltBranch, _, h⟩ := bind_ok h
      obtain ⟨q, hq, h⟩ := bind_ok h
      rcases q with ⟨dflt, metaQ, cQ⟩
      obtain ⟨npairs, _, h⟩ := bind_ok h
      obtain ⟨q2, hq2, h⟩ := bind_ok h
      rcases q2 with ⟨vs, metaR, cR⟩
      have he := pure_ok_inv h
      simp only [Prod.mk.injEq] at he
      obtain ⟨_, _, hm, _⟩ := he
      subst hm
      exact hR.trans (hR.label hq)
        (lookupSwitchLoop_rel hR code _ _ _ _ _ _ _ _ _ hq2)
    rw [if_neg hd9] at h
    by_cases hd10 : 178 ≤ opcode ∧ opcode ≤ 181
    · rw [if_pos hd10] at h
      obtain ⟨a1, _, h⟩ := bind_ok h
      obtain ⟨a2, _, h⟩ := bind_ok h
      have he := pure_ok_inv h
      simp only [Prod.mk.injEq] at he
      obtain ⟨_, _, hm, _⟩ := he
      subst hm
      exact hR.refl meta
    rw [if_neg hd10] at h
    by_cases hd11 : 182 ≤ opcode ∧ opcode ≤ 185
    · rw [if_pos hd11] at h
      obtain ⟨a1, _, h⟩ := bind_ok h
      obtain ⟨a2, _, h⟩ := bind_ok h
      by_cases htag : a2 = ConstantPoolTag.InterfaceMethodRef
      · rw [if_pos htag] at h
        obtain ⟨a3, _, h⟩ := bind_ok h
        have he := pure_ok_inv h
        simp only [Prod.mk.injEq] at he
        obtain ⟨_, _, hm, _⟩ := he
        subst hm
        exact hR.refl meta
      rw [if_neg htag] at h
      obtain ⟨a3, _, h⟩ := bind_ok h
      have he := pure_ok_inv h
      simp only [Prod.mk.injEq] at he
      obtain ⟨_, _, hm, _⟩ := he
      subst hm
      exact hR.refl meta
    rw [if_neg hd11] at h
    by_cases hd12 : opcode = 186
    · rw [if_pos hd12] at h
      obtain ⟨a1, _, h⟩ := bind_ok h
      obtain ⟨a2, _, h⟩ := bind_ok h
      obtain ⟨a3, _, h⟩ := bind_ok h
      have he := pure_ok_inv h
      simp only [Prod.mk.injEq] at he
      obtain ⟨_, _, hm, _⟩ := he
      subst hm
      exact hR.refl meta
    rw [if_neg hd12] at h
    by_cases hd13 : opcode = 187 ∨ opcode = 189 ∨ opcode = 192 ∨ opcode = 193
    · rw [if_pos hd13] at h
      obtain ⟨a1, _, h⟩ := bind_ok h
      obtain ⟨a2, _, h⟩ := bind_ok h
      have he := pure_ok_inv h
      simp only [Prod.mk.injEq] at he
      obtain ⟨_, _, hm, _⟩ := he
      subst hm
      exact hR.refl meta
    rw [if_neg hd13] at h
    by_cases hd14 : opcode = 188
    · rw [if_pos hd14] at h
      obtain ⟨atype, _, h⟩ := bind_ok h
      cases hna : NewArrayType.fromU8 atype with
      | none =>
        rw [hna] at h
        exact Except.noConfusion h
      | some t =>
        rw [hna] at h
        simp only [] at h
        have he := pure_ok_inv h
        simp only [Prod.mk.injEq] at he
        obtain ⟨_, _, hm, _⟩ := he
        subst hm
        exact hR.refl meta
    rw [if_neg hd14] at h
    by_cases hd15 : opcode = 197
    · rw [if_pos hd15] at h
      obtain ⟨a1, _, h⟩ := bind_ok h
      obtain ⟨a2, _, h⟩ := bind_ok h
      obtain ⟨a3, _, h⟩ := bind_ok h
      have he := pure_ok_inv h
      simp only [Prod.mk.injEq] at he
      obtain ⟨_, _, hm, _⟩ := he
      subst hm
      exact hR.refl meta
    rw [if_neg hd15] at h
    exact Except.noConfusion h

theorem readCodeLoop_rel {reader : ClassReader}
    {R : List InstructionMetadata → List InstructionMetadata → Prop}
    (hR : MetaRel reader R)
    (hinsn : ∀ (meta : List InstructionMetadata) (i : Nat) (e : MethodEvent),
      R meta (setInsnEvent meta i e)) (code : List Nat)
    (bsms : ClassFileResult (List BootstrapMethod)) :
    ∀ (fuel i : Nat) (meta : List InstructionMetadata) (c : LabelCreator)
      (meta2 : List InstructionMetadata) (c2 : LabelCreator),
      readCodeLoop reader code bsms fuel i meta c = .ok (meta2, c2) →
      R meta meta2 := by
  intro fuel
  induction fuel with
  | zero =>
    intro i meta c meta2 c2 h
    rw [readCodeLoop] at h
    simp only [Except.ok.injEq, Prod.mk.injEq] at h
    obtain ⟨hm, _⟩ := h
    subst hm
    exact hR.refl meta
  | succ fuel ih =>
    intro i meta c meta2 c2 h
    rw [readCodeLoop] at h
    split at h
    · obtain ⟨q, hq, h⟩ := bind_ok h
      rcases q with ⟨insn, iB, metaB, cB⟩
      exact hR.trans (readInsn_rel hR hq)
        (hR.trans (hinsn metaB i insn) (ih _ _ _ _ _ h))
    · simp only [Except.ok.injEq, Prod.mk.injEq] at h
      obtain ⟨hm, _⟩ := h
      subst hm
      exact hR.refl meta

theorem codeAttrLoop_rel {reader : ClassReader}
    {R : List InstructionMetadata → List InstructionMetadata → Prop}
    (hR : MetaRel reader R) :
    ∀ (k : Nat) (st st2 : CodeAttrState),
      codeAttrLoop reader k st = .ok st2 → R st.meta st2.meta := by
  intro k
  induction k with
  | zero =>
    intro st st2 h
    rw [codeAttrLoop] at h
    have he := pure_ok_inv h
    subst he
    exact hR.refl st.meta
  | succ k ih =>
    intro st st2 h
    rw [codeAttrLoop] at h
    obtain ⟨nameIdx, _, h⟩ := bind_ok h
    obtain ⟨name, _, h⟩ := bind_ok h
    obtain ⟨attrLen, _, h⟩ := bind_ok h
    simp only [] at h
    split at h
    · -- LineNumberTable
      split at h
      · have hrec := ih _ _ h
        exact hrec
      · rename_i hsd
        rw [Bool.not_eq_true] at hsd
        obtain ⟨lineCount, _, h⟩ := bind_ok h
        obtain ⟨q, hq, h⟩ := bind_ok h
        rcases q with ⟨metaQ, cQ⟩
        have hrec := ih _ _ h
        exact hR.trans (lntLoop_rel hR hsd _ _ _ _ _ _ _ hq) hrec
    · split at h
      · -- LocalVariableTable
        split at h
        · have hrec := ih _ _ h
          exact hrec
        · obtain ⟨lvCount, _, h⟩ := bind_ok h
          obtain ⟨q, hq, h⟩ := bind_ok h
          rcases q with ⟨lvtQ, metaQ, cQ⟩
          have hrec := ih _ _ h
          exact hR.trans (lvtLoop_rel hR _ _ _ _ _ _ _ _ _ hq) hrec
      · split at h
        · have hrec := ih _ _ h
          exact hrec
        · split at h
          · have hrec := ih _ _ h
            exact hrec
          · split at h
            · have hrec := ih _ _ h
              exact hrec
            · split at h
              · -- RuntimeInvisibleTypeAnnotations
                obtain ⟨q, hq, h⟩ := bind_ok h
                rcases q with ⟨lvaQ, tcaQ, metaQ, cQ⟩
                have hrec := ih _ _ h
                exact hR.trans (readCodeAnns_rel hR hq) hrec
              · split at h
                · obtain ⟨q, hq, h⟩ := bind_ok h
                  rcases q with ⟨lvaQ, tcaQ, metaQ, cQ⟩
                  have hrec := ih _ _ h
                  exact hR.trans (readCodeAnns_rel hR hq) hrec
                · have hrec := ih _ _ h
                  exact hrec

theorem readFrames_rel {reader : ClassReader}
    {R : List InstructionMetadata → List InstructionMetadata → Prop}
    (hR : MetaRel reader R)
    (hfr : ∀ {meta : List InstructionMetadata} {i : Nat} {f : Frame}
      {meta2 : List InstructionMetadata},
      metaSetFrame meta i f = .ok meta2 → R meta meta2)
    {offset : Nat} {compressed : Bool} {meta : List InstructionMetadata}
    {c : LabelCreator} {offOut : Nat} {metaOut : List InstructionMetadata}
    {cOut : LabelCreator}
    (h : readFrames reader offset compressed meta c = .ok (offOut, metaOut, cOut)) :
    R meta metaOut := by
  unfold readFrames at h
  obtain ⟨n, _, h⟩ := bind_ok h
  exact readFramesLoop_rel hR hfr _ _ _ _ _ _ _ _ _ h

/-- Master invariant of CodeData::read: any relation closed under the
pipeline's metadata mutations relates the freshly allocated metadata table
to the final one. -/
theorem codeDataRead_rel {reader : ClassReader}
    {R : List InstructionMetadata → List InstructionMetadata → Prop}
    (hR : MetaRel reader R) {offset0 : Nat}
    {bsms : ClassFileResult (List BootstrapMethod)} {cd : CodeData}
    (hcode : ∀ (code : List Nat) (meta : List InstructionMetadata)
      (c : LabelCreator) (meta2 : List InstructionMetadata) (c2 : LabelCreator),
      readCode reader code bsms meta c = .ok (meta2, c2) → R meta meta2)
    (h : CodeData.read reader offset0 bsms = .ok cd) :
    ∃ n, reader.buffer.readU32 (offset0 + 4) = .ok n ∧
      R (List.replicate (n + 1) InstructionMetadata.empty) cd.insnMetadata := by
  unfold CodeData.read at h
  obtain ⟨maxS, _, h⟩ := bind_ok h
  obtain ⟨maxL, _, h⟩ := bind_ok h
  obtain ⟨codeLength, hcl, h⟩ := bind_ok h
  refine ⟨codeLength, hcl, ?_⟩
  split at h
  · exact Except.noConfusion h
  · obtain ⟨code, _, h⟩ := bind_ok h
    obtain ⟨q1, hq1, h⟩ := bind_ok h
    rcases q1 with ⟨meta1, c1⟩
    obtain ⟨tcCount, _, h⟩ := bind_ok h
    obtain ⟨q2, hq2, h⟩ := bind_ok h
    rcases q2 with ⟨tcBlocks, offset2, meta2, c2⟩
    obtain ⟨attrCount, _, h⟩ := bind_ok h
    obtain ⟨st, hst, h⟩ := bind_ok h
    have h1 := hcode code _ _ _ _ hq1
    have h2 := tryCatchLoop_rel hR _ _ _ _ _ _ _ _ _ hq2
    have h3 := codeAttrLoop_rel hR _ _ _ hst
    have htail : R st.meta cd.insnMetadata := by
      simp only [] at h
      split at h
      all_goals
        obtain ⟨lvtF, hlvt, h⟩ := bind_ok h
      all_goals
        split at h
        · rename_i hcond
          have hsf : reader.readerFlags.skipFrames = false := by
            rcases hcond with ⟨hnf, _⟩
            rw [Bool.not_eq_true] at hnf
            exact hnf
          obtain ⟨q4, hq4, h⟩ := bind_ok h
          rcases q4 with ⟨oX, metaX, cX⟩
          obtain ⟨y, hy, h⟩ := bind_ok h
          have hye := pure_ok_inv hy
          subst hye
          have he := pure_ok_inv h
          subst he
          exact readFrames_rel hR (fun hx => hR.frame hsf hx) hq4
        · obtain ⟨y, hy, h⟩ := bind_ok h
          have hye := pure_ok_inv hy
          subst hye
          have he := pure_ok_inv h
          subst he
          exact hR.refl st.meta
    exact hR.trans h1 (hR.trans h2 (hR.trans h3 htail))

/-! ### C7: label identity within one method decode -/

/-- Labels already stored in the metadata table survive to the later table:
no mutation of the decode ever replaces a stored label. -/
def LabelsKept (a b : List InstructionMetadata) : Prop :=
  b.length = a.length ∧ ∀ (j : Nat) (l : Label),
    (a[j]?).map InstructionMetadata.label = some (some l) →
    (b[j]?).map InstructionMetadata.label = some (some l)

theorem labelsKept_refl (a : List InstructionMetadata) : LabelsKept a a :=
  ⟨rfl, fun _ _ h => h⟩

theorem labelsKept_trans {a b c : List InstructionMetadata}
    (h1 : LabelsKept a b) (h2 : LabelsKept b c) : LabelsKept a c :=
  ⟨h2.1.trans h1.1, fun j l h => h2.2 j l (h1.2 j l h)⟩

theorem labelsKept_set {meta : List InstructionMetadata} {i : Nat}
    {m : InstructionMetadata} (m' : InstructionMetadata)
    (hm : meta[i]? = some m)
    (hl : m'.label = m.label ∨ m.label = none) :
    LabelsKept meta (meta.set i m') := by
  constructor
  · exact List.length_set meta i m'
  · intro j l hj
    by_cases hji : j = i
    · subst hji
      rw [hm] at hj
      have hml : m.label = some l := Option.some.inj hj
      rcases hl with hl | hl
      · have hlt : j < meta.length := (List.getElem?_eq_some.mp hm).1
        rw [List.getElem?_set_self (by simpa using hlt)]
        show some m'.label = some (some l)
        rw [hl, hml]
      · rw [hl] at hml
        exact Option.noConfusion hml
    · rw [List.getElem?_set_ne (fun he => hji he.symm)]
      exact hj

/-- LabelsKept is closed under every metadata mutation of the pipeline. -/
theorem metaRel_labelsKept (reader : ClassReader) : MetaRel reader LabelsKept := by
  refine ⟨labelsKept_refl, fun h1 h2 => labelsKept_trans h1 h2, ?_, ?_, ?_, ?_⟩
  · -- metaGetOrCreateLabel
    intro meta i c l meta2 c2 h
    unfold metaGetOrCreateLabel at h
    rcases hm : meta[i]? with _ | m
    · rw [hm] at h
      exact Except.noConfusion h
    · rw [hm] at h
      simp only [] at h
      rcases hg : getOrCreateLabel m c with ⟨l0, m2, cB⟩
      rw [hg] at h
      simp only [Except.ok.injEq, Prod.mk.injEq] at h
      obtain ⟨_, hmeta, _⟩ := h
      subst hmeta
      unfold getOrCreateLabel at hg
      rcases hml : m.label with _ | l1
      · rw [hml] at hg
        simp only [Prod.mk.injEq] at hg
        obtain ⟨_, hm2, _⟩ := hg
        subst hm2
        exact labelsKept_set _ hm (Or.inr hml)
      · rw [hml] at hg
        simp only [Prod.mk.injEq] at hg
        obtain ⟨_, hm2, _⟩ := hg
        subst hm2
        exact labelsKept_set _ hm (Or.inl rfl)
  · -- annotation push
    intro meta pc m x hm
    exact labelsKept_set _ hm (Or.inl rfl)
  · -- metaLabelAndLine
    intro _ meta pc lineV c meta2 c2 h
    unfold metaLabelAndLine at h
    rcases hm : meta[pc]? with _ | m
    · rw [hm] at h
      exact Except.noConfusion h
    · rw [hm] at h
      simp only [] at h
      rcases hg : getOrCreateLabel m c with ⟨l0, m2, cB⟩
      rw [hg] at h
      simp only [Except.ok.injEq, Prod.mk.injEq] at h
      obtain ⟨hmeta, _⟩ := h
      subst hmeta
      unfold getOrCreateLabel at hg
      rcases hml : m.label with _ | l1
      · rw [hml] at hg
        simp only [Prod.mk.injEq] at hg
        obtain ⟨_, hm2, _⟩ := hg
        subst hm2
        exact labelsKept_set _ hm (Or.inr hml)
      · rw [hml] at hg
        simp only [Prod.mk.injEq] at hg
        obtain ⟨_, hm2, _⟩ := hg
        subst hm2
        exact labelsKept_set _ hm (Or.inl rfl)
  · -- metaSetFrame
    intro _ meta i f meta2 h
    unfold metaSetFrame at h
    rcases hm : meta[i]? with _ | m
    · rw [hm] at h
      exact Except.noConfusion h
    · rw [hm] at h
      have he := Except.ok.inj h
      subst he
      exact labelsKept_set _ hm (Or.inl rfl)

/-- setInsnEvent keeps stored labels. -/
theorem labelsKept_setInsnEvent (meta : List InstructionMetadata) (i : Nat)
    (e : MethodEvent) : LabelsKept meta (setInsnEvent meta i e) := by
  unfold setInsnEvent
  rcases hm : meta[i]? with _ | m
  · exact labelsKept_refl meta
  · exact labelsKept_set _ hm (Or.inl rfl)

/-- A slot that already holds a label answers with it and changes nothing. -/
theorem metaGetOrCreateLabel_existing {meta : List InstructionMetadata} {i : Nat}
    (c : LabelCreator) {m : InstructionMetadata} {l : Label}
    (hm : meta[i]? = some m) (hl : m.label = some l) :
    metaGetOrCreateLabel meta i c = .ok (l, meta, c) := by
  unfold metaGetOrCreateLabel
  rw [hm]
  simp only []
  have hg : getOrCreateLabel m c = (l, m, c) := by
    unfold getOrCreateLabel
    rw [hl]
  rw [hg]
  have hset : meta.set i m = meta := by
    apply List.ext_getElem?
    intro j
    by_cases hji : j = i
    · subst hji
      have hlt : j < meta.length := (List.getElem?_eq_some.mp hm).1
      rw [List.getElem?_set_self (by simpa using hlt), hm]
    · rw [List.getElem?_set_ne (fun he => hji he.symm)]
  rw [hset]

/-- After a get-or-create, the slot holds the returned label, and repeating
the call is the identity. -/
theorem metaGetOrCreateLabel_stored {meta : List InstructionMetadata} {i : Nat}
    {c : LabelCreator} {l : Label} {meta2 : List InstructionMetadata}
    {c2 : LabelCreator}
    (h : metaGetOrCreateLabel meta i c = .ok (l, meta2, c2)) :
    (meta2[i]?).map InstructionMetadata.label = some (some l) ∧
      metaGetOrCreateLabel meta2 i c2 = .ok (l, meta2, c2) := by
  unfold metaGetOrCreateLabel at h
  rcases hm : meta[i]? with _ | m
  · rw [hm] at h
    exact Except.noConfusion h
  · rw [hm] at h
    simp only [] at h
    rcases hg : getOrCreateLabel m c with ⟨l0, m2, cB⟩
    rw [hg] at h
    simp only [Except.ok.injEq, Prod.mk.injEq] at h
    obtain ⟨hl0, hmeta, hc⟩ := h
    subst hl0
    subst hmeta
    subst hc
    have hlt : i < meta.length := (List.getElem?_eq_some.mp hm).1
    have hset : (meta.set i m2)[i]? = some m2 :=
      List.getElem?_set_self (by simpa using hlt)
    have hm2l : m2.label = some l0 := by
      unfold getOrCreateLabel at hg
      rcases hml : m.label with _ | l1
      · rw [hml] at hg
        simp only [Prod.mk.injEq] at hg
        obtain ⟨hl, hm2, _⟩ := hg
        subst hm2
        show some _ = some l0
        rw [hl]
      · rw [hml] at hg
        simp only [Prod.mk.injEq] at hg
        obtain ⟨hl, hm2, _⟩ := hg
        subst hm2
        rw [hml, hl]
    constructor
    · rw [hset]
      show some m2.label = some (some l0)
      rw [hm2l]
    · exact metaGetOrCreateLabel_existing cB hset hm2l

/-- The metadata slot that already holds label 5, for the C7 witness. -/
def c7wMeta : List InstructionMetadata :=
  [{ insnEvent := none, label := some ⟨5⟩, lineNumber := none, frame := none,
     anns := [] }]

/-- The first counterexample method: a code attribute with max stack 1, max
locals 1, and the 3-byte body goto 0 (a jump to its own offset), no
exception table and no attributes. -/
def c7Data1 : List Nat := [0, 1, 0, 1, 0, 0, 0, 3, 167, 0, 0, 0, 0, 0, 0]

/-- The second counterexample method: the 4-byte body nop; goto -1 (a jump
back to offset 0), no exception table and no attributes. -/
def c7Data2 : List Nat := [0, 1, 0, 1, 0, 0, 0, 4, 0, 167, 255, 255, 0, 0, 0, 0]

/-- A reader over the first counterexample method. -/
def c7Reader1 : ClassReader :=
  { buffer := { data := c7Data1 },
    constantPool := { buffer := { data := c7Data1 }, offset := [] },
    metadataStart := 0, readerFlags := ClassReaderFlags.none }

/-- A reader over the second counterexample method. -/
def c7Reader2 : ClassReader :=
  { buffer := { data := c7Data2 },
    constantPool := { buffer := { data := c7Data2 }, offset := [] },
    metadataStart := 0, readerFlags := ClassReaderFlags.none }

/-- C7, counterexample to the cross-method half: two different methods of the
same class scan, each containing one jump, both label their offset 0 with
the very same value Label 0, because CodeData::read starts a fresh
DefaultLabelCreator at 0 for every method; their label counters both end at
1. "Labels emitted by distinct methods are never equal" is false. -/
theorem C7_counterexample :
    c7Data1 ≠ c7Data2 ∧
    (CodeData.read c7Reader1 0 (.ok [])).map
        (fun cd => (cd.insnMetadata.map InstructionMetadata.label, cd.labelCreator)) =
      .ok ([some ⟨0⟩, none, none, none], 1) ∧
    (CodeData.read c7Reader2 0 (.ok [])).map
        (fun cd => (cd.insnMetadata.map InstructionMetadata.label, cd.labelCreator)) =
      .ok ([some ⟨0⟩, none, none, none, none], 1) :=
  ⟨by decide, rfl, rfl⟩

/-- C7 (amended): within one method's decoding every reference to the same
code offset yields the same Label — a slot holding a label answers with it
unchanged, a created label is immediately stored and re-asking is the
identity, and every decoding stage (instruction decode, exception table,
attribute scan, stack-map frames) keeps stored labels — but the cross-method
half of the original claim is false: CodeData::read restarts the label
creator at 0 for every method (see the counterexample). -/
theorem C7_label_identity :
    (∀ (meta : List InstructionMetadata) (i : Nat) (c : LabelCreator)
       (m : InstructionMetadata) (l : Label), meta[i]? = some m →
       m.label = some l → metaGetOrCreateLabel meta i c = .ok (l, meta, c)) ∧
    (∀ (meta : List InstructionMetadata) (i : Nat) (c : LabelCreator) (l : Label)
       (meta2 : List InstructionMetadata) (c2 : LabelCreator),
       metaGetOrCreateLabel meta i c = .ok (l, meta2, c2) →
       (meta2[i]?).map InstructionMetadata.label = some (some l) ∧
         metaGetOrCreateLabel meta2 i c2 = .ok (l, meta2, c2)) ∧
    (∀ (reader : ClassReader) (code : List Nat)
       (bsms : ClassFileResult (List BootstrapMethod)) (fuel i : Nat)
       (meta : List InstructionMetadata) (c : LabelCreator)
       (meta2 : List InstructionMetadata) (c2 : LabelCreator),
       readCodeLoop reader code bsms fuel i meta c = .ok (meta2, c2) →
       LabelsKept meta meta2) ∧
    (∀ (reader : ClassReader) (k offset : Nat)
       (blocks : List MethodTryCatchBlockEvent) (meta : List InstructionMetadata)
       (c : LabelCreator) (blocks2 : List MethodTryCatchBlockEvent)
       (offset2 : Nat) (meta2 : List InstructionMetadata) (c2 : LabelCreator),
       tryCatchLoop reader k offset blocks meta c = .ok (blocks2, offset2, meta2, c2) →
       LabelsKept meta meta2) ∧
    (∀ (reader : ClassReader) (k : Nat) (st st2 : CodeAttrState),
       codeAttrLoop reader k st = .ok st2 → LabelsKept st.meta st2.meta) ∧
    (∀ (reader : ClassReader) (offset : Nat) (compressed : Bool)
       (meta : List InstructionMetadata) (c : LabelCreator) (offOut : Nat)
       (metaOut : List InstructionMetadata) (cOut : LabelCreator),
       readFrames reader offset compressed meta c = .ok (offOut, metaOut, cOut) →
       LabelsKept meta metaOut) := by
  refine ⟨?_, ?_, ?_, ?_, ?_, ?_⟩
  · intro meta i c m l hm hl
    exact metaGetOrCreateLabel_existing c hm hl
  · intro meta i c l meta2 c2 h
    exact metaGetOrCreateLabel_stored h
  · intro reader code bsms fuel i meta c meta2 c2 h
    exact readCodeLoop_rel (metaRel_labelsKept reader) labelsKept_setInsnEvent
      code bsms _ _ _ _ _ _ h
  · intro reader k offset blocks meta c blocks2 offset2 meta2 c2 h
    exact tryCatchLoop_rel (metaRel_labelsKept reader) _ _ _ _ _ _ _ _ _ h
  · intro reader k st st2 h
    exact codeAttrLoop_rel (metaRel_labelsKept reader) _ _ _ h
  · intro reader offset compressed meta c offOut metaOut cOut h
    refine readFrames_rel (metaRel_labelsKept reader) ?_ h
    intro meta i f meta2 hset
    unfold metaSetFrame at hset
    rcases hm : meta[i]? with _ | m
    · rw [hm] at hset
      exact Except.noConfusion hset
    · rw [hm] at hset
      have he := Except.ok.inj hset
      subst he
      exact labelsKept_set _ hm (Or.inl rfl)

/-- C7 witness: on a one-slot table already holding Label 5, get-or-create
at offset 0 answers Label 5 and changes nothing. -/
theorem C7_witness :
    metaGetOrCreateLabel c7wMeta 0 7 = .ok (⟨5⟩, c7wMeta, 7) :=
  C7_label_identity.1 c7wMeta 0 7
    { insnEvent := none, label := some ⟨5⟩, lineNumber := none, frame := none,
      anns := [] } ⟨5⟩ rfl rfl

/-! ### MethodReaderEvents: the per-method event state machine -/

/-- Model of MethodReaderEvents (the per-method event iterator state). -/
structure MethodReaderEvents where
  reader : ClassReader
  annotationDefaultOffset : Nat
  codeOffset : Nat
  invisibleAnnotationsCount : Nat
  invisibleAnnotationsOffset : Nat
  invisibleParameterAnnotationsOffset : Nat
  invisibleTypeAnnotationsCount : Nat
  invisibleTypeAnnotationsOffset : Nat
  isDeprecated : Bool
  parametersCount : Nat
  parametersOffset : Nat
  visibleAnnotationsCount : Nat
  visibleAnnotationsOffset : Nat
  visibleParameterAnnotationsOffset : Nat
  visibleTypeAnnotationsCount : Nat
  visibleTypeAnnotationsOffset : Nat
  customAttributeOffsets : List Nat
  codeData : Option CodeData
  bootstrapMethods : ClassFileResult (List BootstrapMethod)
  state : Nat
  codeIndex : Nat

/-- One loop iteration of MethodReaderEvents::next either returns an item,
falls through to the next state, or ends the iterator. -/
inductive MethodStep where
  | emit (r : ClassFileResult MethodEvent) (m : MethodReaderEvents)
  | cont (m : MethodReaderEvents)
  | done (m : MethodReaderEvents)

/-- One iteration of the loop in MethodReaderEvents::next. The source
increments state first and dispatches on the previous value; states
10, 11, 12, 13, 14, 16, 17, 18, 19, 20 and 21 assert the presence of code
data (and state 11 the presence of a label) with expect; those panic paths
are unreachable in any run the theorems below describe, and are modeled as
ending the stream. The source's code_index is a u16, so the increment at
state 15 wraps modulo 2 ^ 16; the wrap models a release build (a debug
build panics on the overflowing add instead). -/
def methodEventsStep (m : MethodReaderEvents) : MethodStep :=
  let state := m.state
  let m2 := { m with state := state + 1 }
  if state = 0 then
    if m.isDeprecated then .emit (.ok .Deprecated) m2 else .cont m2
  else if state = 1 then
    if m.parametersOffset ≠ 0 then
      .emit (.ok (.Parameters
        { reader := m.reader, remaining := m.parametersCount,
          offset := m.parametersOffset })) m2
    else .cont m2
  else if state = 2 then
    if m.annotationDefaultOffset = 0 then .cont m2
    else
      match readAnnotationValue m.reader (MAX_ANNOTATION_NESTING + 1)
          m.annotationDefaultOffset with
      | (.error e, _) => .emit (.error e) m2
      | (.ok v, _) => .emit (.ok (.AnnotationDefault v)) m2
  else if state = 3 then
    if m.visibleAnnotationsOffset ≠ 0 ∨ m.invisibleTypeAnnotationsOffset ≠ 0 then
      .emit (.ok (.Annotations (AnnotationReaderIterator.new m.reader
        m.visibleAnnotationsCount m.visibleAnnotationsOffset
        m.invisibleAnnotationsCount m.invisibleAnnotationsOffset))) m2
    else .cont m2
  else if state = 4 then
    if m.visibleTypeAnnotationsOffset ≠ 0 ∨ m.invisibleTypeAnnotationsOffset ≠ 0 then
      .emit (.ok (.TypeAnnotations (TypeAnnotationReaderIterator.new m.reader
        m.visibleTypeAnnotationsCount m.visibleTypeAnnotationsOffset
        m.invisibleTypeAnnotationsCount m.invisibleTypeAnnotationsOffset))) m2
    else .cont m2
  else if state = 5 then
    if m.visibleParameterAnnotationsOffset ≠ 0 then
      match m.reader.buffer.readU8 m.visibleParameterAnnotationsOffset with
      | .error e => .emit (.error e) m2
      | .ok count =>
        .emit (.ok (.AnnotableParameterCount { count := count, visible := true })) m2
    else .cont m2
  else if state = 6 then
    if m.invisibleParameterAnnotationsOffset ≠ 0 then
      match m.reader.buffer.readU8 m.invisibleParameterAnnotationsOffset with
      | .error e => .emit (.error e) m2
      | .ok count =>
        .emit (.ok (.AnnotableParameterCount { count := count, visible := false })) m2
    else .cont m2
  else if state = 7 then
    if m.visibleParameterAnnotationsOffset ≠ 0 ∨
        m.invisibleParameterAnnotationsOffset ≠ 0 then
      .emit (.ok (.ParameterAnnotations
        { reader := m.reader, visibleOffset := m.visibleParameterAnnotationsOffset,
          invisibleOffset := m.invisibleParameterAnnotationsOffset,
          paramCount := 0, paramIndex := 0, annotationsRemaining := 0,
          state := 0 })) m2
    else .cont m2
  else if state = 8 then
    if m.customAttributeOffsets ≠ [] then
      .emit (.ok (.Attributes
        { reader := m.reader, index := 0, offsets := m.customAttributeOffsets })) m2
    else .cont m2
  else if state = 9 then
    if m.codeOffset = 0 then .done { m with state := 22 }
    else
      match CodeData.read m.reader m.codeOffset m.bootstrapMethods with
      | .error e => .emit (.error e) m2
      | .ok cd => .emit (.ok (.Code cd.labelCreator)) { m2 with codeData := some cd }
  else if state = 10 then
    match m.codeData with
    | none => .done m2
    | some cd =>
      if cd.insnMetadata.length ≤ m.codeIndex then .cont { m with state := 16 }
      else
        match (cd.insnMetadata[m.codeIndex]?).bind InstructionMetadata.label with
        | some l => .emit (.ok (.Label l)) m2
        | none => .cont m2
  else if state = 11 then
    match m.codeData with
    | none => .done m2
    | some cd =>
      match cd.insnMetadata[m.codeIndex]? with
      | none => .done m2
      | some im =>
        match im.lineNumber with
        | none => .cont m2
        | some line =>
          match im.label with
          | some start => .emit (.ok (.LineNumber line start)) m2
          | none => .done m2
  else if state = 12 then
    match m.codeData with
    | none => .done m2
    | some cd =>
      match cd.insnMetadata[m.codeIndex]? with
      | none => .done m2
      | some im =>
        match im.frame with
        | none => .cont m2
        | some fr =>
          let metas := cd.insnMetadata.set m.codeIndex { im with frame := none }
          .emit (.ok (.Frame fr))
            { m2 with codeData := some { cd with insnMetadata := metas } }
  else if state = 13 then
    match m.codeData with
    | none => .done m2
    | some cd =>
      match cd.insnMetadata[m.codeIndex]? with
      | none => .done m2
      | some im =>
        match im.insnEvent with
        | none => .cont m2
        | some e =>
          let metas := cd.insnMetadata.set m.codeIndex { im with insnEvent := none }
          .emit (.ok e)
            { m2 with codeData := some { cd with insnMetadata := metas } }
  else if state = 14 then
    match m.codeData with
    | none => .done m2
    | some cd =>
      match cd.insnMetadata[m.codeIndex]? with
      | none => .done m2
      | some im =>
        if im.anns.isEmpty then .cont m2
        else
          let metas := cd.insnMetadata.set m.codeIndex { im with anns := [] }
          .emit (.ok (.InsnAnnotations im.anns))
            { m2 with codeData := some { cd with insnMetadata := metas } }
  else if state = 15 then
    .cont { m with state := 10, codeIndex := (m.codeIndex + 1) % 65536 }
  else if state = 16 then
    match m.codeData with
    | none => .done m2
    | some cd =>
      if cd.lvt = [] then .cont m2
      else
        .emit (.ok (.LocalVariables cd.lvt))
          { m2 with codeData := some { cd with lvt := [] } }
  else if state = 17 then
    match m.codeData with
    | none => .done m2
    | some cd =>
      if cd.lva.isEmpty then .cont m2
      else
        .emit (.ok (.LocalVariableAnnotations cd.lva))
          { m2 with codeData := some { cd with lva := [] } }
  else if state = 18 then
    match m.codeData with
    | none => .done m2
    | some cd =>
      if cd.tryCatchBlocks = [] then .cont m2
      else
        .emit (.ok (.TryCatchBlocks cd.tryCatchBlocks))
          { m2 with codeData := some { cd with tryCatchBlocks := [] } }
  else if state = 19 then
    match m.codeData with
    | none => .done m2
    | some cd =>
      if cd.tca.isEmpty then .cont m2
      else
        .emit (.ok (.TryCatchBlockAnnotations cd.tca))
          { m2 with codeData := some { cd with tca := [] } }
  else if state = 20 then
    match m.codeData with
    | none => .done m2
    | some cd =>
      if cd.customAttributeOffsets = [] then .cont m2
      else
        .emit (.ok (.CodeAttributes
            { reader := m.reader, index := 0, offsets := cd.customAttributeOffsets }))
          { m2 with codeData := some { cd with customAttributeOffsets := [] } }
  else if state = 21 then
    match m.codeData with
    | none => .done m2
    | some cd =>
      .emit (.ok (.Maxs { maxLocals := cd.maxLocals, maxStack := cd.maxStack })) m2
  else .done m2

/-- Model of MethodReaderEvents::next: iterate the loop until it returns. -/
def methodEventsNext (fuel : Nat) (m : MethodReaderEvents) :
    Option (ClassFileResult MethodEvent) × MethodReaderEvents :=
  match fuel with
  | 0 => (none, m)
  | fuel + 1 =>
    match methodEventsStep m with
    | .emit r m2 => (some r, m2)
    | .done m2 => (none, m2)
    | .cont m2 => methodEventsNext fuel m2

/-- The stream of items produced by repeatedly calling next; the fuel
bounds the number of loop iterations in total. -/
def methodEventsRun (fuel : Nat) (m : MethodReaderEvents) :
    List (ClassFileResult MethodEvent) :=
  match fuel with
  | 0 => []
  | fuel + 1 =>
    match methodEventsStep m with
    | .emit r m2 => r :: methodEventsRun fuel m2
    | .cont m2 => methodEventsRun fuel m2
    | .done _ => []

/-- The events of states 0 through 8 (everything before the Code event),
in emission order. -/
def preChain (m : MethodReaderEvents) : List (ClassFileResult MethodEvent) :=
  (if m.isDeprecated then [.ok .Deprecated] else []) ++
  (if m.parametersOffset ≠ 0 then
    [.ok (.Parameters
      { reader := m.reader, remaining := m.parametersCount,
        offset := m.parametersOffset })]
  else []) ++
  (if m.annotationDefaultOffset = 0 then []
  else
    match readAnnotationValue m.reader (MAX_ANNOTATION_NESTING + 1)
        m.annotationDefaultOffset with
    | (.error e, _) => [.error e]
    | (.ok v, _) => [.ok (.AnnotationDefault v)]) ++
  (if m.visibleAnnotationsOffset ≠ 0 ∨ m.invisibleTypeAnnotationsOffset ≠ 0 then
    [.ok (.Annotations (AnnotationReaderIterator.new m.reader
      m.visibleAnnotationsCount m.visibleAnnotationsOffset
      m.invisibleAnnotationsCount m.invisibleAnnotationsOffset))]
  else []) ++
  (if m.visibleTypeAnnotationsOffset ≠ 0 ∨ m.invisibleTypeAnnotationsOffset ≠ 0 then
    [.ok (.TypeAnnotations (TypeAnnotationReaderIterator.new m.reader
      m.visibleTypeAnnotationsCount m.visibleTypeAnnotationsOffset
      m.invisibleTypeAnnotationsCount m.invisibleTypeAnnotationsOffset))]
  else []) ++
  (if m.visibleParameterAnnotationsOffset ≠ 0 then
    match m.reader.buffer.readU8 m.visibleParameterAnnotationsOffset with
    | .error e => [.error e]
    | .ok count => [.ok (.AnnotableParameterCount { count := count, visible := true })]
  else []) ++
  (if m.invisibleParameterAnnotationsOffset ≠ 0 then
    match m.reader.buffer.readU8 m.invisibleParameterAnnotationsOffset with
    | .error e => [.error e]
    | .ok count => [.ok (.AnnotableParameterCount { count := count, visible := false })]
  else []) ++
  (if m.visibleParameterAnnotationsOffset ≠ 0 ∨
      m.invisibleParameterAnnotationsOffset ≠ 0 then
    [.ok (.ParameterAnnotations
      { reader := m.reader, visibleOffset := m.visibleParameterAnnotationsOffset,
        invisibleOffset := m.invisibleParameterAnnotationsOffset,
        paramCount := 0, paramIndex := 0, annotationsRemaining := 0, state := 0 })]
  else []) ++
  (if m.customAttributeOffsets ≠ [] then
    [.ok (.Attributes
      { reader := m.reader, index := 0, offsets := m.customAttributeOffsets })]
  else [])

/-- The events one instruction offset contributes: label, line number,
frame, instruction, then its type annotations, each only when present. -/
def insnChainAt (im : InstructionMetadata) : List (ClassFileResult MethodEvent) :=
  (match im.label with
  | some l => [.ok (.Label l)]
  | none => []) ++
  (match im.lineNumber, im.label with
  | some line, some start => [.ok (.LineNumber line start)]
  | _, _ => []) ++
  (match im.frame with
  | some fr => [.ok (.Frame fr)]
  | none => []) ++
  (match im.insnEvent with
  | some e => [.ok e]
  | none => []) ++
  (if im.anns.isEmpty then [] else [.ok (.InsnAnnotations im.anns)])

/-- The code phase: every offset in ascending order. -/
def codeChain (metas : List InstructionMetadata) : List (ClassFileResult MethodEvent) :=
  (metas.map insnChainAt).flatten

/-- The tail events after the last offset, without the final Maxs. -/
def tailChain (reader : ClassReader) (cd : CodeData) :
    List (ClassFileResult MethodEvent) :=
  (if cd.lvt = [] then [] else [.ok (.LocalVariables cd.lvt)]) ++
  (if cd.lva.isEmpty then [] else [.ok (.LocalVariableAnnotations cd.lva)]) ++
  (if cd.tryCatchBlocks = [] then [] else [.ok (.TryCatchBlocks cd.tryCatchBlocks)]) ++
  (if cd.tca.isEmpty then [] else [.ok (.TryCatchBlockAnnotations cd.tca)]) ++
  (if cd.customAttributeOffsets = [] then []
  else [.ok (.CodeAttributes
    { reader := reader, index := 0, offsets := cd.customAttributeOffsets })])

/-! ### Running the method event machine -/

theorem methodEventsRun_succ (fuel : Nat) (m : MethodReaderEvents) :
    methodEventsRun (fuel + 1) m =
      match methodEventsStep m with
      | .emit r m2 => r :: methodEventsRun fuel m2
      | .cont m2 => methodEventsRun fuel m2
      | .done _ => [] := rfl

theorem run_emit {m m2 : MethodReaderEvents} {r : ClassFileResult MethodEvent}
    (h : methodEventsStep m = .emit r m2) (fuel : Nat) :
    methodEventsRun (fuel + 1) m = r :: methodEventsRun fuel m2 := by
  rw [methodEventsRun_succ, h]

theorem run_cont {m m2 : MethodReaderEvents}
    (h : methodEventsStep m = .cont m2) (fuel : Nat) :
    methodEventsRun (fuel + 1) m = methodEventsRun fuel m2 := by
  rw [methodEventsRun_succ, h]

theorem run_done {m m2 : MethodReaderEvents}
    (h : methodEventsStep m = .done m2) (fuel : Nat) :
    methodEventsRun fuel m = [] := by
  cases fuel with
  | zero => rfl
  | succ fuel => rw [methodEventsRun_succ, h]

theorem run_phase0 (m : MethodReaderEvents) (hst : m.state = 0) (fuel : Nat) :
    methodEventsRun (fuel + 1) m =
      (if m.isDeprecated then [.ok .Deprecated] else []) ++
        methodEventsRun fuel { m with state := 1 } := by
  rw [methodEventsRun_succ]
  by_cases hd : m.isDeprecated
  · have hstep : methodEventsStep m = .emit (.ok .Deprecated) { m with state := 1 } := by
      unfold methodEventsStep
      simp only [hst, hd, Nat.reduceEqDiff, reduceIte, Nat.reduceAdd, if_pos]
    rw [hstep]
    simp only [hd, if_pos, List.singleton_append]
  · have hstep : methodEventsStep m = .cont { m with state := 1 } := by
      unfold methodEventsStep
      simp only [hst, Nat.reduceEqDiff, reduceIte, Nat.reduceAdd, if_neg hd]
    rw [hstep]
    simp only [if_neg hd, List.nil_append]

theorem run_phase1 (m : MethodReaderEvents) (hst : m.state = 1) (fuel : Nat) :
    methodEventsRun (fuel + 1) m =
      (if m.parametersOffset ≠ 0 then
        [.ok (.Parameters
          { reader := m.reader, remaining := m.parametersCount,
            offset := m.parametersOffset })]
      else []) ++ methodEventsRun fuel { m with state := 2 } := by
  rw [methodEventsRun_succ]
  by_cases hp : m.parametersOffset ≠ 0
  · have hstep : methodEventsStep m = .emit (.ok (.Parameters
        { reader := m.reader, remaining := m.parametersCount,
          offset := m.parametersOffset })) { m with state := 2 } := by
      unfold methodEventsStep
      simp only [hst, Nat.reduceEqDiff, reduceIte, Nat.reduceAdd, if_pos hp]
    rw [hstep]
    simp only [if_pos hp, List.singleton_append]
  · have hstep : methodEventsStep m = .cont { m with state := 2 } := by
      unfold methodEventsStep
      simp only [hst, Nat.reduceEqDiff, reduceIte, Nat.reduceAdd, if_neg hp]
    rw [hstep]
    simp only [if_neg hp, List.nil_append]

theorem run_phase2 (m : MethodReaderEvents) (hst : m.state = 2) (fuel : Nat) :
    methodEventsRun (fuel + 1) m =
      (if m.annotationDefaultOffset = 0 then []
      else
        match readAnnotationValue m.reader (MAX_ANNOTATION_NESTING + 1)
            m.annotationDefaultOffset with
        | (.error e, _) => [.error e]
        | (.ok v, _) => [.ok (.AnnotationDefault v)]) ++
      methodEventsRun fuel { m with state := 3 } := by
  rw [methodEventsRun_succ]
  by_cases h0 : m.annotationDefaultOffset = 0
  · have hstep : methodEventsStep m = .cont { m with state := 3 } := by
      unfold methodEventsStep
      simp only [hst, Nat.reduceEqDiff, reduceIte, Nat.reduceAdd, if_pos h0]
    rw [hstep]
    simp only [if_pos h0, List.nil_append]
  · rcases hv : readAnnotationValue m.reader (MAX_ANNOTATION_NESTING + 1)
        m.annotationDefaultOffset with ⟨res, o⟩
    cases res with
    | error e =>
      have hstep : methodEventsStep m = .emit (.error e) { m with state := 3 } := by
        unfold methodEventsStep
        simp only [hst, Nat.reduceEqDiff, reduceIte, Nat.reduceAdd, if_neg h0, hv]
      rw [hstep]
      simp only [if_neg h0, hv, List.singleton_append]
    | ok v =>
      have hstep : methodEventsStep m =
          .emit (.ok (.AnnotationDefault v)) { m with state := 3 } := by
        unfold methodEventsStep
        simp only [hst, Nat.reduceEqDiff, reduceIte, Nat.reduceAdd, if_neg h0, hv]
      rw [hstep]
      simp only [if_neg h0, hv, List.singleton_append]

theorem run_phase3 (m : MethodReaderEvents) (hst : m.state = 3) (fuel : Nat) :
    methodEventsRun (fuel + 1) m =
      (if m.visibleAnnotationsOffset ≠ 0 ∨ m.invisibleTypeAnnotationsOffset ≠ 0 then
        [.ok (.Annotations (AnnotationReaderIterator.new m.reader
          m.visibleAnnotationsCount m.visibleAnnotationsOffset
          m.invisibleAnnotationsCount m.invisibleAnnotationsOffset))]
      else []) ++ methodEventsRun fuel { m with state := 4 } := by
  rw [methodEventsRun_succ]
  by_cases hc : m.visibleAnnotationsOffset ≠ 0 ∨ m.invisibleTypeAnnotationsOffset ≠ 0
  · have hstep : methodEventsStep m = .emit (.ok (.Annotations
        (AnnotationReaderIterator.new m.reader
          m.visibleAnnotationsCount m.visibleAnnotationsOffset
          m.invisibleAnnotationsCount m.invisibleAnnotationsOffset)))
        { m with state := 4 } := by
      unfold methodEventsStep
      simp only [hst, Nat.reduceEqDiff, reduceIte, Nat.reduceAdd, if_pos hc]
    rw [hstep]
    simp only [if_pos hc, List.singleton_append]
  · have hstep : methodEventsStep m = .cont { m with state := 4 } := by
      unfold methodEventsStep
      simp only [hst, Nat.reduceEqDiff, reduceIte, Nat.reduceAdd, if_neg hc]
    rw [hstep]
    simp only [if_neg hc, List.nil_append]

theorem run_phase4 (m : MethodReaderEvents) (hst : m.state = 4) (fuel : Nat) :
    methodEventsRun (fuel + 1) m =
      (if m.visibleTypeAnnotationsOffset ≠ 0 ∨
          m.invisibleTypeAnnotationsOffset ≠ 0 then
        [.ok (.TypeAnnotations (TypeAnnotationReaderIterator.new m.reader
          m.visibleTypeAnnotationsCount m.visibleTypeAnnotationsOffset
          m.invisibleTypeAnnotationsCount m.invisibleTypeAnnotationsOffset))]
      else []) ++ methodEventsRun fuel { m with state := 5 } := by
  rw [methodEventsRun_succ]
  by_cases hc : m.visibleTypeAnnotationsOffset ≠ 0 ∨
      m.invisibleTypeAnnotationsOffset ≠ 0
  · have hstep : methodEventsStep m = .emit (.ok (.TypeAnnotations
        (TypeAnnotationReaderIterator.new m.reader
          m.visibleTypeAnnotationsCount m.visibleTypeAnnotationsOffset
          m.invisibleTypeAnnotationsCount m.invisibleTypeAnnotationsOffset)))
        { m with state := 5 } := by
      unfold methodEventsStep
      simp only [hst, Nat.reduceEqDiff, reduceIte, Nat.reduceAdd, if_pos hc]
    rw [hstep]
    simp only [if_pos hc, List.singleton_append]
  · have hstep : methodEventsStep m = .cont { m with state := 5 } := by
      unfold methodEventsStep
      simp only [hst, Nat.reduceEqDiff, reduceIte, Nat.reduceAdd, if_neg hc]
    rw [hstep]
    simp only [if_neg hc, List.nil_append]

theorem run_phase5 (m : MethodReaderEvents) (hst : m.state = 5) (fuel : Nat) :
    methodEventsRun (fuel + 1) m =
      (if m.visibleParameterAnnotationsOffset ≠ 0 then
        match m.reader.buffer.readU8 m.visibleParameterAnnotationsOffset with
        | .error e => [.error e]
        | .ok count =>
          [.ok (.AnnotableParameterCount { count := count, visible := true })]
      else []) ++ methodEventsRun fuel { m with state := 6 } := by
  rw [methodEventsRun_succ]
  by_cases hc : m.visibleParameterAnnotationsOffset ≠ 0
  · rcases hv : m.reader.buffer.readU8 m.visibleParameterAnnotationsOffset
        with e | count
    · have hstep : methodEventsStep m = .emit (.error e) { m with state := 6 } := by
        unfold methodEventsStep
        simp only [hst, Nat.reduceEqDiff, reduceIte, Nat.reduceAdd, if_pos hc, hv]
      rw [hstep]
      simp only [if_pos hc, hv, List.singleton_append]
    · have hstep : methodEventsStep m = .emit (.ok (.AnnotableParameterCount
          { count := count, visible := true })) { m with state := 6 } := by
        unfold methodEventsStep
        simp only [hst, Nat.reduceEqDiff, reduceIte, Nat.reduceAdd, if_pos hc, hv]
      rw [hstep]
      simp only [if_pos hc, hv, List.singleton_append]
  · have hstep : methodEventsStep m = .cont { m with state := 6 } := by
      unfold methodEventsStep
      simp only [hst, Nat.reduceEqDiff, reduceIte, Nat.reduceAdd, if_neg hc]
    rw [hstep]
    simp only [if_neg hc, List.nil_append]

theorem run_phase6 (m : MethodReaderEvents) (hst : m.state = 6) (fuel : Nat) :
    methodEventsRun (fuel + 1) m =
      (if m.invisibleParameterAnnotationsOffset ≠ 0 then
        match m.reader.buffer.readU8 m.invisibleParameterAnnotationsOffset with
        | .error e => [.error e]
        | .ok count =>
          [.ok (.AnnotableParameterCount { count := count, visible := false })]
      else []) ++ methodEventsRun fuel { m with state := 7 } := by
  rw [methodEventsRun_succ]
  by_cases hc : m.invisibleParameterAnnotationsOffset ≠ 0
  · rcases hv : m.reader.buffer.readU8 m.invisibleParameterAnnotationsOffset
        with e | count
    · have hstep : methodEventsStep m = .emit (.error e) { m with state := 7 } := by
        unfold methodEventsStep
        simp only [hst, Nat.reduceEqDiff, reduceIte, Nat.reduceAdd, if_pos hc, hv]
      rw [hstep]
      simp only [if_pos hc, hv, List.singleton_append]
    · have hstep : methodEventsStep m = .emit (.ok (.AnnotableParameterCount
          { count := count, visible := false })) { m with state := 7 } := by
        unfold methodEventsStep
        simp only [hst, Nat.reduceEqDiff, reduceIte, Nat.reduceAdd, if_pos hc, hv]
      rw [hstep]
      simp only [if_pos hc, hv, List.singleton_append]
  · have hstep : methodEventsStep m = .cont { m with state := 7 } := by
      unfold methodEventsStep
      simp only [hst, Nat.reduceEqDiff, reduceIte, Nat.reduceAdd, if_neg hc]
    rw [hstep]
    simp only [if_neg hc, List.nil_append]

theorem run_phase7 (m : MethodReaderEvents) (hst : m.state = 7) (fuel : Nat) :
    methodEventsRun (fuel + 1) m =
      (if m.visibleParameterAnnotationsOffset ≠ 0 ∨
          m.invisibleParameterAnnotationsOffset ≠ 0 then
        [.ok (.ParameterAnnotations
          { reader := m.reader,
            visibleOffset := m.visibleParameterAnnotationsOffset,
            invisibleOffset := m.invisibleParameterAnnotationsOffset,
            paramCount := 0, paramIndex := 0, annotationsRemaining := 0,
            state := 0 })]
      else []) ++ methodEventsRun fuel { m with state := 8 } := by
  rw [methodEventsRun_succ]
  by_cases hc : m.visibleParameterAnnotationsOffset ≠ 0 ∨
      m.invisibleParameterAnnotationsOffset ≠ 0
  · have hstep : methodEventsStep m = .emit (.ok (.ParameterAnnotations
        { reader := m.reader,
          visibleOffset := m.visibleParameterAnnotationsOffset,
          invisibleOffset := m.invisibleParameterAnnotationsOffset,
          paramCount := 0, paramIndex := 0, annotationsRemaining := 0,
          state := 0 })) { m with state := 8 } := by
      unfold methodEventsStep
      simp only [hst, Nat.reduceEqDiff, reduceIte, Nat.reduceAdd, if_pos hc]
    rw [hstep]
    simp only [if_pos hc, List.singleton_append]
  · have hstep : methodEventsStep m = .cont { m with state := 8 } := by
      unfold methodEventsStep
      simp only [hst, Nat.reduceEqDiff, reduceIte, Nat.reduceAdd, if_neg hc]
    rw [hstep]
    simp only [if_neg hc, List.nil_append]

theorem run_phase8 (m : MethodReaderEvents) (hst : m.state = 8) (fuel : Nat) :
    methodEventsRun (fuel + 1) m =
      (if m.customAttributeOffsets ≠ [] then
        [.ok (.Attributes
          { reader := m.reader, index := 0, offsets := m.customAttributeOffsets })]
      else []) ++ methodEventsRun fuel { m with state := 9 } := by
  rw [methodEventsRun_succ]
  by_cases hc : m.customAttributeOffsets ≠ []
  · have hstep : methodEventsStep m = .emit (.ok (.Attributes
        { reader := m.reader, index := 0, offsets := m.customAttributeOffsets }))
        { m with state := 9 } := by
      unfold methodEventsStep
      simp only [hst, Nat.reduceEqDiff, reduceIte, Nat.reduceAdd, if_pos hc]
    rw [hstep]
    simp only [if_pos hc, List.singleton_append]
  · have hstep : methodEventsStep m = .cont { m with state := 9 } := by
      unfold methodEventsStep
      simp only [hst, Nat.reduceEqDiff, reduceIte, Nat.reduceAdd, if_neg hc]
    rw [hstep]
    simp only [if_neg hc, List.nil_append]

theorem run_phase9_noCode (m : MethodReaderEvents) (hst : m.state = 9)
    (hco : m.codeOffset = 0) (fuel : Nat) : methodEventsRun fuel m = [] := by
  have hstep : methodEventsStep m = .done { m with state := 22 } := by
    unfold methodEventsStep
    simp only [hst, hco, Nat.reduceEqDiff, reduceIte, Nat.reduceAdd, if_pos]
  exact run_done hstep fuel

theorem run_phase9_code (m : MethodReaderEvents) (cd : CodeData)
    (hst : m.state = 9) (hco : m.codeOffset ≠ 0)
    (hread : CodeData.read m.reader m.codeOffset m.bootstrapMethods = .ok cd)
    (fuel : Nat) :
    methodEventsRun (fuel + 1) m =
      .ok (.Code cd.labelCreator) ::
        methodEventsRun fuel { m with state := 10, codeData := some cd } := by
  rw [methodEventsRun_succ]
  have hstep : methodEventsStep m = .emit (.ok (.Code cd.labelCreator))
      { m with state := 10, codeData := some cd } := by
    unfold methodEventsStep
    simp only [hst, Nat.reduceEqDiff, reduceIte, Nat.reduceAdd, if_neg (fun h => hco h), hread]
  rw [hstep]

theorem run_phase10_jump (m : MethodReaderEvents) (cd : CodeData)
    (hst : m.state = 10) (hcd : m.codeData = some cd)
    (hge : cd.insnMetadata.length ≤ m.codeIndex) (fuel : Nat) :
    methodEventsRun (fuel + 1) m = methodEventsRun fuel { m with state := 16 } := by
  rw [methodEventsRun_succ]
  have hstep : methodEventsStep m = .cont { m with state := 16 } := by
    unfold methodEventsStep
    simp only [hst, hcd, Nat.reduceEqDiff, reduceIte, Nat.reduceAdd, if_pos hge]
  rw [hstep]

theorem run_phase10_label (m : MethodReaderEvents) (cd : CodeData)
    (im : InstructionMetadata) (hst : m.state = 10) (hcd : m.codeData = some cd)
    (him : cd.insnMetadata[m.codeIndex]? = some im) (fuel : Nat) :
    methodEventsRun (fuel + 1) m =
      (match im.label with
      | some l => [.ok (.Label l)]
      | none => []) ++ methodEventsRun fuel { m with state := 11 } := by
  rw [methodEventsRun_succ]
  have hlt : m.codeIndex < cd.insnMetadata.length := (List.getElem?_eq_some.mp him).1
  cases hl : im.label with
  | some l =>
    have hstep : methodEventsStep m = .emit (.ok (.Label l))
        { m with state := 11 } := by
      unfold methodEventsStep
      simp only [hst, hcd, Nat.reduceEqDiff, reduceIte, Nat.reduceAdd, if_neg (by omega : ¬ cd.insnMetadata.length ≤ m.codeIndex), him,
        Option.some_bind, hl]
    rw [hstep]
    simp only [hl, List.singleton_append]
  | none =>
    have hstep : methodEventsStep m = .cont { m with state := 11 } := by
      unfold methodEventsStep
      simp only [hst, hcd, Nat.reduceEqDiff, reduceIte, Nat.reduceAdd, if_neg (by omega : ¬ cd.insnMetadata.length ≤ m.codeIndex), him,
        Option.some_bind, hl]
    rw [hstep]
    simp only [hl, List.nil_append]

/-- Replace one metadata slot of a CodeData. -/
def setMetaAt (cd : CodeData) (i : Nat) (im : InstructionMetadata) : CodeData :=
  { cd with insnMetadata := cd.insnMetadata.set i im }

theorem list_set_self {α : Type} {l : List α} {i : Nat} {a : α}
    (h : l[i]? = some a) : l.set i a = l := by
  apply List.ext_getElem?
  intro j
  by_cases hji : j = i
  · subst hji
    have hlt : j < l.length := (List.getElem?_eq_some.mp h).1
    rw [List.getElem?_set_self (by simpa using hlt), h]
  · rw [List.getElem?_set_ne (fun he => hji he.symm)]

theorem frame_none_id {im : InstructionMetadata} (h : im.frame = none) :
    ({ im with frame := none } : InstructionMetadata) = im := by
  rcases im with ⟨ie, lb, ln, fr, an⟩
  have h' : fr = none := h
  subst h'
  rfl

theorem insnEvent_none_id {im : InstructionMetadata} (h : im.insnEvent = none) :
    ({ im with insnEvent := none } : InstructionMetadata) = im := by
  rcases im with ⟨ie, lb, ln, fr, an⟩
  have h' : ie = none := h
  subst h'
  rfl

theorem anns_nil_id {im : InstructionMetadata} (h : im.anns.isEmpty = true) :
    ({ im with anns := [] } : InstructionMetadata) = im := by
  rcases im with ⟨ie, lb, ln, fr, an⟩
  have h' : an = [] := List.isEmpty_iff.mp h
  subst h'
  rfl

theorem run_phase11 (m : MethodReaderEvents) (cd : CodeData)
    (im : InstructionMetadata) (hst : m.state = 11) (hcd : m.codeData = some cd)
    (him : cd.insnMetadata[m.codeIndex]? = some im)
    (hwf : im.lineNumber ≠ none → im.label ≠ none) (fuel : Nat) :
    methodEventsRun (fuel + 1) m =
      (match im.lineNumber, im.label with
      | some line, some start => [.ok (.LineNumber line start)]
      | _, _ => []) ++ methodEventsRun fuel { m with state := 12 } := by
  rw [methodEventsRun_succ]
  cases hline : im.lineNumber with
  | none =>
    have hstep : methodEventsStep m = .cont { m with state := 12 } := by
      unfold methodEventsStep
      simp only [hst, hcd, Nat.reduceEqDiff, reduceIte, Nat.reduceAdd, him, hline]
    rw [hstep]
    cases hl : im.label <;> simp only [hline, hl, List.nil_append]
  | some line =>
    cases hl : im.label with
    | none => exact absurd hl (hwf (by rw [hline]; exact Option.noConfusion))
    | some start =>
      have hstep : methodEventsStep m = .emit (.ok (.LineNumber line start))
          { m with state := 12 } := by
        unfold methodEventsStep
        simp only [hst, hcd, Nat.reduceEqDiff, reduceIte, Nat.reduceAdd, him,
          hline, hl]
      rw [hstep]
      simp only [hline, hl, List.singleton_append]

theorem run_phase12 (m : MethodReaderEvents) (cd : CodeData)
    (im : InstructionMetadata) (hst : m.state = 12) (hcd : m.codeData = some cd)
    (him : cd.insnMetadata[m.codeIndex]? = some im) (fuel : Nat) :
    methodEventsRun (fuel + 1) m =
      (match im.frame with
      | some fr => [.ok (.Frame fr)]
      | none => []) ++
      methodEventsRun fuel
        { m with state := 13, codeData := some (setMetaAt cd m.codeIndex { im with frame := none }) } := by
  rw [methodEventsRun_succ]
  cases hfr : im.frame with
  | some fr =>
    have hstep : methodEventsStep m = .emit (.ok (.Frame fr))
        { m with state := 13, codeData := some (setMetaAt cd m.codeIndex { im with frame := none }) } := by
      unfold methodEventsStep
      simp only [hst, hcd, Nat.reduceEqDiff, reduceIte, Nat.reduceAdd, him, hfr,
        setMetaAt]
    rw [hstep]
    simp only [hfr, List.singleton_append]
  | none =>
    have hstep : methodEventsStep m = .cont { m with state := 13 } := by
      unfold methodEventsStep
      simp only [hst, hcd, Nat.reduceEqDiff, reduceIte, Nat.reduceAdd, him, hfr]
    rw [hstep]
    unfold setMetaAt
    rw [frame_none_id hfr, list_set_self him, ← hcd]
    simp only [hfr, List.nil_append]

theorem run_phase13 (m : MethodReaderEvents) (cd : CodeData)
    (im : InstructionMetadata) (hst : m.state = 13) (hcd : m.codeData = some cd)
    (him : cd.insnMetadata[m.codeIndex]? = some im) (fuel : Nat) :
    methodEventsRun (fuel + 1) m =
      (match im.insnEvent with
      | some e => [.ok e]
      | none => []) ++
      methodEventsRun fuel
        { m with state := 14, codeData := some (setMetaAt cd m.codeIndex { im with insnEvent := none }) } := by
  rw [methodEventsRun_succ]
  cases he : im.insnEvent with
  | some e =>
    have hstep : methodEventsStep m = .emit (.ok e)
        { m with state := 14, codeData := some (setMetaAt cd m.codeIndex { im with insnEvent := none }) } := by
      unfold methodEventsStep
      simp only [hst, hcd, Nat.reduceEqDiff, reduceIte, Nat.reduceAdd, him, he,
        setMetaAt]
    rw [hstep]
    simp only [he, List.singleton_append]
  | none =>
    have hstep : methodEventsStep m = .cont { m with state := 14 } := by
      unfold methodEventsStep
      simp only [hst, hcd, Nat.reduceEqDiff, reduceIte, Nat.reduceAdd, him, he]
    rw [hstep]
    unfold setMetaAt
    rw [insnEvent_none_id he, list_set_self him, ← hcd]
    simp only [he, List.nil_append]

theorem run_phase14 (m : MethodReaderEvents) (cd : CodeData)
    (im : InstructionMetadata) (hst : m.state = 14) (hcd : m.codeData = some cd)
    (him : cd.insnMetadata[m.codeIndex]? = some im) (fuel : Nat) :
    methodEventsRun (fuel + 1) m =
      (if im.anns.isEmpty then [] else [.ok (.InsnAnnotations im.anns)]) ++
      methodEventsRun fuel
        { m with state := 15, codeData := some (setMetaAt cd m.codeIndex { im with anns := [] }) } := by
  rw [methodEventsRun_succ]
  by_cases ha : im.anns.isEmpty
  · have hstep : methodEventsStep m = .cont { m with state := 15 } := by
      unfold methodEventsStep
      simp only [hst, hcd, Nat.reduceEqDiff, reduceIte, Nat.reduceAdd, him,
        if_pos ha]
    rw [hstep]
    unfold setMetaAt
    rw [anns_nil_id ha, list_set_self him, ← hcd]
    simp only [if_pos ha, List.nil_append]
  · have hstep : methodEventsStep m = .emit (.ok (.InsnAnnotations im.anns))
        { m with state := 15, codeData := some (setMetaAt cd m.codeIndex { im with anns := [] }) } := by
      unfold methodEventsStep
      simp only [hst, hcd, Nat.reduceEqDiff, reduceIte, Nat.reduceAdd, him,
        if_neg ha, setMetaAt]
    rw [hstep]
    simp only [if_neg ha, List.singleton_append]

theorem run_phase15 (m : MethodReaderEvents) (hst : m.state = 15)
    (hbound : m.codeIndex + 1 < 65536) (fuel : Nat) :
    methodEventsRun (fuel + 1) m =
      methodEventsRun fuel
        { m with state := 10, codeIndex := m.codeIndex + 1 } := by
  rw [methodEventsRun_succ]
  have hstep : methodEventsStep m =
      .cont { m with state := 10, codeIndex := (m.codeIndex + 1) % 65536 } := by
    unfold methodEventsStep
    simp only [hst, Nat.reduceEqDiff, reduceIte, Nat.reduceAdd]
  rw [Nat.mod_eq_of_lt hbound] at hstep
  rw [hstep]

theorem run_slot (m : MethodReaderEvents) (cd : CodeData)
    (im : InstructionMetadata) (hst : m.state = 10) (hcd : m.codeData = some cd)
    (him : cd.insnMetadata[m.codeIndex]? = some im)
    (hwf : im.lineNumber ≠ none → im.label ≠ none)
    (hbound : m.codeIndex + 1 < 65536) (fuel : Nat) :
    methodEventsRun (fuel + 6) m =
      insnChainAt im ++ methodEventsRun fuel { m with state := 10, codeIndex := m.codeIndex + 1, codeData := some (setMetaAt cd m.codeIndex { im with insnEvent := none, frame := none, anns := [] }) } := by
  have hlt : m.codeIndex < cd.insnMetadata.length := (List.getElem?_eq_some.mp him).1
  have him13 : (setMetaAt cd m.codeIndex
      { im with frame := none }).insnMetadata[m.codeIndex]? =
      some { im with frame := none } := by
    unfold setMetaAt
    exact List.getElem?_set_self (by simpa using hlt)
  have him14 : (setMetaAt (setMetaAt cd m.codeIndex { im with frame := none })
      m.codeIndex { im with frame := none, insnEvent := none }).insnMetadata[m.codeIndex]? =
      some { im with frame := none, insnEvent := none } := by
    unfold setMetaAt
    exact List.getElem?_set_self (by simpa using hlt)
  rw [show fuel + 6 = fuel + 5 + 1 from rfl,
    run_phase10_label m cd im hst hcd him (fuel + 5)]
  rw [show fuel + 5 = fuel + 4 + 1 from rfl,
    run_phase11 { m with state := 11 } cd im rfl hcd him hwf (fuel + 4)]
  rw [show fuel + 4 = fuel + 3 + 1 from rfl,
    run_phase12 { m with state := 12 } cd im rfl hcd him (fuel + 3)]
  rw [show fuel + 3 = fuel + 2 + 1 from rfl,
    run_phase13 { m with state := 13, codeData := some (setMetaAt cd m.codeIndex { im with frame := none }) }
      (setMetaAt cd m.codeIndex { im with frame := none })
      { im with frame := none } rfl rfl him13 (fuel + 2)]
  rw [show fuel + 2 = fuel + 1 + 1 from rfl,
    run_phase14 { m with state := 14, codeData := some (setMetaAt (setMetaAt cd m.codeIndex { im with frame := none }) m.codeIndex { im with frame := none, insnEvent := none }) }
      (setMetaAt (setMetaAt cd m.codeIndex { im with frame := none }) m.codeIndex
        { im with frame := none, insnEvent := none })
      { im with frame := none, insnEvent := none } rfl rfl him14 (fuel + 1)]
  rw [run_phase15 { m with state := 15, codeData := some (setMetaAt (setMetaAt (setMetaAt cd m.codeIndex { im with frame := none }) m.codeIndex { im with frame := none, insnEvent := none }) m.codeIndex { im with frame := none, insnEvent := none, anns := [] }) }
      rfl hbound fuel]
  unfold insnChainAt setMetaAt
  simp only [List.append_assoc, List.set_set]

theorem lvt_nil_id {cd : CodeData} (h : cd.lvt = []) :
    ({ cd with lvt := [] } : CodeData) = cd := by
  rcases cd with ⟨ms, ml, lc, meta, tcb, tca, lvt, lva, cao⟩
  have h' : lvt = [] := h
  subst h'
  rfl

theorem lva_nil_id {cd : CodeData} (h : cd.lva.isEmpty = true) :
    ({ cd with lva := [] } : CodeData) = cd := by
  rcases cd with ⟨ms, ml, lc, meta, tcb, tca, lvt, lva, cao⟩
  have h' : lva = [] := List.isEmpty_iff.mp h
  subst h'
  rfl

theorem tcb_nil_id {cd : CodeData} (h : cd.tryCatchBlocks = []) :
    ({ cd with tryCatchBlocks := [] } : CodeData) = cd := by
  rcases cd with ⟨ms, ml, lc, meta, tcb, tca, lvt, lva, cao⟩
  have h' : tcb = [] := h
  subst h'
  rfl

theorem tca_nil_id {cd : CodeData} (h : cd.tca.isEmpty = true) :
    ({ cd with tca := [] } : CodeData) = cd := by
  rcases cd with ⟨ms, ml, lc, meta, tcb, tca, lvt, lva, cao⟩
  have h' : tca = [] := List.isEmpty_iff.mp h
  subst h'
  rfl

theorem cao_nil_id {cd : CodeData} (h : cd.customAttributeOffsets = []) :
    ({ cd with customAttributeOffsets := [] } : CodeData) = cd := by
  rcases cd with ⟨ms, ml, lc, meta, tcb, tca, lvt, lva, cao⟩
  have h' : cao = [] := h
  subst h'
  rfl

theorem run_phase16 (m : MethodReaderEvents) (cd : CodeData)
    (hst : m.state = 16) (hcd : m.codeData = some cd) (fuel : Nat) :
    methodEventsRun (fuel + 1) m =
      (if cd.lvt = [] then [] else [.ok (.LocalVariables cd.lvt)]) ++
      methodEventsRun fuel { m with state := 17, codeData := some { cd with lvt := [] } } := by
  rw [methodEventsRun_succ]
  by_cases hl : cd.lvt = []
  · have hstep : methodEventsStep m = .cont { m with state := 17 } := by
      unfold methodEventsStep
      simp only [hst, hcd, Nat.reduceEqDiff, reduceIte, Nat.reduceAdd, if_pos hl]
    rw [hstep, lvt_nil_id hl, ← hcd]
    simp only [if_pos hl, List.nil_append]
  · have hstep : methodEventsStep m = .emit (.ok (.LocalVariables cd.lvt))
        { m with state := 17, codeData := some { cd with lvt := [] } } := by
      unfold methodEventsStep
      simp only [hst, hcd, Nat.reduceEqDiff, reduceIte, Nat.reduceAdd, if_neg hl]
    rw [hstep]
    simp only [if_neg hl, List.singleton_append]

theorem run_phase17 (m : MethodReaderEvents) (cd : CodeData)
    (hst : m.state = 17) (hcd : m.codeData = some cd) (fuel : Nat) :
    methodEventsRun (fuel + 1) m =
      (if cd.lva.isEmpty then [] else [.ok (.LocalVariableAnnotations cd.lva)]) ++
      methodEventsRun fuel { m with state := 18, codeData := some { cd with lva := [] } } := by
  rw [methodEventsRun_succ]
  by_cases hl : cd.lva.isEmpty
  · have hstep : methodEventsStep m = .cont { m with state := 18 } := by
      unfold methodEventsStep
      simp only [hst, hcd, Nat.reduceEqDiff, reduceIte, Nat.reduceAdd, if_pos hl]
    rw [hstep, lva_nil_id hl, ← hcd]
    simp only [if_pos hl, List.nil_append]
  · have hstep : methodEventsStep m = .emit (.ok (.LocalVariableAnnotations cd.lva))
        { m with state := 18, codeData := some { cd with lva := [] } } := by
      unfold methodEventsStep
      simp only [hst, hcd, Nat.reduceEqDiff, reduceIte, Nat.reduceAdd, if_neg hl]
    rw [hstep]
    simp only [if_neg hl, List.singleton_append]

theorem run_phase18 (m : MethodReaderEvents) (cd : CodeData)
    (hst : m.state = 18) (hcd : m.codeData = some cd) (fuel : Nat) :
    methodEventsRun (fuel + 1) m =
      (if cd.tryCatchBlocks = [] then [] else [.ok (.TryCatchBlocks cd.tryCatchBlocks)]) ++
      methodEventsRun fuel { m with state := 19, codeData := some { cd with tryCatchBlocks := [] } } := by
  rw [methodEventsRun_succ]
  by_cases hl : cd.tryCatchBlocks = []
  · have hstep : methodEventsStep m = .cont { m with state := 19 } := by
      unfold methodEventsStep
      simp only [hst, hcd, Nat.reduceEqDiff, reduceIte, Nat.reduceAdd, if_pos hl]
    rw [hstep, tcb_nil_id hl, ← hcd]
    simp only [if_pos hl, List.nil_append]
  · have hstep : methodEventsStep m = .emit (.ok (.TryCatchBlocks cd.tryCatchBlocks))
        { m with state := 19, codeData := some { cd with tryCatchBlocks := [] } } := by
      unfold methodEventsStep
      simp only [hst, hcd, Nat.reduceEqDiff, reduceIte, Nat.reduceAdd, if_neg hl]
    rw [hstep]
    simp only [if_neg hl, List.singleton_append]

theorem run_phase19 (m : MethodReaderEvents) (cd : CodeData)
    (hst : m.state = 19) (hcd : m.codeData = some cd) (fuel : Nat) :
    methodEventsRun (fuel + 1) m =
      (if cd.tca.isEmpty then [] else [.ok (.TryCatchBlockAnnotations cd.tca)]) ++
      methodEventsRun fuel { m with state := 20, codeData := some { cd with tca := [] } } := by
  rw [methodEventsRun_succ]
  by_cases hl : cd.tca.isEmpty
  · have hstep : methodEventsStep m = .cont { m with state := 20 } := by
      unfold methodEventsStep
      simp only [hst, hcd, Nat.reduceEqDiff, reduceIte, Nat.reduceAdd, if_pos hl]
    rw [hstep, tca_nil_id hl, ← hcd]
    simp only [if_pos hl, List.nil_append]
  · have hstep : methodEventsStep m = .emit (.ok (.TryCatchBlockAnnotations cd.tca))
        { m with state := 20, codeData := some { cd with tca := [] } } := by
      unfold methodEventsStep
      simp only [hst, hcd, Nat.reduceEqDiff, reduceIte, Nat.reduceAdd, if_neg hl]
    rw [hstep]
    simp only [if_neg hl, List.singleton_append]

theorem run_phase20 (m : MethodReaderEvents) (cd : CodeData)
    (hst : m.state = 20) (hcd : m.codeData = some cd) (fuel : Nat) :
    methodEventsRun (fuel + 1) m =
      (if cd.customAttributeOffsets = [] then []
      else [.ok (.CodeAttributes
        { reader := m.reader, index := 0, offsets := cd.customAttributeOffsets })]) ++
      methodEventsRun fuel { m with state := 21, codeData := some { cd with customAttributeOffsets := [] } } := by
  rw [methodEventsRun_succ]
  by_cases hl : cd.customAttributeOffsets = []
  · have hstep : methodEventsStep m = .cont { m with state := 21 } := by
      unfold methodEventsStep
      simp only [hst, hcd, Nat.reduceEqDiff, reduceIte, Nat.reduceAdd, if_pos hl]
    rw [hstep, cao_nil_id hl, ← hcd]
    simp only [if_pos hl, List.nil_append]
  · have hstep : methodEventsStep m = .emit (.ok (.CodeAttributes
        { reader := m.reader, index := 0, offsets := cd.customAttributeOffsets }))
        { m with state := 21, codeData := some { cd with customAttributeOffsets := [] } } := by
      unfold methodEventsStep
      simp only [hst, hcd, Nat.reduceEqDiff, reduceIte, Nat.reduceAdd, if_neg hl]
    rw [hstep]
    simp only [if_neg hl, List.singleton_append]

theorem run_phase21 (m : MethodReaderEvents) (cd : CodeData)
    (hst : m.state = 21) (hcd : m.codeData = some cd) (fuel : Nat) :
    methodEventsRun (fuel + 1) m =
      .ok (.Maxs { maxLocals := cd.maxLocals, maxStack := cd.maxStack }) ::
        methodEventsRun fuel { m with state := 22 } := by
  rw [methodEventsRun_succ]
  have hstep : methodEventsStep m =
      .emit (.ok (.Maxs { maxLocals := cd.maxLocals, maxStack := cd.maxStack }))
        { m with state := 22 } := by
    unfold methodEventsStep
    simp only [hst, hcd, Nat.reduceEqDiff, reduceIte, Nat.reduceAdd]
  rw [hstep]

theorem run_phase22 (m : MethodReaderEvents) (hst : m.state = 22) (fuel : Nat) :
    methodEventsRun fuel m = [] := by
  have hstep : methodEventsStep m = .done { m with state := 23 } := by
    unfold methodEventsStep
    simp only [hst, Nat.reduceEqDiff, reduceIte, Nat.reduceAdd]
  exact run_done hstep fuel

theorem run_tail (m : MethodReaderEvents) (cd : CodeData)
    (hst : m.state = 16) (hcd : m.codeData = some cd) (fuel : Nat) :
    methodEventsRun (fuel + 6) m =
      tailChain m.reader cd ++
        [.ok (.Maxs { maxLocals := cd.maxLocals, maxStack := cd.maxStack })] := by
  rw [show fuel + 6 = fuel + 5 + 1 from rfl, run_phase16 m cd hst hcd (fuel + 5)]
  rw [show fuel + 5 = fuel + 4 + 1 from rfl,
    run_phase17 { m with state := 17, codeData := some { cd with lvt := [] } }
      { cd with lvt := [] } rfl rfl (fuel + 4)]
  rw [show fuel + 4 = fuel + 3 + 1 from rfl,
    run_phase18 { m with state := 18, codeData := some { cd with lvt := [], lva := [] } }
      { cd with lvt := [], lva := [] } rfl rfl (fuel + 3)]
  rw [show fuel + 3 = fuel + 2 + 1 from rfl,
    run_phase19 { m with state := 19, codeData := some { cd with lvt := [], lva := [], tryCatchBlocks := [] } }
      { cd with lvt := [], lva := [], tryCatchBlocks := [] } rfl rfl (fuel + 2)]
  rw [show fuel + 2 = fuel + 1 + 1 from rfl,
    run_phase20 { m with state := 20, codeData := some { cd with lvt := [], lva := [], tryCatchBlocks := [], tca := [] } }
      { cd with lvt := [], lva := [], tryCatchBlocks := [], tca := [] } rfl rfl (fuel + 1)]
  rw [run_phase21 { m with state := 21, codeData := some { cd with lvt := [], lva := [], tryCatchBlocks := [], tca := [], customAttributeOffsets := [] } }
      { cd with lvt := [], lva := [], tryCatchBlocks := [], tca := [], customAttributeOffsets := [] } rfl rfl fuel]
  rw [run_phase22 { m with state := 22, codeData := some { cd with lvt := [], lva := [], tryCatchBlocks := [], tca := [], customAttributeOffsets := [] } } rfl fuel]
  unfold tailChain
  simp only [List.append_assoc, List.nil_append, List.append_nil]

theorem run_pre (m : MethodReaderEvents) (hst : m.state = 0) (fuel : Nat) :
    methodEventsRun (fuel + 9) m =
      preChain m ++ methodEventsRun fuel { m with state := 9 } := by
  rw [show fuel + 9 = fuel + 8 + 1 from rfl, run_phase0 m hst (fuel + 8)]
  rw [show fuel + 8 = fuel + 7 + 1 from rfl,
    run_phase1 { m with state := 1 } rfl (fuel + 7)]
  rw [show fuel + 7 = fuel + 6 + 1 from rfl,
    run_phase2 { m with state := 2 } rfl (fuel + 6)]
  rw [show fuel + 6 = fuel + 5 + 1 from rfl,
    run_phase3 { m with state := 3 } rfl (fuel + 5)]
  rw [show fuel + 5 = fuel + 4 + 1 from rfl,
    run_phase4 { m with state := 4 } rfl (fuel + 4)]
  rw [show fuel + 4 = fuel + 3 + 1 from rfl,
    run_phase5 { m with state := 5 } rfl (fuel + 3)]
  rw [show fuel + 3 = fuel + 2 + 1 from rfl,
    run_phase6 { m with state := 6 } rfl (fuel + 2)]
  rw [show fuel + 2 = fuel + 1 + 1 from rfl,
    run_phase7 { m with state := 7 } rfl (fuel + 1)]
  rw [run_phase8 { m with state := 8 } rfl fuel]
  unfold preChain
  simp only [List.append_assoc]

theorem list_drop_set {α : Type} (l : List α) (i : Nat) (a : α) :
    (l.set i a).drop (i + 1) = l.drop (i + 1) := by
  apply List.ext_getElem?
  intro j
  rw [List.getElem?_drop, List.getElem?_drop]
  rw [List.getElem?_set_ne (by omega)]

theorem run_code : ∀ (k : Nat) (m : MethodReaderEvents) (cd : CodeData),
    m.state = 10 → m.codeData = some cd →
    m.codeIndex + k = cd.insnMetadata.length →
    cd.insnMetadata.length < 65536 →
    (∀ (j : Nat) (im : InstructionMetadata), cd.insnMetadata[j]? = some im →
      im.lineNumber ≠ none → im.label ≠ none) →
    ∀ fuel, ∃ (cdF : CodeData) (ciF : Nat),
      methodEventsRun (fuel + (6 * k + 1)) m =
        codeChain (cd.insnMetadata.drop m.codeIndex) ++
          methodEventsRun fuel
            { m with state := 16, codeIndex := ciF, codeData := some cdF } ∧
      cdF.maxStack = cd.maxStack ∧ cdF.maxLocals = cd.maxLocals ∧
      cdF.lvt = cd.lvt ∧ cdF.lva = cd.lva ∧
      cdF.tryCatchBlocks = cd.tryCatchBlocks ∧ cdF.tca = cd.tca ∧
      cdF.customAttributeOffsets = cd.customAttributeOffsets := by
  intro k
  induction k with
  | zero =>
    intro m cd hst hcd hix hlen hwf fuel
    refine ⟨cd, m.codeIndex, ?_, rfl, rfl, rfl, rfl, rfl, rfl, rfl⟩
    have hge : cd.insnMetadata.length ≤ m.codeIndex := by omega
    rw [show fuel + (6 * 0 + 1) = fuel + 1 from rfl,
      run_phase10_jump m cd hst hcd hge fuel]
    have hdrop : cd.insnMetadata.drop m.codeIndex = [] :=
      List.drop_eq_nil_of_le hge
    rw [hdrop, ← hcd]
    simp only [codeChain, List.map_nil, List.flatten_nil, List.nil_append]
  | succ k ih =>
    intro m cd hst hcd hix hlen hwf fuel
    have hlt : m.codeIndex < cd.insnMetadata.length := by omega
    obtain ⟨im, him⟩ : ∃ im, cd.insnMetadata[m.codeIndex]? = some im :=
      ⟨_, List.getElem?_eq_getElem hlt⟩
    have hwfim : im.lineNumber ≠ none → im.label ≠ none := hwf _ _ him
    rw [show fuel + (6 * (k + 1) + 1) = (fuel + (6 * k + 1)) + 6 from by omega,
      run_slot m cd im hst hcd him hwfim (by omega) (fuel + (6 * k + 1))]
    obtain ⟨cdF, ciF, hrun, hms, hml, hlvt, hlva, htcb, htca, hcao⟩ :=
      ih { m with state := 10, codeIndex := m.codeIndex + 1, codeData := some (setMetaAt cd m.codeIndex { im with insnEvent := none, frame := none, anns := [] }) }
        (setMetaAt cd m.codeIndex { im with insnEvent := none, frame := none, anns := [] })
        rfl rfl
        (by unfold setMetaAt; simp only [List.length_set]; omega)
        (by unfold setMetaAt; simp only [List.length_set]; exact hlen)
        (by
          intro j im2 hj hline
          unfold setMetaAt at hj
          simp only [] at hj
          by_cases hji : j = m.codeIndex
          · subst hji
            rw [List.getElem?_set_self (by simpa using hlt)] at hj
            have him2 : ({ im with insnEvent := none, frame := none, anns := [] }
                : InstructionMetadata) = im2 := Option.some.inj hj
            rw [← him2] at hline ⊢
            exact hwfim hline
          · rw [List.getElem?_set_ne (fun he => hji he.symm)] at hj
            exact hwf j im2 hj hline)
        fuel
    refine ⟨cdF, ciF, ?_, hms, hml, hlvt, hlva, htcb, htca, hcao⟩
    rw [hrun]
    have hdrop1 : cd.insnMetadata.drop m.codeIndex =
        im :: cd.insnMetadata.drop (m.codeIndex + 1) := by
      rw [List.drop_eq_getElem_cons hlt]
      have : cd.insnMetadata[m.codeIndex] = im := by
        have h2 := List.getElem?_eq_some.mp him
        exact h2.2
      rw [this]
    have hdrop2 : (setMetaAt cd m.codeIndex
        { im with insnEvent := none, frame := none, anns := [] }).insnMetadata.drop
          (m.codeIndex + 1) = cd.insnMetadata.drop (m.codeIndex + 1) := by
      unfold setMetaAt
      exact list_drop_set _ _ _
    rw [hdrop2, hdrop1]
    simp only [codeChain, List.map_cons, List.flatten_cons, List.append_assoc]

/-- The full stream of a method whose Code attribute decodes without error:
the pre-code events, the Code event, the per-offset code events in
ascending offset order, the tail events, and exactly at the end one Maxs. -/
theorem methodRun_spec (m : MethodReaderEvents) (cd : CodeData) (fuel : Nat)
    (hst : m.state = 0) (hci : m.codeIndex = 0) (hco : m.codeOffset ≠ 0)
    (hread : CodeData.read m.reader m.codeOffset m.bootstrapMethods = .ok cd)
    (hlen : cd.insnMetadata.length < 65536)
    (hwf : ∀ (j : Nat) (im : InstructionMetadata), cd.insnMetadata[j]? = some im →
      im.lineNumber ≠ none → im.label ≠ none)
    (hfuel : 6 * cd.insnMetadata.length + 17 ≤ fuel) :
    methodEventsRun fuel m =
      preChain m ++ .ok (.Code cd.labelCreator) ::
        (codeChain cd.insnMetadata ++ (tailChain m.reader cd ++
          [.ok (.Maxs { maxLocals := cd.maxLocals, maxStack := cd.maxStack })])) := by
  obtain ⟨rest, hrest⟩ :
      ∃ r, fuel = ((r + 6) + (6 * cd.insnMetadata.length + 1) + 1) + 9 :=
    ⟨fuel - (6 * cd.insnMetadata.length + 17), by omega⟩
  subst hrest
  rw [run_pre m hst _]
  rw [run_phase9_code { m with state := 9 } cd rfl hco hread _]
  obtain ⟨cdF, ciF, hrun, hms, hml, hlvt, hlva, htcb, htca, hcao⟩ :=
    run_code cd.insnMetadata.length
      { m with state := 10, codeData := some cd } cd rfl rfl (by simp only []; omega) hlen
      hwf (rest + 6)
  simp only [] at hrun
  rw [hci, List.drop_zero] at hrun
  rw [hci]
  rw [hrun]
  rw [run_tail { m with state := 16, codeIndex := ciF, codeData := some cdF }
    cdF rfl rfl rest]
  have htc : tailChain m.reader cdF = tailChain m.reader cd := by
    unfold tailChain
    rw [hlvt, hlva, htcb, htca, hcao]
  have hmx : ({ maxLocals := cdF.maxLocals, maxStack := cdF.maxStack }
      : MethodMaxsEvent) = { maxLocals := cd.maxLocals, maxStack := cd.maxStack } := by
    rw [hms, hml]
  rw [htc, hmx]

/-! ### Stored instruction events are genuine instruction events -/

/-- The MethodEvent constructors that read_insn can produce. -/
def eventIsInsn : MethodEvent → Bool
  | .Insn _ => true
  | .BIPushInsn _ => true
  | .SIPushInsn _ => true
  | .NewArrayInsn _ => true
  | .VarInsn _ _ => true
  | .TypeInsn _ _ => true
  | .FieldInsn _ _ _ _ => true
  | .MethodInsn _ _ _ _ _ => true
  | .InvokeDynamicInsn _ _ _ _ => true
  | .JumpInsn _ _ => true
  | .LdcInsn _ => true
  | .IIncInsn _ _ => true
  | .TableSwitchInsn _ _ _ _ => true
  | .LookupSwitchInsn _ _ => true
  | .MultiANewArrayInsn _ _ => true
  | _ => false

theorem readInsn_eventOk {reader : ClassReader} {code : List Nat}
    {bsms : ClassFileResult (List BootstrapMethod)} {i : Nat}
    {meta : List InstructionMetadata} {c : LabelCreator} {opcode : Nat}
    {e : MethodEvent} {i2 : Nat} {meta2 : List InstructionMetadata}
    {c2 : LabelCreator}
    (h : readInsn reader code bsms i meta c opcode = .ok (e, i2, meta2, c2)) :
    eventIsInsn e = true := by
  unfold readInsn at h
  by_cases hc1 : opcode = 19 ∨ opcode = 20
  · rw [if_pos hc1] at h
    obtain ⟨a1, _, h⟩ := bind_ok h
    obtain ⟨a2, _, h⟩ := bind_ok h
    have he := pure_ok_inv h
    simp only [Prod.mk.injEq] at he
    obtain ⟨he1, _, _, _⟩ := he
    rw [← he1]
    rfl
  rw [if_neg hc1] at h
  by_cases hc2 : 26 ≤ opcode ∧ opcode ≤ 29
  · rw [if_pos hc2] at h
    have he := pure_ok_inv h
    simp only [Prod.mk.injEq] at he
    obtain ⟨he1, _, _, _⟩ := he
    rw [← he1]
    rfl
  rw [if_neg hc2] at h
  by_cases hc3 : 30 ≤ opcode ∧ opcode ≤ 33
  · rw [if_pos hc3] at h
    have he := pure_ok_inv h
    simp only [Prod.mk.injEq] at he
    obtain ⟨he1, _, _, _⟩ := he
    rw [← he1]
    rfl
  rw [if_neg hc3] at h
  by_cases hc4 : 34 ≤ opcode ∧ opcode ≤ 37
  · rw [if_pos hc4] at h
    have he := pure_ok_inv h
    simp only [Prod.mk.injEq] at he
    obtain ⟨he1, _, _, _⟩ := he
    rw [← he1]
    rfl
  rw [if_neg hc4] at h
  by_cases hc5 : 38 ≤ opcode ∧ opcode ≤ 41
  · rw [if_pos hc5] at h
    have he := pure_ok_inv h
    simp only [Prod.mk.injEq] at he
    obtain ⟨he1, _, _, _⟩ := he
    rw [← he1]
    rfl
  rw [if_neg hc5] at h
  by_cases hc6 : 42 ≤ opcode ∧ opcode ≤ 45
  · rw [if_pos hc6] at h
    have he := pure_ok_inv h
    simp only [Prod.mk.injEq] at he
    obtain ⟨he1, _, _, _⟩ := he
    rw [← he1]
    rfl
  rw [if_neg hc6] at h
  by_cases hc7 : 59 ≤ opcode ∧ opcode ≤ 62
  · rw [if_pos hc7] at h
    have he := pure_ok_inv h
    simp only [Prod.mk.injEq] at he
    obtain ⟨he1, _, _, _⟩ := he
    rw [← he1]
    rfl
  rw [if_neg hc7] at h
  by_cases hc8 : 63 ≤ opcode ∧ opcode ≤ 66
  · rw [if_pos hc8] at h
    have he := pure_ok_inv h
    simp only [Prod.mk.injEq] at he
    obtain ⟨he1, _, _, _⟩ := he
    rw [← he1]
    rfl
  rw [if_neg hc8] at h
  by_cases hc9 : 67 ≤ opcode ∧ opcode ≤ 70
  · rw [if_pos hc9] at h
    have he := pure_ok_inv h
    simp only [Prod.mk.injEq] at he
    obtain ⟨he1, _, _, _⟩ := he
    rw [← he1]
    rfl
  rw [if_neg hc9] at h
  by_cases hc10 : 71 ≤ opcode ∧ opcode ≤ 74
  · rw [if_pos hc10] at h
    have he := pure_ok_inv h
    simp only [Prod.mk.injEq] at he
    obtain ⟨he1, _, _, _⟩ := he
    rw [← he1]
    rfl
  rw [if_neg hc10] at h
  by_cases hc11 : 75 ≤ opcode ∧ opcode ≤ 78
  · rw [if_pos hc11] at h
    have he := pure_ok_inv h
    simp only [Prod.mk.injEq] at he
    obtain ⟨he1, _, _, _⟩ := he
    rw [← he1]
    rfl
  rw [if_neg hc11] at h
  by_cases hc12 : opcode = 196
  · rw [if_pos hc12] at h
    obtain ⟨nb, _, h⟩ := bind_ok h
    cases htf : Opcode.tryFrom nb with
    | none =>
      rw [htf] at h
      exact Except.noConfusion h
    | some nop =>
      rw [htf] at h
      simp only [] at h
      by_cases hw1 : nop.code = 21 ∨ nop.code = 23 ∨ nop.code = 25 ∨ nop.code = 22 ∨
          nop.code = 24 ∨ nop.code = 54 ∨ nop.code = 56 ∨ nop.code = 58 ∨
          nop.code = 55 ∨ nop.code = 57 ∨ nop.code = 169
      · rw [if_pos hw1] at h
        obtain ⟨a1, _, h⟩ := bind_ok h
        have he := pure_ok_inv h
        simp only [Prod.mk.injEq] at he
        obtain ⟨he1, _, _, _⟩ := he
        rw [← he1]
        rfl
      rw [if_neg hw1] at h
      by_cases hw2 : nop.code = 132
      · rw [if_pos hw2] at h
        obtain ⟨a1, _, h⟩ := bind_ok h
        obtain ⟨a2, _, h⟩ := bind_ok h
        have he := pure_ok_inv h
        simp only [Prod.mk.injEq] at he
        obtain ⟨he1, _, _, _⟩ := he
        rw [← he1]
        rfl
      rw [if_neg hw2] at h
      exact Except.noConfusion h
  rw [if_neg hc12] at h
  by_cases hc13 : opcode = 200 ∨ opcode = 201
  · rw [if_pos hc13] at h
    obtain ⟨a1, _, h⟩ := bind_ok h
    obtain ⟨q, hq, h⟩ := bind_ok h
    rcases q with ⟨l, metaQ, cQ⟩
    have he := pure_ok_inv h
    simp only [Prod.mk.injEq] at he
    obtain ⟨he1, _, _, _⟩ := he
    rw [← he1]
    rfl
  rw [if_neg hc13] at h
  cases hop : Opcode.tryFrom opcode with
  | none =>
    rw [hop] at h
    exact Except.noConfusion h
  | some op =>
    rw [hop] at h
    simp only [] at h
    by_cases hd1 : isSimpleInsn opcode = true
    · rw [if_pos hd1] at h
      have he := pure_ok_inv h
      simp only [Prod.mk.injEq] at he
      obtain ⟨he1, _, _, _⟩ := he
      rw [← he1]
      rfl
    rw [if_neg hd1] at h
    by_cases hd2 : opcode = 16
    · rw [if_pos hd2] at h
      obtain ⟨a1, _, h⟩ := bind_ok h
      have he := pure_ok_inv h
      simp only [Prod.mk.injEq] at he
      obtain ⟨he1, _, _, _⟩ := he
      rw [← he1]
      rfl
    rw [if_neg hd2] at h
    by_cases hd3 : opcode = 17
    · rw [if_pos hd3] at h
      obtain ⟨a1, _, h⟩ := bind_ok h
      have he := pure_ok_inv h
      simp only [Prod.mk.injEq] at he
      obtain ⟨he1, _, _, _⟩ := he
      rw [← he1]
      rfl
    rw [if_neg hd3] at h
    by_cases hd4 : opcode = 18
    · rw [if_pos hd4] at h
      obtain ⟨a1, _, h⟩ := bind_ok h
      obtain ⟨a2, _, h⟩ := bind_ok h
      have he := pure_ok_inv h
      simp only [Prod.mk.injEq] at he
      obtain ⟨he1, _, _, _⟩ := he
      rw [← he1]
      rfl
    rw [if_neg hd4] at h
    by_cases hd5 : (21 ≤ opcode ∧ opcode ≤ 25) ∨ (54 ≤ opcode ∧ opcode ≤ 58) ∨
        opcode = 169
    · rw [if_pos hd5] at h
      obtain ⟨a1, _, h⟩ := bind_ok h
      have he := pure_ok_inv h
      simp only [Prod.mk.injEq] at he
      obtain ⟨he1, _, _, _⟩ := he
      rw [← he1]
      rfl
    rw [if_neg hd5] at h
    by_cases hd6 : opcode = 132
    · rw [if_pos hd6] at h
      obtain ⟨a1, _, h⟩ := bind_ok h
      obtain ⟨a2, _, h⟩ := bind_ok h
      have he := pure_ok_inv h
      simp only [Prod.mk.injEq] at he
      obtain ⟨he1, _, _, _⟩ := he
      rw [← he1]
      rfl
    rw [if_neg hd6] at h
    by_cases hd7 : (153 ≤ opcode ∧ opcode ≤ 168) ∨ opcode = 198 ∨ opcode = 199
    · rw [if_pos hd7] at h
      obtain ⟨a1, _, h⟩ := bind_ok h
      obtain ⟨q, hq, h⟩ := bind_ok h
      rcases q with ⟨l, metaQ, cQ⟩
      have he := pure_ok_inv h
      simp only [Prod.mk.injEq] at he
      obtain ⟨he1, _, _, _⟩ := he
      rw [← he1]
      rfl
    rw [if_neg hd7] at h
    by_cases hd8 : opcode = 170
    · rw [if_pos hd8] at h
      obtain ⟨dfltBranch, _, h⟩ := bind_ok h
      obtain ⟨q, hq, h⟩ := bind_ok h
      rcases q with ⟨dflt, metaQ, cQ⟩
      obtain ⟨low, _, h⟩ := bind_ok h
      obtain ⟨high, _, h⟩ := bind_ok h
      simp only [] at h
      by_cases hlh : low > high
      · rw [if_pos hlh] at h
        exact Except.noConfusion h
      rw [if_neg hlh] at h
      obtain ⟨q2, hq2, h⟩ := bind_ok h
      rcases q2 with ⟨ls, metaR, cR⟩
      have he := pure_ok_inv h
      simp only [Prod.mk.injEq] at he
      obtain ⟨he1, _, _, _⟩ := he
      rw [← he1]
      rfl
    rw [if_neg hd8] at h
    by_cases hd9 : opcode = 171
    · rw [if_pos hd9] at h
      obtain ⟨dfltBranch, _, h⟩ := bind_ok h
      obtain ⟨q, hq, h⟩ := bind_ok h
      rcases q with ⟨dflt, metaQ, cQ⟩
      obtain ⟨npairs, _, h⟩ := bind_ok h
      obtain ⟨q2, hq2, h⟩ := bind_ok h
      rcases q2 with ⟨vs, metaR, cR⟩
      have he := pure_ok_inv h
      simp only [Prod.mk.injEq] at he
      obtain ⟨he1, _, _, _⟩ := he
      rw [← he1]
      rfl
    rw [if_neg hd9] at h
    by_cases hd10 : 178 ≤ opcode ∧ opcode ≤ 181
    · rw [if_pos hd10] at h
      obtain ⟨a1, _, h⟩ := bind_ok h
      obtain ⟨a2, _, h⟩ := bind_ok h
      have he := pure_ok_inv h
      simp only [Prod.mk.injEq] at he
      obtain ⟨he1, _, _, _⟩ := he
      rw [← he1]
      rfl
    rw [if_neg hd10] at h
    by_cases hd11 : 182 ≤ opcode ∧ opcode ≤ 185
    · rw [if_pos hd11] at h
      obtain ⟨a1, _, h⟩ := bind_ok h
      obtain ⟨a2, _, h⟩ := bind_ok h
      by_cases htag : a2 = ConstantPoolTag.InterfaceMethodRef
      · rw [if_pos htag] at h
        obtain ⟨a3, _, h⟩ := bind_ok h
        have he := pure_ok_inv h
        simp only [Prod.mk.injEq] at he
        obtain ⟨he1, _, _, _⟩ := he
        rw [← he1]
        rfl
      rw [if_neg htag] at h
      obtain ⟨a3, _, h⟩ := bind_ok h
      have he := pure_ok_inv h
      simp only [Prod.mk.injEq] at he
      obtain ⟨he1, _, _, _⟩ := he
      rw [← he1]
      rfl
    rw [if_neg hd11] at h
    by_cases hd12 : opcode = 186
    · rw [if_pos hd12] at h
      obtain ⟨a1, _, h⟩ := bind_ok h
      obtain ⟨a2, _, h⟩ := bind_ok h
      obtain ⟨a3, _, h⟩ := bind_ok h
      have he := pure_ok_inv h
      simp only [Prod.mk.injEq] at he
      obtain ⟨he1, _, _, _⟩ := he
      rw [← he1]
      rfl
    rw [if_neg hd12] at h
    by_cases hd13 : opcode = 187 ∨ opcode = 189 ∨ opcode = 192 ∨ opcode = 193
    · rw [if_pos hd13] at h
      obtain ⟨a1, _, h⟩ := bind_ok h
      obtain ⟨a2, _, h⟩ := bind_ok h
      have he := pure_ok_inv h
      simp only [Prod.mk.injEq] at he
      obtain ⟨he1, _, _, _⟩ := he
      rw [← he1]
      rfl
    rw [if_neg hd13] at h
    by_cases hd14 : opcode = 188
    · rw [if_pos hd14] at h
      obtain ⟨atype, _, h⟩ := bind_ok h
      cases hna : NewArrayType.fromU8 atype with
      | none =>
        rw [hna] at h
        exact Except.noConfusion h
      | some t =>
        rw [hna] at h
        simp only [] at h
        have he := pure_ok_inv h
        simp only [Prod.mk.injEq] at he
        obtain ⟨he1, _, _, _⟩ := he
        rw [← he1]
        rfl
    rw [if_neg hd14] at h
    by_cases hd15 : opcode = 197
    · rw [if_pos hd15] at h
      obtain ⟨a1, _, h⟩ := bind_ok h
      obtain ⟨a2, _, h⟩ := bind_ok h
      obtain ⟨a3, _, h⟩ := bind_ok h
      have he := pure_ok_inv h
      simp only [Prod.mk.injEq] at he
      obtain ⟨he1, _, _, _⟩ := he
      rw [← he1]
      rfl
    rw [if_neg hd15] at h
    exact Except.noConfusion h

/-- Every stored instruction event in the table is a genuine instruction
event. -/
def GoodEvents (meta : List InstructionMetadata) : Prop :=
  ∀ (j : Nat) (im : InstructionMetadata) (e : MethodEvent), meta[j]? = some im →
    im.insnEvent = some e → eventIsInsn e = true

theorem goodEvents_set {meta : List InstructionMetadata} {i : Nat}
    {m : InstructionMetadata} (m' : InstructionMetadata)
    (hm : meta[i]? = some m) (hl : m'.insnEvent = m.insnEvent)
    (hg : GoodEvents meta) : GoodEvents (meta.set i m') := by
  intro j im e hj he
  by_cases hji : j = i
  · subst hji
    have hlt : j < meta.length := (List.getElem?_eq_some.mp hm).1
    rw [List.getElem?_set_self (by simpa using hlt)] at hj
    have him : m' = im := Option.some.inj hj
    subst him
    rw [hl] at he
    exact hg j m e hm he
  · rw [List.getElem?_set_ne (fun heq => hji heq.symm)] at hj
    exact hg j im e hj he

/-- GoodEvents transfer is closed under every non-instruction mutation. -/
theorem metaRel_goodEvents (reader : ClassReader) :
    MetaRel reader (fun a b => GoodEvents a → GoodEvents b) := by
  refine ⟨fun _ hg => hg, fun h1 h2 hg => h2 (h1 hg), ?_, ?_, ?_, ?_⟩
  · intro meta i c l meta2 c2 h hg
    unfold metaGetOrCreateLabel at h
    rcases hm : meta[i]? with _ | m
    · rw [hm] at h
      exact Except.noConfusion h
    · rw [hm] at h
      simp only [] at h
      rcases hg2 : getOrCreateLabel m c with ⟨l0, m2, cB⟩
      rw [hg2] at h
      simp only [Except.ok.injEq, Prod.mk.injEq] at h
      obtain ⟨_, hmeta, _⟩ := h
      subst hmeta
      unfold getOrCreateLabel at hg2
      rcases hml : m.label with _ | l1
      · rw [hml] at hg2
        simp only [Prod.mk.injEq] at hg2
        obtain ⟨_, hm2, _⟩ := hg2
        subst hm2
        exact goodEvents_set _ hm rfl hg
      · rw [hml] at hg2
        simp only [Prod.mk.injEq] at hg2
        obtain ⟨_, hm2, _⟩ := hg2
        subst hm2
        exact goodEvents_set _ hm rfl hg
  · intro meta pc m x hm hg
    exact goodEvents_set _ hm rfl hg
  · intro _ meta pc lineV c meta2 c2 h hg
    unfold metaLabelAndLine at h
    rcases hm : meta[pc]? with _ | m
    · rw [hm] at h
      exact Except.noConfusion h
    · rw [hm] at h
      simp only [] at h
      rcases hg2 : getOrCreateLabel m c with ⟨l0, m2, cB⟩
      rw [hg2] at h
      simp only [Except.ok.injEq, Prod.mk.injEq] at h
      obtain ⟨hmeta, _⟩ := h
      subst hmeta
      unfold getOrCreateLabel at hg2
      rcases hml : m.label with _ | l1
      · rw [hml] at hg2
        simp only [Prod.mk.injEq] at hg2
        obtain ⟨_, hm2, _⟩ := hg2
        subst hm2
        exact goodEvents_set _ hm rfl hg
      · rw [hml] at hg2
        simp only [Prod.mk.injEq] at hg2
        obtain ⟨_, hm2, _⟩ := hg2
        subst hm2
        exact goodEvents_set _ hm rfl hg
  · intro _ meta i f meta2 h hg
    unfold metaSetFrame at h
    rcases hm : meta[i]? with _ | m
    · rw [hm] at h
      exact Except.noConfusion h
    · rw [hm] at h
      have he := Except.ok.inj h
      subst he
      exact goodEvents_set _ hm rfl hg

theorem goodEvents_setInsn {meta : List InstructionMetadata} {i : Nat}
    {e : MethodEvent} (he : eventIsInsn e = true) (hg : GoodEvents meta) :
    GoodEvents (setInsnEvent meta i e) := by
  unfold setInsnEvent
  rcases hm : meta[i]? with _ | m
  · exact hg
  · intro j im e2 hj he2
    by_cases hji : j = i
    · subst hji
      have hlt : j < meta.length := (List.getElem?_eq_some.mp hm).1
      rw [List.getElem?_set_self (by simpa using hlt)] at hj
      have him : ({ m with insnEvent := some e } : InstructionMetadata) = im :=
        Option.some.inj hj
      subst him
      have he3 : e = e2 := Option.some.inj he2
      subst he3
      exact he
    · rw [List.getElem?_set_ne (fun heq => hji heq.symm)] at hj
      exact hg j im e2 hj he2

theorem readCodeLoop_good {reader : ClassReader} {code : List Nat}
    {bsms : ClassFileResult (List BootstrapMethod)} :
    ∀ (fuel i : Nat) (meta : List InstructionMetadata) (c : LabelCreator)
      (meta2 : List InstructionMetadata) (c2 : LabelCreator),
      readCodeLoop reader code bsms fuel i meta c = .ok (meta2, c2) →
      GoodEvents meta → GoodEvents meta2 := by
  intro fuel
  induction fuel with
  | zero =>
    intro i meta c meta2 c2 h hg
    rw [readCodeLoop] at h
    simp only [Except.ok.injEq, Prod.mk.injEq] at h
    obtain ⟨hm, _⟩ := h
    subst hm
    exact hg
  | succ fuel ih =>
    intro i meta c meta2 c2 h hg
    rw [readCodeLoop] at h
    split at h
    · obtain ⟨q, hq, h⟩ := bind_ok h
      rcases q with ⟨insn, iB, metaB, cB⟩
      have hgB : GoodEvents metaB := readInsn_rel (metaRel_goodEvents reader) hq hg
      have hgC : GoodEvents (setInsnEvent metaB i insn) :=
        goodEvents_setInsn (readInsn_eventOk hq) hgB
      exact ih _ _ _ _ _ h hgC
    · simp only [Except.ok.injEq, Prod.mk.injEq] at h
      obtain ⟨hm, _⟩ := h
      subst hm
      exact hg

/-- After a successful CodeData::read, every stored instruction event is a
genuine instruction event (never Maxs, LineNumber, Frame, or any other
structural event). -/
theorem codeDataRead_good {reader : ClassReader} {offset0 : Nat}
    {bsms : ClassFileResult (List BootstrapMethod)} {cd : CodeData}
    (h : CodeData.read reader offset0 bsms = .ok cd) :
    GoodEvents cd.insnMetadata := by
  obtain ⟨n, _, hrel⟩ := codeDataRead_rel (metaRel_goodEvents reader)
    (fun code meta c meta2 c2 hc => by
      rw [readCode] at hc
      exact fun hg => readCodeLoop_good _ _ _ _ _ _ hc hg) h
  apply hrel
  intro j im e hj he
  rw [List.getElem?_replicate] at hj
  split at hj
  · have him : InstructionMetadata.empty = im := Option.some.inj hj
    rw [← him] at he
    exact Option.noConfusion he
  · exact Option.noConfusion hj

theorem eventIsInsn_ne {e : MethodEvent} (he : eventIsInsn e = true) :
    (∀ ev : MethodMaxsEvent, e ≠ .Maxs ev) ∧ (∀ a b, e ≠ .LineNumber a b) ∧
    (∀ xs, e ≠ .LocalVariables xs) ∧ (∀ fr, e ≠ .Frame fr) ∧
    (∀ lc, e ≠ .Code lc) := by
  cases e <;> simp_all [eventIsInsn]

theorem mem_getElem? {α : Type} {l : List α} {a : α} (h : a ∈ l) :
    ∃ j : Nat, l[j]? = some a := by
  obtain ⟨i, hi, heq⟩ := List.getElem_of_mem h
  exact ⟨i, by rw [List.getElem?_eq_getElem hi, heq]⟩

theorem preChain_shapes (m : MethodReaderEvents) :
    ∀ r ∈ preChain m,
      (∃ e, r = .error e) ∨ r = .ok .Deprecated ∨
      (∃ p, r = .ok (.Parameters p)) ∨ (∃ v, r = .ok (.AnnotationDefault v)) ∨
      (∃ it, r = .ok (.Annotations it)) ∨ (∃ it, r = .ok (.TypeAnnotations it)) ∨
      (∃ c, r = .ok (.AnnotableParameterCount c)) ∨
      (∃ it, r = .ok (.ParameterAnnotations it)) ∨
      (∃ it, r = .ok (.Attributes it)) := by
  intro r hr
  unfold preChain at hr
  simp only [List.mem_append] at hr
  rcases hr with ((((((((hr | hr) | hr) | hr) | hr) | hr) | hr) | hr) | hr)
  all_goals repeat' split at hr
  all_goals
    first
    | exact absurd hr (List.not_mem_nil _)
    | (rw [List.mem_singleton] at hr
       subst hr
       first
       | exact Or.inl ⟨_, rfl⟩
       | exact Or.inr (Or.inl rfl)
       | exact Or.inr (Or.inr (Or.inl ⟨_, rfl⟩))
       | exact Or.inr (Or.inr (Or.inr (Or.inl ⟨_, rfl⟩)))
       | exact Or.inr (Or.inr (Or.inr (Or.inr (Or.inl ⟨_, rfl⟩))))
       | exact Or.inr (Or.inr (Or.inr (Or.inr (Or.inr (Or.inl ⟨_, rfl⟩)))))
       | exact Or.inr (Or.inr (Or.inr (Or.inr (Or.inr (Or.inr (Or.inl ⟨_, rfl⟩))))))
       | exact Or.inr (Or.inr (Or.inr (Or.inr (Or.inr (Or.inr (Or.inr
          (Or.inl ⟨_, rfl⟩)))))))
       | exact Or.inr (Or.inr (Or.inr (Or.inr (Or.inr (Or.inr (Or.inr
          (Or.inr ⟨_, rfl⟩))))))))

theorem codeChain_shapes (metas : List InstructionMetadata) :
    ∀ r ∈ codeChain metas,
      (∃ l, r = .ok (.Label l)) ∨
      (∃ im, im ∈ metas ∧ ∃ line start, im.lineNumber = some line ∧
        r = .ok (.LineNumber line start)) ∨
      (∃ im, im ∈ metas ∧ ∃ fr, im.frame = some fr ∧ r = .ok (.Frame fr)) ∨
      (∃ im, im ∈ metas ∧ ∃ e, im.insnEvent = some e ∧ r = .ok e) ∨
      (∃ anns, r = .ok (.InsnAnnotations anns)) := by
  intro r hr
  unfold codeChain at hr
  rw [List.mem_flatten] at hr
  obtain ⟨l, hl, hrl⟩ := hr
  rw [List.mem_map] at hl
  obtain ⟨im, him, hmap⟩ := hl
  subst hmap
  unfold insnChainAt at hrl
  simp only [List.mem_append] at hrl
  rcases hrl with ((((h | h) | h) | h) | h)
  · rcases hlb : im.label with _ | l0
    · rw [hlb] at h
      exact absurd h (List.not_mem_nil _)
    · rw [hlb] at h
      rw [List.mem_singleton] at h
      subst h
      exact Or.inl ⟨_, rfl⟩
  · rcases hln : im.lineNumber with _ | line
    · rw [hln] at h
      rcases hlb : im.label with _ | start
      · rw [hlb] at h
        exact absurd h (List.not_mem_nil _)
      · rw [hlb] at h
        exact absurd h (List.not_mem_nil _)
    · rw [hln] at h
      rcases hlb : im.label with _ | start
      · rw [hlb] at h
        exact absurd h (List.not_mem_nil _)
      · rw [hlb] at h
        rw [List.mem_singleton] at h
        subst h
        exact Or.inr (Or.inl ⟨im, him, line, start, hln, rfl⟩)
  · rcases hfr : im.frame with _ | fr
    · rw [hfr] at h
      exact absurd h (List.not_mem_nil _)
    · rw [hfr] at h
      rw [List.mem_singleton] at h
      subst h
      exact Or.inr (Or.inr (Or.inl ⟨im, him, fr, hfr, rfl⟩))
  · rcases hie : im.insnEvent with _ | e
    · rw [hie] at h
      exact absurd h (List.not_mem_nil _)
    · rw [hie] at h
      rw [List.mem_singleton] at h
      subst h
      exact Or.inr (Or.inr (Or.inr (Or.inl ⟨im, him, e, hie, rfl⟩)))
  · split at h
    · exact absurd h (List.not_mem_nil _)
    · rw [List.mem_singleton] at h
      subst h
      exact Or.inr (Or.inr (Or.inr (Or.inr ⟨_, rfl⟩)))

theorem tailChain_shapes (reader : ClassReader) (cd : CodeData) :
    ∀ r ∈ tailChain reader cd,
      (r = .ok (.LocalVariables cd.lvt) ∧ cd.lvt ≠ []) ∨
      r = .ok (.LocalVariableAnnotations cd.lva) ∨
      r = .ok (.TryCatchBlocks cd.tryCatchBlocks) ∨
      r = .ok (.TryCatchBlockAnnotations cd.tca) ∨
      (∃ it, r = .ok (.CodeAttributes it)) := by
  intro r hr
  unfold tailChain at hr
  simp only [List.mem_append] at hr
  rcases hr with ((((hr | hr) | hr) | hr) | hr)
  · by_cases hl : cd.lvt = []
    · rw [if_pos hl] at hr
      exact absurd hr (List.not_mem_nil _)
    · rw [if_neg hl] at hr
      rw [List.mem_singleton] at hr
      subst hr
      exact Or.inl ⟨rfl, hl⟩
  · split at hr
    · exact absurd hr (List.not_mem_nil _)
    · rw [List.mem_singleton] at hr
      subst hr
      exact Or.inr (Or.inl rfl)
  · split at hr
    · exact absurd hr (List.not_mem_nil _)
    · rw [List.mem_singleton] at hr
      subst hr
      exact Or.inr (Or.inr (Or.inl rfl))
  · split at hr
    · exact absurd hr (List.not_mem_nil _)
    · rw [List.mem_singleton] at hr
      subst hr
      exact Or.inr (Or.inr (Or.inr (Or.inl rfl)))
  · split at hr
    · exact absurd hr (List.not_mem_nil _)
    · rw [List.mem_singleton] at hr
      subst hr
      exact Or.inr (Or.inr (Or.inr (Or.inr ⟨_, rfl⟩)))

/-- The bytes of the C5 witness class region: one padding byte, then a code
attribute with max stack 1, max locals 1 and the 3-byte body goto 0. -/
def c5Data : List Nat := [0, 0, 1, 0, 1, 0, 0, 0, 3, 167, 0, 0, 0, 0, 0, 0]

/-- A reader over the witness bytes. -/
def c5Reader : ClassReader :=
  { buffer := { data := c5Data },
    constantPool := { buffer := { data := c5Data }, offset := [] },
    metadataStart := 0, readerFlags := ClassReaderFlags.none }

/-- The witness method-event iterator at its initial state: the Code
attribute sits at offset 1, nothing else is present. -/
def c5M0 : MethodReaderEvents :=
  { reader := c5Reader, annotationDefaultOffset := 0, codeOffset := 1,
    invisibleAnnotationsCount := 0, invisibleAnnotationsOffset := 0,
    invisibleParameterAnnotationsOffset := 0,
    invisibleTypeAnnotationsCount := 0, invisibleTypeAnnotationsOffset := 0,
    isDeprecated := false, parametersCount := 0, parametersOffset := 0,
    visibleAnnotationsCount := 0, visibleAnnotationsOffset := 0,
    visibleParameterAnnotationsOffset := 0, visibleTypeAnnotationsCount := 0,
    visibleTypeAnnotationsOffset := 0, customAttributeOffsets := [],
    codeData := none, bootstrapMethods := .ok [], state := 0, codeIndex := 0 }

/-- The decode of the witness Code attribute. -/
def c5CD : CodeData :=
  { maxStack := 1, maxLocals := 1, labelCreator := 1,
    insnMetadata :=
      [{ insnEvent := some (.JumpInsn ⟨167⟩ ⟨0⟩), label := some ⟨0⟩,
         lineNumber := none, frame := none, anns := [] },
       InstructionMetadata.empty, InstructionMetadata.empty,
       InstructionMetadata.empty],
    tryCatchBlocks := [], tca := [], lvt := [], lva := [],
    customAttributeOffsets := [] }

/-! ### Pointwise slot invariants of the code pipeline -/

/-- A pointwise predicate over every metadata slot. -/
def SlotPred (P : InstructionMetadata → Prop) (meta : List InstructionMetadata) :
    Prop :=
  ∀ (j : Nat) (im : InstructionMetadata), meta[j]? = some im → P im

theorem slotPred_set {P : InstructionMetadata → Prop}
    {meta : List InstructionMetadata} {i : Nat} {m : InstructionMetadata}
    (m' : InstructionMetadata) (hm : meta[i]? = some m) (hP : P m → P m')
    (hg : SlotPred P meta) : SlotPred P (meta.set i m') := by
  intro j im hj
  by_cases hji : j = i
  · subst hji
    have hlt : j < meta.length := (List.getElem?_eq_some.mp hm).1
    rw [List.getElem?_set_self (by simpa using hlt)] at hj
    have him : m' = im := Option.some.inj hj
    subst him
    exact hP (hg j m hm)
  · rw [List.getElem?_set_ne (fun heq => hji heq.symm)] at hj
    exact hg j im hj

/-- Any pointwise slot predicate preserved by the four record updates of the
pipeline is an invariant of every non-instruction metadata mutation. -/
theorem metaRel_slotPred (reader : ClassReader) (P : InstructionMetadata → Prop)
    (hupdLabel : ∀ (m : InstructionMetadata) (l : Label), P m →
      P { m with label := some l })
    (hupdAnns : ∀ (m : InstructionMetadata) (x : AnnotationEvent TypeAnnotationNode),
      P m → P { m with anns := m.anns ++ [x] })
    (hupdLine : reader.readerFlags.skipDebug = false →
      ∀ (m : InstructionMetadata) (c : LabelCreator) (line : Nat), P m →
        P { (getOrCreateLabel m c).2.1 with lineNumber := some line })
    (hupdFrame : reader.readerFlags.skipFrames = false →
      ∀ (m : InstructionMetadata) (f : Frame), P m →
        P { m with frame := some f }) :
    MetaRel reader (fun a b => SlotPred P a → SlotPred P b) := by
  refine ⟨fun _ hg => hg, fun h1 h2 hg => h2 (h1 hg), ?_, ?_, ?_, ?_⟩
  · intro meta i c l meta2 c2 h hg
    unfold metaGetOrCreateLabel at h
    rcases hm : meta[i]? with _ | m
    · rw [hm] at h
      exact Except.noConfusion h
    · rw [hm] at h
      simp only [] at h
      rcases hg2 : getOrCreateLabel m c with ⟨l0, m2, cB⟩
      rw [hg2] at h
      simp only [Except.ok.injEq, Prod.mk.injEq] at h
      obtain ⟨_, hmeta, _⟩ := h
      subst hmeta
      unfold getOrCreateLabel at hg2
      rcases hml : m.label with _ | l1
      · rw [hml] at hg2
        simp only [Prod.mk.injEq] at hg2
        obtain ⟨_, hm2, _⟩ := hg2
        subst hm2
        exact slotPred_set _ hm (hupdLabel m _) hg
      · rw [hml] at hg2
        simp only [Prod.mk.injEq] at hg2
        obtain ⟨_, hm2, _⟩ := hg2
        subst hm2
        exact slotPred_set _ hm (fun hp => hp) hg
  · intro meta pc m x hm hg
    exact slotPred_set _ hm (hupdAnns m x) hg
  · intro hsd meta pc lineV c meta2 c2 h hg
    unfold metaLabelAndLine at h
    rcases hm : meta[pc]? with _ | m
    · rw [hm] at h
      exact Except.noConfusion h
    · rw [hm] at h
      simp only [] at h
      rcases hg2 : getOrCreateLabel m c with ⟨l0, m2, cB⟩
      rw [hg2] at h
      simp only [Except.ok.injEq, Prod.mk.injEq] at h
      obtain ⟨hmeta, _⟩ := h
      subst hmeta
      refine slotPred_set _ hm (fun hp => ?_) hg
      have := hupdLine hsd m c lineV hp
      rw [hg2] at this
      exact this
  · intro hsf meta i f meta2 h hg
    unfold metaSetFrame at h
    rcases hm : meta[i]? with _ | m
    · rw [hm] at h
      exact Except.noConfusion h
    · rw [hm] at h
      have he := Except.ok.inj h
      subst he
      exact slotPred_set _ hm (hupdFrame hsf m f) hg

/-- A slot predicate also preserved by instruction-event stores and true of
the fresh table is true of every slot after CodeData::read. -/
theorem codeDataRead_slotPred {reader : ClassReader} (P : InstructionMetadata → Prop)
    (hupdLabel : ∀ (m : InstructionMetadata) (l : Label), P m →
      P { m with label := some l })
    (hupdAnns : ∀ (m : InstructionMetadata) (x : AnnotationEvent TypeAnnotationNode),
      P m → P { m with anns := m.anns ++ [x] })
    (hupdLine : reader.readerFlags.skipDebug = false →
      ∀ (m : InstructionMetadata) (c : LabelCreator) (line : Nat), P m →
        P { (getOrCreateLabel m c).2.1 with lineNumber := some line })
    (hupdFrame : reader.readerFlags.skipFrames = false →
      ∀ (m : InstructionMetadata) (f : Frame), P m →
        P { m with frame := some f })
    (hupdInsn : ∀ (m : InstructionMetadata) (e : MethodEvent), P m →
      P { m with insnEvent := some e })
    (hempty : P InstructionMetadata.empty)
    {offset0 : Nat} {bsms : ClassFileResult (List BootstrapMethod)} {cd : CodeData}
    (h : CodeData.read reader offset0 bsms = .ok cd) :
    SlotPred P cd.insnMetadata := by
  have hinsn : ∀ (meta : List InstructionMetadata) (i : Nat) (e : MethodEvent),
      SlotPred P meta → SlotPred P (setInsnEvent meta i e) := by
    intro meta i e hg
    unfold setInsnEvent
    rcases hm : meta[i]? with _ | m
    · exact hg
    · exact slotPred_set _ hm (hupdInsn m e) hg
  obtain ⟨n, _, hrel⟩ := codeDataRead_rel
    (metaRel_slotPred reader P hupdLabel hupdAnns hupdLine hupdFrame)
    (fun code meta c meta2 c2 hc => by
      rw [readCode] at hc
      exact fun hg => readCodeLoop_rel
        (metaRel_slotPred reader P hupdLabel hupdAnns hupdLine hupdFrame)
        hinsn code bsms _ _ _ _ _ _ hc hg) h
  apply hrel
  intro j im hj
  rw [List.getElem?_replicate] at hj
  split at hj
  · have him : InstructionMetadata.empty = im := Option.some.inj hj
    rw [← him]
    exact hempty
  · exact Option.noConfusion hj

/-- With SkipDebug, no slot ever receives a line number. -/
theorem codeDataRead_lineNone {reader : ClassReader}
    (hsd : reader.readerFlags.skipDebug = true) {offset0 : Nat}
    {bsms : ClassFileResult (List BootstrapMethod)} {cd : CodeData}
    (h : CodeData.read reader offset0 bsms = .ok cd) :
    ∀ (j : Nat) (im : InstructionMetadata), cd.insnMetadata[j]? = some im →
      im.lineNumber = none := by
  exact codeDataRead_slotPred (fun im => im.lineNumber = none)
    (fun m l hp => hp) (fun m x hp => hp)
    (fun hfalse => absurd (hsd.symm.trans hfalse) (by intro hc; exact Bool.noConfusion hc))
    (fun _ m f hp => hp) (fun m e hp => hp) rfl h

/-- With SkipFrames, no slot ever receives a frame. -/
theorem codeDataRead_frameNone {reader : ClassReader}
    (hsf : reader.readerFlags.skipFrames = true) {offset0 : Nat}
    {bsms : ClassFileResult (List BootstrapMethod)} {cd : CodeData}
    (h : CodeData.read reader offset0 bsms = .ok cd) :
    ∀ (j : Nat) (im : InstructionMetadata), cd.insnMetadata[j]? = some im →
      im.frame = none := by
  refine codeDataRead_slotPred (fun im => im.frame = none)
    (fun m l hp => hp) (fun m x hp => hp) ?_
    (fun hfalse => absurd (hsf.symm.trans hfalse)
      (by intro hc; exact Bool.noConfusion hc))
    (fun m e hp => hp) rfl h
  intro _ m c line hp
  unfold getOrCreateLabel
  rcases m.label with _ | l1
  · exact hp
  · exact hp

/-- A slot carrying a line number always carries a label: line numbers are
stored only together with a get-or-create of the offset label. -/
theorem codeDataRead_lineLabel {reader : ClassReader} {offset0 : Nat}
    {bsms : ClassFileResult (List BootstrapMethod)} {cd : CodeData}
    (h : CodeData.read reader offset0 bsms = .ok cd) :
    ∀ (j : Nat) (im : InstructionMetadata), cd.insnMetadata[j]? = some im →
      im.lineNumber ≠ none → im.label ≠ none := by
  refine codeDataRead_slotPred
    (fun im => im.lineNumber ≠ none → im.label ≠ none)
    (fun m l hp => fun _ hc => Option.noConfusion hc)
    (fun m x hp => hp) ?_ (fun _ m f hp => hp) (fun m e hp => hp)
    (fun hc => absurd rfl hc) h
  intro _ m c line hp
  unfold getOrCreateLabel
  rcases hml : m.label with _ | l1
  · exact fun _ hc => Option.noConfusion hc
  · exact fun _ hc => Option.noConfusion (hml.symm.trans hc)

/-- With SkipDebug, the attribute scan never touches the lvt list. -/
theorem codeAttrLoop_lvt {reader : ClassReader}
    (hsd : reader.readerFlags.skipDebug = true) :
    ∀ (k : Nat) (st st2 : CodeAttrState),
      codeAttrLoop reader k st = .ok st2 → st2.lvt = st.lvt := by
  intro k
  induction k with
  | zero =>
    intro st st2 h
    rw [codeAttrLoop] at h
    have he := pure_ok_inv h
    subst he
    rfl
  | succ k ih =>
    intro st st2 h
    rw [codeAttrLoop] at h
    obtain ⟨nameIdx, _, h⟩ := bind_ok h
    obtain ⟨name, _, h⟩ := bind_ok h
    obtain ⟨attrLen, _, h⟩ := bind_ok h
    simp only [] at h
    rw [hsd] at h
    simp only [reduceIte] at h
    split at h
    · have hrec := ih _ _ h
      exact hrec
    · split at h
      · have hrec := ih _ _ h
        exact hrec
      · split at h
        · have hrec := ih _ _ h
          exact hrec
        · split at h
          · have hrec := ih _ _ h
            exact hrec
          · split at h
            · have hrec := ih _ _ h
              exact hrec
            · split at h
              · obtain ⟨q, hq, h⟩ := bind_ok h
                rcases q with ⟨lvaQ, tcaQ, metaQ, cQ⟩
                have hrec := ih _ _ h
                exact hrec
              · split at h
                · obtain ⟨q, hq, h⟩ := bind_ok h
                  rcases q with ⟨lvaQ, tcaQ, metaQ, cQ⟩
                  have hrec := ih _ _ h
                  exact hrec
                · have hrec := ih _ _ h
                  exact hrec

/-- With SkipDebug, CodeData::read produces an empty local-variable table. -/
theorem codeDataRead_skipDebug_lvt {reader : ClassReader}
    (hsd : reader.readerFlags.skipDebug = true) {offset0 : Nat}
    {bsms : ClassFileResult (List BootstrapMethod)} {cd : CodeData}
    (h : CodeData.read reader offset0 bsms = .ok cd) : cd.lvt = [] := by
  unfold CodeData.read at h
  obtain ⟨maxS, _, h⟩ := bind_ok h
  obtain ⟨maxL, _, h⟩ := bind_ok h
  obtain ⟨codeLength, hcl, h⟩ := bind_ok h
  split at h
  · exact Except.noConfusion h
  · obtain ⟨code, _, h⟩ := bind_ok h
    obtain ⟨q1, hq1, h⟩ := bind_ok h
    rcases q1 with ⟨meta1, c1⟩
    obtain ⟨tcCount, _, h⟩ := bind_ok h
    obtain ⟨q2, hq2, h⟩ := bind_ok h
    rcases q2 with ⟨tcBlocks, offset2, meta2, c2⟩
    obtain ⟨attrCount, _, h⟩ := bind_ok h
    obtain ⟨st, hst, h⟩ := bind_ok h
    have hlvt : st.lvt = [] := codeAttrLoop_lvt hsd _ _ _ hst
    simp only [] at h
    split at h
    all_goals
      obtain ⟨lvtF, hlvtF, h⟩ := bind_ok h
    all_goals
      repeat
        obtain ⟨q4, hq4, h⟩ := bind_ok h
      have he := pure_ok_inv h
      subst he
      have h2 := pure_ok_inv hlvtF
      show lvtF = []
      rw [← h2]
      exact hlvt

/-- Prefix monotonicity of the run in the fuel. -/
theorem methodEventsRun_prefix (k : Nat) :
    ∀ (fuel : Nat) (m : MethodReaderEvents),
      methodEventsRun fuel m <+: methodEventsRun (fuel + k) m := by
  intro fuel
  induction fuel with
  | zero =>
    intro m
    exact List.nil_prefix
  | succ fuel ih =>
    intro m
    rw [show fuel + 1 + k = (fuel + k) + 1 from by omega]
    rw [methodEventsRun_succ fuel m, methodEventsRun_succ (fuel + k) m]
    cases hs : methodEventsStep m with
    | emit r m2 =>
      obtain ⟨t, ht⟩ := ih m2
      exact ⟨t, by rw [List.cons_append, ht]⟩
    | cont m2 => exact ih m2
    | done m2 => exact List.nil_prefix

/-- With no Code attribute recorded, the stream is exactly the pre-code
events. -/
theorem run_noCode (m : MethodReaderEvents) (hst : m.state = 0)
    (hco : m.codeOffset = 0) (fuel : Nat) (hfuel : 9 ≤ fuel) :
    methodEventsRun fuel m = preChain m := by
  obtain ⟨rest, hrest⟩ : ∃ r, fuel = r + 9 := ⟨fuel - 9, by omega⟩
  subst hrest
  rw [run_pre m hst rest]
  rw [run_phase9_noCode { m with state := 9 } rfl hco rest]
  exact List.append_nil _

/-! ### The metadata-table length through the pipeline, and the u16 wrap of
code_index -/

/-- Every non-instruction metadata mutation preserves the table length. -/
theorem metaRel_length (reader : ClassReader) :
    MetaRel reader (fun a b => a.length = b.length) := by
  refine ⟨fun _ => rfl, fun h1 h2 => h1.trans h2, ?_, ?_, ?_, ?_⟩
  · intro meta i c l meta2 c2 h
    unfold metaGetOrCreateLabel at h
    rcases hm : meta[i]? with _ | m
    · rw [hm] at h
      exact Except.noConfusion h
    · rw [hm] at h
      simp only [] at h
      rcases hg : getOrCreateLabel m c with ⟨l0, m2, cB⟩
      rw [hg] at h
      simp only [Except.ok.injEq, Prod.mk.injEq] at h
      obtain ⟨_, hmeta, _⟩ := h
      rw [← hmeta]
      exact (List.length_set _ _ _).symm
  · intro meta pc m x hm
    exact (List.length_set _ _ _).symm
  · intro _ meta pc lineV c meta2 c2 h
    unfold metaLabelAndLine at h
    rcases hm : meta[pc]? with _ | m
    · rw [hm] at h
      exact Except.noConfusion h
    · rw [hm] at h
      simp only [] at h
      rcases hg : getOrCreateLabel m c with ⟨l0, m2, cB⟩
      rw [hg] at h
      simp only [Except.ok.injEq, Prod.mk.injEq] at h
      obtain ⟨hmeta, _⟩ := h
      rw [← hmeta]
      exact (List.length_set _ _ _).symm
  · intro _ meta i f meta2 h
    unfold metaSetFrame at h
    rcases hm : meta[i]? with _ | m
    · rw [hm] at h
      exact Except.noConfusion h
    · rw [hm] at h
      have he := Except.ok.inj h
      rw [← he]
      exact (List.length_set _ _ _).symm

/-- CodeData::read rejects code_length 0 and above 65535, so the decoded
metadata table never exceeds 65536 slots. -/
theorem codeDataRead_len {reader : ClassReader} {offset0 : Nat}
    {bsms : ClassFileResult (List BootstrapMethod)} {cd : CodeData}
    (h : CodeData.read reader offset0 bsms = .ok cd) :
    cd.insnMetadata.length ≤ 65536 := by
  obtain ⟨n, hn, hlen⟩ := codeDataRead_rel (metaRel_length reader)
    (fun code meta c meta2 c2 hc => by
      rw [readCode] at hc
      exact readCodeLoop_rel (metaRel_length reader)
        (fun meta i e => by
          unfold setInsnEvent
          rcases hm : meta[i]? with _ | m
          · rfl
          · exact (List.length_set _ _ _).symm)
        code bsms _ _ _ _ _ _ hc) h
  rw [List.length_replicate] at hlen
  unfold CodeData.read at h
  obtain ⟨maxS, _, h⟩ := bind_ok h
  obtain ⟨maxL, _, h⟩ := bind_ok h
  obtain ⟨codeLength, hcl, h⟩ := bind_ok h
  have hcn : codeLength = n := Except.ok.inj (hcl.symm.trans hn)
  split at h
  · exact Except.noConfusion h
  · rename_i hcond
    omega

/-- Clearing a slot's instruction event keeps the stored events genuine. -/
theorem goodEvents_clearInsn {meta : List InstructionMetadata} {i : Nat}
    {m : InstructionMetadata} (hm : meta[i]? = some m) (hg : GoodEvents meta) :
    GoodEvents (meta.set i { m with insnEvent := none }) := by
  intro j im e hj he
  by_cases hji : j = i
  · subst hji
    have hlt : j < meta.length := (List.getElem?_eq_some.mp hm).1
    rw [List.getElem?_set_self (by simpa using hlt)] at hj
    have him : ({ m with insnEvent := none } : InstructionMetadata) = im :=
      Option.some.inj hj
    rw [← him] at he
    exact Option.noConfusion he
  · rw [List.getElem?_set_ne (fun heq => hji heq.symm)] at hj
    exact hg j im e hj he

/-- The invariant of the code states once the metadata table fills the whole
u16 index range: the state-10 exit test can never fire, so the machine stays
in states 10 to 15 with a wrapped index forever. P is a pointwise slot
property preserved by the clearing updates of states 12 to 14. -/
def CycleInv (P : InstructionMetadata → Prop) (m : MethodReaderEvents) : Prop :=
  ∃ cd : CodeData, m.codeData = some cd ∧ 65536 ≤ cd.insnMetadata.length ∧
    GoodEvents cd.insnMetadata ∧ SlotPred P cd.insnMetadata ∧
    10 ≤ m.state ∧ m.state ≤ 15 ∧ m.codeIndex < 65536

/-- What the cycling code states can emit: a label, a line number of a slot
satisfying P, a frame of a slot satisfying P, a genuine instruction event, or
instruction annotations. -/
def cycleEmission (P : InstructionMetadata → Prop)
    (r : ClassFileResult MethodEvent) : Prop :=
  (∃ l, r = .ok (.Label l)) ∨
  (∃ im line start, P im ∧ im.lineNumber = some line ∧
    r = .ok (.LineNumber line start)) ∨
  (∃ im fr, P im ∧ im.frame = some fr ∧ r = .ok (.Frame fr)) ∨
  (∃ e, eventIsInsn e = true ∧ r = .ok e) ∨
  (∃ anns, r = .ok (.InsnAnnotations anns))

/-- One step from a cycling machine: it emits a cycle event or falls through,
and the invariant persists (the expect-panic paths end the stream). -/
theorem cycleStep_shape (P : InstructionMetadata → Prop)
    (hPf : ∀ im, P im → P { im with frame := none })
    (hPe : ∀ im, P im → P { im with insnEvent := none })
    (hPa : ∀ im, P im → P { im with anns := [] })
    (m : MethodReaderEvents) (hinv : CycleInv P m) :
    (∃ r m2, methodEventsStep m = .emit r m2 ∧ cycleEmission P r ∧
      CycleInv P m2) ∨
    (∃ m2, methodEventsStep m = .cont m2 ∧ CycleInv P m2) ∨
    (∃ m2, methodEventsStep m = .done m2) := by
  obtain ⟨cd, hcd, hlen, hgood, hP, hs10, hs15, hci⟩ := hinv
  by_cases h10 : m.state = 10
  · rcases hl : (cd.insnMetadata[m.codeIndex]?).bind InstructionMetadata.label
      with _ | l
    · have hstep : methodEventsStep m = .cont { m with state := 11 } := by
        unfold methodEventsStep
        simp only [h10, hcd, Nat.reduceEqDiff, reduceIte, Nat.reduceAdd,
          if_neg (by omega : ¬ cd.insnMetadata.length ≤ m.codeIndex), hl]
      exact Or.inr (Or.inl ⟨_, hstep,
        cd, hcd, hlen, hgood, hP, of_decide_eq_true rfl, of_decide_eq_true rfl, hci⟩)
    · have hstep : methodEventsStep m = .emit (.ok (.Label l))
          { m with state := 11 } := by
        unfold methodEventsStep
        simp only [h10, hcd, Nat.reduceEqDiff, reduceIte, Nat.reduceAdd,
          if_neg (by omega : ¬ cd.insnMetadata.length ≤ m.codeIndex), hl]
      exact Or.inl ⟨_, _, hstep, Or.inl ⟨l, rfl⟩,
        cd, hcd, hlen, hgood, hP, of_decide_eq_true rfl, of_decide_eq_true rfl, hci⟩
  · by_cases h11 : m.state = 11
    · rcases him : cd.insnMetadata[m.codeIndex]? with _ | im
      · have hstep : methodEventsStep m = .done { m with state := 12 } := by
          unfold methodEventsStep
          simp only [h11, hcd, Nat.reduceEqDiff, reduceIte, Nat.reduceAdd, him]
        exact Or.inr (Or.inr ⟨_, hstep⟩)
      · rcases hln : im.lineNumber with _ | line
        · have hstep : methodEventsStep m = .cont { m with state := 12 } := by
            unfold methodEventsStep
            simp only [h11, hcd, Nat.reduceEqDiff, reduceIte, Nat.reduceAdd,
              him, hln]
          exact Or.inr (Or.inl ⟨_, hstep,
            cd, hcd, hlen, hgood, hP, of_decide_eq_true rfl, of_decide_eq_true rfl, hci⟩)
        · rcases hlb : im.label with _ | start
          · have hstep : methodEventsStep m = .done { m with state := 12 } := by
              unfold methodEventsStep
              simp only [h11, hcd, Nat.reduceEqDiff, reduceIte, Nat.reduceAdd,
                him, hln, hlb]
            exact Or.inr (Or.inr ⟨_, hstep⟩)
          · have hstep : methodEventsStep m =
                .emit (.ok (.LineNumber line start)) { m with state := 12 } := by
              unfold methodEventsStep
              simp only [h11, hcd, Nat.reduceEqDiff, reduceIte, Nat.reduceAdd,
                him, hln, hlb]
            exact Or.inl ⟨_, _, hstep,
              Or.inr (Or.inl ⟨im, line, start, hP _ _ him, hln, rfl⟩),
              cd, hcd, hlen, hgood, hP, of_decide_eq_true rfl, of_decide_eq_true rfl, hci⟩
    · by_cases h12 : m.state = 12
      · rcases him : cd.insnMetadata[m.codeIndex]? with _ | im
        · have hstep : methodEventsStep m = .done { m with state := 13 } := by
            unfold methodEventsStep
            simp only [h12, hcd, Nat.reduceEqDiff, reduceIte, Nat.reduceAdd, him]
          exact Or.inr (Or.inr ⟨_, hstep⟩)
        · rcases hfr : im.frame with _ | fr
          · have hstep : methodEventsStep m = .cont { m with state := 13 } := by
              unfold methodEventsStep
              simp only [h12, hcd, Nat.reduceEqDiff, reduceIte, Nat.reduceAdd,
                him, hfr]
            exact Or.inr (Or.inl ⟨_, hstep,
              cd, hcd, hlen, hgood, hP, of_decide_eq_true rfl, of_decide_eq_true rfl, hci⟩)
          · have hstep : methodEventsStep m = .emit (.ok (.Frame fr))
                { m with state := 13, codeData := some (setMetaAt cd m.codeIndex
                  { im with frame := none }) } := by
              unfold methodEventsStep setMetaAt
              simp only [h12, hcd, Nat.reduceEqDiff, reduceIte, Nat.reduceAdd,
                him, hfr]
            refine Or.inl ⟨_, _, hstep,
              Or.inr (Or.inr (Or.inl ⟨im, fr, hP _ _ him, hfr, rfl⟩)),
              setMetaAt cd m.codeIndex { im with frame := none }, rfl, ?_, ?_, ?_,
              of_decide_eq_true rfl, of_decide_eq_true rfl, hci⟩
            · unfold setMetaAt
              simp only [List.length_set]
              exact hlen
            · exact goodEvents_set _ him rfl hgood
            · exact slotPred_set _ him (hPf im) hP
      · by_cases h13 : m.state = 13
        · rcases him : cd.insnMetadata[m.codeIndex]? with _ | im
          · have hstep : methodEventsStep m = .done { m with state := 14 } := by
              unfold methodEventsStep
              simp only [h13, hcd, Nat.reduceEqDiff, reduceIte, Nat.reduceAdd,
                him]
            exact Or.inr (Or.inr ⟨_, hstep⟩)
          · rcases hie : im.insnEvent with _ | e
            · have hstep : methodEventsStep m = .cont { m with state := 14 } := by
                unfold methodEventsStep
                simp only [h13, hcd, Nat.reduceEqDiff, reduceIte, Nat.reduceAdd,
                  him, hie]
              exact Or.inr (Or.inl ⟨_, hstep,
                cd, hcd, hlen, hgood, hP, of_decide_eq_true rfl, of_decide_eq_true rfl, hci⟩)
            · have hstep : methodEventsStep m = .emit (.ok e)
                  { m with state := 14, codeData := some (setMetaAt cd m.codeIndex
                    { im with insnEvent := none }) } := by
                unfold methodEventsStep setMetaAt
                simp only [h13, hcd, Nat.reduceEqDiff, reduceIte, Nat.reduceAdd,
                  him, hie]
              refine Or.inl ⟨_, _, hstep,
                Or.inr (Or.inr (Or.inr (Or.inl ⟨e, hgood _ _ _ him hie, rfl⟩))),
                setMetaAt cd m.codeIndex { im with insnEvent := none }, rfl,
                ?_, ?_, ?_, of_decide_eq_true rfl, of_decide_eq_true rfl, hci⟩
              · unfold setMetaAt
                simp only [List.length_set]
                exact hlen
              · exact goodEvents_clearInsn him hgood
              · exact slotPred_set _ him (hPe im) hP
        · by_cases h14 : m.state = 14
          · rcases him : cd.insnMetadata[m.codeIndex]? with _ | im
            · have hstep : methodEventsStep m = .done { m with state := 15 } := by
                unfold methodEventsStep
                simp only [h14, hcd, Nat.reduceEqDiff, reduceIte, Nat.reduceAdd,
                  him]
              exact Or.inr (Or.inr ⟨_, hstep⟩)
            · by_cases ha : im.anns.isEmpty = true
              · have hstep : methodEventsStep m = .cont { m with state := 15 } := by
                  unfold methodEventsStep
                  simp only [h14, hcd, Nat.reduceEqDiff, reduceIte, Nat.reduceAdd,
                    him, ha]
                exact Or.inr (Or.inl ⟨_, hstep,
                  cd, hcd, hlen, hgood, hP, of_decide_eq_true rfl, of_decide_eq_true rfl, hci⟩)
              · have haf : im.anns.isEmpty = false := by
                  revert ha
                  cases im.anns.isEmpty <;> simp
                have hstep : methodEventsStep m =
                    .emit (.ok (.InsnAnnotations im.anns))
                    { m with state := 15, codeData := some (setMetaAt cd
                      m.codeIndex { im with anns := [] }) } := by
                  unfold methodEventsStep setMetaAt
                  simp only [h14, hcd, Nat.reduceEqDiff, reduceIte, Nat.reduceAdd,
                    him, haf, Bool.false_eq_true, if_false]
                refine Or.inl ⟨_, _, hstep,
                  Or.inr (Or.inr (Or.inr (Or.inr ⟨im.anns, rfl⟩))),
                  setMetaAt cd m.codeIndex { im with anns := [] }, rfl,
                  ?_, ?_, ?_, of_decide_eq_true rfl, of_decide_eq_true rfl, hci⟩
                · unfold setMetaAt
                  simp only [List.length_set]
                  exact hlen
                · exact goodEvents_set _ him rfl hgood
                · exact slotPred_set _ him (hPa im) hP
          · by_cases h15 : m.state = 15
            · have hstep : methodEventsStep m = .cont
                  { m with state := 10, codeIndex := (m.codeIndex + 1) % 65536 } := by
                unfold methodEventsStep
                simp only [h15, Nat.reduceEqDiff, reduceIte, Nat.reduceAdd]
              exact Or.inr (Or.inl ⟨_, hstep,
                cd, hcd, hlen, hgood, hP, of_decide_eq_true rfl, of_decide_eq_true rfl,
                Nat.mod_lt _ (by omega)⟩)
            · omega

/-- A machine inside the cycling code states only ever emits cycle events. -/
theorem run_cycle (P : InstructionMetadata → Prop)
    (hPf : ∀ im, P im → P { im with frame := none })
    (hPe : ∀ im, P im → P { im with insnEvent := none })
    (hPa : ∀ im, P im → P { im with anns := [] }) :
    ∀ (fuel : Nat) (m : MethodReaderEvents), CycleInv P m →
      ∀ r ∈ methodEventsRun fuel m, cycleEmission P r := by
  intro fuel
  induction fuel with
  | zero =>
    intro m hinv r hr
    exact absurd hr (List.not_mem_nil _)
  | succ fuel ih =>
    intro m hinv r hr
    rw [methodEventsRun_succ] at hr
    rcases cycleStep_shape P hPf hPe hPa m hinv with
      ⟨r0, m2, hstep, hem, hinv2⟩ | ⟨m2, hstep, hinv2⟩ | ⟨m2, hstep⟩
    · rw [hstep] at hr
      simp only [] at hr
      rw [List.mem_cons] at hr
      rcases hr with hr | hr
      · subst hr
        exact hem
      · exact ih m2 hinv2 r hr
    · rw [hstep] at hr
      simp only [] at hr
      exact ih m2 hinv2 r hr
    · rw [hstep] at hr
      simp only [] at hr
      exact absurd hr (List.not_mem_nil _)

/-- A method whose decoded metadata table fills the whole u16 range streams
only pre-code events, the Code marker and cycle events: the wrapped
code_index can never satisfy the exit test, so the tail events and Maxs are
unreachable for every fuel. -/
theorem run_cycle_stream (P : InstructionMetadata → Prop)
    (hPf : ∀ im, P im → P { im with frame := none })
    (hPe : ∀ im, P im → P { im with insnEvent := none })
    (hPa : ∀ im, P im → P { im with anns := [] })
    (m : MethodReaderEvents) (cd : CodeData) (fuel : Nat)
    (hst : m.state = 0) (hco : m.codeOffset ≠ 0)
    (hread : CodeData.read m.reader m.codeOffset m.bootstrapMethods = .ok cd)
    (hlen : 65536 ≤ cd.insnMetadata.length)
    (hP : SlotPred P cd.insnMetadata) (hci : m.codeIndex < 65536) :
    ∀ r ∈ methodEventsRun fuel m,
      r ∈ preChain m ∨ r = .ok (.Code cd.labelCreator) ∨ cycleEmission P r := by
  intro r hr
  have hpre10 := methodEventsRun_prefix 10 fuel m
  have hr2 : r ∈ methodEventsRun (fuel + 10) m := hpre10.subset hr
  rw [show fuel + 10 = (fuel + 1) + 9 from by omega, run_pre m hst (fuel + 1)]
    at hr2
  rw [run_phase9_code { m with state := 9 } cd rfl hco hread fuel] at hr2
  rw [List.mem_append, List.mem_cons] at hr2
  rcases hr2 with hr2 | hr2 | hr2
  · exact Or.inl hr2
  · exact Or.inr (Or.inl hr2)
  · refine Or.inr (Or.inr (run_cycle P hPf hPe hPa fuel _ ?_ r hr2))
    exact ⟨cd, rfl, hlen, codeDataRead_good hread, hP, of_decide_eq_true rfl, of_decide_eq_true rfl, hci⟩

/-- C5: for a method whose Code attribute decodes without error and whose
metadata table stays below the u16 limit of 65536 slots, the event stream is
exactly the pre-code events, the Code event, the code offsets in ascending
order each contributing (only when present, in this order) label, line
number, frame, instruction and its type annotations, then local variables,
local-variable annotations, try/catch blocks, try/catch-block annotations,
custom code attributes, and finally exactly one Maxs event, which nothing
else in the stream equals. At the limit itself (code_length 65535, which
CodeData::read accepts) the u16 code_index wraps instead of reaching the
exit test, so no fuel ever produces the trailing Maxs event: the original
claim fails there, which is the code bug. -/
theorem C5_method_event_order :
    (∀ (m : MethodReaderEvents) (cd : CodeData) (fuel : Nat),
      m.state = 0 → m.codeIndex = 0 → m.codeOffset ≠ 0 →
      CodeData.read m.reader m.codeOffset m.bootstrapMethods = .ok cd →
      cd.insnMetadata.length < 65536 →
      (∀ (j : Nat) (im : InstructionMetadata), cd.insnMetadata[j]? = some im →
        im.lineNumber ≠ none → im.label ≠ none) →
      6 * cd.insnMetadata.length + 17 ≤ fuel →
      methodEventsRun fuel m =
        (preChain m ++ .ok (.Code cd.labelCreator) ::
          (codeChain cd.insnMetadata ++ tailChain m.reader cd)) ++
          [.ok (.Maxs { maxLocals := cd.maxLocals, maxStack := cd.maxStack })] ∧
      ∀ r ∈ preChain m ++ .ok (.Code cd.labelCreator) ::
          (codeChain cd.insnMetadata ++ tailChain m.reader cd),
        ∀ ev : MethodMaxsEvent, r ≠ .ok (.Maxs ev)) ∧
    (∀ (m : MethodReaderEvents) (cd : CodeData) (fuel : Nat),
      m.state = 0 → m.codeIndex = 0 → m.codeOffset ≠ 0 →
      CodeData.read m.reader m.codeOffset m.bootstrapMethods = .ok cd →
      cd.insnMetadata.length = 65536 →
      ∀ r ∈ methodEventsRun fuel m, ∀ ev : MethodMaxsEvent,
        r ≠ .ok (.Maxs ev)) := by
  constructor
  · intro m cd fuel hst hci hco hread hlen hwf hfuel
    constructor
    · rw [methodRun_spec m cd fuel hst hci hco hread hlen hwf hfuel]
      simp only [List.append_assoc, List.cons_append, List.nil_append]
    · intro r hr ev heq
      simp only [List.mem_append, List.mem_cons] at hr
      rcases hr with hpre | hcode | hcc | htl
      · rcases preChain_shapes m r hpre with ⟨e, rfl⟩ | rfl | ⟨p, rfl⟩ | ⟨v, rfl⟩ |
          ⟨it, rfl⟩ | ⟨it, rfl⟩ | ⟨c, rfl⟩ | ⟨it, rfl⟩ | ⟨it, rfl⟩
        · exact Except.noConfusion heq
        all_goals exact MethodEvent.noConfusion (Except.ok.inj heq)
      · subst hcode
        exact MethodEvent.noConfusion (Except.ok.inj heq)
      · rcases codeChain_shapes cd.insnMetadata r hcc with ⟨l, rfl⟩ |
          ⟨im, him, line, start, hln, rfl⟩ | ⟨im, him, fr, hfr, rfl⟩ |
          ⟨im, him, e, hie, rfl⟩ | ⟨anns, rfl⟩
        · exact MethodEvent.noConfusion (Except.ok.inj heq)
        · exact MethodEvent.noConfusion (Except.ok.inj heq)
        · exact MethodEvent.noConfusion (Except.ok.inj heq)
        · obtain ⟨j, hj⟩ := mem_getElem? him
          have hgood := codeDataRead_good hread j im e hj hie
          exact (eventIsInsn_ne hgood).1 ev (Except.ok.inj heq)
        · exact MethodEvent.noConfusion (Except.ok.inj heq)
      · rcases tailChain_shapes m.reader cd r htl with ⟨rfl, _⟩ | rfl | rfl | rfl |
          ⟨it, rfl⟩
        all_goals exact MethodEvent.noConfusion (Except.ok.inj heq)
  · intro m cd fuel hst hci hco hread hlen r hr
    rcases run_cycle_stream (fun _ => True)
      (fun im h => trivial) (fun im h => trivial) (fun im h => trivial)
      m cd fuel hst hco hread (le_of_eq hlen.symm)
      (fun j im hj => trivial) (by omega) r hr with hpre | hcode | hcyc
    · intro ev heq
      rcases preChain_shapes m r hpre with ⟨e, rfl⟩ | rfl | ⟨p, rfl⟩ | ⟨v, rfl⟩ |
        ⟨it, rfl⟩ | ⟨it, rfl⟩ | ⟨c, rfl⟩ | ⟨it, rfl⟩ | ⟨it, rfl⟩
      · exact Except.noConfusion heq
      all_goals exact MethodEvent.noConfusion (Except.ok.inj heq)
    · intro ev heq
      exact MethodEvent.noConfusion (Except.ok.inj (hcode.symm.trans heq))
    · rcases hcyc with ⟨l, hc0⟩ | ⟨im, line, start, _, _, hc0⟩ |
        ⟨im, fr, _, _, hc0⟩ | ⟨e, he, hc0⟩ | ⟨anns, hc0⟩
      · intro ev heq
        exact MethodEvent.noConfusion (Except.ok.inj (hc0.symm.trans heq))
      · intro ev heq
        exact MethodEvent.noConfusion (Except.ok.inj (hc0.symm.trans heq))
      · intro ev heq
        exact MethodEvent.noConfusion (Except.ok.inj (hc0.symm.trans heq))
      · intro ev heq
        exact (eventIsInsn_ne he).1 ev (Except.ok.inj (hc0.symm.trans heq))
      · intro ev heq
        exact MethodEvent.noConfusion (Except.ok.inj (hc0.symm.trans heq))

/-- C5 witness: the concrete one-jump method (4 metadata slots, far below
the u16 limit) produces exactly the specified stream with its single
trailing Maxs. -/
theorem C5_witness :
    methodEventsRun 41 c5M0 =
      (preChain c5M0 ++ .ok (.Code c5CD.labelCreator) ::
        (codeChain c5CD.insnMetadata ++ tailChain c5M0.reader c5CD)) ++
        [.ok (.Maxs { maxLocals := c5CD.maxLocals, maxStack := c5CD.maxStack })] ∧
    ∀ r ∈ preChain c5M0 ++ .ok (.Code c5CD.labelCreator) ::
        (codeChain c5CD.insnMetadata ++ tailChain c5M0.reader c5CD),
      ∀ ev : MethodMaxsEvent, r ≠ .ok (.Maxs ev) :=
  C5_method_event_order.1 c5M0 c5CD 41 rfl rfl (by decide) rfl (by decide)
    (by
      intro j im hj hline
      match j with
      | 0 =>
        have him := Option.some.inj hj
        rw [← him]
        intro hc
        exact Option.noConfusion hc
      | 1 => exact absurd rfl (by rw [← Option.some.inj hj] at hline; exact hline)
      | 2 => exact absurd rfl (by rw [← Option.some.inj hj] at hline; exact hline)
      | 3 => exact absurd rfl (by rw [← Option.some.inj hj] at hline; exact hline)
      | j + 4 => exact Option.noConfusion hj)
    (by decide)

/-! ### The method-info attribute scan of ClassMethodsIterator::event -/

/-- Bytes of the attribute name AnnotationDefault. -/
def attrAnnotationDefault : List Nat :=
  [65, 110, 110, 111, 116, 97, 116, 105, 111, 110, 68, 101, 102, 97, 117, 108, 116]

/-- Bytes of the attribute name Code. -/
def attrCode : List Nat := [67, 111, 100, 101]

/-- Bytes of the attribute name Deprecated. -/
def attrDeprecated : List Nat := [68, 101, 112, 114, 101, 99, 97, 116, 101, 100]

/-- Bytes of the attribute name Exceptions. -/
def attrExceptions : List Nat := [69, 120, 99, 101, 112, 116, 105, 111, 110, 115]

/-- Bytes of the attribute name MethodParameters. -/
def attrMethodParameters : List Nat :=
  [77, 101, 116, 104, 111, 100, 80, 97, 114, 97, 109, 101, 116, 101, 114, 115]

/-- Bytes of the attribute name RuntimeInvisibleAnnotations. -/
def attrRuntimeInvisibleAnns : List Nat :=
  [82, 117, 110, 116, 105, 109, 101, 73, 110, 118, 105, 115, 105, 98, 108, 101,
   65, 110, 110, 111, 116, 97, 116, 105, 111, 110, 115]

/-- Bytes of the attribute name RuntimeInvisibleParameterAnnotations. -/
def attrRuntimeInvisibleParamAnns : List Nat :=
  [82, 117, 110, 116, 105, 109, 101, 73, 110, 118, 105, 115, 105, 98, 108, 101,
   80, 97, 114, 97, 109, 101, 116, 101, 114, 65, 110, 110, 111, 116, 97, 116,
   105, 111, 110, 115]

/-- Bytes of the attribute name RuntimeVisibleAnnotations. -/
def attrRuntimeVisibleAnns : List Nat :=
  [82, 117, 110, 116, 105, 109, 101, 86, 105, 115, 105, 98, 108, 101,
   65, 110, 110, 111, 116, 97, 116, 105, 111, 110, 115]

/-- Bytes of the attribute name RuntimeVisibleParameterAnnotations. -/
def attrRuntimeVisibleParamAnns : List Nat :=
  [82, 117, 110, 116, 105, 109, 101, 86, 105, 115, 105, 98, 108, 101,
   80, 97, 114, 97, 109, 101, 116, 101, 114, 65, 110, 110, 111, 116, 97, 116,
   105, 111, 110, 115]

/-- Bytes of the attribute name Signature. -/
def attrSignature : List Nat := [83, 105, 103, 110, 97, 116, 117, 114, 101]

/-- Bytes of the attribute name Synthetic. -/
def attrSynthetic : List Nat := [83, 121, 110, 116, 104, 101, 116, 105, 99]

/-- The mutable locals of ClassMethodsIterator::event while it scans a
method_info's attribute table (offset is the iterator's running cursor). -/
structure MethodInfoState where
  offset : Nat
  annotationDefaultOffset : Nat
  codeOffset : Nat
  exceptions : List JStr
  invisibleAnnotationsCount : Nat
  invisibleAnnotationsOffset : Nat
  invisibleParameterAnnotationsOffset : Nat
  invisibleTypeAnnotationsCount : Nat
  invisibleTypeAnnotationsOffset : Nat
  isDeprecated : Bool
  parametersCount : Nat
  parametersOffset : Nat
  signature : Option JStr
  visibleAnnotationsCount : Nat
  visibleAnnotationsOffset : Nat
  visibleParameterAnnotationsOffset : Nat
  visibleTypeAnnotationsCount : Nat
  visibleTypeAnnotationsOffset : Nat
  customAttributeOffsets : List Nat
  access : Nat

/-- The scan state right after the fixed method_info header, with every
attribute-derived local at its initial value. -/
def MethodInfoState.initial (access offset : Nat) : MethodInfoState :=
  { offset := offset, annotationDefaultOffset := 0, codeOffset := 0, exceptions := [], invisibleAnnotationsCount := 0, invisibleAnnotationsOffset := 0, invisibleParameterAnnotationsOffset := 0, invisibleTypeAnnotationsCount := 0, invisibleTypeAnnotationsOffset := 0, isDeprecated := false, parametersCount := 0, parametersOffset := 0, signature := none, visibleAnnotationsCount := 0, visibleAnnotationsOffset := 0, visibleParameterAnnotationsOffset := 0, visibleTypeAnnotationsCount := 0, visibleTypeAnnotationsOffset := 0, customAttributeOffsets := [], access := access }

/-- The inner loop of the Exceptions attribute: each entry resolves a class
name from the pool. -/
def exceptionsLoop (reader : ClassReader) (k i off : Nat) (acc : List JStr) :
    ClassFileResult (List JStr) :=
  match k with
  | 0 => .ok acc
  | k + 1 => do
    let idx ← reader.buffer.readU16 (off + 2 + 2 * i)
    let cls ← reader.constantPool.getClass idx
    exceptionsLoop reader k (i + 1) off (acc ++ [cls])

/-- The attribute loop of ClassMethodsIterator::event: dispatch on the
attribute name; Code is recorded only without SkipCode, MethodParameters
only without SkipDebug; unknown names push the attribute start offset. -/
def methodInfoLoop (reader : ClassReader) (k : Nat) (st : MethodInfoState) :
    ClassFileResult MethodInfoState :=
  match k with
  | 0 => .ok st
  | k + 1 => do
    let nameIdx ← reader.buffer.readU16 st.offset
    let name ← reader.constantPool.getUtf8AsBytes nameIdx
    let attrLen ← reader.buffer.readU32 (st.offset + 2)
    if name = attrAnnotationDefault then
      methodInfoLoop reader k { st with annotationDefaultOffset := st.offset + 6, offset := st.offset + 6 + attrLen }
    else if name = attrCode then
      if reader.readerFlags.skipCode then
        methodInfoLoop reader k { st with offset := st.offset + 6 + attrLen }
      else
        methodInfoLoop reader k { st with codeOffset := st.offset + 6, offset := st.offset + 6 + attrLen }
    else if name = attrDeprecated then
      methodInfoLoop reader k { st with isDeprecated := true, offset := st.offset + 6 + attrLen }
    else if name = attrExceptions then do
      let excCount ← reader.buffer.readU16 (st.offset + 6)
      let exs ← exceptionsLoop reader excCount 0 (st.offset + 6) []
      methodInfoLoop reader k { st with exceptions := st.exceptions ++ exs, offset := st.offset + 6 + attrLen }
    else if name = attrMethodParameters then
      if reader.readerFlags.skipDebug then
        methodInfoLoop reader k { st with offset := st.offset + 6 + attrLen }
      else do
        let pc ← reader.buffer.readU16 (st.offset + 6)
        methodInfoLoop reader k { st with parametersCount := pc, parametersOffset := st.offset + 8, offset := st.offset + 6 + attrLen }
    else if name = attrRuntimeInvisibleAnns then do
      let cnt ← reader.buffer.readU16 (st.offset + 6)
      methodInfoLoop reader k { st with invisibleAnnotationsCount := cnt, invisibleAnnotationsOffset := st.offset + 8, offset := st.offset + 6 + attrLen }
    else if name = attrRuntimeInvisibleParamAnns then
      methodInfoLoop reader k { st with invisibleParameterAnnotationsOffset := st.offset + 6, offset := st.offset + 6 + attrLen }
    else if name = attrRuntimeInvisibleTypeAnns then do
      let cnt ← reader.buffer.readU16 (st.offset + 6)
      methodInfoLoop reader k { st with invisibleTypeAnnotationsCount := cnt, invisibleTypeAnnotationsOffset := st.offset + 8, offset := st.offset + 6 + attrLen }
    else if name = attrRuntimeVisibleAnns then do
      let cnt ← reader.buffer.readU16 (st.offset + 6)
      methodInfoLoop reader k { st with visibleAnnotationsCount := cnt, visibleAnnotationsOffset := st.offset + 8, offset := st.offset + 6 + attrLen }
    else if name = attrRuntimeVisibleParamAnns then
      methodInfoLoop reader k { st with visibleParameterAnnotationsOffset := st.offset + 6, offset := st.offset + 6 + attrLen }
    else if name = attrRuntimeVisibleTypeAnns then do
      let cnt ← reader.buffer.readU16 (st.offset + 6)
      methodInfoLoop reader k { st with visibleTypeAnnotationsCount := cnt, visibleTypeAnnotationsOffset := st.offset + 8, offset := st.offset + 6 + attrLen }
    else if name = attrSignature then do
      let sigIdx ← reader.buffer.readU16 (st.offset + 6)
      let sig ← reader.constantPool.getUtf8 sigIdx
      methodInfoLoop reader k { st with signature := some sig, offset := st.offset + 6 + attrLen }
    else if name = attrSynthetic then
      methodInfoLoop reader k { st with access := st.access ||| 4096, offset := st.offset + 6 + attrLen }
    else
      methodInfoLoop reader k { st with customAttributeOffsets := st.customAttributeOffsets ++ [st.offset], offset := st.offset + 6 + attrLen }

/-- Model of ClassMethodEvent (the payload of ClassMethodsIterator). -/
structure ClassMethodEvent where
  access : Nat
  name : JStr
  desc : JStr
  signature : Option JStr
  exceptions : List JStr
  events : MethodReaderEvents

/-- Model of ClassMethodsIterator::event: read the method_info header, scan
its attributes, and assemble the per-method event iterator in state 0; the
second component is the iterator's cursor after the method_info. -/
def classMethodEvent (reader : ClassReader) (offset : Nat)
    (bsms : ClassFileResult (List BootstrapMethod)) :
    ClassFileResult (ClassMethodEvent × Nat) := do
  let access ← reader.buffer.readU16 offset
  let nameIdx ← reader.buffer.readU16 (offset + 2)
  let name ← reader.constantPool.getUtf8 nameIdx
  let descIdx ← reader.buffer.readU16 (offset + 4)
  let desc ← reader.constantPool.getUtf8 descIdx
  let attrCount ← reader.buffer.readU16 (offset + 6)
  let st ← methodInfoLoop reader attrCount (MethodInfoState.initial access (offset + 8))
  pure ({ access := st.access, name := name, desc := desc, signature := st.signature, exceptions := st.exceptions, events := { reader := reader, annotationDefaultOffset := st.annotationDefaultOffset, codeOffset := st.codeOffset, invisibleAnnotationsCount := st.invisibleAnnotationsCount, invisibleAnnotationsOffset := st.invisibleAnnotationsOffset, invisibleParameterAnnotationsOffset := st.invisibleParameterAnnotationsOffset, invisibleTypeAnnotationsCount := st.invisibleTypeAnnotationsCount, invisibleTypeAnnotationsOffset := st.invisibleTypeAnnotationsOffset, isDeprecated := st.isDeprecated, parametersCount := st.parametersCount, parametersOffset := st.parametersOffset, visibleAnnotationsCount := st.visibleAnnotationsCount, visibleAnnotationsOffset := st.visibleAnnotationsOffset, visibleParameterAnnotationsOffset := st.visibleParameterAnnotationsOffset, visibleTypeAnnotationsCount := st.visibleTypeAnnotationsCount, visibleTypeAnnotationsOffset := st.visibleTypeAnnotationsOffset, customAttributeOffsets := st.customAttributeOffsets, codeData := none, bootstrapMethods := bsms, state := 0, codeIndex := 0 } }, st.offset)

/-- With SkipCode, the attribute scan never records a Code offset. -/
theorem methodInfoLoop_skipCode {reader : ClassReader}
    (hsc : reader.readerFlags.skipCode = true) :
    ∀ (k : Nat) (st st2 : MethodInfoState),
      methodInfoLoop reader k st = .ok st2 → st2.codeOffset = st.codeOffset := by
  intro k
  induction k with
  | zero =>
    intro st st2 h
    rw [methodInfoLoop] at h
    have he := pure_ok_inv h
    subst he
    rfl
  | succ k ih =>
    intro st st2 h
    rw [methodInfoLoop] at h
    obtain ⟨nameIdx, _, h⟩ := bind_ok h
    obtain ⟨name, _, h⟩ := bind_ok h
    obtain ⟨attrLen, _, h⟩ := bind_ok h
    rw [hsc] at h
    simp only [reduceIte] at h
    by_cases hc1 : name = attrAnnotationDefault
    · rw [if_pos hc1] at h
      repeat obtain ⟨q, hq, h⟩ := bind_ok h
      have hrec := ih _ _ h
      exact hrec
    · rw [if_neg hc1] at h
      by_cases hc2 : name = attrCode
      · rw [if_pos hc2] at h
        repeat obtain ⟨q, hq, h⟩ := bind_ok h
        have hrec := ih _ _ h
        exact hrec
      · rw [if_neg hc2] at h
        by_cases hc3 : name = attrDeprecated
        · rw [if_pos hc3] at h
          repeat obtain ⟨q, hq, h⟩ := bind_ok h
          have hrec := ih _ _ h
          exact hrec
        · rw [if_neg hc3] at h
          by_cases hc4 : name = attrExceptions
          · rw [if_pos hc4] at h
            repeat obtain ⟨q, hq, h⟩ := bind_ok h
            have hrec := ih _ _ h
            exact hrec
          · rw [if_neg hc4] at h
            by_cases hc5 : name = attrMethodParameters
            · rw [if_pos hc5] at h
              by_cases hd : reader.readerFlags.skipDebug = true
              · rw [if_pos hd] at h
                repeat obtain ⟨q, hq, h⟩ := bind_ok h
                have hrec := ih _ _ h
                exact hrec
              · rw [if_neg hd] at h
                repeat obtain ⟨q, hq, h⟩ := bind_ok h
                have hrec := ih _ _ h
                exact hrec
            · rw [if_neg hc5] at h
              by_cases hc6 : name = attrRuntimeInvisibleAnns
              · rw [if_pos hc6] at h
                repeat obtain ⟨q, hq, h⟩ := bind_ok h
                have hrec := ih _ _ h
                exact hrec
              · rw [if_neg hc6] at h
                by_cases hc7 : name = attrRuntimeInvisibleParamAnns
                · rw [if_pos hc7] at h
                  repeat obtain ⟨q, hq, h⟩ := bind_ok h
                  have hrec := ih _ _ h
                  exact hrec
                · rw [if_neg hc7] at h
                  by_cases hc8 : name = attrRuntimeInvisibleTypeAnns
                  · rw [if_pos hc8] at h
                    repeat obtain ⟨q, hq, h⟩ := bind_ok h
                    have hrec := ih _ _ h
                    exact hrec
                  · rw [if_neg hc8] at h
                    by_cases hc9 : name = attrRuntimeVisibleAnns
                    · rw [if_pos hc9] at h
                      repeat obtain ⟨q, hq, h⟩ := bind_ok h
                      have hrec := ih _ _ h
                      exact hrec
                    · rw [if_neg hc9] at h
                      by_cases hc10 : name = attrRuntimeVisibleParamAnns
                      · rw [if_pos hc10] at h
                        repeat obtain ⟨q, hq, h⟩ := bind_ok h
                        have hrec := ih _ _ h
                        exact hrec
                      · rw [if_neg hc10] at h
                        by_cases hc11 : name = attrRuntimeVisibleTypeAnns
                        · rw [if_pos hc11] at h
                          repeat obtain ⟨q, hq, h⟩ := bind_ok h
                          have hrec := ih _ _ h
                          exact hrec
                        · rw [if_neg hc11] at h
                          by_cases hc12 : name = attrSignature
                          · rw [if_pos hc12] at h
                            repeat obtain ⟨q, hq, h⟩ := bind_ok h
                            have hrec := ih _ _ h
                            exact hrec
                          · rw [if_neg hc12] at h
                            by_cases hc13 : name = attrSynthetic
                            · rw [if_pos hc13] at h
                              repeat obtain ⟨q, hq, h⟩ := bind_ok h
                              have hrec := ih _ _ h
                              exact hrec
                            · rw [if_neg hc13] at h
                              repeat obtain ⟨q, hq, h⟩ := bind_ok h
                              have hrec := ih _ _ h
                              exact hrec

/-- With SkipCode, the assembled per-method iterator starts in state 0 with
a zero code offset over the same reader. -/
theorem classMethodEvent_skipCode {reader : ClassReader}
    (hsc : reader.readerFlags.skipCode = true) {offset : Nat}
    {bsms : ClassFileResult (List BootstrapMethod)} {cme : ClassMethodEvent}
    {endOffset : Nat}
    (h : classMethodEvent reader offset bsms = .ok (cme, endOffset)) :
    cme.events.codeOffset = 0 ∧ cme.events.state = 0 ∧ cme.events.reader = reader := by
  unfold classMethodEvent at h
  obtain ⟨access, _, h⟩ := bind_ok h
  obtain ⟨nameIdx, _, h⟩ := bind_ok h
  obtain ⟨name, _, h⟩ := bind_ok h
  obtain ⟨descIdx, _, h⟩ := bind_ok h
  obtain ⟨desc, _, h⟩ := bind_ok h
  obtain ⟨attrCount, _, h⟩ := bind_ok h
  obtain ⟨st, hst, h⟩ := bind_ok h
  have he := pure_ok_inv h
  rw [Prod.mk.injEq] at he
  obtain ⟨he1, _⟩ := he
  rw [← he1]
  have hco := methodInfoLoop_skipCode hsc _ _ _ hst
  exact ⟨hco, rfl, rfl⟩

/-- Events specific to a method body: the Code marker, everything emitted
between it and Maxs, and Maxs itself. -/
def isCodeLevelEvent (e : MethodEvent) : Bool :=
  match e with
  | .Deprecated => false
  | .Parameters _ => false
  | .AnnotationDefault _ => false
  | .Annotations _ => false
  | .TypeAnnotations _ => false
  | .AnnotableParameterCount _ => false
  | .ParameterAnnotations _ => false
  | .Attributes _ => false
  | _ => true

/-- Every successful pre-code event is a non-code-level event. -/
theorem preChain_not_code (m : MethodReaderEvents) :
    ∀ r ∈ preChain m, ∀ e, r = .ok e → isCodeLevelEvent e = false := by
  intro r hr e hre
  rcases preChain_shapes m r hr with ⟨e0, h⟩ | h | ⟨p, h⟩ | ⟨v, h⟩ | ⟨it, h⟩ |
    ⟨it, h⟩ | ⟨c, h⟩ | ⟨it, h⟩ | ⟨it, h⟩
  · rw [h] at hre
    exact Except.noConfusion hre
  all_goals
    have he := Except.ok.inj (h.symm.trans hre)
    rw [← he]
    rfl

/-- C6: reader flags suppress event classes. With SkipCode the method scan
records no Code attribute and the per-method stream holds only
non-code-level events (no instruction, Code, label, line, frame, code
annotation, local-variable, try/catch, code-attribute or Maxs event); with
SkipDebug a stream over decoded code holds no LineNumber and no
LocalVariables event; with SkipFrames it holds no Frame event. -/
theorem C6_skip_flags :
    (∀ (reader : ClassReader) (offset : Nat)
        (bsms : ClassFileResult (List BootstrapMethod))
        (cme : ClassMethodEvent) (endOffset : Nat),
        reader.readerFlags.skipCode = true →
        classMethodEvent reader offset bsms = .ok (cme, endOffset) →
        cme.events.codeOffset = 0 ∧
        ∀ (fuel : Nat) (r : ClassFileResult MethodEvent),
          r ∈ methodEventsRun fuel cme.events → ∀ e, r = .ok e →
          isCodeLevelEvent e = false) ∧
    (∀ (m : MethodReaderEvents) (cd : CodeData) (fuel : Nat),
        m.reader.readerFlags.skipDebug = true → m.state = 0 → m.codeIndex = 0 →
        m.codeOffset ≠ 0 →
        CodeData.read m.reader m.codeOffset m.bootstrapMethods = .ok cd →
        6 * cd.insnMetadata.length + 17 ≤ fuel →
        ∀ r ∈ methodEventsRun fuel m,
          (∀ a b, r ≠ .ok (.LineNumber a b)) ∧
          (∀ xs, r ≠ .ok (.LocalVariables xs))) ∧
    (∀ (m : MethodReaderEvents) (cd : CodeData) (fuel : Nat),
        m.reader.readerFlags.skipFrames = true → m.state = 0 → m.codeIndex = 0 →
        m.codeOffset ≠ 0 →
        CodeData.read m.reader m.codeOffset m.bootstrapMethods = .ok cd →
        6 * cd.insnMetadata.length + 17 ≤ fuel →
        ∀ r ∈ methodEventsRun fuel m, ∀ fr, r ≠ .ok (.Frame fr)) := by
  refine ⟨?_, ?_, ?_⟩
  · intro reader offset bsms cme endOffset hsc h
    obtain ⟨hco, hst, _⟩ := classMethodEvent_skipCode hsc h
    refine ⟨hco, ?_⟩
    intro fuel r hr e hre
    have hmem : r ∈ preChain cme.events := by
      rcases le_or_lt 9 fuel with hge | hlt
      · rw [run_noCode cme.events hst hco fuel hge] at hr
        exact hr
      · have hpre := methodEventsRun_prefix (9 - fuel) fuel cme.events
        rw [show fuel + (9 - fuel) = 9 from by omega] at hpre
        have hr9 := hpre.subset hr
        rw [run_noCode cme.events hst hco 9 (Nat.le_refl 9)] at hr9
        exact hr9
    exact preChain_not_code cme.events r hmem e hre
  · intro m cd fuel hsd hst hci hco hread hfuel r hr
    rcases Nat.lt_or_ge cd.insnMetadata.length 65536 with hlen | hlen
    · rw [methodRun_spec m cd fuel hst hci hco hread hlen
        (codeDataRead_lineLabel hread) hfuel] at hr
      simp only [List.mem_append, List.mem_cons, List.mem_singleton,
        List.not_mem_nil, or_false] at hr
      rcases hr with hr | hr | hr | hr | hr
      · refine ⟨fun a b hc => ?_, fun xs hc => ?_⟩ <;>
          exact Bool.noConfusion (preChain_not_code m r hr _ hc)
      · refine ⟨fun a b hc => ?_, fun xs hc => ?_⟩ <;>
          exact MethodEvent.noConfusion (Except.ok.inj (hr.symm.trans hc))
      · rcases codeChain_shapes cd.insnMetadata r hr with ⟨l, h⟩ |
          ⟨im, him, line, start, hln, h⟩ | ⟨im, him, fr, hfr, h⟩ |
          ⟨im, him, e, hie, h⟩ | ⟨anns, h⟩
        · refine ⟨fun a b hc => ?_, fun xs hc => ?_⟩ <;>
            exact MethodEvent.noConfusion (Except.ok.inj (h.symm.trans hc))
        · obtain ⟨j, hj⟩ := mem_getElem? him
          have hnone := codeDataRead_lineNone hsd hread j im hj
          exact Option.noConfusion (hnone.symm.trans hln)
        · refine ⟨fun a b hc => ?_, fun xs hc => ?_⟩ <;>
            exact MethodEvent.noConfusion (Except.ok.inj (h.symm.trans hc))
        · obtain ⟨j, hj⟩ := mem_getElem? him
          have hins := codeDataRead_good hread j im e hj hie
          have hne := eventIsInsn_ne hins
          refine ⟨fun a b hc => ?_, fun xs hc => ?_⟩
          · exact hne.2.1 a b (Except.ok.inj (h.symm.trans hc))
          · exact hne.2.2.1 xs (Except.ok.inj (h.symm.trans hc))
        · refine ⟨fun a b hc => ?_, fun xs hc => ?_⟩ <;>
            exact MethodEvent.noConfusion (Except.ok.inj (h.symm.trans hc))
      · rcases tailChain_shapes m.reader cd r hr with ⟨h, hne⟩ | h | h | h | ⟨it, h⟩
        · exact absurd (codeDataRead_skipDebug_lvt hsd hread) hne
        all_goals
          refine ⟨fun a b hc => ?_, fun xs hc => ?_⟩ <;>
            exact MethodEvent.noConfusion (Except.ok.inj (h.symm.trans hc))
      · refine ⟨fun a b hc => ?_, fun xs hc => ?_⟩ <;>
          exact MethodEvent.noConfusion (Except.ok.inj (hr.symm.trans hc))
    · rcases run_cycle_stream (fun im => im.lineNumber = none)
        (fun im h => h) (fun im h => h) (fun im h => h)
        m cd fuel hst hco hread hlen
        (fun j im hj => codeDataRead_lineNone hsd hread j im hj) (by omega)
        r hr with hpre | hcode | hcyc
      · refine ⟨fun a b hc => ?_, fun xs hc => ?_⟩ <;>
          exact Bool.noConfusion (preChain_not_code m r hpre _ hc)
      · refine ⟨fun a b hc => ?_, fun xs hc => ?_⟩ <;>
          exact MethodEvent.noConfusion (Except.ok.inj (hcode.symm.trans hc))
      · rcases hcyc with ⟨l, hc0⟩ | ⟨im, line, start, hPim, hln, hc0⟩ |
          ⟨im, fr, hPim, hfr, hc0⟩ | ⟨e, he, hc0⟩ | ⟨anns, hc0⟩
        · refine ⟨fun a b hc => ?_, fun xs hc => ?_⟩ <;>
            exact MethodEvent.noConfusion (Except.ok.inj (hc0.symm.trans hc))
        · exact Option.noConfusion (hPim.symm.trans hln)
        · refine ⟨fun a b hc => ?_, fun xs hc => ?_⟩ <;>
            exact MethodEvent.noConfusion (Except.ok.inj (hc0.symm.trans hc))
        · refine ⟨fun a b hc => ?_, fun xs hc => ?_⟩
          · exact (eventIsInsn_ne he).2.1 a b (Except.ok.inj (hc0.symm.trans hc))
          · exact (eventIsInsn_ne he).2.2.1 xs (Except.ok.inj (hc0.symm.trans hc))
        · refine ⟨fun a b hc => ?_, fun xs hc => ?_⟩ <;>
            exact MethodEvent.noConfusion (Except.ok.inj (hc0.symm.trans hc))
  · intro m cd fuel hsf hst hci hco hread hfuel r hr
    rcases Nat.lt_or_ge cd.insnMetadata.length 65536 with hlen | hlen
    · rw [methodRun_spec m cd fuel hst hci hco hread hlen
        (codeDataRead_lineLabel hread) hfuel] at hr
      simp only [List.mem_append, List.mem_cons, List.mem_singleton,
        List.not_mem_nil, or_false] at hr
      rcases hr with hr | hr | hr | hr | hr
      · intro fr hc
        exact Bool.noConfusion (preChain_not_code m r hr _ hc)
      · intro fr hc
        exact MethodEvent.noConfusion (Except.ok.inj (hr.symm.trans hc))
      · rcases codeChain_shapes cd.insnMetadata r hr with ⟨l, h⟩ |
          ⟨im, him, line, start, hln, h⟩ | ⟨im, him, fr0, hfr, h⟩ |
          ⟨im, him, e, hie, h⟩ | ⟨anns, h⟩
        · intro fr hc
          exact MethodEvent.noConfusion (Except.ok.inj (h.symm.trans hc))
        · intro fr hc
          exact MethodEvent.noConfusion (Except.ok.inj (h.symm.trans hc))
        · obtain ⟨j, hj⟩ := mem_getElem? him
          have hnone := codeDataRead_frameNone hsf hread j im hj
          exact Option.noConfusion (hnone.symm.trans hfr)
        · obtain ⟨j, hj⟩ := mem_getElem? him
          have hins := codeDataRead_good hread j im e hj hie
          have hne := eventIsInsn_ne hins
          intro fr hc
          exact hne.2.2.2.1 fr (Except.ok.inj (h.symm.trans hc))
        · intro fr hc
          exact MethodEvent.noConfusion (Except.ok.inj (h.symm.trans hc))
      · rcases tailChain_shapes m.reader cd r hr with ⟨h, hne⟩ | h | h | h | ⟨it, h⟩
        all_goals
          intro fr hc
          exact MethodEvent.noConfusion (Except.ok.inj (h.symm.trans hc))
      · intro fr hc
        exact MethodEvent.noConfusion (Except.ok.inj (hr.symm.trans hc))
    · rcases run_cycle_stream (fun im => im.frame = none)
        (fun im h => rfl) (fun im h => h) (fun im h => h)
        m cd fuel hst hco hread hlen
        (fun j im hj => codeDataRead_frameNone hsf hread j im hj) (by omega)
        r hr with hpre | hcode | hcyc
      · intro fr hc
        exact Bool.noConfusion (preChain_not_code m r hpre _ hc)
      · intro fr hc
        exact MethodEvent.noConfusion (Except.ok.inj (hcode.symm.trans hc))
      · rcases hcyc with ⟨l, hc0⟩ | ⟨im, line, start, hPim, hln, hc0⟩ |
          ⟨im, fr0, hPim, hfr, hc0⟩ | ⟨e, he, hc0⟩ | ⟨anns, hc0⟩
        · intro fr hc
          exact MethodEvent.noConfusion (Except.ok.inj (hc0.symm.trans hc))
        · intro fr hc
          exact MethodEvent.noConfusion (Except.ok.inj (hc0.symm.trans hc))
        · exact Option.noConfusion (hPim.symm.trans hfr)
        · intro fr hc
          exact (eventIsInsn_ne he).2.2.2.1 fr (Except.ok.inj (hc0.symm.trans hc))
        · intro fr hc
          exact MethodEvent.noConfusion (Except.ok.inj (hc0.symm.trans hc))

/-- A method_info with no attributes: access 0, name and descriptor both
pool index 1, attribute count 0. -/
def c6DataC : List Nat := [0, 0, 0, 1, 0, 1, 0, 0]

/-- A one-entry pool: index 1 is the Utf8 string A. -/
def c6PoolData : List Nat := [0, 1, 0, 1, 65]

/-- A reader with SkipCode over the witness method bytes. -/
def c6ReaderC : ClassReader :=
  { buffer := { data := c6DataC },
    constantPool := { buffer := { data := c6PoolData }, offset := [0, 1] },
    metadataStart := 0,
    readerFlags := { skipCode := true, skipDebug := false, skipFrames := false, expandFrames := false } }

/-- The method event produced by scanning c6DataC under SkipCode. -/
def c6CME : ClassMethodEvent :=
  { access := 0, name := [65], desc := [65], signature := none, exceptions := [], events := { reader := c6ReaderC, annotationDefaultOffset := 0, codeOffset := 0, invisibleAnnotationsCount := 0, invisibleAnnotationsOffset := 0, invisibleParameterAnnotationsOffset := 0, invisibleTypeAnnotationsCount := 0, invisibleTypeAnnotationsOffset := 0, isDeprecated := false, parametersCount := 0, parametersOffset := 0, visibleAnnotationsCount := 0, visibleAnnotationsOffset := 0, visibleParameterAnnotationsOffset := 0, visibleTypeAnnotationsCount := 0, visibleTypeAnnotationsOffset := 0, customAttributeOffsets := [], codeData := none, bootstrapMethods := .ok [], state := 0, codeIndex := 0 } }

/-- A reader with SkipDebug over the one-jump method bytes. -/
def c6ReaderD : ClassReader :=
  { buffer := { data := c5Data },
    constantPool := { buffer := { data := c5Data }, offset := [] },
    metadataStart := 0,
    readerFlags := { skipCode := false, skipDebug := true, skipFrames := false, expandFrames := false } }

/-- The witness method-event iterator under SkipDebug. -/
def c6MD : MethodReaderEvents := { c5M0 with reader := c6ReaderD }

/-- A reader with SkipFrames over the one-jump method bytes. -/
def c6ReaderF : ClassReader :=
  { buffer := { data := c5Data },
    constantPool := { buffer := { data := c5Data }, offset := [] },
    metadataStart := 0,
    readerFlags := { skipCode := false, skipDebug := false, skipFrames := true, expandFrames := false } }

/-- The witness method-event iterator under SkipFrames. -/
def c6MF : MethodReaderEvents := { c5M0 with reader := c6ReaderF }

/-- Witness for C6: the SkipCode scan of a concrete method_info records no
Code offset and its stream holds only non-code-level events; the concrete
one-jump method decoded under SkipDebug emits no LineNumber and no
LocalVariables event, and under SkipFrames no Frame event. -/
theorem C6_witness :
    (c6CME.events.codeOffset = 0 ∧
      ∀ (fuel : Nat) (r : ClassFileResult MethodEvent),
        r ∈ methodEventsRun fuel c6CME.events → ∀ e, r = .ok e →
        isCodeLevelEvent e = false) ∧
    (∀ r ∈ methodEventsRun 41 c6MD,
      (∀ a b, r ≠ .ok (.LineNumber a b)) ∧
      (∀ xs, r ≠ .ok (.LocalVariables xs))) ∧
    (∀ r ∈ methodEventsRun 41 c6MF, ∀ fr, r ≠ .ok (.Frame fr)) :=
  ⟨C6_skip_flags.1 c6ReaderC 0 (.ok []) c6CME 8 rfl rfl,
   fun r hr => C6_skip_flags.2.1 c6MD c5CD 41 rfl rfl rfl (by decide) rfl
     (by decide) r hr,
   fun r hr => C6_skip_flags.2.2 c6MF c5CD 41 rfl rfl rfl (by decide) rfl
     (by decide) r hr⟩

/-! ### The field event iterator -/

/-- Model of FieldEvent. -/
inductive FieldEvent where
  | Deprecated
  | Annotations (it : AnnotationReaderIterator)
  | TypeAnnotations (it : TypeAnnotationReaderIterator)
  | Attributes (it : CustomAttributeReaderIterator)
deriving Repr

/-- Model of FieldReaderEvents. -/
structure FieldReaderEvents where
  reader : ClassReader
  invisibleAnnotationsCount : Nat
  invisibleAnnotationsOffset : Nat
  invisibleTypeAnnotationsCount : Nat
  invisibleTypeAnnotationsOffset : Nat
  isDeprecated : Bool
  visibleAnnotationsCount : Nat
  visibleAnnotationsOffset : Nat
  visibleTypeAnnotationsCount : Nat
  visibleTypeAnnotationsOffset : Nat
  customAttributesOffsets : List Nat
  state : Nat

/-- One loop iteration of FieldReaderEvents::next either returns an item,
falls through to the next state, or ends the iterator. -/
inductive FieldStep where
  | emit (r : ClassFileResult FieldEvent) (f : FieldReaderEvents)
  | cont (f : FieldReaderEvents)
  | done (f : FieldReaderEvents)

/-- One iteration of the loop in FieldReaderEvents::next; the source gates
states 1 and 2 on both offsets being non-zero. -/
def fieldEventsStep (f : FieldReaderEvents) : FieldStep :=
  let state := f.state
  let f2 := { f with state := state + 1 }
  if state = 0 then
    if f.isDeprecated then .emit (.ok .Deprecated) f2 else .cont f2
  else if state = 1 then
    if f.visibleAnnotationsOffset ≠ 0 ∧ f.invisibleAnnotationsOffset ≠ 0 then
      .emit (.ok (.Annotations (AnnotationReaderIterator.new f.reader
        f.visibleAnnotationsCount f.visibleAnnotationsOffset
        f.invisibleAnnotationsCount f.invisibleAnnotationsOffset))) f2
    else .cont f2
  else if state = 2 then
    if f.visibleTypeAnnotationsOffset ≠ 0 ∧ f.invisibleTypeAnnotationsOffset ≠ 0 then
      .emit (.ok (.TypeAnnotations (TypeAnnotationReaderIterator.new f.reader
        f.visibleTypeAnnotationsCount f.visibleTypeAnnotationsOffset
        f.invisibleTypeAnnotationsCount f.invisibleTypeAnnotationsOffset))) f2
    else .cont f2
  else if state = 3 then
    if f.customAttributesOffsets ≠ [] then
      .emit (.ok (.Attributes
        { reader := f.reader, index := 0, offsets := f.customAttributesOffsets })) f2
    else .cont f2
  else .done f

/-- The field event stream produced from a given fuel bound. -/
def fieldEventsRun (fuel : Nat) (f : FieldReaderEvents) :
    List (ClassFileResult FieldEvent) :=
  match fuel with
  | 0 => []
  | fuel + 1 =>
    match fieldEventsStep f with
    | .emit r f2 => r :: fieldEventsRun fuel f2
    | .cont f2 => fieldEventsRun fuel f2
    | .done _ => []

/-- Unfolding equation of fieldEventsRun at a successor fuel. -/
theorem fieldEventsRun_succ (fuel : Nat) (f : FieldReaderEvents) :
    fieldEventsRun (fuel + 1) f =
      match fieldEventsStep f with
      | .emit r f2 => r :: fieldEventsRun fuel f2
      | .cont f2 => fieldEventsRun fuel f2
      | .done _ => [] := rfl

/-- When one of the two annotation offsets is zero, a field step never emits
an Annotations event and keeps every field but the state. -/
theorem fieldStep_shape (f : FieldReaderEvents)
    (hgate : f.visibleAnnotationsOffset = 0 ∨ f.invisibleAnnotationsOffset = 0) :
    (∃ r, fieldEventsStep f = .emit r { f with state := f.state + 1 } ∧
      ∀ it, r ≠ .ok (.Annotations it)) ∨
    fieldEventsStep f = .cont { f with state := f.state + 1 } ∨
    fieldEventsStep f = .done f := by
  unfold fieldEventsStep
  simp only []
  by_cases h0 : f.state = 0
  · rw [if_pos h0]
    split
    · exact Or.inl ⟨_, rfl, fun it hc => FieldEvent.noConfusion (Except.ok.inj hc)⟩
    · exact Or.inr (Or.inl rfl)
  · rw [if_neg h0]
    by_cases h1 : f.state = 1
    · rw [if_pos h1]
      have hg : ¬(f.visibleAnnotationsOffset ≠ 0 ∧ f.invisibleAnnotationsOffset ≠ 0) := by
        rcases hgate with h | h
        · exact fun hc => hc.1 h
        · exact fun hc => hc.2 h
      rw [if_neg hg]
      exact Or.inr (Or.inl rfl)
    · rw [if_neg h1]
      by_cases h2 : f.state = 2
      · rw [if_pos h2]
        split
        · exact Or.inl ⟨_, rfl, fun it hc => FieldEvent.noConfusion (Except.ok.inj hc)⟩
        · exact Or.inr (Or.inl rfl)
      · rw [if_neg h2]
        by_cases h3 : f.state = 3
        · rw [if_pos h3]
          split
          · exact Or.inl ⟨_, rfl, fun it hc => FieldEvent.noConfusion (Except.ok.inj hc)⟩
          · exact Or.inr (Or.inl rfl)
        · rw [if_neg h3]
          exact Or.inr (Or.inr rfl)

/-- A field with only one of the two annotation attributes present never
emits an Annotations event: the source's AND gate needs both. -/
theorem fieldRun_noAnns (fuel : Nat) : ∀ (f : FieldReaderEvents),
    f.visibleAnnotationsOffset = 0 ∨ f.invisibleAnnotationsOffset = 0 →
    ∀ r ∈ fieldEventsRun fuel f, ∀ it, r ≠ .ok (.Annotations it) := by
  induction fuel with
  | zero =>
    intro f hgate r hr
    exact absurd hr (List.not_mem_nil _)
  | succ fuel ih =>
    intro f hgate r hr
    rw [fieldEventsRun_succ] at hr
    rcases fieldStep_shape f hgate with ⟨r0, hstep, hne⟩ | hstep | hstep
    · rw [hstep] at hr
      simp only [] at hr
      rw [List.mem_cons] at hr
      rcases hr with hr | hr
      · subst hr
        exact hne
      · exact ih { f with state := f.state + 1 } hgate r hr
    · rw [hstep] at hr
      simp only [] at hr
      exact ih { f with state := f.state + 1 } hgate r hr
    · rw [hstep] at hr
      simp only [] at hr
      exact absurd hr (List.not_mem_nil _)

/-- A field whose only annotation attribute is RuntimeVisibleAnnotations. -/
def c1F : FieldReaderEvents :=
  { reader := c5Reader, invisibleAnnotationsCount := 0,
    invisibleAnnotationsOffset := 0, invisibleTypeAnnotationsCount := 0,
    invisibleTypeAnnotationsOffset := 0, isDeprecated := false,
    visibleAnnotationsCount := 1, visibleAnnotationsOffset := 3,
    visibleTypeAnnotationsCount := 0, visibleTypeAnnotationsOffset := 0,
    customAttributesOffsets := [], state := 0 }

/-- A method whose only annotation attribute is RuntimeInvisibleAnnotations. -/
def c1M : MethodReaderEvents :=
  { reader := c5Reader, annotationDefaultOffset := 0, codeOffset := 0,
    invisibleAnnotationsCount := 1, invisibleAnnotationsOffset := 5,
    invisibleParameterAnnotationsOffset := 0,
    invisibleTypeAnnotationsCount := 0, invisibleTypeAnnotationsOffset := 0,
    isDeprecated := false, parametersCount := 0, parametersOffset := 0,
    visibleAnnotationsCount := 0, visibleAnnotationsOffset := 0,
    visibleParameterAnnotationsOffset := 0, visibleTypeAnnotationsCount := 0,
    visibleTypeAnnotationsOffset := 0, customAttributeOffsets := [],
    codeData := none, bootstrapMethods := .ok [], state := 0, codeIndex := 0 }

/-- C1 is a code bug: the field iterator gates its Annotations event on BOTH
annotation offsets being non-zero (source uses AND where the claim and the
class-level iterator use OR), so a field carrying only
RuntimeVisibleAnnotations emits nothing; and the method iterator's gate
tests the invisible TYPE annotations offset in place of the invisible
annotations offset, so a method carrying only RuntimeInvisibleAnnotations
emits nothing. -/
theorem C1_annotations_gating :
    (∀ (fuel : Nat) (f : FieldReaderEvents),
      f.visibleAnnotationsOffset = 0 ∨ f.invisibleAnnotationsOffset = 0 →
      ∀ r ∈ fieldEventsRun fuel f, ∀ it, r ≠ .ok (.Annotations it)) ∧
    c1F.visibleAnnotationsOffset ≠ 0 ∧ fieldEventsRun 6 c1F = [] ∧
    c1M.invisibleAnnotationsOffset ≠ 0 ∧ methodEventsRun 10 c1M = [] :=
  ⟨fun fuel => fieldRun_noAnns fuel, by decide, rfl, by decide, rfl⟩

/-- Witness for C1: the concrete field with only visible annotations
produces a stream without any Annotations event. -/
theorem C1_witness :
    ∀ r ∈ fieldEventsRun 6 c1F, ∀ it, r ≠ .ok (.Annotations it) :=
  fun r hr => C1_annotations_gating.1 6 c1F (Or.inr rfl) r hr

end ClassFile
